import Mathlib

/-!
Omega_h: adaptation controller, communicator and metric-field routines.

A shallow embedding of `Omega_h_adapt.cpp`, `Omega_h_comm.cpp`, `Omega_h_metric.cpp`,
`Omega_h_motion_choices.cpp`, `Omega_h_proximity.cpp` and the parts of
`Omega_h_array.cpp` they use.

Conventions.
* `Real` (a C++ double) is embedded as `Rat` in the controller and as an arbitrary
  linearly ordered field `K` in the metric routines, so that the results hold in exact
  arithmetic, over the rationals and over the reals alike.  Where not-a-number and
  underflow steer the control flow (`metric_from_gradient`) the values are `Double K`.
* The mesh is an abstract state `M`.  Everything the controller asks of the mesh and
  every external operator is a field of `MeshOps M`.
* Console output is a list of `Msg` events, operator calls are a list of `Call`
  events, both carried in `World M`.
* A failed `CHECK` / `OMEGA_H_CHECK` is `Except.error (Fail.check line)`, where `line`
  is the line of the check in its source file.
* The two `do ... while` loops of the controller have no iteration cap, so they take
  a fuel argument and report `Fail.out_of_fuel` when it is used up.
-/

namespace Omega_h

set_option linter.unusedSectionVars false

variable {K : Type} [LinearOrderedField K] [Inhabited K]

/-! ## Shared data model -/

/-- Ways in which a call can stop without returning. -/
inductive Fail where
  | check (line : Nat)
  | out_of_bounds
  | bad_alloc
  | transport
  | out_of_fuel
  deriving DecidableEq, Repr

/-- Modelled from the spec: the `Verbosity` enum is declared in `Omega_h_adapt.hpp`,
which is not among the sources; the levels are silent, per-adapt-call, per-rebuild
and extra histogram statistics, in this order. -/
inductive Verbosity where
  | SILENT
  | EACH_ADAPT
  | EACH_REBUILD
  | EXTRA_STATS
  deriving DecidableEq, Repr

/-- The integer value of a verbosity level. -/
def Verbosity.toNat : Verbosity → Nat
  | .SILENT => 0
  | .EACH_ADAPT => 1
  | .EACH_REBUILD => 2
  | .EXTRA_STATS => 3

/-- Transfer kinds; only `OMEGA_H_MOMENTUM_VELOCITY` is inspected by the controller. -/
inductive Omega_h_Transfer where
  | OMEGA_H_MOMENTUM_VELOCITY
  | OTHER_TRANSFER
  deriving DecidableEq, Repr

/-- Tag scalar types; only `OMEGA_H_REAL` is inspected by the controller. -/
inductive Omega_h_Type where
  | OMEGA_H_REAL
  | OTHER_TYPE
  deriving DecidableEq, Repr

/-- Partition modes passed to `set_parting`. -/
inductive Omega_h_Parting where
  | OMEGA_H_ELEM_BASED
  | OMEGA_H_GHOSTED
  | OMEGA_H_VERT_BASED
  deriving DecidableEq, Repr

/-- The fields of `TransferOpts` that `TransferOpts::validate` reads; the three maps are
association lists in key order. -/
structure TransferOpts where
  type_map : List (String × Omega_h_Transfer)
  velocity_density_map : List (String × String)
  velocity_momentum_map : List (String × String)
  should_conserve_size : Bool
  deriving DecidableEq, Repr

/-- The option record `AdaptOpts` (non-EGADS build). -/
structure AdaptOpts where
  min_length_desired : Rat
  max_length_desired : Rat
  max_length_allowed : Rat
  min_quality_allowed : Rat
  min_quality_desired : Rat
  nsliver_layers : Int
  verbosity : Verbosity
  length_histogram_min : Rat
  length_histogram_max : Rat
  nlength_histogram_bins : Int
  nquality_histogram_bins : Int
  max_motion_steps : Int
  motion_step_size : Rat
  should_refine : Bool
  should_coarsen : Bool
  should_swap : Bool
  should_coarsen_slivers : Bool
  should_move_for_quality : Bool
  should_allow_pinching : Bool
  xfer_opts : TransferOpts
  deriving DecidableEq, Repr

/-- `ArithTraits<Real>::max()`, the largest finite double. -/
def Real_max : Rat := (2 ^ 53 - 1) * 2 ^ 971

/-- The double `sqrt(2.0)`. -/
def sqrt_2 : Rat := 6369051672525773 / 4503599627370496

/-- `TransferOpts::TransferOpts()`; the maps start empty. -/
def TransferOpts.default : TransferOpts :=
  { type_map := [], velocity_density_map := [], velocity_momentum_map := [],
    should_conserve_size := false }

/-- `AdaptOpts::AdaptOpts(Int dim)`.  The two quality thresholds are assigned only for
`dim == 3` and `dim == 2`; for any other `dim` they keep the indeterminate values
`q_allowed0`, `q_desired0` the object started with. -/
def AdaptOpts.ofDim (dim : Int) (q_allowed0 q_desired0 : Rat) : AdaptOpts :=
  let qa3 := if dim = 3 then (1 / 5 : Rat) else q_allowed0
  let qd3 := if dim = 3 then (3 / 10 : Rat) else q_desired0
  let qa := if dim = 2 then (3 / 10 : Rat) else qa3
  let qd := if dim = 2 then (2 / 5 : Rat) else qd3
  { min_length_desired := 1 / sqrt_2
    max_length_desired := sqrt_2
    max_length_allowed := Real_max
    min_quality_allowed := qa
    min_quality_desired := qd
    nsliver_layers := 4
    verbosity := Verbosity.EACH_REBUILD
    length_histogram_min := 0
    length_histogram_max := 3
    nlength_histogram_bins := 10
    nquality_histogram_bins := 10
    max_motion_steps := 100
    motion_step_size := 1 / 10
    should_refine := true
    should_coarsen := true
    should_swap := true
    should_coarsen_slivers := true
    should_move_for_quality := false
    should_allow_pinching := false
    xfer_opts := { TransferOpts.default with should_conserve_size := false } }

/-- Console messages written by the controller. -/
inductive Msg where
  | worst_input_quality_warning (mq allowed : Rat)
  | before_adapting
  | goal_stats_quality (lo hi : Rat)
  | goal_stats_length (lo hi : Rat)
  | histogram_quality
  | histogram_length
  | addressing_edge_lengths
  | addressing_element_qualities
  | could_not_satisfy_quality
  | after_adapting
  | lengths_took
  | qualities_took
  | integral_errors_took
  | adapting_took
  deriving DecidableEq, Repr

/-- Calls to the external collaborators, with the boolean each operator returned. -/
inductive Call where
  | refine_by_size (changed : Bool)
  | coarsen_by_size (changed : Bool)
  | swap_edges (changed : Bool)
  | coarsen_slivers (changed : Bool)
  | move_verts_for_quality (changed : Bool)
  | setup_conservation_tags
  | correct_integral_errors
  | set_parting (mode : Omega_h_Parting)
  deriving DecidableEq, Repr

/-- Mesh queries and external operators consumed by the controller. -/
structure MeshOps (M : Type) where
  dim : M → Int
  rank : M → Int
  allreduce_min : M → Rat → Rat
  allreduce_max : M → Rat → Rat
  ask_qualities : M → List Rat
  ask_lengths : M → List Rat
  find_angle_elems : M → List Int
  has_tag : M → Int → String → Bool
  tag_type : M → Int → String → Omega_h_Type
  tag_ncomps : M → Int → String → Int
  should_conserve_any : M → TransferOpts → Bool
  refine_by_size : M → AdaptOpts → M × Bool
  coarsen_by_size : M → AdaptOpts → M × Bool
  swap_edges : M → AdaptOpts → M × Bool
  coarsen_slivers : M → AdaptOpts → M × Bool
  move_verts_for_quality : M → AdaptOpts → M × Bool
  setup_conservation_tags : M → AdaptOpts → M
  correct_integral_errors : M → AdaptOpts → M
  set_parting : M → Omega_h_Parting → M

/-- The mesh together with the record of what has been called and printed. -/
structure World (M : Type) where
  mesh : M
  calls : List Call
  log : List Msg

/-- Append a console message. -/
def World.say {M : Type} (w : World M) (m : Msg) : World M :=
  { w with log := w.log ++ [m] }

/-- Run an external operator on the mesh and record the call. -/
def World.run {M : Type} (w : World M) (op : M → AdaptOpts → M × Bool)
    (opts : AdaptOpts) (tag : Bool → Call) : World M × Bool :=
  let r := op w.mesh opts
  ({ w with mesh := r.1, calls := w.calls ++ [tag r.2] }, r.2)

/-- `MinMax<Real>`. -/
structure MinMax where
  min : Rat
  max : Rat
  deriving DecidableEq, Repr

/-! ## Array helpers used by the controller -/

/-- Modelled from the spec: `invert_marks` is declared in `Omega_h_mark.hpp`, which is
not among the sources; it flips every mark. -/
def invert_marks (marks : List Int) : List Int :=
  marks.map (fun m => if m = 0 then 1 else 0)

/-- Modelled from the spec: `collect_marked` is declared in `Omega_h_mark.hpp`, which
is not among the sources; it lists the indices of the marked entries in order. -/
def collect_marked (marks : List Int) : List Nat :=
  (List.range marks.length).filter (fun i => marks.getD i 0 != 0)

/-- Modelled from the spec: `unmap` is declared in `Omega_h_map.hpp`, which is not among
the sources; with width 1 it gathers `b_data[a2b[a]]` for every `a`. -/
def unmap (a2b : List Nat) (b_data : List Rat) : List Rat :=
  a2b.map (fun b => b_data.getD b 0)

/-- Modelled from the spec: `get_min(comm, a)` is declared in `Omega_h_array_ops.hpp`,
which is not among the sources; it is the least entry of the local array (starting
from `ArithTraits<Real>::max()`), reduced with MIN over the communicator. -/
def get_min {M : Type} (ops : MeshOps M) (mesh : M) (a : List Rat) : Rat :=
  ops.allreduce_min mesh (a.foldl min Real_max)

/-- Modelled from the spec: `get_max(comm, a)`, the counterpart of `get_min`. -/
def get_max {M : Type} (ops : MeshOps M) (mesh : M) (a : List Rat) : Rat :=
  ops.allreduce_max mesh (a.foldl max (-Real_max))

/-- Modelled from the spec: `get_minmax(comm, a)` pairs `get_min` and `get_max`. -/
def get_minmax {M : Type} (ops : MeshOps M) (mesh : M) (a : List Rat) : MinMax :=
  { min := get_min ops mesh a, max := get_max ops mesh a }

/-! ## `Omega_h_adapt.cpp` -/

/-- `std::map::count` / `find` on an association list. -/
def map_find (m : List (String × String)) (key : String) : Option String :=
  (m.find? (fun p => p.1 == key)).map Prod.snd

/-- The body of the loop of `TransferOpts::validate` for one entry of `type_map`. -/
def TransferOpts.validate_pair {M : Type} (ops : MeshOps M) (x : TransferOpts) (mesh : M)
    (pair : String × Omega_h_Transfer) : Except Fail Unit :=
  if pair.2 = Omega_h_Transfer.OMEGA_H_MOMENTUM_VELOCITY then
    let velocity_name := pair.1
    if (map_find x.velocity_momentum_map velocity_name).isNone then .error (Fail.check 33)
    else
      match map_find x.velocity_density_map velocity_name with
      | none => .error (Fail.check 34)
      | some density_name =>
        if !ops.has_tag mesh (ops.dim mesh) density_name then .error (Fail.check 36)
        else if ops.tag_type mesh (ops.dim mesh) density_name ≠ Omega_h_Type.OMEGA_H_REAL then
          .error (Fail.check 38)
        else if ops.tag_ncomps mesh (ops.dim mesh) density_name ≠ 1 then
          .error (Fail.check 39)
        else .ok ()
  else .ok ()

/-- Run `validate_pair` over the entries in order, stopping at the first failure. -/
def TransferOpts.validate_pairs {M : Type} (ops : MeshOps M) (x : TransferOpts) (mesh : M) :
    List (String × Omega_h_Transfer) → Except Fail Unit
  | [] => .ok ()
  | pair :: rest =>
    match TransferOpts.validate_pair ops x mesh pair with
    | .error e => .error e
    | .ok () => TransferOpts.validate_pairs ops x mesh rest

/-- `TransferOpts::validate`. -/
def TransferOpts.validate {M : Type} (ops : MeshOps M) (x : TransferOpts) (mesh : M) :
    Except Fail Unit :=
  TransferOpts.validate_pairs ops x mesh x.type_map

/-- `get_fixable_qualities`. -/
def get_fixable_qualities {M : Type} (ops : MeshOps M) (mesh : M) (opts : AdaptOpts) :
    List Rat :=
  let elem_quals := ops.ask_qualities mesh
  if !opts.should_allow_pinching then elem_quals
  else
    let elems_are_angle := ops.find_angle_elems mesh
    let elems_are_fixable := invert_marks elems_are_angle
    let fixable_elems_to_elems := collect_marked elems_are_fixable
    let fixable_elem_quals := unmap fixable_elems_to_elems elem_quals
    fixable_elem_quals

/-- `min_fixable_quality`. -/
def min_fixable_quality {M : Type} (ops : MeshOps M) (mesh : M) (opts : AdaptOpts) : Rat :=
  get_min ops mesh (get_fixable_qualities ops mesh opts)

/-- The qualities the glossary calls fixable, written from the spec's words: the
qualities of the elements that are not marked as angle-feature elements. -/
def spec_fixable_qualities (quals : List Rat) (marks : List Int) : List Rat :=
  ((quals.zip marks).filter (fun p => p.2 = 0)).map Prod.fst

/-- `adapt_summary`: the two `print_goal_stats` reports. -/
def adapt_summary {M : Type} (w : World M) (qualstats lenstats : MinMax) : World M :=
  (w.say (Msg.goal_stats_quality qualstats.min qualstats.max)).say
    (Msg.goal_stats_length lenstats.min lenstats.max)

/-- `print_adapt_status`. -/
def print_adapt_status {M : Type} (ops : MeshOps M) (opts : AdaptOpts) (w : World M) :
    Bool × World M :=
  let qualstats := get_minmax ops w.mesh (get_fixable_qualities ops w.mesh opts)
  let lenstats := get_minmax ops w.mesh (ops.ask_lengths w.mesh)
  let w1 := if opts.verbosity.toNat > Verbosity.SILENT.toNat then
      adapt_summary w qualstats lenstats else w
  (decide (qualstats.min ≥ opts.min_quality_desired ∧
           lenstats.min ≥ opts.min_length_desired ∧
           lenstats.max ≤ opts.max_length_desired), w1)

/-- `print_adapt_histograms`: the histograms are printed on rank 0. -/
def print_adapt_histograms {M : Type} (ops : MeshOps M) (w : World M) : World M :=
  if ops.rank w.mesh = 0 then (w.say Msg.histogram_quality).say Msg.histogram_length else w

/-- The static `validate` of the controller. -/
def validate {M : Type} (ops : MeshOps M) (opts : AdaptOpts) (w : World M) :
    Except Fail (World M) :=
  if ¬ (0 ≤ opts.min_quality_allowed) then .error (Fail.check 127)
  else if ¬ (opts.min_quality_allowed ≤ opts.min_quality_desired) then .error (Fail.check 128)
  else if ¬ (opts.min_quality_desired ≤ 1) then .error (Fail.check 129)
  else if ¬ (opts.nsliver_layers ≥ 0) then .error (Fail.check 130)
  else if ¬ (opts.nsliver_layers < 100) then .error (Fail.check 131)
  else
    let mq := min_fixable_quality ops w.mesh opts
    if mq < opts.min_quality_allowed ∧ ops.rank w.mesh = 0 then
      .ok (w.say (Msg.worst_input_quality_warning mq opts.min_quality_allowed))
    else .ok w

/-- `pre_adapt`. -/
def pre_adapt {M : Type} (ops : MeshOps M) (opts : AdaptOpts) (w : World M) :
    Except Fail (Bool × World M) :=
  match validate ops opts w with
  | .error e => .error e
  | .ok w1 =>
    match TransferOpts.validate ops opts.xfer_opts w1.mesh with
    | .error e => .error e
    | .ok () =>
      let w2 := if opts.verbosity.toNat ≥ Verbosity.EACH_ADAPT.toNat ∧ ops.rank w1.mesh = 0
        then w1.say Msg.before_adapting else w1
      let s := print_adapt_status ops opts w2
      if s.1 then .ok (false, s.2)
      else
        let w3 := if opts.verbosity.toNat ≥ Verbosity.EXTRA_STATS.toNat
          then print_adapt_histograms ops s.2 else s.2
        let w4 := if opts.verbosity.toNat ≥ Verbosity.EACH_REBUILD.toNat ∧ ops.rank w3.mesh = 0
          then w3.say Msg.addressing_edge_lengths else w3
        .ok (true, w4)

/-- `post_rebuild`. -/
def post_rebuild {M : Type} (ops : MeshOps M) (opts : AdaptOpts) (w : World M) : World M :=
  if opts.verbosity.toNat ≥ Verbosity.EACH_REBUILD.toNat then (print_adapt_status ops opts w).2
  else w

/-- One pass of the loop body of `satisfy_lengths`; the flag is `did_anything`. -/
def satisfy_lengths_pass {M : Type} (ops : MeshOps M) (opts : AdaptOpts) (w : World M) :
    World M × Bool :=
  let a : World M × Bool :=
    if opts.should_refine then
      let r := w.run ops.refine_by_size opts Call.refine_by_size
      if r.2 then (post_rebuild ops opts r.1, true) else (r.1, false)
    else (w, false)
  let b : World M × Bool :=
    if opts.should_coarsen then
      let r := a.1.run ops.coarsen_by_size opts Call.coarsen_by_size
      if r.2 then (post_rebuild ops opts r.1, true) else (r.1, a.2)
    else a
  b

/-- `satisfy_lengths`: repeat the pass while `did_anything`; the second component
counts the passes made. -/
def satisfy_lengths {M : Type} (ops : MeshOps M) (opts : AdaptOpts) :
    Nat → World M → Except Fail (World M × Nat)
  | 0, _ => .error Fail.out_of_fuel
  | fuel + 1, w =>
    let p := satisfy_lengths_pass ops opts w
    if p.2 then
      match satisfy_lengths ops opts fuel p.1 with
      | .error e => .error e
      | .ok (w1, n) => .ok (w1, n + 1)
    else .ok (p.1, 1)

/-- One scan of the loop body of `satisfy_quality`; the flag is true when the scan
ended in `continue` and false when it ended in `break`. -/
def satisfy_quality_scan {M : Type} (ops : MeshOps M) (opts : AdaptOpts) (w : World M) :
    World M × Bool :=
  let a : World M × Bool :=
    if opts.should_swap then w.run ops.swap_edges opts Call.swap_edges else (w, false)
  if a.2 then (post_rebuild ops opts a.1, true)
  else
    let b : World M × Bool :=
      if opts.should_coarsen_slivers then
        a.1.run ops.coarsen_slivers opts Call.coarsen_slivers
      else (a.1, false)
    if b.2 then (post_rebuild ops opts b.1, true)
    else
      let c : World M × Bool :=
        if opts.should_move_for_quality then
          b.1.run ops.move_verts_for_quality opts Call.move_verts_for_quality
        else (b.1, false)
      if c.2 then (post_rebuild ops opts c.1, true)
      else
        let w1 := if opts.verbosity.toNat > Verbosity.SILENT.toNat ∧ ops.rank c.1.mesh = 0
          then c.1.say Msg.could_not_satisfy_quality else c.1
        (w1, false)

/-- The `do ... while` loop of `satisfy_quality`. -/
def satisfy_quality_loop {M : Type} (ops : MeshOps M) (opts : AdaptOpts) :
    Nat → World M → Except Fail (World M)
  | 0, _ => .error Fail.out_of_fuel
  | fuel + 1, w =>
    let s := satisfy_quality_scan ops opts w
    if s.2 then
      if min_fixable_quality ops s.1.mesh opts < opts.min_quality_desired then
        satisfy_quality_loop ops opts fuel s.1
      else .ok s.1
    else .ok s.1

/-- `satisfy_quality`. -/
def satisfy_quality {M : Type} (ops : MeshOps M) (opts : AdaptOpts) (fuel : Nat)
    (w : World M) : Except Fail (World M) :=
  if min_fixable_quality ops w.mesh opts ≥ opts.min_quality_desired then .ok w
  else
    let w1 := if opts.verbosity.toNat ≥ Verbosity.EACH_REBUILD.toNat ∧ ops.rank w.mesh = 0
      then w.say Msg.addressing_element_qualities else w
    satisfy_quality_loop ops opts fuel w1

/-- `snap_and_satisfy_quality` in a build without EGADS. -/
def snap_and_satisfy_quality {M : Type} (ops : MeshOps M) (opts : AdaptOpts) (fuel : Nat)
    (w : World M) : Except Fail (World M) :=
  satisfy_quality ops opts fuel w

/-- `post_adapt` (the timer values themselves are not modelled). -/
def post_adapt {M : Type} (ops : MeshOps M) (opts : AdaptOpts) (w : World M) : World M :=
  let w1 := if opts.verbosity = Verbosity.EACH_ADAPT then
      (print_adapt_status ops opts
        (if ops.rank w.mesh = 0 then w.say Msg.after_adapting else w)).2
    else w
  let w2 := if opts.verbosity.toNat ≥ Verbosity.EXTRA_STATS.toNat
    then print_adapt_histograms ops w1 else w1
  let w3 := if opts.verbosity.toNat > Verbosity.SILENT.toNat ∧ ops.rank w2.mesh = 0
    then w2.say Msg.lengths_took else w2
  let w4 := if opts.verbosity.toNat > Verbosity.SILENT.toNat ∧ ops.rank w3.mesh = 0
    then w3.say Msg.qualities_took else w3
  let w5 := if opts.verbosity.toNat > Verbosity.SILENT.toNat ∧
      ops.should_conserve_any w4.mesh opts.xfer_opts = true ∧ ops.rank w4.mesh = 0
    then w4.say Msg.integral_errors_took else w4
  let w6 := if opts.verbosity.toNat > Verbosity.SILENT.toNat ∧ ops.rank w5.mesh = 0
    then w5.say Msg.adapting_took else w5
  w6

/-- `adapt`. -/
def adapt {M : Type} (ops : MeshOps M) (opts : AdaptOpts) (fuel : Nat) (w : World M) :
    Except Fail (Bool × World M) :=
  match pre_adapt ops opts w with
  | .error e => .error e
  | .ok (false, w1) => .ok (false, w1)
  | .ok (true, w1) =>
    let w2 : World M := { w1 with mesh := ops.setup_conservation_tags w1.mesh opts,
                                   calls := w1.calls ++ [Call.setup_conservation_tags] }
    match satisfy_lengths ops opts fuel w2 with
    | .error e => .error e
    | .ok (w3, _) =>
      match snap_and_satisfy_quality ops opts fuel w3 with
      | .error e => .error e
      | .ok w4 =>
        let w5 : World M := { w4 with mesh := ops.correct_integral_errors w4.mesh opts,
                                       calls := w4.calls ++ [Call.correct_integral_errors] }
        let w6 : World M :=
          { w5 with mesh := ops.set_parting w5.mesh Omega_h_Parting.OMEGA_H_ELEM_BASED,
                    calls := w5.calls ++ [Call.set_parting Omega_h_Parting.OMEGA_H_ELEM_BASED] }
        .ok (true, post_adapt ops opts w6)

/-- The world after `n` consecutive passes of the loop body of `satisfy_lengths`. -/
def lengths_passes {M : Type} (ops : MeshOps M) (opts : AdaptOpts) : Nat → World M → World M
  | 0, w => w
  | n + 1, w => lengths_passes ops opts n (satisfy_lengths_pass ops opts w).1

/-! ## `Omega_h_array.cpp` and `Omega_h_comm.cpp`

An existing array (`Read<T>`, `Write<T>`, `HostRead<T>`) is the list of its entries.  A
handle that was only default-constructed, for which `exists()` is false, is `none` in
an `Option`.
Count and displacement arrays hold element counts and offsets and are lists of `Nat`;
signed `LO` scalars computed from them (`self_dst`, `self_count`, indices) are `Int`.
-/

/-- Element access `a[i]` / `Read<T>::get(i)`; an index outside the array is a failure. -/
def Read_get {T : Type} (a : List T) (i : Int) : Except Fail T :=
  match (if 0 ≤ i then a[i.toNat]? else none) with
  | some v => .ok v
  | none => .error Fail.out_of_bounds

/-- Element store `a[i] = v` / `Write<T>::set(i, v)`; an index outside the array is a
failure. -/
def Write_set {T : Type} (a : List T) (i : Int) (v : T) : Except Fail (List T) :=
  if 0 ≤ i ∧ i.toNat < a.length then .ok (a.set i.toNat v) else .error Fail.out_of_bounds

/-- `Write<T>::Write(LO size)`: a fresh array of `size` entries whose contents are not
yet meaningful (here the default value); a negative size cannot be allocated. -/
def Write_new {T : Type} [Inhabited T] (size : Int) : Except Fail (List T) :=
  if 0 ≤ size then .ok (List.replicate size.toNat default) else .error Fail.bad_alloc

/-- `HostRead<T>::last`: `operator[](size() - 1)`. -/
def HostRead_last {T : Type} (a : List T) : Except Fail T :=
  Read_get a ((a.length : Int) - 1)

/-- Modelled from the spec: `offset_scan` is declared in `Omega_h_scan.hpp`, which is not
among the sources; it returns the exclusive prefix sums of its argument followed by
the total, so its size is the argument's size plus one. -/
def offset_scan (a : List Nat) : List Nat :=
  (List.range (a.length + 1)).map (fun i => (a.take i).sum)

/-- The iterations `i, i + 1, ..., i + k - 1` of a kernel, threaded through the arrays
it writes. -/
def parallel_for_from {σ : Type} (f : Nat → σ → Except Fail σ) : Nat → Nat → σ → Except Fail σ
  | 0, _, s => .ok s
  | k + 1, i, s =>
    match f i s with
    | .error e => .error e
    | .ok s1 => parallel_for_from f k (i + 1) s1

/-- Modelled from the spec: `parallel_for(n, f)` is declared in `Omega_h_loop.hpp`, which
is not among the sources; it runs the kernel `f` for every index in `[0, n)`. -/
def parallel_for {σ : Type} (n : Nat) (f : Nat → σ → Except Fail σ) (s : σ) : Except Fail σ :=
  parallel_for_from f n 0 s

/-- The five array arguments of `Comm::alltoallv`. -/
structure A2A (T : Type) where
  sendbuf : List T
  sendcounts : List Nat
  sdispls : List Nat
  recvcounts : List Nat
  rdispls : List Nat
  deriving DecidableEq, Repr

/-- The members of `Comm` that `alltoallv` reads, and the library's
`self_send_threshold()`. -/
structure Comm where
  rank : Int
  srcs_ : List Int
  dsts_ : List Int
  self_src_ : Int
  self_dst_ : Int
  self_send_threshold : Int
  deriving DecidableEq, Repr

/-- Conversion of a signed value to `size_t` (64 bits). -/
def to_size_t (x : Int) : Nat := (x % 2 ^ 64).toNat

/-- The kernel of `self_send_part1`; the state is `(self_data_w, other_data_w)`. -/
def self_send_part1_kernel {T : Type} (sendbuf : List T) (begin end_ self_count : Int)
    (i : Nat) (st : List T × List T) : Except Fail (List T × List T) :=
  match Read_get sendbuf i with
  | .error e => .error e
  | .ok v =>
    if (i : Int) < begin then
      match Write_set st.2 i v with
      | .error e => .error e
      | .ok o => .ok (st.1, o)
    else if (i : Int) < end_ then
      match Write_set st.1 ((i : Int) - begin) v with
      | .error e => .error e
      | .ok d => .ok (d, st.2)
    else
      match Write_set st.2 ((i : Int) - self_count) v with
      | .error e => .error e
      | .ok o => .ok (st.1, o)

/-- `self_send_part1`: the returned pair is `self_data` and the five arrays as they are
left behind the pointers; `sizeofT` is `sizeof(T)`. -/
def self_send_part1 {T : Type} [Inhabited T] (sizeofT : Nat) (self_dst self_src : Int)
    (a : A2A T) (threshold : Int) : Except Fail (Option (List T) × A2A T) :=
  if self_dst < 0 then .ok (none, a)
  else if ¬ (self_src ≥ 0) then .error (Fail.check 390)
  else
    match Read_get a.sdispls self_dst with
    | .error e => .error e
    | .ok begin =>
      match Read_get a.sdispls (self_dst + 1) with
      | .error e => .error e
      | .ok end_ =>
        let self_count : Int := (end_ : Int) - (begin : Int)
        if self_count = (a.sendbuf.length : Int) then
          if a.sendcounts.length ≠ 1 then .error (Fail.check 402)
          else
            match Write_set a.recvcounts self_src 0 with
            | .error e => .error e
            | .ok recvcounts_w =>
              .ok (some a.sendbuf,
                { sendbuf := [], sendcounts := [0], sdispls := [0, 0],
                  recvcounts := recvcounts_w, rdispls := offset_scan recvcounts_w })
        else if to_size_t (self_count * (sizeofT : Int)) < to_size_t threshold then
          .ok (none, a)
        else
          match Write_new (T := T) ((end_ : Int) - (begin : Int)) with
          | .error e => .error e
          | .ok self_data_w0 =>
            match Write_new (T := T) ((a.sendbuf.length : Int) - self_count) with
            | .error e => .error e
            | .ok other_data_w0 =>
              match parallel_for a.sendbuf.length
                  (self_send_part1_kernel a.sendbuf begin end_ self_count)
                  (self_data_w0, other_data_w0) with
              | .error e => .error e
              | .ok (self_data_w, other_data_w) =>
                match Write_set a.sendcounts self_dst 0 with
                | .error e => .error e
                | .ok sendcounts_w =>
                  match Write_set a.recvcounts self_src 0 with
                  | .error e => .error e
                  | .ok recvcounts_w =>
                    .ok (some self_data_w,
                      { sendbuf := other_data_w, sendcounts := sendcounts_w,
                        sdispls := offset_scan sendcounts_w,
                        recvcounts := recvcounts_w, rdispls := offset_scan recvcounts_w })

/-- The kernel of `self_send_part2`; the state is `recvbuf_w`. -/
def self_send_part2_kernel {T : Type} (recvbuf self_data : List T)
    (begin end_ self_count : Int) (i : Nat) (recvbuf_w : List T) : Except Fail (List T) :=
  if (i : Int) < begin then
    match Read_get recvbuf i with
    | .error e => .error e
    | .ok v => Write_set recvbuf_w i v
  else if (i : Int) < end_ then
    match Read_get self_data ((i : Int) - begin) with
    | .error e => .error e
    | .ok v => Write_set recvbuf_w i v
  else
    match Read_get recvbuf ((i : Int) - self_count) with
    | .error e => .error e
    | .ok v => Write_set recvbuf_w i v

/-- `self_send_part2`: the result is the array left behind `p_recvbuf`. -/
def self_send_part2 {T : Type} [Inhabited T] (self_data : Option (List T)) (self_src : Int)
    (recvbuf : List T) (rdispls : List Nat) : Except Fail (List T) :=
  match self_data with
  | none => .ok recvbuf
  | some self_data =>
    if recvbuf.length = 0 then .ok self_data
    else
      match Read_get rdispls self_src with
      | .error e => .error e
      | .ok begin =>
        let self_count : Int := self_data.length
        let end_ : Int := (begin : Int) + self_count
        match Write_new (T := T) ((recvbuf.length : Int) + self_count) with
        | .error e => .error e
        | .ok recvbuf_w0 =>
          parallel_for recvbuf_w0.length
            (self_send_part2_kernel recvbuf self_data begin end_ self_count) recvbuf_w0

/-- The host part of `Comm::alltoallv` in an MPI build (lines 478 to 495): the size
checks, the allocation of the receive buffer and the call of the transport. -/
def Comm.alltoallv_host {T : Type} [Inhabited T] (c : Comm)
    (Neighbor_alltoallv : A2A T → List T → Except Fail (List T)) (a : A2A T) :
    Except Fail (List T) :=
  if ¬ (a.rdispls.length = a.recvcounts.length + 1) then .error (Fail.check 483)
  else
    match HostRead_last a.rdispls with
    | .error e => .error e
    | .ok nrecvd =>
      match Write_new (T := T) (nrecvd : Int) with
      | .error e => .error e
      | .ok recvbuf =>
        if ¬ (a.sendcounts.length = c.dsts_.length) then .error (Fail.check 486)
        else if ¬ (a.recvcounts.length = c.srcs_.length) then .error (Fail.check 487)
        else if ¬ (a.sdispls.length = a.sendcounts.length + 1) then .error (Fail.check 488)
        else
          match HostRead_last a.sdispls with
          | .error e => .error e
          | .ok last =>
            if ¬ (a.sendbuf.length = last) then .error (Fail.check 489)
            else Neighbor_alltoallv a recvbuf

/-- `Comm::alltoallv` in an MPI build; `use_cuda` selects the build in which
`self_send_part1` and `self_send_part2` surround the exchange. -/
def Comm.alltoallv {T : Type} [Inhabited T] (c : Comm) (use_cuda : Bool) (sizeofT : Nat)
    (Neighbor_alltoallv : A2A T → List T → Except Fail (List T)) (a : A2A T) :
    Except Fail (List T) :=
  if use_cuda then
    match self_send_part1 sizeofT c.self_dst_ c.self_src_ a c.self_send_threshold with
    | .error e => .error e
    | .ok (self_data, a1) =>
      match c.alltoallv_host Neighbor_alltoallv a1 with
      | .error e => .error e
      | .ok recvbuf_dev => self_send_part2 self_data c.self_src_ recvbuf_dev a1.rdispls
  else c.alltoallv_host Neighbor_alltoallv a

/-- `Comm::alltoallv` in a build without MPI: the send buffer is returned. -/
def Comm.alltoallv_serial {T : Type} (_c : Comm) (a : A2A T) : List T := a.sendbuf

/-- Store a received message in the receive buffer at offset `off`. -/
def write_block {T : Type} (buf : List T) (off : Nat) (msg : List T) : Except Fail (List T) :=
  if off + msg.length ≤ buf.length then
    .ok (buf.take off ++ msg ++ buf.drop (off + msg.length))
  else .error Fail.out_of_bounds

/-- The message that arrives from source number `i`: the slice this rank sends to
itself when `i` is its own position among the sources, and otherwise what the remote
rank sent, `remote i`. -/
def incoming {T : Type} (c : Comm) (remote : Nat → List T) (a : A2A T) (i : Nat) : List T :=
  if (i : Int) = c.self_src_ ∧ 0 ≤ c.self_dst_ then
    (a.sendbuf.drop (a.sdispls.getD c.self_dst_.toNat 0)).take
      (a.sendcounts.getD c.self_dst_.toNat 0)
  else remote i

/-- Modelled from the spec: the variable-length neighborhood exchange as one rank
observes it.  For every source, in `sources()` order, the arriving message is stored
at that source's receive displacement; a message longer than the posted receive
count is a transport error. -/
def Neighbor_alltoallv {T : Type} (c : Comm) (remote : Nat → List T) (a : A2A T)
    (recvbuf : List T) : Except Fail (List T) :=
  parallel_for c.srcs_.length
    (fun i buf =>
      if (incoming c remote a i).length > a.recvcounts.getD i 0 then .error Fail.transport
      else write_block buf (a.rdispls.getD i 0) (incoming c remote a i))
    recvbuf

/-! ## Definitions used to state the properties -/

/-- The boolean an operator call returned (false for the non-operator collaborators). -/
def Call.changed : Call → Bool
  | .refine_by_size b => b
  | .coarsen_by_size b => b
  | .swap_edges b => b
  | .coarsen_slivers b => b
  | .move_verts_for_quality b => b
  | .setup_conservation_tags => false
  | .correct_integral_errors => false
  | .set_parting _ => false

/-- How many of the calls recorded after `w` and up to `w1` returned true. -/
def true_returns {M : Type} (w w1 : World M) : Nat :=
  (w1.calls.drop w.calls.length).countP Call.changed

/-- The calls one scan of `satisfy_quality` records, as a function of the three enabling
flags and of what each operator returns when it is reached. -/
def scan_calls (sw cs mv r1 r2 r3 : Bool) : List Call :=
  (if sw then [Call.swap_edges r1] else []) ++
    (if sw && r1 then []
     else (if cs then [Call.coarsen_slivers r2] else []) ++
       (if cs && r2 then []
        else if mv then [Call.move_verts_for_quality r3] else []))

/-- The five size conditions `Comm::alltoallv` asserts before it calls the transport. -/
def A2A.checks {T : Type} (c : Comm) (a : A2A T) : Prop :=
  a.rdispls.length = a.recvcounts.length + 1 ∧
  a.sendcounts.length = c.dsts_.length ∧
  a.recvcounts.length = c.srcs_.length ∧
  a.sdispls.length = a.sendcounts.length + 1 ∧
  a.sdispls.getLast? = some a.sendbuf.length

/-- The preconditions of `alltoallv`, for one rank: one count per neighbour, the
displacements are the exclusive prefix sums of the counts, the send buffer holds
exactly the counted elements, `self_dst_` and `self_src_` are positions in the
neighbour lists or negative, a rank that sends to itself also receives from itself
and expects as many elements as it sends, and every other source sends as many
elements as this rank expects from it. -/
def A2A.pre {T : Type} (c : Comm) (remote : Nat → List T) (a : A2A T) : Prop :=
  a.sendcounts.length = c.dsts_.length ∧
  a.recvcounts.length = c.srcs_.length ∧
  a.sdispls = offset_scan a.sendcounts ∧
  a.rdispls = offset_scan a.recvcounts ∧
  a.sendbuf.length = a.sendcounts.sum ∧
  c.self_dst_ < (c.dsts_.length : Int) ∧
  c.self_src_ < (c.srcs_.length : Int) ∧
  (0 ≤ c.self_dst_ →
    0 ≤ c.self_src_ ∧
    a.recvcounts.getD c.self_src_.toNat 0 = a.sendcounts.getD c.self_dst_.toNat 0) ∧
  (∀ i, i < c.srcs_.length → ¬ ((i : Int) = c.self_src_ ∧ 0 ≤ c.self_dst_) →
    (remote i).length = a.recvcounts.getD i 0)

/-- The slice `sendbuf[begin..end)` a rank sends to destination number `d`. -/
def A2A.self_slice {T : Type} (a : A2A T) (d : Nat) : List T :=
  (a.sendbuf.drop (a.sdispls.getD d 0)).take (a.sdispls.getD (d + 1) 0 - a.sdispls.getD d 0)

/-- The arrays after the slice for destination `d` and the count for source `s` have
been taken out: `sendbuf[0..begin)` followed by `sendbuf[end..)`, both counts zeroed,
and the displacements recomputed from the new counts. -/
def A2A.reduce {T : Type} (a : A2A T) (d s : Nat) : A2A T :=
  { sendbuf := a.sendbuf.take (a.sdispls.getD d 0) ++ a.sendbuf.drop (a.sdispls.getD (d + 1) 0)
    sendcounts := a.sendcounts.set d 0
    sdispls := offset_scan (a.sendcounts.set d 0)
    recvcounts := a.recvcounts.set s 0
    rdispls := offset_scan (a.recvcounts.set s 0) }

/-! ## Concrete meshes and exchanges for evaluating the model -/

/-- A mesh reduced to what the controller can observe: element qualities, edge lengths,
angle marks, and the number of further changes its operators will report. -/
structure ToyMesh where
  quals : List Rat
  lens : List Rat
  angle : List Int
  budget : Nat
  deriving DecidableEq, Repr

/-- An operator on `ToyMesh` that reports a change while the budget lasts. -/
def ToyMesh.spend (m : ToyMesh) (_opts : AdaptOpts) : ToyMesh × Bool :=
  if m.budget = 0 then (m, false) else ({ m with budget := m.budget - 1 }, true)

/-- An operator on `ToyMesh` that never changes anything. -/
def ToyMesh.still (m : ToyMesh) (_opts : AdaptOpts) : ToyMesh × Bool := (m, false)

/-- Serial-build operations on `ToyMesh`: rank 0, reductions are the identity, and every
topological operator is `op`. -/
def toy_ops (op : ToyMesh → AdaptOpts → ToyMesh × Bool) : MeshOps ToyMesh :=
  { dim := fun _ => 2
    rank := fun _ => 0
    allreduce_min := fun _ x => x
    allreduce_max := fun _ x => x
    ask_qualities := fun m => m.quals
    ask_lengths := fun m => m.lens
    find_angle_elems := fun m => m.angle
    has_tag := fun _ _ _ => true
    tag_type := fun _ _ _ => Omega_h_Type.OMEGA_H_REAL
    tag_ncomps := fun _ _ _ => 1
    should_conserve_any := fun _ _ => false
    refine_by_size := op
    coarsen_by_size := op
    swap_edges := op
    coarsen_slivers := op
    move_verts_for_quality := op
    setup_conservation_tags := fun m _ => m
    correct_integral_errors := fun m _ => m
    set_parting := fun m _ => m }

/-- The world a call starts from: nothing called, nothing printed. -/
def World.start {M : Type} (m : M) : World M := { mesh := m, calls := [], log := [] }

/-- A rank 0 whose only neighbour, in both directions, is itself. -/
def loop_comm : Comm :=
  { rank := 0, srcs_ := [0], dsts_ := [0], self_src_ := 0, self_dst_ := 0,
    self_send_threshold := 1024 }

/-- Two elements sent by `loop_comm` to itself. -/
def loop_args : A2A Nat :=
  { sendbuf := [7, 8], sendcounts := [2], sdispls := [0, 2], recvcounts := [2],
    rdispls := [0, 2] }

/-- Rank 0 of two ranks, each of which sends to and receives from both; the self-send
threshold is `threshold`. -/
def pair_comm (threshold : Int) : Comm :=
  { rank := 0, srcs_ := [0, 1], dsts_ := [0, 1], self_src_ := 0, self_dst_ := 0,
    self_send_threshold := threshold }

/-- What rank 1 sends to rank 0: the single element 60. -/
def pair_remote : Nat → List Nat := fun _ => [60]

/-- Rank 0 keeps two elements for itself and sends one to rank 1. -/
def pair_args : A2A Nat :=
  { sendbuf := [7, 8, 9], sendcounts := [2, 1], sdispls := [0, 2, 3], recvcounts := [2, 1],
    rdispls := [0, 2, 3] }

/-- Rank 0 keeps two elements for itself and sends nothing to rank 1. -/
def pair_args_idle : A2A Nat :=
  { sendbuf := [7, 8], sendcounts := [2, 0], sdispls := [0, 2, 2], recvcounts := [2, 1],
    rdispls := [0, 2, 3] }

/-! ## `Omega_h_metric.cpp`

A metric of dimension `dim` is a `dim × dim` matrix over `K`; an array of metrics
stores, per entry, the `symm_ncomps dim` components of its lower triangle.  The
numerical routines of the C library and the eigen-solver are not part of the sources
and are passed to the functions that call them in a `Numerics` record.
`OMEGA_H_NORETURN` is a failed assertion at its line.
-/

/-- Modelled from the spec: `symm_ncomps` is declared in `Omega_h_matrix.hpp`, which is
not among the sources; it is the number of stored components of a symmetric
`dim × dim` matrix (1, 3, 6 for `dim` = 1, 2, 3). -/
def symm_ncomps (dim : Nat) : Nat := ((dim + 1) * dim) / 2

/-- Modelled from the spec: `divide_no_remainder` is declared in `Omega_h_scalar.hpp`,
which is not among the sources; it asserts that the divisor is not zero and divides
the dividend, and returns the quotient.  Its assertions are reported as line 0. -/
def divide_no_remainder (a b : Int) : Except Fail Int :=
  if b = 0 then .error (.check 0)
  else if Int.tmod a b ≠ 0 then .error (.check 0)
  else .ok (Int.tdiv a b)

/-- The loop of `get_metric_dim` over `i, i + 1, ..., 3`. -/
def get_metric_dim_from (ncomps : Int) : Nat → Nat → Except Fail Int
  | 0, _ => .error (.check 18)
  | k + 1, i => if ncomps = (symm_ncomps i : Int) then .ok (i : Int)
      else get_metric_dim_from ncomps k (i + 1)

/-- `get_metric_dim` (lines 15-19). -/
def get_metric_dim (ncomps : Int) : Except Fail Int :=
  get_metric_dim_from ncomps 3 1

/-- `get_metrics_dim` (lines 21-24). -/
def get_metrics_dim (nmetrics : Int) (metrics : List K) : Except Fail Int :=
  match divide_no_remainder (metrics.length : Int) nmetrics with
  | .error e => .error e
  | .ok ncomps => get_metric_dim ncomps

/-- A value of the C++ type `double` in the functions whose control flow depends on the
special values: a finite number, an infinity (negative or positive) or not-a-number.
Zero carries no sign; the divisors of the functions modelled are sums of squares and
products of squares, which are never the negative zero. -/
inductive Double (K : Type) where
  | fin (x : K)
  | inf (negative : Bool)
  | nan

instance : Zero (Double K) := ⟨Double.fin 0⟩

instance : Inhabited (Double K) := ⟨Double.fin 0⟩

/-- The numerical routines the metric code calls and that are not part of the sources:
`std::sqrt`, `std::cbrt`, `std::log`, `std::exp`, the constant `EPSILON` and the
eigen-solver `decompose_eigen`, which returns the matrix whose columns are the
eigenvectors together with the eigenvalues; and `round`, the double that the hardware
stores for the exact result of an arithmetic operation on two finite doubles (zero when
the result underflows, an infinity when it overflows; the identity in exact
arithmetic). -/
structure Numerics (K : Type) where
  sqrt : K → K
  cbrt : K → K
  log : K → K
  exp : K → K
  EPSILON : K
  decompose_eigen : (dim : Nat) → Matrix (Fin dim) (Fin dim) K →
    Matrix (Fin dim) (Fin dim) K × (Fin dim → K)
  round : K → Double K

/-- The product of two doubles. -/
def Numerics.mul (N : Numerics K) : Double K → Double K → Double K
  | .fin x, .fin y => N.round (x * y)
  | .fin x, .inf s => if x = 0 then .nan else .inf (xor s (decide (x < 0)))
  | .inf s, .fin y => if y = 0 then .nan else .inf (xor s (decide (y < 0)))
  | .inf s, .inf t => .inf (xor s t)
  | _, _ => .nan

/-- The sum of two doubles. -/
def Numerics.add (N : Numerics K) : Double K → Double K → Double K
  | .fin x, .fin y => N.round (x + y)
  | .fin _, .inf s => .inf s
  | .inf s, .fin _ => .inf s
  | .inf s, .inf t => if s = t then .inf s else .nan
  | _, _ => .nan

/-- The quotient of two doubles: a finite non-zero number over zero is an infinity, zero
over zero and an infinity over an infinity are not-a-number. -/
def Numerics.div (N : Numerics K) : Double K → Double K → Double K
  | .fin x, .fin y =>
    if y = 0 then (if x = 0 then .nan else .inf (decide (x < 0))) else N.round (x / y)
  | .fin _, .inf _ => .fin 0
  | .inf s, .fin y => .inf (xor s (decide (y < 0)))
  | _, _ => .nan

/-- The comparison `a < b` of two doubles; it is false when either is not-a-number. -/
def Double.lt : Double K → Double K → Bool
  | .fin x, .fin y => decide (x < y)
  | .fin _, .inf t => !t
  | .inf s, .fin _ => s
  | .inf s, .inf t => s && !t
  | _, _ => false

/-- `std::sqrt` on a double. -/
def Numerics.std_sqrt (N : Numerics K) : Double K → Double K
  | .fin x => if x < 0 then .nan else .fin (N.sqrt x)
  | .inf false => .inf false
  | _ => .nan

/-- Modelled from the spec: `norm_squared(v)` is declared in `Omega_h_vector.hpp`, which
is not among the sources; the inner product of `v` with itself, accumulated from the
first component on. -/
def Numerics.norm_squared (N : Numerics K) {dim : Nat} (v : Fin dim → Double K) : Double K :=
  match List.ofFn (fun i => N.mul (v i) (v i)) with
  | [] => .fin 0
  | x :: xs => xs.foldl N.add x

/-- Modelled from the spec: `symm2vector` is declared in `Omega_h_matrix.hpp`, which is
not among the sources; it packs a symmetric matrix as its diagonal followed by the
entries below it. -/
def symm2vector {T : Type} : (dim : Nat) → Matrix (Fin dim) (Fin dim) T → List T
  | 1, m => [m 0 0]
  | 2, m => [m 0 0, m 1 1, m 0 1]
  | 3, m => [m 0 0, m 1 1, m 2 2, m 0 1, m 1 2, m 0 2]
  | _, _ => []

/-- Modelled from the spec: `vector2symm` is declared in `Omega_h_matrix.hpp`, which is
not among the sources; it unpacks what `symm2vector` packs, filling both triangles. -/
def vector2symm : (dim : Nat) → List K → Matrix (Fin dim) (Fin dim) K
  | 1, v => Matrix.of ![![v.getD 0 0]]
  | 2, v => Matrix.of ![![v.getD 0 0, v.getD 2 0], ![v.getD 2 0, v.getD 1 0]]
  | 3, v => Matrix.of ![![v.getD 0 0, v.getD 3 0, v.getD 5 0],
      ![v.getD 3 0, v.getD 1 0, v.getD 4 0], ![v.getD 5 0, v.getD 4 0, v.getD 2 0]]
  | _, _ => 0

/-- The stored components of entry `i` of an array of `ncomps`-component values. -/
def block (ncomps : Nat) (a : List K) (i : Nat) : List K :=
  (a.drop (i * ncomps)).take ncomps

/-- Modelled from the spec: `get_symm<dim>(a, i)` is declared in `Omega_h_matrix.hpp`,
which is not among the sources; it reads the `symm_ncomps(dim)` components of entry `i`
and unpacks them.  A read outside the array is a failure. -/
def get_symm (dim : Nat) (a : List K) (i : Int) : Except Fail (Matrix (Fin dim) (Fin dim) K) :=
  if 0 ≤ i ∧ (i.toNat + 1) * symm_ncomps dim ≤ a.length then
    .ok (vector2symm dim (block (symm_ncomps dim) a i.toNat))
  else .error Fail.out_of_bounds

/-- Modelled from the spec: `set_symm(a, i, m)` is declared in `Omega_h_matrix.hpp`, which
is not among the sources; it packs `m` and writes the components of entry `i`.  A write
outside the array is a failure. -/
def set_symm {T : Type} (dim : Nat) (a : List T) (i : Int) (m : Matrix (Fin dim) (Fin dim) T) :
    Except Fail (List T) :=
  if 0 ≤ i ∧ (i.toNat + 1) * symm_ncomps dim ≤ a.length then
    .ok (a.take (i.toNat * symm_ncomps dim) ++ symm2vector dim m ++
      a.drop ((i.toNat + 1) * symm_ncomps dim))
  else .error Fail.out_of_bounds

/-- Modelled from the spec: `get_vector<dim>(a, i)` is declared in `Omega_h_vector.hpp`,
which is not among the sources; it reads the `dim` components of entry `i`. -/
def get_vector {T : Type} [Zero T] (dim : Nat) (a : List T) (i : Int) :
    Except Fail (Fin dim → T) :=
  if 0 ≤ i ∧ (i.toNat + 1) * dim ≤ a.length then
    .ok (fun k => a.getD (i.toNat * dim + k.val) 0)
  else .error Fail.out_of_bounds

/-- The shape shared by the kernels of the array functions: entry `i` of the output
receives the matrix computed for `i`. -/
def symm_kernel {T : Type} (dim : Nat) (g : Int → Except Fail (Matrix (Fin dim) (Fin dim) T))
    (i : Nat) (out : List T) : Except Fail (List T) :=
  match g (i : Int) with
  | .error e => .error e
  | .ok m => set_symm dim out (i : Int) m

/-- Modelled from the spec: `invert` is declared in `Omega_h_matrix.hpp`, which is not
among the sources; the inverse of a square matrix. -/
def invert {dim : Nat} (m : Matrix (Fin dim) (Fin dim) K) : Matrix (Fin dim) (Fin dim) K :=
  (m.det)⁻¹ • m.adjugate

/-- Modelled from the spec: `compose_eigen(q, l)` is declared in `Omega_h_eigen.hpp`, which
is not among the sources; the matrix with eigenvector columns `q` and eigenvalues `l`. -/
def compose_eigen {dim : Nat} (q : Matrix (Fin dim) (Fin dim) K) (l : Fin dim → K) :
    Matrix (Fin dim) (Fin dim) K :=
  q * Matrix.diagonal l * invert q

/-- Modelled from the spec: `linearize_metric` is declared in `Omega_h_metric.hpp`, which
is not among the sources; the logarithm is taken of the eigenvalues and the
eigenvectors are kept. -/
def linearize_metric (N : Numerics K) {dim : Nat} (m : Matrix (Fin dim) (Fin dim) K) :
    Matrix (Fin dim) (Fin dim) K :=
  let ed := N.decompose_eigen dim m
  compose_eigen ed.1 (fun i => N.log (ed.2 i))

/-- Modelled from the spec: `delinearize_metric` is declared in `Omega_h_metric.hpp`,
which is not among the sources; the exponential is taken of the eigenvalues and the
eigenvectors are kept. -/
def delinearize_metric (N : Numerics K) {dim : Nat} (m : Matrix (Fin dim) (Fin dim) K) :
    Matrix (Fin dim) (Fin dim) K :=
  let ed := N.decompose_eigen dim m
  compose_eigen ed.1 (fun i => N.exp (ed.2 i))

/-- Modelled from the spec: `metric_product(m, v)` is declared in `Omega_h_metric.hpp`,
which is not among the sources; `v^T m v`, and `m[0][0] (v . v)` for a one-component
metric in a space of higher dimension. -/
def metric_product {metric_dim space_dim : Nat} (m : Matrix (Fin metric_dim) (Fin metric_dim) K)
    (v : Fin space_dim → K) : K :=
  if h : metric_dim = space_dim then
    Matrix.dotProduct v (Matrix.mulVec (fun i j => m (Fin.cast h.symm i) (Fin.cast h.symm j)) v)
  else if h1 : 0 < metric_dim then m ⟨0, h1⟩ ⟨0, h1⟩ * Matrix.dotProduct v v
  else 0

/-- Modelled from the spec: `metric_length(m, v)` is declared in `Omega_h_metric.hpp`,
which is not among the sources; the length of `v` measured in the metric `m`. -/
def metric_length (N : Numerics K) {metric_dim space_dim : Nat}
    (m : Matrix (Fin metric_dim) (Fin metric_dim) K) (v : Fin space_dim → K) : K :=
  N.sqrt (metric_product m v)

/-- Modelled from the spec: `metric_eigenvalue_from_length(l)` is declared in
`Omega_h_metric.hpp`, which is not among the sources; a length `l` corresponds to the
metric eigenvalue `1 / l^2`. -/
def metric_eigenvalue_from_length (l : K) : K := 1 / (l * l)

/-- Modelled from the spec: the intersection of two metrics is declared in
`Omega_h_metric.hpp`, which is not among the sources; for one-component metrics it is
the larger one, otherwise the two are diagonalised simultaneously in the eigenvector
basis `p` of `invert(m1) * m2` and the larger of the two lengths is taken along each
basis vector. -/
def intersect_metrics (N : Numerics K) : {dim : Nat} → Matrix (Fin dim) (Fin dim) K →
    Matrix (Fin dim) (Fin dim) K → Matrix (Fin dim) (Fin dim) K
  | 1, m1, m2 => Matrix.of ![![max (m1 0 0) (m2 0 0)]]
  | dim, m1, m2 =>
    let p := (N.decompose_eigen dim (invert m1 * m2)).1
    let w : Fin dim → K := fun i =>
      max (metric_product m1 (fun k => p k i)) (metric_product m2 (fun k => p k i))
    let ip := invert p
    ip.transpose * Matrix.diagonal w * ip

/-- The mesh as the metric algorithms see it: what `dim()`, `nverts()`,
`nents(d)`, `coords()`, `ask_star(VERT)` (offsets `a2ab` and neighbours `ab2b`),
`ask_verts_of(d)`, `owners_have_all_upward(VERT)`, `sync_array(VERT, a, ncomps)`,
`comm()->reduce_and(b)` and `can_print(mesh)` return.  The vertices are the copies of
the mesh vertices held in the run: on one process the vertices themselves, on several
processes the copies of all the processes side by side (see `Mesh.synchronizes`). -/
structure Mesh (K : Type) where
  dim : Int
  nverts : Int
  nents : Int → Int
  coords : List K
  star_a2ab : List Int
  star_ab2b : List Int
  ask_verts_of : Int → List Int
  owners_have_all_upward : Bool
  sync_array : List K → Nat → List K
  reduce_and : Bool → Bool
  can_print : Bool

/-- The neighbour loop of the kernel of `limit_gradation_once_tmpl` (lines 193-202):
`k` more neighbours, the next one at position `vv` of `ab2b`. -/
def limit_gradation_neighbors (N : Numerics K) (mesh_dim metric_dim : Nat) (mesh : Mesh K)
    (values : List K) (max_rate : K) (x : Fin mesh_dim → K) :
    Nat → Int → Matrix (Fin metric_dim) (Fin metric_dim) K →
      Except Fail (Matrix (Fin metric_dim) (Fin metric_dim) K)
  | 0, _, m => .ok m
  | k + 1, vv, m =>
    match Read_get mesh.star_ab2b vv with
    | .error e => .error e
    | .ok av =>
      match get_symm metric_dim values av with
      | .error e => .error e
      | .ok am =>
        match get_vector mesh_dim mesh.coords av with
        | .error e => .error e
        | .ok ax =>
          let vec := ax - x
          let metric_dist := metric_length N am vec
          let factor := metric_eigenvalue_from_length (1 + metric_dist * max_rate)
          let limiter := factor • am
          let limited := intersect_metrics N m limiter
          limit_gradation_neighbors N mesh_dim metric_dim mesh values max_rate x k (vv + 1)
            limited

/-- The metric the kernel of `limit_gradation_once_tmpl` computes for vertex `v`
(lines 191-202). -/
def limit_gradation_at (N : Numerics K) (mesh_dim metric_dim : Nat) (mesh : Mesh K)
    (values : List K) (max_rate : K) (v : Int) :
    Except Fail (Matrix (Fin metric_dim) (Fin metric_dim) K) :=
  match get_symm metric_dim values v with
  | .error e => .error e
  | .ok m =>
    match get_vector mesh_dim mesh.coords v with
    | .error e => .error e
    | .ok x =>
      match Read_get mesh.star_a2ab v with
      | .error e => .error e
      | .ok first =>
        match Read_get mesh.star_a2ab (v + 1) with
        | .error e => .error e
        | .ok last =>
          limit_gradation_neighbors N mesh_dim metric_dim mesh values max_rate x
            (last - first).toNat first m

/-- `limit_gradation_once_tmpl<mesh_dim, metric_dim>` (lines 184-210). -/
def limit_gradation_once_tmpl (N : Numerics K) (mesh_dim metric_dim : Nat) (mesh : Mesh K)
    (values : List K) (max_rate : K) : Except Fail (List K) :=
  match Write_new (mesh.nverts * (symm_ncomps metric_dim : Int)) with
  | .error e => .error e
  | .ok out0 =>
    match parallel_for mesh.nverts.toNat
        (symm_kernel metric_dim (limit_gradation_at N mesh_dim metric_dim mesh values max_rate))
        out0 with
    | .error e => .error e
    | .ok out => .ok (mesh.sync_array out (symm_ncomps metric_dim))

/-- `limit_gradation_once` (lines 212-226). -/
def limit_gradation_once (N : Numerics K) (mesh : Mesh K) (values : List K) (max_rate : K) :
    Except Fail (List K) :=
  match get_metrics_dim mesh.nverts values with
  | .error e => .error e
  | .ok metric_dim =>
    if mesh.dim = 3 ∧ metric_dim = 3 then limit_gradation_once_tmpl N 3 3 mesh values max_rate
    else if mesh.dim = 2 ∧ metric_dim = 2 then
      limit_gradation_once_tmpl N 2 2 mesh values max_rate
    else if mesh.dim = 3 ∧ metric_dim = 1 then
      limit_gradation_once_tmpl N 3 1 mesh values max_rate
    else if mesh.dim = 2 ∧ metric_dim = 1 then
      limit_gradation_once_tmpl N 2 1 mesh values max_rate
    else if mesh.dim = 1 then limit_gradation_once_tmpl N 1 1 mesh values max_rate
    else .error (.check 225)

/-- Modelled from the spec: the scalar `are_close(a, b, tol, floor)` is declared in
`Omega_h_scalar.hpp`, which is not among the sources; two values are close when both
are at most `floor` in magnitude or their difference relative to the larger magnitude
is at most `tol`. -/
def are_close_scalar (a b tol floor : K) : Bool :=
  if |a| ≤ floor ∧ |b| ≤ floor then decide (0 ≤ tol)
  else decide (|b - a| / max |a| |b| ≤ tol)

/-- Modelled from the spec: the array `are_close(a, b, tol)` is declared in
`Omega_h_array_ops.hpp`, which is not among the sources; it asserts that the sizes are
equal and compares entry by entry, with `EPSILON` as floor.  Its assertion is reported
as line 0. -/
def are_close (N : Numerics K) (a b : List K) (tol : K) : Except Fail Bool :=
  if a.length = b.length then
    .ok ((List.zip a b).all (fun p => are_close_scalar p.1 p.2 tol N.EPSILON))
  else .error (.check 0)

/-- What `limit_metric_gradation` prints. -/
inductive GradationMsg where
  | warning_up_to_step (i : Int)
  | limited_in_steps (i : Int)
  deriving DecidableEq, Repr

/-- The `do ... while` loop of `limit_metric_gradation` (lines 235-243); the state is
`values2`, the pass counter and what has been printed.  The loop has no cap, so it
takes fuel. -/
def limit_metric_gradation_loop (N : Numerics K) (mesh : Mesh K) (max_rate tol : K)
    (verbose : Bool) : Nat → List K → Int → List GradationMsg →
      Except Fail (List K × Int × List GradationMsg)
  | 0, _, _, _ => .error Fail.out_of_fuel
  | fuel + 1, values2, i, log =>
    let values := values2
    match limit_gradation_once N mesh values max_rate with
    | .error e => .error e
    | .ok values2 =>
      let i := i + 1
      let log := if verbose && mesh.can_print && decide (i > 40) then
        log ++ [GradationMsg.warning_up_to_step i] else log
      match are_close N values values2 tol with
      | .error e => .error e
      | .ok close =>
        if !(mesh.reduce_and close) then
          limit_metric_gradation_loop N mesh max_rate tol verbose fuel values2 i log
        else .ok (values2, i, log)

/-- `limit_metric_gradation` (lines 228-247); returns the limited field and what was
printed. -/
def limit_metric_gradation (N : Numerics K) (fuel : Nat) (mesh : Mesh K) (values : List K)
    (max_rate tol : K) (verbose : Bool) : Except Fail (List K × List GradationMsg) :=
  if ¬ mesh.owners_have_all_upward then .error (.check 230)
  else if ¬ (max_rate > 0) then .error (.check 231)
  else
    match limit_metric_gradation_loop N mesh max_rate tol verbose fuel values 0 [] with
    | .error e => .error e
    | .ok (values2, i, log) =>
      if verbose && mesh.can_print then
        .ok (values2, log ++ [GradationMsg.limited_in_steps i])
      else .ok (values2, log)

/-- Modelled from the spec: `gather_verts<n>(ev2v, e)` is declared in a header that is
not among the sources; the `n` vertices of entity `e`. -/
def gather_verts (n : Nat) (ev2v : List Int) (e : Int) : Except Fail (List Int) :=
  (List.range n).mapM (fun k => Read_get ev2v (e * (n : Int) + (k : Int)))

/-- Modelled from the spec: `gather_symms<n, mdim>(v2m, v)` is declared in a header that
is not among the sources; the metrics of the vertices `v`. -/
def gather_symms (mdim : Nat) (v2m : List K) (v : List Int) :
    Except Fail (List (Matrix (Fin mdim) (Fin mdim) K)) :=
  v.mapM (fun vert => get_symm mdim v2m vert)

/-- Modelled from the spec: `average_metric(ms)` is declared in `Omega_h_metric.hpp`,
which is not among the sources; metrics are averaged in linearized form. -/
def average_metric (N : Numerics K) {mdim : Nat} (ms : List (Matrix (Fin mdim) (Fin mdim) K)) :
    Matrix (Fin mdim) (Fin mdim) K :=
  delinearize_metric N ((1 / (ms.length : K)) • (ms.map (linearize_metric N)).sum)

/-- The matrix the kernel of `get_mident_metrics_tmpl` computes for entry `a`. -/
def get_mident_metrics_at (N : Numerics K) (mdim edim : Nat) (mesh : Mesh K) (a2e : List Int)
    (v2m : List K) (a : Int) : Except Fail (Matrix (Fin mdim) (Fin mdim) K) :=
  match Read_get a2e a with
  | .error err => .error err
  | .ok e =>
    match gather_verts (edim + 1) (mesh.ask_verts_of edim) e with
    | .error err => .error err
    | .ok v =>
      match gather_symms mdim v2m v with
      | .error err => .error err
      | .ok ms => .ok (average_metric N ms)

/-- `get_mident_metrics_tmpl<mdim, edim>` (lines 52-66). -/
def get_mident_metrics_tmpl (N : Numerics K) (mdim edim : Nat) (mesh : Mesh K) (a2e : List Int)
    (v2m : List K) : Except Fail (List K) :=
  let na := a2e.length
  match Write_new ((na : Int) * (symm_ncomps mdim : Int)) with
  | .error e => .error e
  | .ok out => parallel_for na (symm_kernel mdim (get_mident_metrics_at N mdim edim mesh a2e v2m)) out

/-- `get_mident_metrics(mesh, ent_dim, entities, v2m)` (lines 68-92). -/
def get_mident_metrics (N : Numerics K) (mesh : Mesh K) (ent_dim : Int) (entities : List Int)
    (v2m : List K) : Except Fail (List K) :=
  match get_metrics_dim mesh.nverts v2m with
  | .error e => .error e
  | .ok metrics_dim =>
    if metrics_dim = 3 ∧ ent_dim = 3 then get_mident_metrics_tmpl N 3 3 mesh entities v2m
    else if metrics_dim = 3 ∧ ent_dim = 1 then get_mident_metrics_tmpl N 3 1 mesh entities v2m
    else if metrics_dim = 2 ∧ ent_dim = 2 then get_mident_metrics_tmpl N 2 2 mesh entities v2m
    else if metrics_dim = 2 ∧ ent_dim = 1 then get_mident_metrics_tmpl N 2 1 mesh entities v2m
    else if metrics_dim = 1 ∧ ent_dim = 3 then get_mident_metrics_tmpl N 1 3 mesh entities v2m
    else if metrics_dim = 1 ∧ ent_dim = 2 then get_mident_metrics_tmpl N 1 2 mesh entities v2m
    else if metrics_dim = 1 ∧ ent_dim = 1 then get_mident_metrics_tmpl N 1 1 mesh entities v2m
    else .error (.check 91)

/-- `get_mident_metrics(mesh, ent_dim, v2m)` (lines 94-97): all entities of the
dimension, `LOs(n, 0, 1)`; a negative count cannot be allocated. -/
def get_mident_metrics_all (N : Numerics K) (mesh : Mesh K) (ent_dim : Int) (v2m : List K) :
    Except Fail (List K) :=
  if mesh.nents ent_dim < 0 then .error Fail.bad_alloc
  else
    get_mident_metrics N mesh ent_dim
      ((List.range (mesh.nents ent_dim).toNat).map (fun k => (k : Int))) v2m

/-- The geometric routines `get_expected_nelems_per_elem_tmpl` calls and that are not
part of the sources: `real_size mesh_dim coords verts` is
`power<mesh_dim, 2>(mean_squared_real_length(...))` for the element with the vertices
`verts`, and `power np dp x` is the templated `power<np, dp>(x)`. -/
structure SizeRoutines (K : Type) where
  real_size : Nat → List K → List Int → K
  power : Nat → Nat → K → K

/-- The kernel of `get_expected_nelems_per_elem_tmpl` (lines 485-496). -/
def get_expected_nelems_per_elem_kernel (S : SizeRoutines K) (mesh_dim metric_dim : Nat)
    (mesh : Mesh K) (elem_metrics : List K) (e : Nat) (out_w : List K) :
    Except Fail (List K) :=
  match gather_verts (mesh_dim + 1) (mesh.ask_verts_of mesh.dim) e with
  | .error err => .error err
  | .ok v =>
    let lr := S.real_size mesh_dim mesh.coords v
    match get_symm metric_dim elem_metrics e with
    | .error err => .error err
    | .ok m =>
      let mr := S.power mesh_dim (2 * metric_dim) m.det
      let r := lr * mr
      Write_set out_w e r

/-- `get_expected_nelems_per_elem_tmpl<mesh_dim, metric_dim>` (lines 479-499);
`nelems()` is `nents(dim())`. -/
def get_expected_nelems_per_elem_tmpl (N : Numerics K) (S : SizeRoutines K)
    (mesh_dim metric_dim : Nat) (mesh : Mesh K) (v2m : List K) : Except Fail (List K) :=
  match Write_new (mesh.nents mesh.dim) with
  | .error e => .error e
  | .ok out_w =>
    match get_mident_metrics_all N mesh mesh.dim v2m with
    | .error e => .error e
    | .ok elem_metrics =>
      parallel_for (mesh.nents mesh.dim).toNat
        (get_expected_nelems_per_elem_kernel S mesh_dim metric_dim mesh elem_metrics) out_w

/-- `get_expected_nelems_per_elem` (lines 501-515). -/
def get_expected_nelems_per_elem (N : Numerics K) (S : SizeRoutines K) (mesh : Mesh K)
    (v2m : List K) : Except Fail (List K) :=
  match get_metrics_dim mesh.nverts v2m with
  | .error e => .error e
  | .ok metric_dim =>
    if mesh.dim = 3 ∧ metric_dim = 3 then get_expected_nelems_per_elem_tmpl N S 3 3 mesh v2m
    else if mesh.dim = 2 ∧ metric_dim = 2 then
      get_expected_nelems_per_elem_tmpl N S 2 2 mesh v2m
    else if mesh.dim = 3 ∧ metric_dim = 1 then
      get_expected_nelems_per_elem_tmpl N S 3 1 mesh v2m
    else if mesh.dim = 2 ∧ metric_dim = 1 then
      get_expected_nelems_per_elem_tmpl N S 2 1 mesh v2m
    else if mesh.dim = 1 then get_expected_nelems_per_elem_tmpl N S 1 1 mesh v2m
    else .error (.check 514)

/-- `metric_from_hessian<dim>` (lines 345-358). -/
def metric_from_hessian (N : Numerics K) {dim : Nat} (hessian : Matrix (Fin dim) (Fin dim) K)
    (eps : K) : Matrix (Fin dim) (Fin dim) K :=
  let ed := N.decompose_eigen dim hessian
  let r := ed.1
  let l := ed.2
  let c_num : K := (dim : K) * (dim : K)
  let c_denom : K := 2 * (((dim : K) + 1) * ((dim : K) + 1))
  let tilde_l : Fin dim → K := fun i => (c_num * |l i|) / (c_denom * eps)
  compose_eigen r tilde_l

/-- `metric_from_hessians_dim<dim>` (lines 360-372). -/
def metric_from_hessians_dim (N : Numerics K) (dim : Nat) (hessians : List K) (eps : K) :
    Except Fail (List K) :=
  let ncomps := symm_ncomps dim
  match divide_no_remainder (hessians.length : Int) (ncomps : Int) with
  | .error e => .error e
  | .ok n =>
    match Write_new (n * (ncomps : Int)) with
    | .error e => .error e
    | .ok out =>
      parallel_for n.toNat
        (symm_kernel dim (fun i =>
          match get_symm dim hessians i with
          | .error e => .error e
          | .ok hess => .ok (metric_from_hessian N hess eps))) out

/-- `get_hessian_metrics` (lines 374-380). -/
def get_hessian_metrics (N : Numerics K) (dim : Int) (hessians : List K) (eps : K) :
    Except Fail (List K) :=
  if ¬ (eps > 0) then .error (.check 375)
  else if dim = 3 then metric_from_hessians_dim N 3 hessians eps
  else if dim = 2 then metric_from_hessians_dim N 2 hessians eps
  else if dim = 1 then metric_from_hessians_dim N 1 hessians eps
  else .error (.check 379)

/-- `metric_from_gradient<dim>` (lines 382-393), on doubles: `square(eps)` can underflow
to zero, `l` can be not-a-number, and the comparison with `EPSILON` is then false.
The integer constants `c_num` and `c_denom` are converted exactly; `outer_product(dir,
dir) * l` multiplies every entry `dir[i] * dir[j]` by `l`. -/
def metric_from_gradient (N : Numerics K) {dim : Nat} (grad : Fin dim → Double K)
    (eps : Double K) : Matrix (Fin dim) (Fin dim) (Double K) :=
  let grad_norm_sq := N.norm_squared grad
  let c_num : Double K := .fin ((dim : K) * (dim : K))
  let c_denom : Double K := .fin ((2 * ((dim : K) + 1)) * (2 * ((dim : K) + 1)))
  let l := N.div (N.mul c_num grad_norm_sq) (N.mul c_denom (N.mul eps eps))
  if Double.lt l (.fin N.EPSILON) then fun _ _ => .fin 0
  else
    let grad_norm := N.std_sqrt grad_norm_sq
    let dir : Fin dim → Double K := fun i => N.div (grad i) grad_norm
    fun i j => N.mul (N.mul (dir i) (dir j)) l

/-- `metric_from_gradients_dim<dim>` (lines 395-406). -/
def metric_from_gradients_dim (N : Numerics K) (dim : Nat) (gradients : List (Double K))
    (eps : Double K) : Except Fail (List (Double K)) :=
  match divide_no_remainder (gradients.length : Int) (dim : Int) with
  | .error e => .error e
  | .ok n =>
    match Write_new (n * (symm_ncomps dim : Int)) with
    | .error e => .error e
    | .ok out =>
      parallel_for n.toNat
        (symm_kernel dim (fun i =>
          match get_vector dim gradients i with
          | .error e => .error e
          | .ok grad => .ok (metric_from_gradient N grad eps))) out

/-- `get_gradient_metrics` (lines 408-414). -/
def get_gradient_metrics (N : Numerics K) (dim : Int) (gradients : List (Double K))
    (eps : Double K) : Except Fail (List (Double K)) :=
  if ¬ (Double.lt (.fin 0) eps) then .error (.check 409)
  else if dim = 3 then metric_from_gradients_dim N 3 gradients eps
  else if dim = 2 then metric_from_gradients_dim N 2 gradients eps
  else if dim = 1 then metric_from_gradients_dim N 1 gradients eps
  else .error (.check 413)

/-- Modelled from the spec: the run-time `power(x, np, dp)` is declared in
`Omega_h_scalar.hpp`, which is not among the sources; `x` to the power `np / dp` for
`np` and `dp` in 1, 2, 3, through squares, cubes, `sqrt` and `cbrt`, and -1 for any
other exponent. -/
def power (N : Numerics K) (x : K) (np dp : Int) : K :=
  if np = 1 then
    if dp = 1 then x else if dp = 2 then N.sqrt x else if dp = 3 then N.cbrt x else -1
  else if np = 2 then
    if dp = 1 then x * x else if dp = 2 then x
    else if dp = 3 then N.cbrt x * N.cbrt x else -1
  else if np = 3 then
    if dp = 1 then x * x * x else if dp = 2 then N.sqrt x * N.sqrt x * N.sqrt x
    else if dp = 3 then x else -1
  else -1

/-- `get_metric_scalar_for_nelems(elem_dim, expected_nelems, target_nelems)`
(lines 523-528). -/
def get_metric_scalar_for_nelems (N : Numerics K) (elem_dim : Int)
    (expected_nelems target_nelems : K) : K :=
  let size_scal := target_nelems / expected_nelems
  let metric_scal := power N size_scal 2 elem_dim
  metric_scal

/-- `linearize_metrics_dim<dim>` (lines 106-115); `n` is the truncating quotient. -/
def linearize_metrics_dim (N : Numerics K) (dim : Nat) (metrics : List K) :
    Except Fail (List K) :=
  let n : Int := Int.tdiv (metrics.length : Int) (symm_ncomps dim : Int)
  match Write_new (n * (symm_ncomps dim : Int)) with
  | .error e => .error e
  | .ok out =>
    parallel_for n.toNat
      (symm_kernel dim (fun i =>
        match get_symm dim metrics i with
        | .error e => .error e
        | .ok m => .ok (linearize_metric N m))) out

/-- `delinearize_metrics_dim<dim>` (lines 117-126). -/
def delinearize_metrics_dim (N : Numerics K) (dim : Nat) (lms : List K) :
    Except Fail (List K) :=
  let n : Int := Int.tdiv (lms.length : Int) (symm_ncomps dim : Int)
  match Write_new (n * (symm_ncomps dim : Int)) with
  | .error e => .error e
  | .ok out =>
    parallel_for n.toNat
      (symm_kernel dim (fun i =>
        match get_symm dim lms i with
        | .error e => .error e
        | .ok m => .ok (delinearize_metric N m))) out

/-- `linearize_metrics` (lines 128-134). -/
def linearize_metrics (N : Numerics K) (nmetrics : Int) (metrics : List K) :
    Except Fail (List K) :=
  match get_metrics_dim nmetrics metrics with
  | .error e => .error e
  | .ok dim =>
    if dim = 3 then linearize_metrics_dim N 3 metrics
    else if dim = 2 then linearize_metrics_dim N 2 metrics
    else if dim = 1 then linearize_metrics_dim N 1 metrics
    else .error (.check 133)

/-- `delinearize_metrics` (lines 136-142). -/
def delinearize_metrics (N : Numerics K) (nmetrics : Int) (linear_metrics : List K) :
    Except Fail (List K) :=
  match get_metrics_dim nmetrics linear_metrics with
  | .error e => .error e
  | .ok dim =>
    if dim = 3 then delinearize_metrics_dim N 3 linear_metrics
    else if dim = 2 then delinearize_metrics_dim N 2 linear_metrics
    else if dim = 1 then delinearize_metrics_dim N 1 linear_metrics
    else .error (.check 141)

/-- Modelled from the spec: `interpolate_between(a, b, t)` is declared in
`Omega_h_array_ops.hpp`, which is not among the sources; it asserts equal sizes and
returns `a[i] * (1 - t) + b[i] * t` for every `i`.  Its assertion is reported as
line 0. -/
def interpolate_between (a b : List K) (t : K) : Except Fail (List K) :=
  if a.length = b.length then .ok (List.zipWith (fun x y => x * (1 - t) + y * t) a b)
  else .error (.check 0)

/-- `interpolate_between_metrics` (lines 99-104). -/
def interpolate_between_metrics (N : Numerics K) (nmetrics : Int) (a b : List K) (t : K) :
    Except Fail (List K) :=
  match linearize_metrics N nmetrics a with
  | .error e => .error e
  | .ok log_a =>
    match linearize_metrics N nmetrics b with
    | .error e => .error e
    | .ok log_b =>
      match interpolate_between log_a log_b t with
      | .error e => .error e
      | .ok log_c => delinearize_metrics N nmetrics log_c

/-! ## Concrete numerics and meshes for evaluating the metric model -/

/-- Numerical routines that are exact where the examples call them: square and cube
roots of 0, 1, 4 and 1, 8, logarithm and exponential at 0 and 1, and the
eigen-decomposition of a diagonal matrix (the identity as eigenvectors, the diagonal
as eigenvalues). -/
def toy_numerics : Numerics Rat :=
  { sqrt := fun x => if x = 4 then 2 else if x = 1 then 1 else 0
    cbrt := fun x => if x = 8 then 2 else if x = 1 then 1 else 0
    log := fun x => if x = 1 then 0 else 0
    exp := fun x => if x = 0 then 1 else 0
    EPSILON := 1 / 10000000000
    decompose_eigen := fun _ m => (1, fun i => m i i)
    round := Double.fin }

/-- The routines of `toy_numerics` with an arithmetic that is exact except at the ends of
the range of `double`: a result of magnitude below `2^-1075` (half the smallest
subnormal number) is stored as zero, and one above the largest finite double as an
infinity. -/
def ranged_numerics : Numerics Rat :=
  { toy_numerics with
    round := fun x =>
      if |x| < 1 / 2 ^ 1075 then Double.fin 0
      else if Real_max < |x| then Double.inf (decide (x < 0))
      else Double.fin x }

/-- A one-dimensional mesh of one edge between the vertices 0 (at `x = 0`) and 1 (at
`x = 1`) on a single process. -/
def line_mesh : Mesh Rat :=
  { dim := 1
    nverts := 2
    nents := fun d => if d = 0 then 2 else if d = 1 then 1 else 0
    coords := [0, 1]
    star_a2ab := [0, 1, 2]
    star_ab2b := [1, 0]
    ask_verts_of := fun d => if d = 1 then [0, 1] else []
    owners_have_all_upward := true
    sync_array := fun a _ => a
    reduce_and := fun b => b
    can_print := true }

/-- The owners of the four vertex copies of `split_line_mesh`. -/
def split_line_owner (v : Nat) : Nat := if v = 1 then 2 else if v = 3 then 0 else v

/-- The mesh `line_mesh` distributed over two processes, the copies of the two processes
side by side: the first process holds vertex 0, which it owns, and a copy of vertex 1
(copies 0 and 1); the second holds vertex 1, which it owns, and a copy of vertex 0
(copies 2 and 3).  Each process sees the one edge, and `sync_array` gives the copies 1
and 3 the components of their owners 2 and 0. -/
def split_line_mesh : Mesh Rat :=
  { dim := 1
    nverts := 4
    nents := fun d => if d = 0 then 4 else if d = 1 then 2 else 0
    coords := [0, 1, 1, 0]
    star_a2ab := [0, 1, 2, 3, 4]
    star_ab2b := [1, 0, 3, 2]
    ask_verts_of := fun d => if d = 1 then [0, 1, 3, 2] else []
    owners_have_all_upward := true
    sync_array := fun a ncomps =>
      ((List.range 4).map (fun v => block ncomps a (split_line_owner v))).flatten
    reduce_and := fun b => b
    can_print := true }

/-- The stars of the four vertex copies of `split_line_mesh`: the other end of the edge
on the same process. -/
def split_line_nbrs (v : Nat) : List Nat :=
  if v = 0 then [1] else if v = 1 then [0] else if v = 2 then [3] else [2]

/-- Two-dimensional metrics on the two vertices of `line_mesh`: `diag(1, 4)` and
`diag(9, 16)`, three components each. -/
def line_values_2d : List Rat := [1, 4, 0, 9, 16, 0]

/-- The eigenvalue `(c dim^2 |g|^2) / (c' (dim + 1)^2 eps^2)` with `c = 1`, `c' = 4`, as a
function of the squared gradient norm and the tolerance. -/
def gradient_eigenvalue (dim : Nat) (grad_norm_sq eps : K) : K :=
  (1 * (dim : K) ^ 2 * grad_norm_sq) / (4 * ((dim : K) + 1) ^ 2 * eps ^ 2)

/-- The eigenvalue `dim^2 |l| / (2 (dim + 1)^2 eps)` the Hessian-based metric assigns to
the Hessian eigenvalue `l`. -/
def hessian_eigenvalue (dim : Nat) (l eps : K) : K :=
  ((dim : K) ^ 2 * |l|) / (2 * ((dim : K) + 1) ^ 2 * eps)

/-- The quadratic form `x^T m x`. -/
def quadratic_form {dim : Nat} (m : Matrix (Fin dim) (Fin dim) K) (x : Fin dim → K) : K :=
  Matrix.dotProduct x (Matrix.mulVec m x)

/-- The metric `a` is positive definite: symmetric, with `x^T a x > 0` for every
`x ≠ 0`. -/
def positive_definite {dim : Nat} (a : Matrix (Fin dim) (Fin dim) K) : Prop :=
  a.transpose = a ∧ ∀ x : Fin dim → K, x ≠ 0 → 0 < quadratic_form a x

/-- The basis `intersect_metrics m1 m2` obtains from the eigen-solver. -/
def intersect_basis (N : Numerics K) {dim : Nat} (m1 m2 : Matrix (Fin dim) (Fin dim) K) :
    Matrix (Fin dim) (Fin dim) K :=
  (N.decompose_eigen dim (invert m1 * m2)).1

/-- The metric stored at entry `i` of an array of `dim`-dimensional metrics. -/
def metric_at (dim : Nat) (a : List K) (i : Nat) : Matrix (Fin dim) (Fin dim) K :=
  vector2symm dim (block (symm_ncomps dim) a i)

/-- The eigen-solver is exact at `m`: the eigenvector matrix `q` it returns is invertible
and `m q = q diag(l)` for the eigenvalues `l` it returns. -/
def decompose_eigen_exact (N : Numerics K) {dim : Nat} (m : Matrix (Fin dim) (Fin dim) K) :
    Prop :=
  (N.decompose_eigen dim m).1.det ≠ 0 ∧
    m * (N.decompose_eigen dim m).1 =
      (N.decompose_eigen dim m).1 * Matrix.diagonal (N.decompose_eigen dim m).2

/-- The point stored at entry `i` of an array of `dim`-component vectors. -/
def point_at (dim : Nat) (a : List K) (i : Nat) : Fin dim → K :=
  fun k => a.getD (i * dim + k.val) 0

/-- The lists `nbrs v` are the stars of the `n` vertices of the mesh: the offsets of
vertex `v` in `a2ab` delimit `(nbrs v).length` positions of `ab2b`, which hold the
vertices of `nbrs v`, all of them vertices of the mesh. -/
def is_star (mesh : Mesh K) (n : Nat) (nbrs : Nat → List Nat) : Prop :=
  ∀ v, v < n → ∃ first : Nat,
    mesh.star_a2ab[v]? = some (first : Int) ∧
    mesh.star_a2ab[v + 1]? = some ((first + (nbrs v).length : Nat) : Int) ∧
    ∀ k (hk : k < (nbrs v).length),
      mesh.star_ab2b[first + k]? = some (((nbrs v)[k] : Nat) : Int) ∧ (nbrs v)[k] < n

/-- Modelled from the spec: `Mesh::sync_array` belongs to the mesh class, which is not
among the sources; it gives every copy of a vertex the components that the copy of its
owner holds.  `owner v` is the copy that owns `v`; an owner owns itself, and on one
process every vertex is its own owner and the array is returned as it is. -/
def Mesh.synchronizes (mesh : Mesh K) (n : Nat) (owner : Nat → Nat) : Prop :=
  (∀ v, v < n → owner v < n ∧ owner (owner v) = owner v) ∧
  ∀ (a : List K) (ncomps : Nat), a.length = n * ncomps →
    (mesh.sync_array a ncomps).length = a.length ∧
    ∀ v, v < n → block ncomps (mesh.sync_array a ncomps) v = block ncomps a (owner v)

/-- What the code relies on of `comm()->reduce_and(b)`: it is a conjunction that `b` is
part of, so it is true only if `b` is.  (`reduce_and` is in `Omega_h_comm.cpp`: the
minimum of the contributions of all the processes.) -/
def Mesh.reduces (mesh : Mesh K) : Prop :=
  ∀ b : Bool, mesh.reduce_and b = true → b = true

/-- The metric of the neighbour `av` scaled by `1 / (1 + max_rate * d)^2`, where `d` is
the length of the edge from `v` to `av` measured in the metric of `av`. -/
def gradation_limiter (N : Numerics K) (mesh_dim metric_dim : Nat) (mesh : Mesh K)
    (values : List K) (max_rate : K) (v av : Nat) : Matrix (Fin metric_dim) (Fin metric_dim) K :=
  (1 / (1 + max_rate * N.sqrt (metric_product (metric_at metric_dim values av)
      (point_at mesh_dim mesh.coords av - point_at mesh_dim mesh.coords v))) ^ 2) •
    metric_at metric_dim values av

/-- The metric of `v` intersected, neighbour by neighbour, with the limiters of the
neighbours `nbrs`. -/
def limited_metric (N : Numerics K) (mesh_dim metric_dim : Nat) (mesh : Mesh K)
    (values : List K) (max_rate : K) (v : Nat) (nbrs : List Nat) :
    Matrix (Fin metric_dim) (Fin metric_dim) K :=
  (nbrs.map (gradation_limiter N mesh_dim metric_dim mesh values max_rate v)).foldl
    (intersect_metrics N) (metric_at metric_dim values v)

/-- The stars of the two vertices of `line_mesh`: each is the other's only neighbour. -/
def line_nbrs (v : Nat) : List Nat := if v = 0 then [1] else [0]

/-- The symmetric `2 × 2` matrix with diagonal `a` and off-diagonal `b`; its
eigenvectors are `(1, 1)` and `(1, -1)`, with the eigenvalues `a + b` and `a - b`. -/
def sk (a b : K) : Matrix (Fin 2) (Fin 2) K := Matrix.of ![![a, b], ![b, a]]

/-- An eigen-solver that is exact on the matrices `sk a b` (and on diagonal matrices in
the other dimensions). -/
def skew_eigen : (dim : Nat) → Matrix (Fin dim) (Fin dim) K →
    Matrix (Fin dim) (Fin dim) K × (Fin dim → K)
  | 2, m => (Matrix.of ![![1, 1], ![1, -1]], ![m 0 0 + m 0 1, m 0 0 - m 0 1])
  | _, m => (1, fun i => m i i)

/-- Numerical routines put together from given functions, in exact arithmetic (nothing
is rounded) and with `EPSILON = 1e-10`. -/
def numerics_of (sqrt cbrt log exp : K → K)
    (decompose_eigen : (dim : Nat) → Matrix (Fin dim) (Fin dim) K →
      Matrix (Fin dim) (Fin dim) K × (Fin dim → K)) : Numerics K :=
  { sqrt := sqrt
    cbrt := cbrt
    log := log
    exp := exp
    EPSILON := 1 / 10000000000
    decompose_eigen := decompose_eigen
    round := Double.fin }

/-- Numerical routines that are exact where the example on `kite_mesh` calls them: the
square roots of `1280^2`, `1440^2`, `816^2`, `880^2` and `960^2`, and the
eigen-decomposition of the matrices `sk a b`. -/
def skew_numerics : Numerics Rat :=
  { sqrt := fun x => if x = 1638400 then 1280 else if x = 2073600 then 1440
      else if x = 665856 then 816 else if x = 774400 then 880
      else if x = 921600 then 960 else 0
    cbrt := toy_numerics.cbrt
    log := toy_numerics.log
    exp := toy_numerics.exp
    EPSILON := 1 / 10000000000
    decompose_eigen := skew_eigen
    round := Double.fin }

/-- A two-dimensional mesh of the two triangles `(0, 1, 2)` and `(1, 3, 2)` on the
vertices `(0, 0)`, `(23, -7)`, `(-7, 23)`, `(16, 16)`, on a single process. -/
def kite_mesh : Mesh Rat :=
  { dim := 2
    nverts := 4
    nents := fun d => if d = 0 then 4 else if d = 1 then 5 else if d = 2 then 2 else 0
    coords := [0, 0, 23, -7, -7, 23, 16, 16]
    star_a2ab := [0, 2, 5, 8, 10]
    star_ab2b := [1, 2, 0, 2, 3, 0, 1, 3, 1, 2]
    ask_verts_of := fun d => if d = 2 then [0, 1, 2, 1, 3, 2]
      else if d = 1 then [0, 1, 0, 2, 1, 2, 1, 3, 2, 3] else []
    owners_have_all_upward := true
    sync_array := fun a _ => a
    reduce_and := fun b => b
    can_print := true }

/-- The stars of the vertices of `kite_mesh`. -/
def kite_nbrs (v : Nat) : List Nat :=
  if v = 0 then [1, 2] else if v = 1 then [0, 2, 3] else if v = 2 then [0, 1, 3] else [1, 2]

/-- A field of two-dimensional metrics on `kite_mesh`: `sk 4951 3799`, `sk 1576 424`,
`sk 1576 424` and the isotropic `sk 1152 0`. -/
def kite_values : List Rat :=
  [4951, 4951, 3799, 1576, 1576, 424, 1576, 1576, 424, 1152, 1152, 0]

/-- The field `kite_values` after one pass of gradation limiting at rate `1 / 1920`. -/
def kite_values_1 : List Rat :=
  [4951, 4951, 3799, 2151, 2151, 999, 2151, 2151, 999, 1152, 1152, 0]

/-- The field `kite_values` after two passes of gradation limiting at rate `1 / 1920`. -/
def kite_values_2 : List Rat :=
  [4951, 4951, 3799, 2151, 2151, 999, 2151, 2151, 999, 1276, 1276, 124]

/-- Numerical routines with a square root rounded down to an integer (0, 1, 2 or 3): it
is monotone, non-negative and exact at 0, 1, 4 and 9. -/
def step_numerics : Numerics Rat :=
  { sqrt := fun x => if x < 1 then 0 else if x < 4 then 1 else if x < 9 then 2 else 3
    cbrt := toy_numerics.cbrt
    log := toy_numerics.log
    exp := toy_numerics.exp
    EPSILON := 1 / 10000000000
    decompose_eigen := toy_numerics.decompose_eigen
    round := Double.fin }

/-- The value a one-component field `a` has at vertex `v`. -/
def value_at (a : List K) (v : Nat) : K := a.getD v 0

/-- The one-component limiter of the neighbour `j` for the vertex `v`:
`a[j] / (1 + max_rate * d)^2` with `d` the length of the edge in the metric `a[j]`. -/
def scalar_limiter (N : Numerics K) (mesh_dim : Nat) (mesh : Mesh K) (a : List K) (max_rate : K)
    (v j : Nat) : K :=
  gradation_limiter N mesh_dim 1 mesh a max_rate v j 0 0

/-! ## `Omega_h_comm.cpp`: reductions and graph communicators -/

/-- Modelled from the spec: the reduction operators `Omega_h_Op` are declared in
`Omega_h_c.h`, which is not among the sources. -/
inductive Omega_h_Op where
  | OMEGA_H_MIN
  | OMEGA_H_MAX
  | OMEGA_H_SUM
  deriving DecidableEq, Repr

/-- The binary operation `mpi_op(op)` stands for. -/
def Omega_h_Op.apply : Omega_h_Op → Int → Int → Int
  | .OMEGA_H_MIN, a, b => min a b
  | .OMEGA_H_MAX, a, b => max a b
  | .OMEGA_H_SUM, a, b => a + b

/-- The collective `MPI_Allreduce` of the MPI library on one value per member, as the
member contributing `x` observes it: `before` and `after` are the contributions of the
members of lower and higher rank, and every member receives the combination of all
contributions in rank order. -/
def MPI_Allreduce (op : Omega_h_Op) (before : List Int) (x : Int) (after : List Int) : Int :=
  match before ++ x :: after with
  | [] => x
  | y :: ys => ys.foldl op.apply y

/-- `Comm::allreduce`: the in-place collective in an MPI build, the argument itself in
a build without MPI. -/
def Comm.allreduce (use_mpi : Bool) (before after : List Int) (x : Int) (op : Omega_h_Op) : Int :=
  if use_mpi then MPI_Allreduce op before x after else x

/-- The conversion `I8 y = x` of a `bool`. -/
def I8_of_bool (x : Bool) : Int := if x then 1 else 0

/-- `Comm::reduce_or`; the other members call it with the booleans `before` and `after`. -/
def Comm.reduce_or (use_mpi : Bool) (before after : List Bool) (x : Bool) : Bool :=
  let y : Int := I8_of_bool x
  let y : Int := Comm.allreduce use_mpi (before.map I8_of_bool) (after.map I8_of_bool) y
    Omega_h_Op.OMEGA_H_MAX
  decide (y ≠ 0)

/-- `Comm::reduce_and`; the other members call it with the booleans `before` and `after`. -/
def Comm.reduce_and (use_mpi : Bool) (before after : List Bool) (x : Bool) : Bool :=
  let y : Int := I8_of_bool x
  let y : Int := Comm.allreduce use_mpi (before.map I8_of_bool) (after.map I8_of_bool) y
    Omega_h_Op.OMEGA_H_MIN
  decide (y ≠ 0)

/-- Modelled from the spec: `find_last` is declared in `Omega_h_array_ops.hpp`, which is
not among the sources; it returns the position of the last entry equal to `value`, or
`-1` when there is none. -/
def find_last (a : List Int) (value : Int) : Int :=
  match (List.range a.length).reverse.find? (fun i => a.getD i 0 == value) with
  | some i => (i : Int)
  | none => -1

/-- `Comm::Comm(library, impl)` of the MPI build, for a distributed-graph communicator
`impl` for which `MPI_Dist_graph_neighbors` reports `sources` and `destinations`. -/
def Comm.of_dist_graph (rank self_send_threshold : Int) (sources destinations : List Int) :
    Comm :=
  { rank := rank
    srcs_ := sources
    dsts_ := destinations
    self_src_ := find_last sources rank
    self_dst_ := find_last destinations rank
    self_send_threshold := self_send_threshold }

/-- `Comm::Comm(library, is_graph, sends_to_self)` of the build without MPI.  A
communicator that is not a graph has no neighbour arrays and its self positions are
not assigned; they are shown as empty lists and `-1`. -/
def Comm.serial (self_send_threshold : Int) (is_graph sends_to_self : Bool) :
    Except Fail Comm :=
  if is_graph then
    if sends_to_self then
      .ok { rank := 0, srcs_ := [0], dsts_ := [0], self_src_ := 0, self_dst_ := 0,
            self_send_threshold := self_send_threshold }
    else
      .ok { rank := 0, srcs_ := [], dsts_ := [], self_src_ := -1, self_dst_ := -1,
            self_send_threshold := self_send_threshold }
  else if sends_to_self then .error (Fail.check 60)
  else
    .ok { rank := 0, srcs_ := [], dsts_ := [], self_src_ := -1, self_dst_ := -1,
          self_send_threshold := self_send_threshold }

/-- `Comm::sources`. -/
def Comm.sources (c : Comm) : List Int := c.srcs_

/-- `Comm::destinations`. -/
def Comm.destinations (c : Comm) : List Int := c.dsts_

/-- `Comm::graph_adjacent`.  In an MPI build `MPI_Dist_graph_create_adjacent` is called
with `reorder = 0`; the MPI library then creates a communicator that reports the given
adjacency in the given order, from which the constructor reads it back.  Without MPI
the two lists must be equal. -/
def Comm.graph_adjacent (use_mpi : Bool) (c : Comm) (srcs dsts : List Int) :
    Except Fail Comm :=
  if use_mpi then .ok (Comm.of_dist_graph c.rank c.self_send_threshold srcs dsts)
  else if ¬ (srcs = dsts) then .error (Fail.check 145)
  else Comm.serial c.self_send_threshold true (dsts.length == 1)

/-- `Comm::graph_inverse`. -/
def Comm.graph_inverse (use_mpi : Bool) (c : Comm) : Except Fail Comm :=
  c.graph_adjacent use_mpi c.destinations c.sources

/-- The graph communicators a build can construct: in an MPI build the self positions
are the last occurrences of the own rank; without MPI the communicator is one of the
two the constructor makes. -/
def Comm.is_graph (use_mpi : Bool) (c : Comm) : Prop :=
  if use_mpi then c = Comm.of_dist_graph c.rank c.self_send_threshold c.srcs_ c.dsts_
  else Comm.serial c.self_send_threshold true true = .ok c ∨
    Comm.serial c.self_send_threshold true false = .ok c

/-! ## The passes of `limit_metric_gradation` -/

/-- The field after `k` passes of `limit_gradation_once`: `v_0 = values` and
`v_(k+1) = limit_gradation_once(v_k)`. -/
def gradation_iterate (N : Numerics K) (mesh : Mesh K) (max_rate : K) :
    Nat → List K → Except Fail (List K)
  | 0, v => .ok v
  | k + 1, v =>
    match limit_gradation_once N mesh v max_rate with
    | .error e => .error e
    | .ok v1 => gradation_iterate N mesh max_rate k v1

/-- One pass from `v` together with the stopping test on it: the limited field and the
AND-reduction of `are_close(v, limit_gradation_once(v), tol)`. -/
def gradation_pass (N : Numerics K) (mesh : Mesh K) (max_rate tol : K) (v : List K) :
    Except Fail (List K × Bool) :=
  match limit_gradation_once N mesh v max_rate with
  | .error e => .error e
  | .ok v1 =>
    match are_close N v v1 tol with
    | .error e => .error e
    | .ok close => .ok (v1, mesh.reduce_and close)

/-- Pass number `k + 1` is the first whose stopping test succeeds, and it produces `w`:
the test fails after each of the passes `1, ..., k` and succeeds on `v_k` and
`w = v_(k+1)`. -/
def first_stable (N : Numerics K) (mesh : Mesh K) (max_rate tol : K) (values : List K)
    (k : Nat) (w : List K) : Prop :=
  (∃ prev, gradation_iterate N mesh max_rate k values = .ok prev ∧
    gradation_pass N mesh max_rate tol prev = .ok (w, true)) ∧
  ∀ j, j < k → ∃ vj vj1, gradation_iterate N mesh max_rate j values = .ok vj ∧
    gradation_pass N mesh max_rate tol vj = .ok (vj1, false)

/-- The warnings of the passes `i0 + 1, ..., i0 + n` when printing is on: one for every
pass number above 40. -/
def gradation_warnings (i0 : Int) : Nat → List GradationMsg
  | 0 => []
  | n + 1 =>
    (if i0 + 1 > 40 then [GradationMsg.warning_up_to_step (i0 + 1)] else []) ++
      gradation_warnings (i0 + 1) n

/-- What a call that stops after `k + 1` passes prints: nothing unless it is verbose
and the mesh can print, else the warnings and the closing line. -/
def gradation_messages (printing : Bool) (k : Nat) : List GradationMsg :=
  if printing then gradation_warnings 0 (k + 1) ++ [GradationMsg.limited_in_steps ((k : Int) + 1)]
  else []

/-! ## Definitions used to state the properties of `adapt` -/

/-- Some adaptation target is unmet on `mesh`: the minimum fixable quality is below
`min_quality_desired`, or the minimum edge length is below `min_length_desired`, or the
maximum edge length is above `max_length_desired`. -/
def targets_unmet {M : Type} (ops : MeshOps M) (opts : AdaptOpts) (mesh : M) : Prop :=
  min_fixable_quality ops mesh opts < opts.min_quality_desired ∨
  get_min ops mesh (ops.ask_lengths mesh) < opts.min_length_desired ∨
  get_max ops mesh (ops.ask_lengths mesh) > opts.max_length_desired

/-- Every operator that is enabled in `opts` reports no change, on every mesh. -/
def operators_quiet {M : Type} (ops : MeshOps M) (opts : AdaptOpts) : Prop :=
  ∀ m : M,
    (opts.should_refine = true → (ops.refine_by_size m opts).2 = false) ∧
    (opts.should_coarsen = true → (ops.coarsen_by_size m opts).2 = false) ∧
    (opts.should_swap = true → (ops.swap_edges m opts).2 = false) ∧
    (opts.should_coarsen_slivers = true → (ops.coarsen_slivers m opts).2 = false) ∧
    (opts.should_move_for_quality = true → (ops.move_verts_for_quality m opts).2 = false)

/-- What of a `World` is not console output: the mesh and the calls made. -/
def World.core {M : Type} (w : World M) : M × List Call := (w.mesh, w.calls)

/-- Two option values agree in every field but `verbosity` and the four histogram
settings. -/
def AdaptOpts.same_control (a b : AdaptOpts) : Prop :=
  a.min_length_desired = b.min_length_desired ∧
  a.max_length_desired = b.max_length_desired ∧
  a.max_length_allowed = b.max_length_allowed ∧
  a.min_quality_allowed = b.min_quality_allowed ∧
  a.min_quality_desired = b.min_quality_desired ∧
  a.nsliver_layers = b.nsliver_layers ∧
  a.max_motion_steps = b.max_motion_steps ∧
  a.motion_step_size = b.motion_step_size ∧
  a.should_refine = b.should_refine ∧
  a.should_coarsen = b.should_coarsen ∧
  a.should_swap = b.should_swap ∧
  a.should_coarsen_slivers = b.should_coarsen_slivers ∧
  a.should_move_for_quality = b.should_move_for_quality ∧
  a.should_allow_pinching = b.should_allow_pinching ∧
  a.xfer_opts = b.xfer_opts

/-- The external operators return the same mesh and the same boolean for the two
option values. -/
def MeshOps.same_results {M : Type} (ops : MeshOps M) (a b : AdaptOpts) : Prop :=
  ∀ m : M,
    ops.refine_by_size m a = ops.refine_by_size m b ∧
    ops.coarsen_by_size m a = ops.coarsen_by_size m b ∧
    ops.swap_edges m a = ops.swap_edges m b ∧
    ops.coarsen_slivers m a = ops.coarsen_slivers m b ∧
    ops.move_verts_for_quality m a = ops.move_verts_for_quality m b ∧
    ops.setup_conservation_tags m a = ops.setup_conservation_tags m b ∧
    ops.correct_integral_errors m a = ops.correct_integral_errors m b

/-- What a caller of `adapt` can observe apart from console output: the failure, or the
boolean returned, the final mesh and the sequence of operator calls. -/
def adapt_observed {M : Type} (r : Except Fail (Bool × World M)) :
    Except Fail (Bool × M × List Call) :=
  match r with
  | .error e => .error e
  | .ok (b, w) => .ok (b, w.core)

/-! ## `Omega_h_metric.cpp`: isotropy -/

/-- Modelled from the spec: the enum `Omega_h_Isotropy` is declared in `Omega_h_c.h`,
which is not among the sources. -/
inductive Omega_h_Isotropy where
  | OMEGA_H_ANISOTROPIC
  | OMEGA_H_ISO_LENGTH
  | OMEGA_H_ISO_SIZE
  deriving DecidableEq, Repr

/-- The shape shared by the kernels that write one scalar per entry: `out[i]` receives
the value computed for `i`. -/
def scalar_kernel (g : Int → Except Fail K) (i : Nat) (out : List K) :
    Except Fail (List K) :=
  match g (i : Int) with
  | .error e => .error e
  | .ok r => Write_set out (i : Int) r

/-- `metrics_from_isos_dim<new_dim>` (lines 559-568); `diagonal(fill_vector(x))` is the
matrix with `x` on the diagonal. -/
def metrics_from_isos_dim (new_dim : Nat) (isos : List K) : Except Fail (List K) :=
  let n : Int := (isos.length : Int)
  match Write_new (n * (symm_ncomps new_dim : Int)) with
  | .error e => .error e
  | .ok new_symms =>
    parallel_for n.toNat
      (symm_kernel new_dim (fun i =>
        match Read_get isos i with
        | .error e => .error e
        | .ok x => .ok (Matrix.diagonal (fun _ => x)))) new_symms

/-- `metrics_from_isos` (lines 570-576). -/
def metrics_from_isos (new_dim : Int) (isos : List K) : Except Fail (List K) :=
  if new_dim = 1 then .ok isos
  else if new_dim = 2 then metrics_from_isos_dim 2 isos
  else if new_dim = 3 then metrics_from_isos_dim 3 isos
  else .error (.check 575)

/-- Modelled from the spec: the template `root<dim>(x)` is declared in
`Omega_h_scalar.hpp`, which is not among the sources; the `dim`-th root, instantiated
for `dim` in 1, 2, 3 as `x`, `sqrt(x)` and `cbrt(x)`. -/
def root (N : Numerics K) (dim : Nat) (x : K) : K :=
  match dim with
  | 2 => N.sqrt x
  | 3 => N.cbrt x
  | _ => x

/-- `get_size_isos_dim<dim>` (lines 578-588); `determinant` is the determinant of the
matrix. -/
def get_size_isos_dim (N : Numerics K) (dim : Nat) (metrics : List K) :
    Except Fail (List K) :=
  match divide_no_remainder (metrics.length : Int) (symm_ncomps dim : Int) with
  | .error e => .error e
  | .ok n =>
    match Write_new n with
    | .error e => .error e
    | .ok out =>
      parallel_for n.toNat
        (scalar_kernel (fun i =>
          match get_symm dim metrics i with
          | .error e => .error e
          | .ok m => .ok (root N dim m.det))) out

/-- `get_size_isos` (lines 590-600). -/
def get_size_isos (N : Numerics K) (dim : Int) (metrics : List K) : Except Fail (List K) :=
  if dim = 3 then get_size_isos_dim N 3 metrics
  else if dim = 2 then get_size_isos_dim N 2 metrics
  else if dim = 1 then get_size_isos_dim N 1 metrics
  else .error (.check 599)

/-- The largest entry of a non-empty list (0 for the empty list). -/
def max_of : List K → K
  | [] => 0
  | x :: xs => xs.foldl max x

/-- Modelled from the spec: the per-dimension worker of `get_max_eigenvalues`, which is
declared in `Omega_h_eigen.hpp` and not among the sources; entry `i` of the result is
the largest eigenvalue of metric `i`, the eigenvalues being those the eigen-solver
returns. -/
def get_max_eigenvalues_dim (N : Numerics K) (dim : Nat) (metrics : List K) :
    Except Fail (List K) :=
  match divide_no_remainder (metrics.length : Int) (symm_ncomps dim : Int) with
  | .error e => .error e
  | .ok n =>
    match Write_new n with
    | .error e => .error e
    | .ok out =>
      parallel_for n.toNat
        (scalar_kernel (fun i =>
          match get_symm dim metrics i with
          | .error e => .error e
          | .ok m => .ok (max_of (List.ofFn (N.decompose_eigen dim m).2)))) out

/-- Modelled from the spec: `get_max_eigenvalues(dim, metrics)` is declared in
`Omega_h_eigen.hpp`, which is not among the sources; it dispatches on `dim` in 1, 2, 3
and fails for any other dimension (reported as line 0). -/
def get_max_eigenvalues (N : Numerics K) (dim : Int) (metrics : List K) :
    Except Fail (List K) :=
  if dim = 3 then get_max_eigenvalues_dim N 3 metrics
  else if dim = 2 then get_max_eigenvalues_dim N 2 metrics
  else if dim = 1 then get_max_eigenvalues_dim N 1 metrics
  else .error (.check 0)

/-- `apply_isotropy` (lines 602-613); the dimension is computed before the switch. -/
def apply_isotropy (N : Numerics K) (nmetrics : Int) (metrics : List K)
    (isotropy : Omega_h_Isotropy) : Except Fail (List K) :=
  match get_metrics_dim nmetrics metrics with
  | .error e => .error e
  | .ok dim =>
    match isotropy with
    | .OMEGA_H_ANISOTROPIC => .ok metrics
    | .OMEGA_H_ISO_LENGTH => get_max_eigenvalues N dim metrics
    | .OMEGA_H_ISO_SIZE => get_size_isos N dim metrics

/-! ## `Omega_h_proximity.cpp`

Vectors are functions `Fin dim → Rat`.  The entity dimensions, the vector helpers and the
simplex templates are declared in headers that are not among the sources. -/

/-- The entity dimension `VERT`. -/
def VERT : Int := 0

/-- The entity dimension `EDGE`. -/
def EDGE : Int := 1

/-- The entity dimension `TRI`. -/
def TRI : Int := 2

/-- The entity dimension `TET`. -/
def TET : Int := 3

/-- Modelled from the spec: `cross` is declared in `Omega_h_vector.hpp`, which is not
among the sources; the cross product of two 3-vectors. -/
def cross (a b : Fin 3 → Rat) : Fin 3 → Rat :=
  ![a 1 * b 2 - a 2 * b 1, a 2 * b 0 - a 0 * b 2, a 0 * b 1 - a 1 * b 0]

/-- Modelled from the spec: `norm_squared` is declared in `Omega_h_vector.hpp`, which is
not among the sources; the dot product of a vector with itself. -/
def norm_squared {dim : Nat} (v : Fin dim → Rat) : Rat := Matrix.dotProduct v v

/-- Modelled from the spec: `norm` is declared in `Omega_h_vector.hpp`, which is not
among the sources; the square root of `norm_squared`. -/
def vector_norm (N : Numerics Rat) {dim : Nat} (v : Fin dim → Rat) : Rat := N.sqrt (norm_squared v)

/-- Modelled from the spec: `normalize` is declared in `Omega_h_vector.hpp`, which is not
among the sources; the vector divided by its norm. -/
def normalize (N : Numerics Rat) {dim : Nat} (v : Fin dim → Rat) : Fin dim → Rat :=
  fun k => v k / vector_norm N v

/-- Modelled from the spec: `get_triangle_normal(a, b, c)` is declared in
`Omega_h_shape.hpp`, which is not among the sources; `cross(b - a, c - a)`. -/
def get_triangle_normal (a b c : Fin 3 → Rat) : Fin 3 → Rat := cross (b - a) (c - a)

/-- Modelled from the spec: `gather_vectors<n, dim>(coords, verts)` is declared in a
header that is not among the sources; the points of the vertices `verts`. -/
def gather_vectors (dim : Nat) (coords : List Rat) (verts : List Int) :
    Except Fail (List (Fin dim → Rat)) :=
  verts.mapM (fun v => get_vector dim coords v)

/-- Modelled from the spec: `gather_scalars<n>(a, idx)` is declared in a header that is
not among the sources; the entries of `a` at the positions `idx`. -/
def gather_scalars (a : List Int) (idx : List Int) : Except Fail (List Int) :=
  idx.mapM (fun i => Read_get a i)

/-- `Write<Real>(size, value)`: a fresh array filled with `value`. -/
def Write_filled (size : Int) (value : Rat) : Except Fail (List Rat) :=
  if 0 ≤ size then .ok (List.replicate size.toNat value) else .error Fail.bad_alloc

/-- The simplex templates of `Omega_h_simplex.hpp` and the barycentric test of
`Omega_h_confined.hpp`, neither of which is among the sources.
`up_template` returns the pair `(up, which_down)`; `barycentric_inside ab ac ad` stands
for `is_barycentric_inside(form_barycentric(pseudo_invert([ab, ac]) * ad))`. -/
structure PadRoutines where
  opposite_template : Int → Int → Int → Int
  down_template : Int → Int → Int → Int → Int
  up_template : Int → Int → Int → Int → Int × Int
  barycentric_inside : (Fin 3 → Rat) → (Fin 3 → Rat) → (Fin 3 → Rat) → Bool

/-- The kernel of `get_edge_pad_isos<dim>` (lines 18-24). -/
def get_edge_pad_isos_kernel (N : Numerics Rat) (dim : Nat) (mesh : Mesh Rat) (factor : Rat)
    (edges_are_bridges : List Int) (edge : Nat) (out : List Rat) : Except Fail (List Rat) :=
  match Read_get edges_are_bridges (edge : Int) with
  | .error e => .error e
  | .ok b =>
    if b = 0 then .ok out
    else
      match gather_verts 2 (mesh.ask_verts_of EDGE) (edge : Int) with
      | .error e => .error e
      | .ok eev2v =>
        match gather_vectors dim mesh.coords eev2v with
        | .error e => .error e
        | .ok eev2x =>
          let h := vector_norm N (eev2x.getD 1 0 - eev2x.getD 0 0) * factor
          Write_set out (edge : Int) (metric_eigenvalue_from_length h)

/-- `get_edge_pad_isos<dim>` (lines 12-27); `nedges()` is `nents(EDGE)`. -/
def get_edge_pad_isos (N : Numerics Rat) (dim : Nat) (mesh : Mesh Rat) (factor : Rat)
    (edges_are_bridges : List Int) : Except Fail (List Rat) :=
  match Write_filled (mesh.nents EDGE) 0 with
  | .error e => .error e
  | .ok out =>
    parallel_for (mesh.nents EDGE).toNat
      (get_edge_pad_isos_kernel N dim mesh factor edges_are_bridges) out

/-- One round of the loop over `ttv` in the kernel of `get_tri_pad_isos<dim>`
(lines 41-55). -/
def get_tri_pad_isos_vert (N : Numerics Rat) {dim : Nat} (factor : Rat)
    (ttv2x : List (Fin dim → Rat)) (tte2b : List Int) (tri : Nat) (ttv : Nat)
    (out : List Rat) : Except Fail (List Rat) :=
  if ¬ (tte2b.getD ((ttv + 0) % 3) 0 ≠ 0 ∧ tte2b.getD ((ttv + 2) % 3) 0 ≠ 0) then .ok out
  else
    let o := ttv2x.getD ttv 0
    let a := ttv2x.getD ((ttv + 1) % 3) 0
    let b := ttv2x.getD ((ttv + 2) % 3) 0
    let oa := a - o
    let ab := b - a
    let nabsq := norm_squared ab
    let proj : Fin dim → Rat := fun k => ab k * (Matrix.dotProduct ab oa / nabsq)
    let d := oa - proj
    let lambda := (Matrix.dotProduct ab d - Matrix.dotProduct ab oa) / nabsq
    if ¬ (0 ≤ lambda ∧ lambda ≤ 1) then .ok out
    else
      let h := vector_norm N d * factor
      Write_set out (tri : Int) (metric_eigenvalue_from_length h)

/-- The kernel of `get_tri_pad_isos<dim>` (lines 36-56). -/
def get_tri_pad_isos_kernel (N : Numerics Rat) (dim : Nat) (mesh : Mesh Rat)
    (ask_down : Int → Int → List Int) (factor : Rat) (edges_are_bridges : List Int)
    (tri : Nat) (out : List Rat) : Except Fail (List Rat) :=
  match gather_verts 3 (mesh.ask_verts_of TRI) (tri : Int) with
  | .error e => .error e
  | .ok ttv2v =>
    match gather_vectors dim mesh.coords ttv2v with
    | .error e => .error e
    | .ok ttv2x =>
      match gather_verts 3 (ask_down TRI EDGE) (tri : Int) with
      | .error e => .error e
      | .ok tte2e =>
        match gather_scalars edges_are_bridges tte2e with
        | .error e => .error e
        | .ok tte2b =>
          parallel_for 3 (get_tri_pad_isos_vert N factor ttv2x tte2b tri) out

/-- `get_tri_pad_isos<dim>` (lines 29-59); `ask_down hi lo` is `ask_down(hi, lo).ab2b`,
which the record `Mesh` does not carry, and `ntris()` is `nents(TRI)`. -/
def get_tri_pad_isos (N : Numerics Rat) (dim : Nat) (mesh : Mesh Rat)
    (ask_down : Int → Int → List Int) (factor : Rat) (edges_are_bridges : List Int) :
    Except Fail (List Rat) :=
  match Write_filled (mesh.nents TRI) 0 with
  | .error e => .error e
  | .ok out =>
    parallel_for (mesh.nents TRI).toNat
      (get_tri_pad_isos_kernel N dim mesh ask_down factor edges_are_bridges) out

/-- The body of the edge-edge part of the kernel of `get_tet_pad_isos` once two opposite
edges `ab` and `cd` without bridge marks are found (lines 84-100): `some v` when it
reaches `out[tet] = v; return`, `none` when it leaves the loop by `break`. -/
def get_tet_edge_edge_gap (N : Numerics Rat) (a b c d : Fin 3 → Rat) : Option Rat :=
  let ab := b - a
  let cd := d - c
  let n := normalize N (cross ab cd)
  let h := Matrix.dotProduct (a - c) n
  let a1 : Fin 3 → Rat := fun k => a k - n k * Matrix.dotProduct n a
  let b1 : Fin 3 → Rat := fun k => b k - n k * Matrix.dotProduct n b
  let c1 : Fin 3 → Rat := fun k => c k - n k * Matrix.dotProduct n c
  let d1 : Fin 3 → Rat := fun k => d k - n k * Matrix.dotProduct n d
  if ¬ (Matrix.dotProduct (get_triangle_normal a1 b1 c1) (get_triangle_normal a1 b1 d1) < 0 ∧
      Matrix.dotProduct (get_triangle_normal c1 d1 a1) (get_triangle_normal c1 d1 b1) < 0)
  then none
  else some (metric_eigenvalue_from_length h)

/-- The loop over `tte` of the edge-edge part of the kernel of `get_tet_pad_isos`
(lines 75-101), for the remaining values of `tte`: `some v` when the loop reaches
`out[tet] = v; return`, `none` when it ends by `break` or runs out. -/
def get_tet_edge_edge (R : PadRoutines) (N : Numerics Rat) (ttv2x : List (Fin 3 → Rat))
    (tte2b : List Int) : List Int → Option Rat
  | [] => none
  | tte :: rest =>
    if tte2b.getD tte.toNat 0 ≠ 0 then get_tet_edge_edge R N ttv2x tte2b rest
    else
      let opp := R.opposite_template TET EDGE tte
      if tte2b.getD opp.toNat 0 ≠ 0 then get_tet_edge_edge R N ttv2x tte2b rest
      else
        get_tet_edge_edge_gap N
          (ttv2x.getD (R.down_template TET EDGE tte 0).toNat 0)
          (ttv2x.getD (R.down_template TET EDGE tte 1).toNat 0)
          (ttv2x.getD (R.down_template TET EDGE opp 0).toNat 0)
          (ttv2x.getD (R.down_template TET EDGE opp 1).toNat 0)

/-- One round of the loop over `ttv` of the vertex-plane part of the kernel of
`get_tet_pad_isos` (lines 104-139); the state is `l`. -/
def get_tet_vertex_plane (R : PadRoutines) (N : Numerics Rat) (factor : Rat)
    (ttv2x : List (Fin 3 → Rat)) (tte2b : List Int) (l : Rat) (ttv : Nat) : Rat :=
  let vve2tte : Nat → Int := fun vve => (R.up_template TET VERT (ttv : Int) (vve : Int)).1
  let vve2wd : Nat → Int := fun vve => (R.up_template TET VERT (ttv : Int) (vve : Int)).2
  let vve2b : Nat → Int := fun vve => tte2b.getD (vve2tte vve).toNat 0
  if vve2b 0 + vve2b 1 + vve2b 2 ≠ 3 then l
  else
    let o := ttv2x.getD ttv 0
    let vve2ttv : Nat → Int := fun vve =>
      R.down_template TET EDGE (vve2tte vve) (1 - vve2wd vve)
    let a := ttv2x.getD (vve2ttv 0).toNat 0
    let b := ttv2x.getD (vve2ttv 1).toNat 0
    let c := ttv2x.getD (vve2ttv 2).toNat 0
    let ab := b - a
    let ac := c - a
    let n := normalize N (cross ab ac)
    let oa := a - o
    let od : Fin 3 → Rat := fun k => n k * Matrix.dotProduct n oa
    let ad := od - oa
    if ¬ R.barycentric_inside ab ac ad then l
    else
      let h := vector_norm N od * factor
      max l (metric_eigenvalue_from_length h)

/-- The kernel of `get_tet_pad_isos` (lines 67-141). -/
def get_tet_pad_isos_kernel (R : PadRoutines) (N : Numerics Rat) (mesh : Mesh Rat)
    (ask_down : Int → Int → List Int) (factor : Rat) (edges_are_bridges : List Int)
    (tet : Nat) (out : List Rat) : Except Fail (List Rat) :=
  match gather_verts 4 (mesh.ask_verts_of TET) (tet : Int) with
  | .error e => .error e
  | .ok ttv2v =>
    match gather_vectors 3 mesh.coords ttv2v with
    | .error e => .error e
    | .ok ttv2x =>
      match gather_verts 6 (ask_down TET EDGE) (tet : Int) with
      | .error e => .error e
      | .ok tte2e =>
        match gather_scalars edges_are_bridges tte2e with
        | .error e => .error e
        | .ok tte2b =>
          let nb := tte2b.sum
          if nb = 0 then .ok out
          else
            match (if nb = 4 then get_tet_edge_edge R N ttv2x tte2b [0, 1, 2] else none) with
            | some v => Write_set out (tet : Int) v
            | none =>
              Write_set out (tet : Int)
                ((List.range 4).foldl (get_tet_vertex_plane R N factor ttv2x tte2b) 0)

/-- `get_tet_pad_isos` (lines 61-144); `ntets()` is `nents(TET)`. -/
def get_tet_pad_isos (R : PadRoutines) (N : Numerics Rat) (mesh : Mesh Rat)
    (ask_down : Int → Int → List Int) (factor : Rat) (edges_are_bridges : List Int) :
    Except Fail (List Rat) :=
  match Write_filled (mesh.nents TET) 0 with
  | .error e => .error e
  | .ok out =>
    parallel_for (mesh.nents TET).toNat
      (get_tet_pad_isos_kernel R N mesh ask_down factor edges_are_bridges) out

/-- `get_pad_isos` (lines 146-162). -/
def get_pad_isos (R : PadRoutines) (N : Numerics Rat) (mesh : Mesh Rat)
    (ask_down : Int → Int → List Int) (pad_dim : Int) (factor : Rat)
    (edges_are_bridges : List Int) : Except Fail (List Rat) :=
  if pad_dim = EDGE then
    if mesh.dim = 3 then get_edge_pad_isos N 3 mesh factor edges_are_bridges
    else if mesh.dim = 2 then get_edge_pad_isos N 2 mesh factor edges_are_bridges
    else .error (.check 161)
  else if pad_dim = TRI then
    if mesh.dim = 3 then get_tri_pad_isos N 3 mesh ask_down factor edges_are_bridges
    else if mesh.dim = 2 then get_tri_pad_isos N 2 mesh ask_down factor edges_are_bridges
    else .error (.check 161)
  else if pad_dim = TET then get_tet_pad_isos R N mesh ask_down factor edges_are_bridges
  else .error (.check 161)

/-- The entries of the simplex templates for the edges of a tetrahedron: edge `e` joins
the vertices `down_template(TET, EDGE, e, 0)` and `down_template(TET, EDGE, e, 1)`, the
edges are `01, 12, 20, 03, 13, 23`, opposite edges share no vertex, and the three edges
at a vertex are listed with the position of the vertex in each.  The barycentric test
is computed exactly. -/
def tet_routines : PadRoutines :=
  { opposite_template := fun _ _ e =>
      if e = 0 then 5 else if e = 1 then 3 else if e = 2 then 4
      else if e = 3 then 1 else if e = 4 then 2 else 0
    down_template := fun _ _ e w =>
      if e = 0 then (if w = 0 then 0 else 1)
      else if e = 1 then (if w = 0 then 1 else 2)
      else if e = 2 then (if w = 0 then 2 else 0)
      else if e = 3 then (if w = 0 then 0 else 3)
      else if e = 4 then (if w = 0 then 1 else 3)
      else (if w = 0 then 2 else 3)
    up_template := fun _ _ v k =>
      if v = 0 then (if k = 0 then (0, 0) else if k = 1 then (2, 1) else (3, 0))
      else if v = 1 then (if k = 0 then (1, 0) else if k = 1 then (0, 1) else (4, 0))
      else if v = 2 then (if k = 0 then (2, 0) else if k = 1 then (1, 1) else (5, 0))
      else (if k = 0 then (5, 1) else if k = 1 then (4, 1) else (3, 1))
    barycentric_inside := fun ab ac ad =>
      let g11 := Matrix.dotProduct ab ab
      let g12 := Matrix.dotProduct ab ac
      let g22 := Matrix.dotProduct ac ac
      let r1 := Matrix.dotProduct ab ad
      let r2 := Matrix.dotProduct ac ad
      let det := g11 * g22 - g12 * g12
      let x1 := (g22 * r1 - g12 * r2) / det
      let x2 := (g11 * r2 - g12 * r1) / det
      decide (0 ≤ x1 ∧ 0 ≤ x2 ∧ 0 ≤ 1 - x1 - x2) }

/-- A mesh of one tetrahedron whose edges `01` and `23` lie at distance 1 from each
other and cross at right angles when seen along their common normal: the vertices are
`(0, 0, 0)`, `(1, 0, 0)`, `(1/2, -1/2, 1)` and `(1/2, 1/2, 1)`. -/
def gap_tet : Mesh Rat :=
  { dim := 3
    nverts := 4
    nents := fun d => if d = 0 then 4 else if d = 1 then 6 else if d = 2 then 4
      else if d = 3 then 1 else 0
    coords := [0, 0, 0, 1, 0, 0, 1 / 2, -1 / 2, 1, 1 / 2, 1 / 2, 1]
    star_a2ab := [0, 3, 6, 9, 12]
    star_ab2b := [1, 2, 3, 0, 2, 3, 0, 1, 3, 0, 1, 2]
    ask_verts_of := fun d => if d = 3 then [0, 1, 2, 3]
      else if d = 1 then [0, 1, 1, 2, 2, 0, 0, 3, 1, 3, 2, 3] else []
    owners_have_all_upward := true
    sync_array := fun a _ => a
    reduce_and := fun b => b
    can_print := true }

/-- The downward adjacencies of `gap_tet` from the tetrahedron to its six edges. -/
def gap_tet_down : Int → Int → List Int :=
  fun hi lo => if hi = 3 ∧ lo = 1 then [0, 1, 2, 3, 4, 5] else []

/-- The four edges of `gap_tet` other than `01` and `23` are bridges. -/
def gap_tet_bridges : List Int := [0, 1, 1, 1, 1, 0]

/-! ## `Omega_h_comm.cpp`: the point-to-point neighbourhood collectives

With `MPI_VERSION < 3` the three `Neighbor_*` functions are sequences of MPI calls, each
wrapped in `CALL`, which aborts when the call does not return `MPI_SUCCESS`.  A run is
the list of calls issued so far together with the failure that ended it, if any.
Offsets into the buffers are byte offsets; they are computed in `int`, and products
outside the range of `int` are undefined in C and not modelled. -/

/-- The communication calls the fallbacks issue: `MPI_Irecv` and `MPI_Isend` with the
byte offset into the buffer, the count, the peer, the tag and the index of the request
slot; `MPI_Barrier`; and `MPI_Waitall` on the `n` send or receive requests. -/
inductive MpiOp where
  | Irecv (offset count source tag request : Int)
  | Barrier
  | Isend (offset count destination tag request : Int)
  | Waitall_sendreqs (n : Int)
  | Waitall_recvreqs (n : Int)
  deriving DecidableEq, Repr

/-- The calls issued so far, and the failed assertion if the run has been aborted. -/
abbrev MpiRun := List MpiOp × Option Fail

/-- `CALL(f)` at source line `line`: nothing happens after an abort; otherwise the call
is issued, and the run is aborted if the library (`mpi`) does not report success. -/
def CALL (mpi : MpiOp → Bool) (line : Nat) (op : MpiOp) (r : MpiRun) : MpiRun :=
  match r.2 with
  | some _ => r
  | none => (r.1 ++ [op], if mpi op then none else some (Fail.check line))

/-- The loop `for (int i = 0; i < n; ++i) body(i)`. -/
def for_int (n : Nat) (body : Nat → MpiRun → MpiRun) (r : MpiRun) : MpiRun :=
  (List.range n).foldl (fun r i => body i r) r

/-- `Neighbor_allgather` with `MPI_VERSION < 3` (lines 245-263); `type_size` is what
`MPI_Type_size(sendtype)` yields, `none` if that call fails. -/
def Neighbor_allgather_fallback (mpi : MpiOp → Bool) (type_size : Option Int)
    (sources destinations : List Int) (sendcount recvcount : Int) : MpiRun :=
  let tag : Int := 42
  let indegree := sources.length
  let outdegree := destinations.length
  match type_size with
  | none => ([], some (Fail.check 250))
  | some recvwidth =>
    let r := for_int indegree (fun i r =>
      CALL mpi 254 (MpiOp.Irecv ((i : Int) * recvwidth) recvcount (sources.getD i 0) tag i) r)
      ([], none)
    let r := CALL mpi 256 MpiOp.Barrier r
    let r := for_int outdegree (fun i r =>
      CALL mpi 258 (MpiOp.Isend 0 sendcount (destinations.getD i 0) tag i) r) r
    let r := CALL mpi 260 (MpiOp.Waitall_sendreqs outdegree) r
    let r := CALL mpi 262 (MpiOp.Waitall_recvreqs indegree) r
    r

/-- `Neighbor_alltoall` with `MPI_VERSION < 3` (lines 282-302); both widths are the size
of `sendtype`. -/
def Neighbor_alltoall_fallback (mpi : MpiOp → Bool) (type_size : Option Int)
    (sources destinations : List Int) (sendcount recvcount : Int) : MpiRun :=
  let tag : Int := 42
  let indegree := sources.length
  let outdegree := destinations.length
  match type_size with
  | none => ([], some (Fail.check 287))
  | some sendwidth =>
    let recvwidth := sendwidth
    let r := for_int indegree (fun i r =>
      CALL mpi 293 (MpiOp.Irecv ((i : Int) * recvwidth) recvcount (sources.getD i 0) tag i) r)
      ([], none)
    let r := CALL mpi 295 MpiOp.Barrier r
    let r := for_int outdegree (fun i r =>
      CALL mpi 297 (MpiOp.Isend ((i : Int) * sendwidth) sendcount (destinations.getD i 0) tag i)
        r) r
    let r := CALL mpi 299 (MpiOp.Waitall_sendreqs outdegree) r
    let r := CALL mpi 301 (MpiOp.Waitall_recvreqs indegree) r
    r

/-- `Neighbor_alltoallv` with `MPI_VERSION < 3` (lines 322-342); both widths are the
size of `sendtype`. -/
def Neighbor_alltoallv_fallback (mpi : MpiOp → Bool) (type_size : Option Int)
    (sources destinations : List Int) (sendcounts sdispls recvcounts rdispls : List Int) :
    MpiRun :=
  let tag : Int := 42
  let indegree := sources.length
  let outdegree := destinations.length
  match type_size with
  | none => ([], some (Fail.check 327))
  | some sendwidth =>
    let recvwidth := sendwidth
    let r := for_int indegree (fun i r =>
      CALL mpi 333 (MpiOp.Irecv (rdispls.getD i 0 * recvwidth) (recvcounts.getD i 0)
        (sources.getD i 0) tag i) r) ([], none)
    let r := CALL mpi 335 MpiOp.Barrier r
    let r := for_int outdegree (fun i r =>
      CALL mpi 337 (MpiOp.Isend (sdispls.getD i 0 * sendwidth) (sendcounts.getD i 0)
        (destinations.getD i 0) tag i) r) r
    let r := CALL mpi 339 (MpiOp.Waitall_sendreqs outdegree) r
    let r := CALL mpi 341 (MpiOp.Waitall_recvreqs indegree) r
    r

/-- The run `r` follows a script split as `done ++ todo`: either it has issued exactly
`done` and is not aborted, or it was aborted after issuing a prefix of the script. -/
def MpiRun.follows (r : MpiRun) (done todo : List MpiOp) : Prop :=
  (r.2 = none ∧ r.1 = done) ∨ (r.2 ≠ none ∧ r.1 <+: done ++ todo)

/-- The sequence the claim describes: one receive per source, one barrier, one send per
destination, the wait on the sends, the wait on the receives. -/
def p2p_script (indegree outdegree : Nat) (recv send : Nat → MpiOp) : List MpiOp :=
  (List.range indegree).map recv ++ [MpiOp.Barrier] ++ (List.range outdegree).map send ++
    [MpiOp.Waitall_sendreqs outdegree, MpiOp.Waitall_recvreqs indegree]

/-- Whether a call is an `MPI_Isend`. -/
def MpiOp.is_send : MpiOp → Bool
  | .Isend _ _ _ _ _ => true
  | _ => false

/-- What the claim says of a run, with `recv i` and `send i` the receive and the send
for neighbour `i`: the calls issued are a prefix of the script (all of it when they all
succeed, and then the run is not aborted), and whenever a send has been issued, all the
receives and then the barrier were issued before it. -/
def MpiRun.obeys (r : MpiRun) (all_succeed : Prop) (indegree outdegree : Nat)
    (recv send : Nat → MpiOp) : Prop :=
  r.1 <+: p2p_script indegree outdegree recv send ∧
  (all_succeed → r = (p2p_script indegree outdegree recv send, none)) ∧
  ∀ j op, r.1[j]? = some op → op.is_send = true →
    j > indegree ∧ r.1.take (indegree + 1) = (List.range indegree).map recv ++ [MpiOp.Barrier]

/-! ## `Omega_h_motion_choices.cpp`

The mesh queries, the packed solution and the geometric routines the kernel calls are
declared in headers that are not among the sources; they are the fields of the records
below.  Indices are `Int` and every array access outside its array is a failure. -/

/-- The result of `pack_linearized_fields`: the packed per-vertex solution, its number of
components per vertex and the offsets of the coordinates and of the linearized metric
inside one vertex block. -/
structure LinearPack where
  data : List Rat
  ncomps : Int
  coords_offset : Int
  metric_offset : Int

/-- An upward adjacency `ask_up(lo, hi)`: offsets, entries and codes. -/
structure Adj where
  a2ab : List Int
  ab2b : List Int
  codes : List Int

/-- What `motion_choices_tmpl` reads from the mesh: `dim()`, `get_metric_dim(mesh)`,
`coords()`, the `metric` array, `ask_up(VERT, EDGE)`, `ask_verts_of(EDGE)`,
`ask_up(VERT, dim)`, `ask_verts_of(dim)`, the two `class_dim` arrays, `ask_qualities()`
and `pack_linearized_fields(mesh, xfer_opts)`. -/
structure MotionMesh where
  dim : Int
  metric_dim : Int
  coords : List Rat
  metrics : List Rat
  v2e : Adj
  ev2v : List Int
  v2k : Adj
  kv2v : List Int
  verts2dim : List Int
  edges2dim : List Int
  elems2old_qual : List Rat
  pack_linearized_fields : TransferOpts → LinearPack

/-- The routines of `Omega_h_quality.hpp`, `Omega_h_shape.hpp` and `Omega_h_adj.hpp`
the kernel calls, none of which is among the sources. -/
structure MotionRoutines (mesh_dim metric_dim : Nat) where
  code_which_down : Int → Int
  metric_edge_length : List (Fin mesh_dim → Rat) →
    List (Matrix (Fin metric_dim) (Fin metric_dim) Rat) → Rat
  maxdet_metric : List (Matrix (Fin metric_dim) (Fin metric_dim) Rat) →
    Matrix (Fin metric_dim) (Fin metric_dim) Rat
  metric_element_quality : List (Fin mesh_dim → Rat) →
    Matrix (Fin metric_dim) (Fin metric_dim) Rat → Rat

/-- The value `MotionChoices` that `get_motion_choices` returns. -/
structure MotionChoices where
  did_move : List Int
  qualities : List Rat
  new_sol : List Rat
  deriving DecidableEq, Repr

/-- Modelled from the spec: `unmap_graph` and `graph_reduce` are declared in
`Omega_h_map.hpp` and `Omega_h_graph.hpp`, which are not among the sources;
`graph_reduce(unmap_graph(cands2verts, v2k), elems2old_qual, 1, OMEGA_H_MIN)` is, for
every candidate, the least old quality among the elements adjacent to its vertex
(starting from `ArithTraits<Real>::max()`). -/
def cands2old_qual (mesh : MotionMesh) (cands2verts : List Int) : List Rat :=
  cands2verts.map (fun v =>
    let a := mesh.v2k.a2ab.getD v.toNat 0
    let b := mesh.v2k.a2ab.getD (v.toNat + 1) 0
    ((List.range (b - a).toNat).map (fun j =>
      mesh.elems2old_qual.getD (mesh.v2k.ab2b.getD (a.toNat + j) 0).toNat 0)).foldl min
      Real_max)

/-- The loop over the edges of `v` that looks for an overshooting edge (lines 75-94):
`k` more edges from position `ve_l`; true when the loop ends by `break`. -/
def motion_overshoots {mesh_dim metric_dim : Nat} (R : MotionRoutines mesh_dim metric_dim)
    (mesh : MotionMesh) (max_length : Rat) (nx : Fin mesh_dim → Rat)
    (nm : Matrix (Fin metric_dim) (Fin metric_dim) Rat) : Nat → Int → Except Fail Bool
  | 0, _ => .ok false
  | k + 1, ve_l => do
    let e_l ← Read_get mesh.v2e.ab2b ve_l
    let ve_code_l ← Read_get mesh.v2e.codes ve_l
    let evv_c_l := R.code_which_down ve_code_l
    let evv_o_l := 1 - evv_c_l
    let ov_l ← Read_get mesh.ev2v (e_l * 2 + evv_o_l)
    let om ← get_symm metric_dim mesh.metrics ov_l
    let ox ← get_vector mesh_dim mesh.coords ov_l
    let evv2nx := if evv_c_l = 0 then [nx, ox] else [ox, nx]
    let evv2nm := if evv_c_l = 0 then [nm, om] else [om, nm]
    let nl := R.metric_edge_length evv2nx evv2nm
    if nl > max_length then .ok true
    else motion_overshoots R mesh max_length nx nm k (ve_l + 1)

/-- The loop over the elements of `v` that computes the new quality (lines 97-110): `k`
more elements from position `vk`, the state is `new_qual`; the loop ends early as soon
as `new_qual <= last_qual`. -/
def motion_new_qual {mesh_dim metric_dim : Nat} (R : MotionRoutines mesh_dim metric_dim)
    (mesh : MotionMesh) (last_qual : Rat) (nx : Fin mesh_dim → Rat)
    (nm : Matrix (Fin metric_dim) (Fin metric_dim) Rat) : Nat → Int → Rat → Except Fail Rat
  | 0, _, new_qual => .ok new_qual
  | k + 1, vk, new_qual => do
    let kk ← Read_get mesh.v2k.ab2b vk
    let vk_code ← Read_get mesh.v2k.codes vk
    let kvv_c := R.code_which_down vk_code
    let kvv2v ← gather_verts (mesh_dim + 1) mesh.kv2v kk
    let kvv2nx ← gather_vectors mesh_dim mesh.coords kvv2v
    let kvv2nx ← Write_set kvv2nx kvv_c nx
    let kvv2m ← gather_symms metric_dim mesh.metrics kvv2v
    let kvv2m ← Write_set kvv2m kvv_c nm
    let km := R.maxdet_metric kvv2m
    let k_qual := R.metric_element_quality kvv2nx km
    let new_qual := min new_qual k_qual
    if new_qual ≤ last_qual then .ok new_qual
    else motion_new_qual R mesh last_qual nx nm k (vk + 1) new_qual

/-- The loop `for (i < ncomps) new_sol_w[v * ncomps + i] = tmp[i]` (lines 113-115), for
the remaining components. -/
def motion_store (v ncomps : Int) : List Rat → Int → List Rat → Except Fail (List Rat)
  | [], _, new_sol_w => .ok new_sol_w
  | t :: tmp, i, new_sol_w => do
    let w ← Write_set new_sol_w (v * ncomps + i) t
    motion_store v ncomps tmp (i + 1) w

/-- The state of the loop over the edges of a candidate: `found_step`, `last_qual` and
the solution array. -/
structure MotionState where
  found_step : Bool
  last_qual : Rat
  new_sol_w : List Rat

/-- One round of the loop over the edges of `v` (lines 52-116), for the edge at position
`ve`; `nedges` is the number of edges of `v`, `nelems` the number of its elements. -/
def motion_edge (N : Numerics Rat) {mesh_dim metric_dim : Nat}
    (R : MotionRoutines mesh_dim metric_dim) (mesh : MotionMesh) (pack : LinearPack)
    (step_size max_length : Rat) (v v_dim : Int) (ve : Int) (st : MotionState) :
    Except Fail MotionState := do
  let e ← Read_get mesh.v2e.ab2b ve
  let e_dim ← Read_get mesh.edges2dim e
  if e_dim ≠ v_dim then .ok st
  else
    let ve_code ← Read_get mesh.v2e.codes ve
    let evv_c := R.code_which_down ve_code
    let evv_o := 1 - evv_c
    let evv2v ← gather_verts 2 mesh.ev2v e
    let ov ← Read_get evv2v evv_o
    let tmp ← (List.range pack.ncomps.toNat).mapM (fun (i : Nat) => do
      let a ← Read_get st.new_sol_w (v * pack.ncomps + (i : Int))
      let b ← Read_get pack.data (ov * pack.ncomps + (i : Int))
      pure ((1 - step_size) * a + step_size * b))
    let nx : Fin mesh_dim → Rat := fun i => tmp.getD (pack.coords_offset + (i.val : Int)).toNat 0
    let metric_comps := (List.range (symm_ncomps metric_dim)).map
      (fun (i : Nat) => tmp.getD (pack.metric_offset + (i : Int)).toNat 0)
    let lnm := vector2symm metric_dim metric_comps
    let nm := delinearize_metric N lnm
    let a0 ← Read_get mesh.v2e.a2ab v
    let a1 ← Read_get mesh.v2e.a2ab (v + 1)
    let overshoots ← motion_overshoots R mesh max_length nx nm (a1 - a0).toNat a0
    if overshoots then .ok st
    else
      let k0 ← Read_get mesh.v2k.a2ab v
      let k1 ← Read_get mesh.v2k.a2ab (v + 1)
      let new_qual ← motion_new_qual R mesh st.last_qual nx nm (k1 - k0).toNat k0 1
      if new_qual ≤ st.last_qual then .ok st
      else
        let w ← motion_store v pack.ncomps tmp 0 st.new_sol_w
        .ok { found_step := true, last_qual := new_qual, new_sol_w := w }

/-- The loop over the edges of `v` (line 52): `k` more edges from position `ve`. -/
def motion_edges (N : Numerics Rat) {mesh_dim metric_dim : Nat}
    (R : MotionRoutines mesh_dim metric_dim) (mesh : MotionMesh) (pack : LinearPack)
    (step_size max_length : Rat) (v v_dim : Int) : Nat → Int → MotionState →
      Except Fail MotionState
  | 0, _, st => .ok st
  | k + 1, ve, st => do
    let st1 ← motion_edge N R mesh pack step_size max_length v v_dim ve st
    motion_edges N R mesh pack step_size max_length v v_dim k (ve + 1) st1

/-- The loop over the motion steps (lines 50-118): `k` more steps; the state is
`last_qual` and the solution array. -/
def motion_steps (N : Numerics Rat) {mesh_dim metric_dim : Nat}
    (R : MotionRoutines mesh_dim metric_dim) (mesh : MotionMesh) (pack : LinearPack)
    (step_size max_length : Rat) (v v_dim : Int) : Nat → Rat → List Rat →
      Except Fail (Rat × List Rat)
  | 0, last_qual, new_sol_w => .ok (last_qual, new_sol_w)
  | k + 1, last_qual, new_sol_w => do
    let a0 ← Read_get mesh.v2e.a2ab v
    let a1 ← Read_get mesh.v2e.a2ab (v + 1)
    let st ← motion_edges N R mesh pack step_size max_length v v_dim (a1 - a0).toNat a0
      { found_step := false, last_qual := last_qual, new_sol_w := new_sol_w }
    if !st.found_step then .ok (st.last_qual, st.new_sol_w)
    else motion_steps N R mesh pack step_size max_length v v_dim k st.last_qual st.new_sol_w

/-- The arrays the kernel of `motion_choices_tmpl` writes. -/
structure MotionArrays where
  did_move_w : List Int
  qualities_w : List Rat
  new_sol_w : List Rat

/-- The kernel of `motion_choices_tmpl` (lines 43-123) for candidate `cand`. -/
def motion_choices_kernel (N : Numerics Rat) {mesh_dim metric_dim : Nat}
    (R : MotionRoutines mesh_dim metric_dim) (mesh : MotionMesh) (pack : LinearPack)
    (max_steps : Int) (step_size max_length : Rat) (cands2verts : List Int)
    (old_quals : List Rat) (cand : Nat) (s : MotionArrays) : Except Fail MotionArrays := do
  let v ← Read_get cands2verts (cand : Int)
  let v_dim ← Read_get mesh.verts2dim v
  let old_qual ← Read_get old_quals (cand : Int)
  let _tmp ← (List.range pack.ncomps.toNat).mapM
    (fun (i : Nat) => Read_get pack.data (v * pack.ncomps + (i : Int)))
  let r ← motion_steps N R mesh pack step_size max_length v v_dim max_steps.toNat old_qual
    s.new_sol_w
  let last_qual := r.1
  let did_move := decide (last_qual > old_qual)
  let qualities_w ← Write_set s.qualities_w (cand : Int) last_qual
  let did_move_w ← Write_set s.did_move_w (cand : Int) (if did_move then 1 else 0)
  if did_move ∧ ¬ (last_qual ≥ 0) then .error (Fail.check 122)
  else .ok { did_move_w := did_move_w, qualities_w := qualities_w, new_sol_w := r.2 }

/-- `motion_choices_tmpl<mesh_dim, metric_dim>` (lines 9-128).  The kernel of a
candidate reads the input pack data, the mesh arrays and the solution block of its own
vertex and writes only that block and its own entries of the two result arrays, so for
candidates that name distinct vertices the parallel loop is the sequential one. -/
def motion_choices_tmpl (N : Numerics Rat) {mesh_dim metric_dim : Nat}
    (R : MotionRoutines mesh_dim metric_dim) (mesh : MotionMesh) (opts : AdaptOpts)
    (cands2verts : List Int) : Except Fail MotionChoices :=
  let pack := mesh.pack_linearized_fields opts.xfer_opts
  if ¬ (pack.ncomps ≤ 30) then .error (Fail.check 15)
  else
    let new_sol_w := pack.data
    let ncands := cands2verts.length
    let old_quals := cands2old_qual mesh cands2verts
    let max_steps := opts.max_motion_steps
    if ¬ (max_steps ≥ 0) then .error (Fail.check 31)
    else
      let step_size := opts.motion_step_size
      let max_length := opts.max_length_allowed
      if ¬ (0 < step_size) then .error (Fail.check 34)
      else if ¬ (step_size < 1) then .error (Fail.check 35)
      else
        match parallel_for ncands
            (motion_choices_kernel N R mesh pack max_steps step_size max_length cands2verts
              old_quals)
            { did_move_w := List.replicate ncands 0, qualities_w := List.replicate ncands 0,
              new_sol_w := new_sol_w } with
        | .error e => .error e
        | .ok s =>
          .ok { did_move := s.did_move_w, qualities := s.qualities_w, new_sol := s.new_sol_w }

/-- `get_motion_choices` (lines 130-146); `R` supplies the routines for every pair of
dimensions. -/
def get_motion_choices (N : Numerics Rat)
    (R : (mesh_dim metric_dim : Nat) → MotionRoutines mesh_dim metric_dim)
    (mesh : MotionMesh) (opts : AdaptOpts) (cands2verts : List Int) :
    Except Fail MotionChoices :=
  let metric_dim := mesh.metric_dim
  if mesh.dim = 3 ∧ metric_dim = 3 then motion_choices_tmpl N (R 3 3) mesh opts cands2verts
  else if mesh.dim = 2 ∧ metric_dim = 2 then motion_choices_tmpl N (R 2 2) mesh opts cands2verts
  else if mesh.dim = 3 ∧ metric_dim = 1 then motion_choices_tmpl N (R 3 1) mesh opts cands2verts
  else if mesh.dim = 2 ∧ metric_dim = 1 then motion_choices_tmpl N (R 2 1) mesh opts cands2verts
  else .error (Fail.check 145)

/-- The relation between the state of a candidate before and after some rounds of its
loops: `last_qual` has not decreased, the solution array has the same length, it has
changed only if `last_qual` has strictly increased, and only inside the block of `v`. -/
def motion_rel (v ncomps : Int) (lq : Rat) (sol : List Rat) (lq1 : Rat) (sol1 : List Rat) :
    Prop :=
  lq ≤ lq1 ∧ sol1.length = sol.length ∧ (sol1 ≠ sol → lq < lq1) ∧
    ∀ idx : Nat, sol1[idx]? ≠ sol[idx]? →
      ∃ j : Int, 0 ≤ j ∧ j < ncomps ∧ (idx : Int) = v * ncomps + j

/-- What the claim says of the value returned for the candidates `cands2verts`: one
entry per candidate; the reported quality of a candidate is at least the old minimum
quality around its vertex, and `did_move` is set exactly when it is strictly greater;
an entry of the packed solution that differs from the input belongs to the block of a
vertex named by a candidate whose `did_move` is set; and with no motion steps allowed
nothing moves. -/
def MotionChoices.sound (mesh : MotionMesh) (opts : AdaptOpts) (cands2verts : List Int)
    (mc : MotionChoices) : Prop :=
  mc.did_move.length = cands2verts.length ∧
  mc.qualities.length = cands2verts.length ∧
  (∀ cand, cand < cands2verts.length →
    (cands2old_qual mesh cands2verts).getD cand 0 ≤ mc.qualities.getD cand 0 ∧
    (mc.did_move.getD cand 0 ≠ 0 ↔
      mc.qualities.getD cand 0 > (cands2old_qual mesh cands2verts).getD cand 0)) ∧
  (∀ u i : Int, 0 ≤ i → i < (mesh.pack_linearized_fields opts.xfer_opts).ncomps →
    0 ≤ u * (mesh.pack_linearized_fields opts.xfer_opts).ncomps + i →
    mc.new_sol[(u * (mesh.pack_linearized_fields opts.xfer_opts).ncomps + i).toNat]? ≠
      (mesh.pack_linearized_fields opts.xfer_opts).data[
        (u * (mesh.pack_linearized_fields opts.xfer_opts).ncomps + i).toNat]? →
    ∃ cand : Nat, cands2verts[cand]? = some u ∧ mc.did_move[cand]? = some 1) ∧
  (opts.max_motion_steps = 0 →
    mc.new_sol = (mesh.pack_linearized_fields opts.xfer_opts).data ∧
    ∀ cand, cand < cands2verts.length → mc.did_move.getD cand 0 = 0)

/-- Routines for evaluating the model: the code of an adjacency entry is the position of
the vertex in its edge or element, every edge has metric length 1, `maxdet_metric`
picks the first metric and every reshaped element has quality 1/2. -/
def toy_motion_routines (mesh_dim metric_dim : Nat) : MotionRoutines mesh_dim metric_dim :=
  { code_which_down := fun c => c
    metric_edge_length := fun _ _ => 1
    maxdet_metric := fun l => l.getD 0 0
    metric_element_quality := fun _ _ => 1 / 2 }

/-- One triangle on the vertices `(0, 0)`, `(1, 0)`, `(0, 1)` with the edges `01`, `12`,
`20`, unit isotropic metrics, old quality 1/4, and a packed solution of three components
per vertex: the two coordinates and the linearized metric. -/
def toy_motion_mesh : MotionMesh :=
  { dim := 2
    metric_dim := 1
    coords := [0, 0, 1, 0, 0, 1]
    metrics := [1, 1, 1]
    v2e := { a2ab := [0, 2, 4, 6], ab2b := [0, 2, 0, 1, 1, 2], codes := [0, 1, 1, 0, 1, 0] }
    ev2v := [0, 1, 1, 2, 2, 0]
    v2k := { a2ab := [0, 1, 2, 3], ab2b := [0, 0, 0], codes := [0, 1, 2] }
    kv2v := [0, 1, 2]
    verts2dim := [2, 2, 2]
    edges2dim := [2, 2, 2]
    elems2old_qual := [1 / 4]
    pack_linearized_fields := fun _ =>
      { data := [0, 0, 0, 1, 0, 0, 0, 1, 0], ncomps := 3, coords_offset := 0,
        metric_offset := 2 } }

/-- Default options for a 2D mesh with one motion step of size 1/2. -/
def toy_motion_opts : AdaptOpts :=
  { AdaptOpts.ofDim 2 0 0 with max_motion_steps := 1, motion_step_size := 1 / 2 }

/-! ## Facts about the controller -/

theorem say_mesh {M : Type} (w : World M) (m : Msg) : (w.say m).mesh = w.mesh := rfl

theorem say_calls {M : Type} (w : World M) (m : Msg) : (w.say m).calls = w.calls := rfl

theorem say_log {M : Type} (w : World M) (m : Msg) : (w.say m).log = w.log ++ [m] := rfl

theorem print_adapt_status_mesh {M : Type} (ops : MeshOps M) (opts : AdaptOpts) (w : World M) :
    (print_adapt_status ops opts w).2.mesh = w.mesh := by
  unfold print_adapt_status adapt_summary
  dsimp only
  split <;> rfl

theorem print_adapt_status_calls {M : Type} (ops : MeshOps M) (opts : AdaptOpts)
    (w : World M) : (print_adapt_status ops opts w).2.calls = w.calls := by
  unfold print_adapt_status adapt_summary
  dsimp only
  split <;> rfl

theorem print_adapt_status_flag {M : Type} (ops : MeshOps M) (opts : AdaptOpts)
    (w : World M) :
    (print_adapt_status ops opts w).1 = true ↔
      (min_fixable_quality ops w.mesh opts ≥ opts.min_quality_desired ∧
       get_min ops w.mesh (ops.ask_lengths w.mesh) ≥ opts.min_length_desired ∧
       get_max ops w.mesh (ops.ask_lengths w.mesh) ≤ opts.max_length_desired) := by
  unfold print_adapt_status min_fixable_quality get_minmax
  simp

theorem post_rebuild_mesh {M : Type} (ops : MeshOps M) (opts : AdaptOpts) (w : World M) :
    (post_rebuild ops opts w).mesh = w.mesh := by
  unfold post_rebuild
  split
  · exact print_adapt_status_mesh ops opts w
  · rfl

theorem post_rebuild_calls {M : Type} (ops : MeshOps M) (opts : AdaptOpts) (w : World M) :
    (post_rebuild ops opts w).calls = w.calls := by
  unfold post_rebuild
  split
  · exact print_adapt_status_calls ops opts w
  · rfl

theorem validate_ok_mesh {M : Type} (ops : MeshOps M) (opts : AdaptOpts) (w w1 : World M)
    (h : validate ops opts w = .ok w1) : w1.mesh = w.mesh ∧ w1.calls = w.calls := by
  unfold validate at h
  dsimp only at h
  repeat' split at h
  all_goals cases h
  all_goals exact ⟨rfl, rfl⟩

theorem pre_adapt_satisfied {M : Type} (ops : MeshOps M) (opts : AdaptOpts) (w : World M)
    (hv : ∃ w1, validate ops opts w = .ok w1)
    (hx : TransferOpts.validate ops opts.xfer_opts w.mesh = .ok ())
    (hq : min_fixable_quality ops w.mesh opts ≥ opts.min_quality_desired)
    (hmin : get_min ops w.mesh (ops.ask_lengths w.mesh) ≥ opts.min_length_desired)
    (hmax : get_max ops w.mesh (ops.ask_lengths w.mesh) ≤ opts.max_length_desired) :
    ∃ w2, pre_adapt ops opts w = .ok (false, w2) ∧ w2.calls = w.calls ∧ w2.mesh = w.mesh := by
  obtain ⟨w1, hw1⟩ := hv
  obtain ⟨hm1, hc1⟩ := validate_ok_mesh ops opts w w1 hw1
  have key : ∀ w2 : World M, w2.mesh = w.mesh →
      (print_adapt_status ops opts w2).1 = true := by
    intro w2 h2
    rw [print_adapt_status_flag, h2]
    exact ⟨hq, hmin, hmax⟩
  unfold pre_adapt
  rw [hw1]
  dsimp only
  rw [hm1, hx]
  dsimp only
  by_cases h1 : opts.verbosity.toNat ≥ Verbosity.EACH_ADAPT.toNat ∧ ops.rank w.mesh = 0
  · rw [if_pos h1, if_pos (key _ (by rw [say_mesh, hm1]))]
    refine ⟨_, rfl, ?_, ?_⟩
    · rw [print_adapt_status_calls, say_calls, hc1]
    · rw [print_adapt_status_mesh, say_mesh, hm1]
  · rw [if_neg h1, if_pos (key _ hm1)]
    refine ⟨_, rfl, ?_, ?_⟩
    · rw [print_adapt_status_calls, hc1]
    · rw [print_adapt_status_mesh, hm1]

/-- C1: when the options pass validation and the mesh already meets the quality and
both length targets, `adapt` returns false and records no call to any operator or
collaborator; the mesh is the one it was given. -/
theorem adapt_satisfied_returns_no_change {M : Type} (ops : MeshOps M) (opts : AdaptOpts)
    (fuel : Nat) (w : World M)
    (hv : ∃ w1, validate ops opts w = .ok w1)
    (hx : TransferOpts.validate ops opts.xfer_opts w.mesh = .ok ())
    (hq : min_fixable_quality ops w.mesh opts ≥ opts.min_quality_desired)
    (hmin : get_min ops w.mesh (ops.ask_lengths w.mesh) ≥ opts.min_length_desired)
    (hmax : get_max ops w.mesh (ops.ask_lengths w.mesh) ≤ opts.max_length_desired) :
    ∃ w2, adapt ops opts fuel w = .ok (false, w2) ∧ w2.calls = w.calls ∧ w2.mesh = w.mesh := by
  obtain ⟨w2, h2, hc, hm⟩ := pre_adapt_satisfied ops opts w hv hx hq hmin hmax
  refine ⟨w2, ?_, hc, hm⟩
  unfold adapt
  rw [h2]

theorem adapt_satisfied_returns_no_change_witness :
    ∃ w2, adapt (toy_ops ToyMesh.still) (AdaptOpts.ofDim 2 0 0) 0
        (World.start { quals := [1], lens := [1], angle := [0], budget := 0 }) = .ok (false, w2) ∧
      w2.calls = [] ∧ w2.mesh = { quals := [1], lens := [1], angle := [0], budget := 0 } :=
  adapt_satisfied_returns_no_change (toy_ops ToyMesh.still) (AdaptOpts.ofDim 2 0 0) 0
    (World.start { quals := [1], lens := [1], angle := [0], budget := 0 })
    ⟨World.start { quals := [1], lens := [1], angle := [0], budget := 0 }, by
      norm_num [validate, AdaptOpts.ofDim, min_fixable_quality, get_min, get_fixable_qualities,
        toy_ops, World.start, Real_max]⟩
    (by simp [TransferOpts.validate, AdaptOpts.ofDim, TransferOpts.default,
        TransferOpts.validate_pairs])
    (by norm_num [AdaptOpts.ofDim, min_fixable_quality, get_min, get_fixable_qualities,
        toy_ops, World.start, Real_max])
    (by norm_num [AdaptOpts.ofDim, get_min, toy_ops, World.start, Real_max, sqrt_2])
    (by norm_num [AdaptOpts.ofDim, get_max, toy_ops, World.start, Real_max, sqrt_2])

/-- C4: the controller's `validate` aborts exactly when one of the five configuration
invariants is violated; with valid options a mesh whose worst fixable quality is below
`min_quality_allowed` does not abort, it returns normally with the warning printed (by
rank 0) and the mesh untouched. -/
theorem validate_aborts_iff_invariant_violated {M : Type} (ops : MeshOps M)
    (opts : AdaptOpts) (w : World M) :
    ((∃ e, validate ops opts w = .error e) ↔
      (opts.min_quality_allowed < 0 ∨ opts.min_quality_allowed > opts.min_quality_desired ∨
       opts.min_quality_desired > 1 ∨ opts.nsliver_layers < 0 ∨ opts.nsliver_layers ≥ 100)) ∧
    (¬ (opts.min_quality_allowed < 0 ∨ opts.min_quality_allowed > opts.min_quality_desired ∨
        opts.min_quality_desired > 1 ∨ opts.nsliver_layers < 0 ∨ opts.nsliver_layers ≥ 100) →
      min_fixable_quality ops w.mesh opts < opts.min_quality_allowed →
      validate ops opts w = .ok (if ops.rank w.mesh = 0 then
        w.say (Msg.worst_input_quality_warning (min_fixable_quality ops w.mesh opts)
          opts.min_quality_allowed) else w)) := by
  constructor
  · unfold validate
    dsimp only
    constructor
    · rintro ⟨e, he⟩
      by_contra hn
      simp only [not_or, not_lt, not_le, gt_iff_lt, ge_iff_le] at hn
      obtain ⟨h1, h2, h3, h4, h5⟩ := hn
      simp only [h1, h2, h3, h4, h5, not_true_eq_false, if_false, ge_iff_le] at he
      split at he <;> cases he
    · intro hv
      by_cases h1 : 0 ≤ opts.min_quality_allowed
      · by_cases h2 : opts.min_quality_allowed ≤ opts.min_quality_desired
        · by_cases h3 : opts.min_quality_desired ≤ 1
          · by_cases h4 : opts.nsliver_layers ≥ 0
            · by_cases h5 : opts.nsliver_layers < 100
              · exfalso
                rcases hv with h | h | h | h | h
                · exact absurd h1 (not_le.mpr h)
                · exact absurd h2 (not_le.mpr h)
                · exact absurd h3 (not_le.mpr h)
                · exact absurd h4 (not_le.mpr h)
                · exact absurd h5 (not_lt.mpr h)
              · exact ⟨Fail.check 131, by simp only [h1, h2, h3, h4, h5, not_true_eq_false,
                  not_false_eq_true, if_true, if_false]⟩
            · exact ⟨Fail.check 130, by simp only [h1, h2, h3, h4, not_true_eq_false,
                not_false_eq_true, if_true, if_false]⟩
          · exact ⟨Fail.check 129, by simp only [h1, h2, h3, not_true_eq_false,
              not_false_eq_true, if_true, if_false]⟩
        · exact ⟨Fail.check 128, by simp only [h1, h2, not_true_eq_false,
            not_false_eq_true, if_true, if_false]⟩
      · exact ⟨Fail.check 127, by simp only [h1, not_false_eq_true, if_true]⟩
  · intro hn hq
    simp only [not_or, not_lt, not_le, gt_iff_lt, ge_iff_le] at hn
    obtain ⟨h1, h2, h3, h4, h5⟩ := hn
    unfold validate
    dsimp only
    simp only [h1, h2, h3, h4, h5, hq, not_true_eq_false, if_false, ge_iff_le, true_and]
    split <;> rfl

theorem validate_aborts_iff_invariant_violated_witness :
    validate (toy_ops ToyMesh.still) (AdaptOpts.ofDim 2 0 0)
        (World.start { quals := [1 / 10], lens := [1], angle := [0], budget := 0 }) =
      .ok ((World.start { quals := [1 / 10], lens := [1], angle := [0], budget := 0 }).say
        (Msg.worst_input_quality_warning (1 / 10) (3 / 10))) := by
  have h := (validate_aborts_iff_invariant_violated (toy_ops ToyMesh.still)
    (AdaptOpts.ofDim 2 0 0)
    (World.start { quals := [1 / 10], lens := [1], angle := [0], budget := 0 })).2
    (by norm_num [AdaptOpts.ofDim])
    (by norm_num [AdaptOpts.ofDim, min_fixable_quality, get_min, get_fixable_qualities,
        toy_ops, World.start, Real_max])
  rw [h]
  norm_num [AdaptOpts.ofDim, min_fixable_quality, get_min, get_fixable_qualities,
        toy_ops, World.start, Real_max]

theorem unmap_collect_marked_invert (quals : List Rat) (marks : List Int)
    (hlen : marks.length = quals.length) :
    unmap (collect_marked (invert_marks marks)) quals = spec_fixable_qualities quals marks := by
  induction marks using List.reverseRecOn generalizing quals with
  | nil =>
    simp [unmap, collect_marked, invert_marks, spec_fixable_qualities]
  | append_singleton ms m ih =>
    rcases List.eq_nil_or_concat quals with hq | ⟨qs, q, hq⟩
    · subst hq
      simp at hlen
    · subst hq
      have hl : ms.length = qs.length := by simpa using hlen
      have ih1 := ih qs hl
      unfold unmap collect_marked invert_marks spec_fixable_qualities at *
      simp only [List.concat_eq_append, List.map_append, List.length_append, List.length_map,
        List.length_singleton, List.map_cons, List.map_nil, List.range_succ, List.filter_append,
        List.zip_append hl.symm, List.zip_cons_cons, List.zip_nil_right]
      have e1 : List.filter
          (fun i => (List.map (fun m => if m = 0 then (1 : Int) else 0) ms ++
            [if m = 0 then 1 else 0]).getD i 0 != 0) (List.range ms.length) =
          List.filter (fun i => (List.map (fun m => if m = 0 then (1 : Int) else 0) ms).getD i 0
            != 0) (List.range ms.length) := by
        apply List.filter_congr
        intro i hi
        rw [List.mem_range] at hi
        rw [List.getD_append _ _ _ _ (by simpa using hi)]
      rw [e1]
      have e2 : List.map (fun b => (qs ++ [q]).getD b 0)
          (List.filter (fun i => (List.map (fun m => if m = 0 then (1 : Int) else 0) ms).getD i 0
            != 0) (List.range ms.length)) =
          List.map (fun b => qs.getD b 0)
          (List.filter (fun i => (List.map (fun m => if m = 0 then (1 : Int) else 0) ms).getD i 0
            != 0) (List.range ms.length)) := by
        apply List.map_congr_left
        intro i hi
        have hi2 := (List.mem_filter.mp hi).1
        rw [List.mem_range] at hi2
        rw [List.getD_append _ _ _ _ (by omega)]
      simp only [List.length_map] at ih1
      rw [e2, ih1]
      congr 1
      by_cases hm : m = 0
      · subst hm
        simp [List.getD_append_right, hl]
      · simp [List.getD_append_right, hm]

/-- C5 as stated fails: with pinching disallowed (the default) the angle-feature
element is not excluded.  Element 0 is an angle element of quality 1/10, element 1 a
free element of quality 1/2; `min_fixable_quality` is 1/10, the minimum over the
unmarked elements is 1/2. -/
theorem min_fixable_quality_pinching_disallowed_counterexample :
    (AdaptOpts.ofDim 2 0 0).should_allow_pinching = false ∧
    min_fixable_quality (toy_ops ToyMesh.still)
      { quals := [1 / 10, 1 / 2], lens := [1], angle := [1, 0], budget := 0 }
      (AdaptOpts.ofDim 2 0 0) = 1 / 10 ∧
    get_min (toy_ops ToyMesh.still)
      { quals := [1 / 10, 1 / 2], lens := [1], angle := [1, 0], budget := 0 }
      (spec_fixable_qualities [1 / 10, 1 / 2] [1, 0]) = 1 / 2 ∧
    min_fixable_quality (toy_ops ToyMesh.still)
      { quals := [1 / 10, 1 / 2], lens := [1], angle := [1, 0], budget := 0 }
      (AdaptOpts.ofDim 2 0 0) ≠
    get_min (toy_ops ToyMesh.still)
      { quals := [1 / 10, 1 / 2], lens := [1], angle := [1, 0], budget := 0 }
      (spec_fixable_qualities [1 / 10, 1 / 2] [1, 0]) := by
  refine ⟨rfl, ?_, ?_, ?_⟩ <;>
    norm_num [AdaptOpts.ofDim, min_fixable_quality, get_min, get_fixable_qualities,
      toy_ops, Real_max, spec_fixable_qualities]

/-- C5 (amended): the exclusion of angle-feature elements is tied to pinching being
allowed.  With `should_allow_pinching` false, `min_fixable_quality` is the minimum over
all element qualities; with it true (and one mark per element) it is the minimum over
the elements `find_angle_elems` does not mark. -/
theorem min_fixable_quality_excludes_angle_elems_iff_pinching {M : Type} (ops : MeshOps M)
    (mesh : M) (opts : AdaptOpts) :
    (opts.should_allow_pinching = false →
      min_fixable_quality ops mesh opts = get_min ops mesh (ops.ask_qualities mesh)) ∧
    (opts.should_allow_pinching = true →
      (ops.find_angle_elems mesh).length = (ops.ask_qualities mesh).length →
      min_fixable_quality ops mesh opts =
        get_min ops mesh
          (spec_fixable_qualities (ops.ask_qualities mesh) (ops.find_angle_elems mesh))) := by
  constructor
  · intro h
    simp [min_fixable_quality, get_fixable_qualities, h]
  · intro h hlen
    simp only [min_fixable_quality, get_fixable_qualities, h, Bool.not_true, if_false,
      Bool.false_eq_true]
    rw [unmap_collect_marked_invert _ _ hlen]

theorem min_fixable_quality_excludes_angle_elems_iff_pinching_witness :
    min_fixable_quality (toy_ops ToyMesh.still)
      { quals := [1 / 10, 1 / 2], lens := [1], angle := [1, 0], budget := 0 }
      { AdaptOpts.ofDim 2 0 0 with should_allow_pinching := true } = 1 / 2 := by
  have h := (min_fixable_quality_excludes_angle_elems_iff_pinching (toy_ops ToyMesh.still)
    { quals := [1 / 10, 1 / 2], lens := [1], angle := [1, 0], budget := 0 }
    { AdaptOpts.ofDim 2 0 0 with should_allow_pinching := true }).2 rfl rfl
  rw [h]
  norm_num [get_min, toy_ops, Real_max, spec_fixable_qualities]

theorem satisfy_lengths_pass_shape {M : Type} (ops : MeshOps M) (opts : AdaptOpts)
    (w : World M) :
    (satisfy_lengths_pass ops opts w).1.calls =
      w.calls ++
        (if opts.should_refine then
          [Call.refine_by_size (ops.refine_by_size w.mesh opts).2] else []) ++
        (if opts.should_coarsen then
          [Call.coarsen_by_size (ops.coarsen_by_size
            (if opts.should_refine then (ops.refine_by_size w.mesh opts).1 else w.mesh)
            opts).2] else []) ∧
    (satisfy_lengths_pass ops opts w).2 =
      ((opts.should_refine && (ops.refine_by_size w.mesh opts).2) ||
       (opts.should_coarsen && (ops.coarsen_by_size
            (if opts.should_refine then (ops.refine_by_size w.mesh opts).1 else w.mesh)
            opts).2)) := by
  unfold satisfy_lengths_pass World.run
  cases hr : opts.should_refine <;> cases hc : opts.should_coarsen <;>
    cases h1 : (ops.refine_by_size w.mesh opts).2 <;>
    simp [h1, post_rebuild_calls, post_rebuild_mesh] <;>
    split <;> simp_all [post_rebuild_calls, post_rebuild_mesh]

theorem satisfy_lengths_pass_true_returns {M : Type} (ops : MeshOps M) (opts : AdaptOpts)
    (w : World M) (h : (satisfy_lengths_pass ops opts w).2 = true) :
    1 ≤ true_returns w (satisfy_lengths_pass ops opts w).1 := by
  obtain ⟨hc, hf⟩ := satisfy_lengths_pass_shape ops opts w
  rw [hf] at h
  unfold true_returns
  rw [hc, List.append_assoc, List.drop_left, List.countP_append]
  cases hr : opts.should_refine <;> cases hcs : opts.should_coarsen <;>
    simp only [hr, hcs, Bool.false_and, Bool.true_and, Bool.or_false, Bool.false_or,
      Bool.false_eq_true, if_false, if_true, Bool.or_eq_true] at h ⊢
  · simp [Call.changed, h]
  · simp [Call.changed, h]
  · rcases h with h1 | h1
    · simp [Call.changed, h1]
    · simp [Call.changed, h1]

theorem lengths_passes_calls {M : Type} (ops : MeshOps M) (opts : AdaptOpts) (n : Nat)
    (w : World M) : ∃ ext, (lengths_passes ops opts n w).calls = w.calls ++ ext := by
  induction n generalizing w with
  | zero => exact ⟨[], by simp [lengths_passes]⟩
  | succ n ih =>
    obtain ⟨ext, he⟩ := ih (satisfy_lengths_pass ops opts w).1
    obtain ⟨new, hn⟩ : ∃ new, (satisfy_lengths_pass ops opts w).1.calls = w.calls ++ new :=
      ⟨_, by rw [(satisfy_lengths_pass_shape ops opts w).1, List.append_assoc]⟩
    exact ⟨new ++ ext, by rw [lengths_passes, he, hn, List.append_assoc]⟩

theorem true_returns_step {M : Type} (ops : MeshOps M) (opts : AdaptOpts) (n : Nat)
    (w : World M) :
    true_returns w (lengths_passes ops opts (n + 1) w) =
      true_returns w (satisfy_lengths_pass ops opts w).1 +
      true_returns (satisfy_lengths_pass ops opts w).1
        (lengths_passes ops opts n (satisfy_lengths_pass ops opts w).1) := by
  obtain ⟨ext, he⟩ := lengths_passes_calls ops opts n (satisfy_lengths_pass ops opts w).1
  obtain ⟨new, hn⟩ : ∃ new, (satisfy_lengths_pass ops opts w).1.calls = w.calls ++ new :=
    ⟨_, by rw [(satisfy_lengths_pass_shape ops opts w).1, List.append_assoc]⟩
  unfold true_returns
  rw [lengths_passes, he, List.drop_left, hn, List.append_assoc, List.drop_left, List.drop_left,
    List.countP_append]

theorem satisfy_lengths_result {M : Type} (ops : MeshOps M) (opts : AdaptOpts) (fuel : Nat)
    (w w1 : World M) (n : Nat) (h : satisfy_lengths ops opts fuel w = .ok (w1, n)) :
    1 ≤ n ∧ n ≤ fuel ∧ w1 = lengths_passes ops opts n w ∧
      (satisfy_lengths_pass ops opts (lengths_passes ops opts (n - 1) w)).2 = false ∧
      ∀ i, i < n - 1 → (satisfy_lengths_pass ops opts (lengths_passes ops opts i w)).2 = true := by
  induction fuel generalizing w w1 n with
  | zero => simp [satisfy_lengths] at h
  | succ fuel ih =>
    rw [satisfy_lengths] at h
    by_cases hp : (satisfy_lengths_pass ops opts w).2 = true
    · rw [if_pos hp] at h
      cases hr : satisfy_lengths ops opts fuel (satisfy_lengths_pass ops opts w).1 with
      | error e => rw [hr] at h; cases h
      | ok r =>
        obtain ⟨w2, n2⟩ := r
        rw [hr] at h
        cases h
        obtain ⟨h1, h2, h3, h4, h5⟩ := ih _ _ _ hr
        refine ⟨by omega, by omega, ?_, ?_, ?_⟩
        · rw [lengths_passes]; exact h3
        · obtain ⟨j, rfl⟩ : ∃ j, n2 = j + 1 := ⟨n2 - 1, by omega⟩
          simpa [lengths_passes] using h4
        · intro i hi
          cases i with
          | zero => simpa [lengths_passes] using hp
          | succ i => rw [lengths_passes]; exact h5 i (by omega)
    · rw [if_neg hp] at h
      cases h
      refine ⟨le_refl _, by omega, rfl, ?_, ?_⟩
      · simpa [lengths_passes] using hp
      · intro i hi; omega

theorem satisfy_lengths_terminates {M : Type} (ops : MeshOps M) (opts : AdaptOpts) (k : Nat) :
    ∀ (fuel : Nat) (w : World M), k < fuel →
      (∀ n, true_returns w (lengths_passes ops opts n w) ≤ k) →
      ∃ w1 n, satisfy_lengths ops opts fuel w = .ok (w1, n) ∧ n ≤ k + 1 := by
  induction k with
  | zero =>
    intro fuel w hf hk
    obtain ⟨f, rfl⟩ : ∃ f, fuel = f + 1 := ⟨fuel - 1, by omega⟩
    have hp : ¬ (satisfy_lengths_pass ops opts w).2 = true := by
      intro hp
      have h1 := satisfy_lengths_pass_true_returns ops opts w hp
      have h2 := hk 1
      simp only [lengths_passes] at h2
      omega
    exact ⟨_, 1, by rw [satisfy_lengths, if_neg hp], by omega⟩
  | succ k ih =>
    intro fuel w hf hk
    obtain ⟨f, rfl⟩ : ∃ f, fuel = f + 1 := ⟨fuel - 1, by omega⟩
    by_cases hp : (satisfy_lengths_pass ops opts w).2 = true
    · have h1 := satisfy_lengths_pass_true_returns ops opts w hp
      obtain ⟨w1, n, h, hn⟩ := ih f (satisfy_lengths_pass ops opts w).1 (by omega) (by
        intro n
        have h2 := hk (n + 1)
        rw [true_returns_step] at h2
        omega)
      exact ⟨w1, n + 1, by rw [satisfy_lengths, if_pos hp, h], by omega⟩
    · exact ⟨_, 1, by rw [satisfy_lengths, if_neg hp], by omega⟩

theorem toy_still_true_returns (opts : AdaptOpts) :
    ∀ (n : Nat) (w : World ToyMesh),
      true_returns w (lengths_passes (toy_ops ToyMesh.still) opts n w) = 0 := by
  intro n
  induction n with
  | zero => intro w; simp [true_returns, lengths_passes]
  | succ n ih =>
    intro w
    rw [true_returns_step, ih, Nat.add_zero]
    unfold true_returns
    rw [(satisfy_lengths_pass_shape _ opts w).1, List.append_assoc, List.drop_left]
    cases opts.should_refine <;> cases opts.should_coarsen <;>
      simp [toy_ops, ToyMesh.still, Call.changed]

/-- C3: every pass of `satisfy_lengths` calls `refine_by_size` and then
`coarsen_by_size`, each only when enabled, and reports a change exactly when an enabled
call returned true.  If the operators return true at most `k` times in total, then
with any fuel above `k` the loop returns after `n ≤ k + 1` passes: its result is the
world after `n` passes, pass `n` is the first in which no call returned true, and
`n = 1` when no call of the first pass returned true. -/
theorem satisfy_lengths_stops_after_first_quiet_pass {M : Type} (ops : MeshOps M)
    (opts : AdaptOpts) (w : World M) (k : Nat)
    (hk : ∀ n, true_returns w (lengths_passes ops opts n w) ≤ k) :
    ∃ w1 n, (∀ fuel, k < fuel → satisfy_lengths ops opts fuel w = .ok (w1, n)) ∧
      1 ≤ n ∧ n ≤ k + 1 ∧ w1 = lengths_passes ops opts n w ∧
      (satisfy_lengths_pass ops opts (lengths_passes ops opts (n - 1) w)).2 = false ∧
      (∀ i, i < n - 1 →
        (satisfy_lengths_pass ops opts (lengths_passes ops opts i w)).2 = true) ∧
      ((satisfy_lengths_pass ops opts w).2 = false → n = 1) ∧
      (∀ v : World M,
        (satisfy_lengths_pass ops opts v).1.calls =
          v.calls ++
            (if opts.should_refine then
              [Call.refine_by_size (ops.refine_by_size v.mesh opts).2] else []) ++
            (if opts.should_coarsen then
              [Call.coarsen_by_size (ops.coarsen_by_size
                (if opts.should_refine then (ops.refine_by_size v.mesh opts).1 else v.mesh)
                opts).2] else []) ∧
        (satisfy_lengths_pass ops opts v).2 =
          ((opts.should_refine && (ops.refine_by_size v.mesh opts).2) ||
           (opts.should_coarsen && (ops.coarsen_by_size
                (if opts.should_refine then (ops.refine_by_size v.mesh opts).1 else v.mesh)
                opts).2))) := by
  obtain ⟨w1, n, h, hn⟩ := satisfy_lengths_terminates ops opts k (k + 1) w (by omega) hk
  obtain ⟨h1, _, h3, h4, h5⟩ := satisfy_lengths_result ops opts _ w w1 n h
  refine ⟨w1, n, ?_, h1, hn, h3, h4, h5, ?_, satisfy_lengths_pass_shape ops opts⟩
  · intro fuel hf
    obtain ⟨w2, n2, g, _⟩ := satisfy_lengths_terminates ops opts k fuel w hf hk
    obtain ⟨g1, _, g3, g4, g5⟩ := satisfy_lengths_result ops opts _ w w2 n2 g
    have hnn : n2 = n := by
      rcases Nat.lt_trichotomy n2 n with hlt | heq | hgt
      · have := h5 (n2 - 1) (by omega)
        rw [g4] at this
        cases this
      · exact heq
      · have := g5 (n - 1) (by omega)
        rw [h4] at this
        cases this
    subst hnn
    rw [g, g3, h3]
  · intro h0
    by_contra hne
    have := h5 0 (by omega)
    simp only [lengths_passes] at this
    rw [h0] at this
    cases this

theorem satisfy_lengths_stops_after_first_quiet_pass_witness :
    ∃ w1 n, (∀ fuel, 0 < fuel → satisfy_lengths (toy_ops ToyMesh.still) (AdaptOpts.ofDim 2 0 0) fuel
        (World.start { quals := [1], lens := [2], angle := [0], budget := 0 }) = .ok (w1, n)) ∧
      n = 1 ∧
      w1.calls = [Call.refine_by_size false, Call.coarsen_by_size false] := by
  obtain ⟨w1, n, h, _, hn, h3, _, _, h6, _⟩ :=
    satisfy_lengths_stops_after_first_quiet_pass (toy_ops ToyMesh.still) (AdaptOpts.ofDim 2 0 0)
      (World.start { quals := [1], lens := [2], angle := [0], budget := 0 }) 0
      (fun n => by rw [toy_still_true_returns])
  have hn1 : n = 1 := h6 (by
    rw [(satisfy_lengths_pass_shape _ _ _).2]
    simp [toy_ops, ToyMesh.still])
  refine ⟨w1, n, h, hn1, ?_⟩
  subst hn1
  rw [h3, lengths_passes, lengths_passes, (satisfy_lengths_pass_shape _ _ _).1]
  simp [toy_ops, ToyMesh.still, World.start, AdaptOpts.ofDim]

theorem satisfy_quality_scan_shape {M : Type} (ops : MeshOps M) (opts : AdaptOpts)
    (w : World M) :
    ∃ r1 r2 r3 : Bool,
      (satisfy_quality_scan ops opts w).1.calls =
        w.calls ++ scan_calls opts.should_swap opts.should_coarsen_slivers
          opts.should_move_for_quality r1 r2 r3 ∧
      (satisfy_quality_scan ops opts w).2 =
        ((opts.should_swap && r1) || (opts.should_coarsen_slivers && r2) ||
         (opts.should_move_for_quality && r3)) := by
  refine ⟨(ops.swap_edges w.mesh opts).2,
    (ops.coarsen_slivers
      (if opts.should_swap then (ops.swap_edges w.mesh opts).1 else w.mesh) opts).2,
    (ops.move_verts_for_quality
      (if opts.should_coarsen_slivers then
        (ops.coarsen_slivers
          (if opts.should_swap then (ops.swap_edges w.mesh opts).1 else w.mesh) opts).1
       else (if opts.should_swap then (ops.swap_edges w.mesh opts).1 else w.mesh)) opts).2, ?_⟩
  unfold satisfy_quality_scan World.run scan_calls
  cases opts.should_swap <;> cases opts.should_coarsen_slivers <;>
    cases opts.should_move_for_quality <;>
    simp only [if_true, if_false, Bool.false_eq_true, Bool.true_and, Bool.false_and,
      Bool.or_false, Bool.false_or, List.nil_append, List.append_nil] <;>
    repeat' split <;>
    simp_all [post_rebuild_calls, say_calls]

theorem scan_calls_properties : ∀ sw cs mv r1 r2 r3 : Bool,
    (scan_calls sw cs mv r1 r2 r3).Sublist
      [Call.swap_edges r1, Call.coarsen_slivers r2, Call.move_verts_for_quality r3] ∧
    ((∃ r, Call.swap_edges r ∈ scan_calls sw cs mv r1 r2 r3) ↔ sw = true) ∧
    ((∃ r, Call.coarsen_slivers r ∈ scan_calls sw cs mv r1 r2 r3) ↔
      (cs = true ∧ (sw = false ∨ Call.swap_edges false ∈ scan_calls sw cs mv r1 r2 r3))) ∧
    ((∃ r, Call.move_verts_for_quality r ∈ scan_calls sw cs mv r1 r2 r3) ↔
      (mv = true ∧ (sw = false ∨ Call.swap_edges false ∈ scan_calls sw cs mv r1 r2 r3) ∧
        (cs = false ∨ Call.coarsen_slivers false ∈ scan_calls sw cs mv r1 r2 r3))) ∧
    (∀ c ∈ scan_calls sw cs mv r1 r2 r3, c.changed = true →
      (scan_calls sw cs mv r1 r2 r3).getLast? = some c) ∧
    (((sw && r1) || (cs && r2) || (mv && r3)) = true ↔
      ∃ c ∈ scan_calls sw cs mv r1 r2 r3, c.changed = true) := by
  intro sw cs mv r1 r2 r3
  cases sw <;> cases cs <;> cases mv <;> cases r1 <;> cases r2 <;> cases r3 <;>
    simp [scan_calls, Call.changed]

/-- C2: `satisfy_quality` calls nothing when the worst fixable quality already meets the
target; otherwise it runs scans.  The calls of a scan are a subsequence of swap,
sliver coarsening, vertex motion in this order; swap is called exactly when enabled,
sliver coarsening exactly when enabled and swap was disabled or returned false,
vertex motion exactly when enabled and both earlier operators were disabled or
returned false; a call that returns true is the last of its scan; the scan reports a
change exactly when some call returned true.  After a scan the loop either stops (no
change, or quality reached) or runs the same scan again on the new world. -/
theorem satisfy_quality_strict_priority {M : Type} (ops : MeshOps M) (opts : AdaptOpts) :
    (∀ fuel (w : World M),
      min_fixable_quality ops w.mesh opts ≥ opts.min_quality_desired →
      satisfy_quality ops opts fuel w = .ok w) ∧
    (∀ fuel (w : World M),
      ¬ min_fixable_quality ops w.mesh opts ≥ opts.min_quality_desired →
      ∃ w0 : World M, w0.mesh = w.mesh ∧ w0.calls = w.calls ∧
        satisfy_quality ops opts fuel w = satisfy_quality_loop ops opts fuel w0) ∧
    (∀ w : World M, ∃ new : List Call,
      (satisfy_quality_scan ops opts w).1.calls = w.calls ++ new ∧
      (∃ r1 r2 r3, new.Sublist
        [Call.swap_edges r1, Call.coarsen_slivers r2, Call.move_verts_for_quality r3]) ∧
      ((∃ r, Call.swap_edges r ∈ new) ↔ opts.should_swap = true) ∧
      ((∃ r, Call.coarsen_slivers r ∈ new) ↔
        (opts.should_coarsen_slivers = true ∧
          (opts.should_swap = false ∨ Call.swap_edges false ∈ new))) ∧
      ((∃ r, Call.move_verts_for_quality r ∈ new) ↔
        (opts.should_move_for_quality = true ∧
          (opts.should_swap = false ∨ Call.swap_edges false ∈ new) ∧
          (opts.should_coarsen_slivers = false ∨ Call.coarsen_slivers false ∈ new))) ∧
      (∀ c ∈ new, c.changed = true → new.getLast? = some c) ∧
      ((satisfy_quality_scan ops opts w).2 = true ↔ ∃ c ∈ new, c.changed = true)) ∧
    (∀ fuel (w : World M),
      satisfy_quality_loop ops opts (fuel + 1) w =
        if (satisfy_quality_scan ops opts w).2 = true ∧
            min_fixable_quality ops (satisfy_quality_scan ops opts w).1.mesh opts <
              opts.min_quality_desired
        then satisfy_quality_loop ops opts fuel (satisfy_quality_scan ops opts w).1
        else .ok (satisfy_quality_scan ops opts w).1) := by
  refine ⟨?_, ?_, ?_, ?_⟩
  · intro fuel w h
    unfold satisfy_quality
    rw [if_pos h]
  · intro fuel w h
    unfold satisfy_quality
    rw [if_neg h]
    dsimp only
    split
    · exact ⟨_, say_mesh _ _, say_calls _ _, rfl⟩
    · exact ⟨w, rfl, rfl, rfl⟩
  · intro w
    obtain ⟨r1, r2, r3, hc, hf⟩ := satisfy_quality_scan_shape ops opts w
    obtain ⟨p1, p2, p3, p4, p5, p6⟩ := scan_calls_properties opts.should_swap
      opts.should_coarsen_slivers opts.should_move_for_quality r1 r2 r3
    exact ⟨_, hc, ⟨r1, r2, r3, p1⟩, p2, p3, p4, p5, by rw [hf]; exact p6⟩
  · intro fuel w
    rw [satisfy_quality_loop]
    by_cases h1 : (satisfy_quality_scan ops opts w).2 = true
    · by_cases h2 : min_fixable_quality ops (satisfy_quality_scan ops opts w).1.mesh opts <
          opts.min_quality_desired
      · rw [if_pos h1, if_pos h2, if_pos ⟨h1, h2⟩]
      · rw [if_pos h1, if_neg h2, if_neg (fun h => h2 h.2)]
    · rw [if_neg h1, if_neg (fun h => h1 h.1)]

theorem satisfy_quality_strict_priority_witness :
    satisfy_quality (toy_ops ToyMesh.spend) (AdaptOpts.ofDim 2 0 0) 0
      (World.start { quals := [1], lens := [2], angle := [0], budget := 1 }) =
      .ok (World.start { quals := [1], lens := [2], angle := [0], budget := 1 }) :=
  (satisfy_quality_strict_priority (toy_ops ToyMesh.spend) (AdaptOpts.ofDim 2 0 0)).1 0
    (World.start { quals := [1], lens := [2], angle := [0], budget := 1 })
    (by norm_num [AdaptOpts.ofDim, min_fixable_quality, get_min, get_fixable_qualities,
        toy_ops, World.start, Real_max])

theorem print_adapt_status_log {M : Type} (ops : MeshOps M) (opts : AdaptOpts) (w : World M)
    (m : Msg) (h : m ∈ w.log) : m ∈ (print_adapt_status ops opts w).2.log := by
  unfold print_adapt_status adapt_summary
  dsimp only
  split
  · simp [say_log, h]
  · exact h

theorem post_rebuild_log {M : Type} (ops : MeshOps M) (opts : AdaptOpts) (w : World M)
    (m : Msg) (h : m ∈ w.log) : m ∈ (post_rebuild ops opts w).log := by
  unfold post_rebuild
  split
  · exact print_adapt_status_log ops opts w m h
  · exact h

theorem print_adapt_histograms_log {M : Type} (ops : MeshOps M) (w : World M)
    (m : Msg) (h : m ∈ w.log) : m ∈ (print_adapt_histograms ops w).log := by
  unfold print_adapt_histograms
  split
  · simp [say_log, h]
  · exact h

theorem print_adapt_histograms_mesh {M : Type} (ops : MeshOps M) (w : World M) :
    (print_adapt_histograms ops w).mesh = w.mesh := by
  unfold print_adapt_histograms
  split <;> rfl

theorem ite_say_mesh {M : Type} (c : Prop) [Decidable c] (v : World M) (x : Msg) :
    (if c then v.say x else v).mesh = v.mesh := by
  split <;> rfl

theorem post_adapt_mesh {M : Type} (ops : MeshOps M) (opts : AdaptOpts) (w : World M) :
    (post_adapt ops opts w).mesh = w.mesh := by
  unfold post_adapt
  dsimp only
  rw [ite_say_mesh, ite_say_mesh, ite_say_mesh, ite_say_mesh]
  have h1 : (if opts.verbosity = Verbosity.EACH_ADAPT then
      (print_adapt_status ops opts
        (if ops.rank w.mesh = 0 then w.say Msg.after_adapting else w)).2 else w).mesh =
      w.mesh := by
    split
    · rw [print_adapt_status_mesh, ite_say_mesh]
    · rfl
  split
  · rw [print_adapt_histograms_mesh, h1]
  · exact h1

theorem post_adapt_log {M : Type} (ops : MeshOps M) (opts : AdaptOpts) (w : World M)
    (m : Msg) (h : m ∈ w.log) : m ∈ (post_adapt ops opts w).log := by
  have say_keeps : ∀ (v : World M) (x : Msg), m ∈ v.log → m ∈ (v.say x).log := by
    intro v x hv
    simp [say_log, hv]
  have cond_say : ∀ (c : Prop) [Decidable c] (v : World M) (x : Msg), m ∈ v.log →
      m ∈ (if c then v.say x else v).log := by
    intro c _ v x hv
    split
    · exact say_keeps v x hv
    · exact hv
  unfold post_adapt
  dsimp only
  apply cond_say
  apply cond_say
  apply cond_say
  apply cond_say
  have h1 : m ∈ (if opts.verbosity = Verbosity.EACH_ADAPT then
      (print_adapt_status ops opts
        (if ops.rank w.mesh = 0 then w.say Msg.after_adapting else w)).2 else w).log := by
    split
    · exact print_adapt_status_log _ _ _ _ (cond_say _ _ _ h)
    · exact h
  split
  · exact print_adapt_histograms_log _ _ _ h1
  · exact h1

theorem satisfy_quality_scan_break_logged {M : Type} (ops : MeshOps M) (opts : AdaptOpts)
    (w : World M) (hb : (satisfy_quality_scan ops opts w).2 = false)
    (hv : opts.verbosity.toNat > Verbosity.SILENT.toNat) (hr : ∀ m, ops.rank m = 0) :
    Msg.could_not_satisfy_quality ∈ (satisfy_quality_scan ops opts w).1.log := by
  revert hb
  unfold satisfy_quality_scan World.run
  cases opts.should_swap <;> cases opts.should_coarsen_slivers <;>
    cases opts.should_move_for_quality <;>
    simp only [if_true, if_false, Bool.false_eq_true] <;>
    repeat' split <;>
    simp_all [say_log]

theorem satisfy_quality_loop_post {M : Type} (ops : MeshOps M) (opts : AdaptOpts)
    (hv : opts.verbosity.toNat > Verbosity.SILENT.toNat) (hr : ∀ m, ops.rank m = 0) :
    ∀ (fuel : Nat) (w w1 : World M), satisfy_quality_loop ops opts fuel w = .ok w1 →
      min_fixable_quality ops w1.mesh opts ≥ opts.min_quality_desired ∨
      Msg.could_not_satisfy_quality ∈ w1.log := by
  intro fuel
  induction fuel with
  | zero => intro w w1 h; simp [satisfy_quality_loop] at h
  | succ fuel ih =>
    intro w w1 h
    rw [satisfy_quality_loop] at h
    by_cases h1 : (satisfy_quality_scan ops opts w).2 = true
    · rw [if_pos h1] at h
      by_cases h2 : min_fixable_quality ops (satisfy_quality_scan ops opts w).1.mesh opts <
          opts.min_quality_desired
      · rw [if_pos h2] at h
        exact ih _ _ h
      · rw [if_neg h2] at h
        cases h
        exact Or.inl (not_lt.mp h2)
    · rw [if_neg h1] at h
      cases h
      exact Or.inr (satisfy_quality_scan_break_logged ops opts w (by simpa using h1) hv hr)

theorem satisfy_quality_post {M : Type} (ops : MeshOps M) (opts : AdaptOpts)
    (hv : opts.verbosity.toNat > Verbosity.SILENT.toNat) (hr : ∀ m, ops.rank m = 0)
    (fuel : Nat) (w w1 : World M) (h : satisfy_quality ops opts fuel w = .ok w1) :
    min_fixable_quality ops w1.mesh opts ≥ opts.min_quality_desired ∨
      Msg.could_not_satisfy_quality ∈ w1.log := by
  unfold satisfy_quality at h
  split at h
  · cases h
    left
    assumption
  · exact satisfy_quality_loop_post ops opts hv hr fuel _ w1 h

theorem pre_adapt_false {M : Type} (ops : MeshOps M) (opts : AdaptOpts) (w w1 : World M)
    (h : pre_adapt ops opts w = .ok (false, w1)) :
    w1.mesh = w.mesh ∧ w1.calls = w.calls ∧
      min_fixable_quality ops w.mesh opts ≥ opts.min_quality_desired ∧
      get_min ops w.mesh (ops.ask_lengths w.mesh) ≥ opts.min_length_desired ∧
      get_max ops w.mesh (ops.ask_lengths w.mesh) ≤ opts.max_length_desired := by
  unfold pre_adapt at h
  cases hv : validate ops opts w with
  | error e => rw [hv] at h; cases h
  | ok v =>
    obtain ⟨hm, hc⟩ := validate_ok_mesh ops opts w v hv
    rw [hv] at h
    dsimp only at h
    cases hx : TransferOpts.validate ops opts.xfer_opts v.mesh with
    | error e => rw [hx] at h; cases h
    | ok u =>
      rw [hx] at h
      dsimp only at h
      by_cases h1 : opts.verbosity.toNat ≥ Verbosity.EACH_ADAPT.toNat ∧ ops.rank v.mesh = 0
      · rw [if_pos h1] at h
        by_cases hs : (print_adapt_status ops opts (v.say Msg.before_adapting)).1 = true
        · rw [if_pos hs] at h
          cases h
          rw [print_adapt_status_flag, say_mesh, hm] at hs
          rw [print_adapt_status_mesh, print_adapt_status_calls, say_mesh, say_calls]
          exact ⟨hm, hc, hs⟩
        · rw [if_neg hs] at h
          simp at h
      · rw [if_neg h1] at h
        by_cases hs : (print_adapt_status ops opts v).1 = true
        · rw [if_pos hs] at h
          cases h
          rw [print_adapt_status_flag, hm] at hs
          rw [print_adapt_status_mesh, print_adapt_status_calls]
          exact ⟨hm, hc, hs⟩
        · rw [if_neg hs] at h
          simp at h

/-- C6 as stated fails, in two ways.  Under default options `adapt` can return with the
edge-length target unmet and no warning: the mesh has one element of quality 1 and one
edge of length 2 (above `max_length_desired = sqrt 2`), and no operator changes it; the
length loop stops after one quiet pass, the quality stage sees the target met, and
`adapt` returns true without printing the unmet-quality warning.  And a process whose
rank is not 0 prints no warning at all: with one element of quality 1/10 and operators
that change nothing, `adapt` returns true on rank 1 with the quality target unmet and
only the goal statistics in its log. -/
theorem adapt_default_unmet_length_no_warning_counterexample :
    adapt (toy_ops ToyMesh.still) (AdaptOpts.ofDim 2 0 0) 1
        (World.start { quals := [1], lens := [2], angle := [0], budget := 0 }) =
      .ok (true,
        { mesh := { quals := [1], lens := [2], angle := [0], budget := 0 }
          calls := [Call.setup_conservation_tags, Call.refine_by_size false,
            Call.coarsen_by_size false, Call.correct_integral_errors,
            Call.set_parting Omega_h_Parting.OMEGA_H_ELEM_BASED]
          log := [Msg.before_adapting, Msg.goal_stats_quality 1 1, Msg.goal_stats_length 2 2,
            Msg.addressing_edge_lengths, Msg.lengths_took, Msg.qualities_took,
            Msg.adapting_took] }) ∧
      ¬ (get_max (toy_ops ToyMesh.still) { quals := [1], lens := [2], angle := [0], budget := 0 }
          [2] ≤ (AdaptOpts.ofDim 2 0 0).max_length_desired) ∧
      Msg.could_not_satisfy_quality ∉
        [Msg.before_adapting, Msg.goal_stats_quality 1 1, Msg.goal_stats_length 2 2,
            Msg.addressing_edge_lengths, Msg.lengths_took, Msg.qualities_took,
            Msg.adapting_took] ∧
      adapt { toy_ops ToyMesh.still with rank := fun _ => 1 } (AdaptOpts.ofDim 2 0 0) 1
        (World.start { quals := [1 / 10], lens := [1], angle := [0], budget := 0 }) =
      .ok (true,
        { mesh := { quals := [1 / 10], lens := [1], angle := [0], budget := 0 }
          calls := [Call.setup_conservation_tags, Call.refine_by_size false,
            Call.coarsen_by_size false, Call.swap_edges false, Call.coarsen_slivers false,
            Call.correct_integral_errors, Call.set_parting Omega_h_Parting.OMEGA_H_ELEM_BASED]
          log := [Msg.goal_stats_quality (1 / 10) (1 / 10), Msg.goal_stats_length 1 1] }) ∧
      min_fixable_quality { toy_ops ToyMesh.still with rank := fun _ => 1 }
          { quals := [1 / 10], lens := [1], angle := [0], budget := 0 } (AdaptOpts.ofDim 2 0 0) <
        (AdaptOpts.ofDim 2 0 0).min_quality_desired ∧
      Msg.could_not_satisfy_quality ∉
        [Msg.goal_stats_quality (1 / 10) (1 / 10), Msg.goal_stats_length 1 1] := by
  refine ⟨?_, ?_, ?_, ?_, ?_, ?_⟩
  · norm_num [adapt, pre_adapt, validate, TransferOpts.validate, TransferOpts.validate_pairs,
      TransferOpts.default, print_adapt_status, get_minmax, get_min, get_max,
      get_fixable_qualities, min_fixable_quality, adapt_summary, World.say, satisfy_lengths,
      satisfy_lengths_pass, World.run, post_rebuild, snap_and_satisfy_quality, satisfy_quality,
      post_adapt, print_adapt_histograms, toy_ops, ToyMesh.still, World.start, AdaptOpts.ofDim,
      Verbosity.toNat, Real_max, sqrt_2]
    simp [show Verbosity.EACH_REBUILD ≠ Verbosity.EACH_ADAPT by decide]
  · norm_num [get_max, toy_ops, AdaptOpts.ofDim, Real_max, sqrt_2]
  · simp
  · norm_num [adapt, pre_adapt, validate, TransferOpts.validate, TransferOpts.validate_pairs,
      TransferOpts.default, print_adapt_status, get_minmax, get_min, get_max,
      get_fixable_qualities, min_fixable_quality, adapt_summary, World.say, satisfy_lengths,
      satisfy_lengths_pass, World.run, post_rebuild, snap_and_satisfy_quality, satisfy_quality,
      satisfy_quality_loop, satisfy_quality_scan,
      post_adapt, print_adapt_histograms, toy_ops, ToyMesh.still, World.start, AdaptOpts.ofDim,
      Verbosity.toNat, Real_max, sqrt_2]
    simp [show Verbosity.EACH_REBUILD ≠ Verbosity.EACH_ADAPT by decide]
  · norm_num [min_fixable_quality, get_fixable_qualities, get_min, toy_ops, AdaptOpts.ofDim]
  · simp

/-- C6 (amended): under default options, on rank 0 (the rank that prints), and with a
conservation correction and a repartitioning (the two operators that run after the
quality stage, both outside the sources) that do not lower the worst fixable quality:
when `adapt` returns, either it returned false and the unchanged mesh meets the quality
target and both length targets, or it returned true and the mesh it leaves has worst
fixable quality at least `min_quality_desired` or the unmet-quality warning is in the
log.  Nothing is promised about edge lengths after a true return. -/
theorem adapt_default_quality_met_or_warned {M : Type} (ops : MeshOps M) (dim : Int)
    (q_allowed0 q_desired0 : Rat) (fuel : Nat) (w w1 : World M) (b : Bool)
    (hr : ∀ m, ops.rank m = 0)
    (hpost : ∀ m, min_fixable_quality ops m (AdaptOpts.ofDim dim q_allowed0 q_desired0) ≤
      min_fixable_quality ops
        (ops.set_parting
          (ops.correct_integral_errors m (AdaptOpts.ofDim dim q_allowed0 q_desired0))
          Omega_h_Parting.OMEGA_H_ELEM_BASED)
        (AdaptOpts.ofDim dim q_allowed0 q_desired0))
    (h : adapt ops (AdaptOpts.ofDim dim q_allowed0 q_desired0) fuel w = .ok (b, w1)) :
    (b = false ∧ w1.mesh = w.mesh ∧ w1.calls = w.calls ∧
      min_fixable_quality ops w.mesh (AdaptOpts.ofDim dim q_allowed0 q_desired0) ≥
        (AdaptOpts.ofDim dim q_allowed0 q_desired0).min_quality_desired ∧
      get_min ops w.mesh (ops.ask_lengths w.mesh) ≥
        (AdaptOpts.ofDim dim q_allowed0 q_desired0).min_length_desired ∧
      get_max ops w.mesh (ops.ask_lengths w.mesh) ≤
        (AdaptOpts.ofDim dim q_allowed0 q_desired0).max_length_desired) ∨
    (b = true ∧
      (min_fixable_quality ops w1.mesh (AdaptOpts.ofDim dim q_allowed0 q_desired0) ≥
          (AdaptOpts.ofDim dim q_allowed0 q_desired0).min_quality_desired ∨
        Msg.could_not_satisfy_quality ∈ w1.log)) := by
  have hv : (AdaptOpts.ofDim dim q_allowed0 q_desired0).verbosity.toNat >
      Verbosity.SILENT.toNat := by
    simp [AdaptOpts.ofDim, Verbosity.toNat]
  generalize AdaptOpts.ofDim dim q_allowed0 q_desired0 = opts at h hv hpost ⊢
  unfold adapt at h
  cases hp : pre_adapt ops opts w with
  | error e => rw [hp] at h; cases h
  | ok r =>
    obtain ⟨b0, v1⟩ := r
    rw [hp] at h
    cases b0 with
    | false =>
      dsimp only at h
      simp only [Except.ok.injEq, Prod.mk.injEq] at h
      obtain ⟨hb, hw⟩ := h
      subst hb hw
      obtain ⟨hm, hc, hq, h1, h2⟩ := pre_adapt_false ops opts w v1 hp
      exact Or.inl ⟨rfl, hm, hc, hq, h1, h2⟩
    | true =>
      dsimp only at h
      cases hl : satisfy_lengths ops opts fuel
          { mesh := ops.setup_conservation_tags v1.mesh opts,
            calls := v1.calls ++ [Call.setup_conservation_tags], log := v1.log } with
      | error e => rw [hl] at h; cases h
      | ok r3 =>
        obtain ⟨w3, n3⟩ := r3
        rw [hl] at h
        dsimp only at h
        cases hs : snap_and_satisfy_quality ops opts fuel w3 with
        | error e => rw [hs] at h; cases h
        | ok w4 =>
          rw [hs] at h
          dsimp only at h
          cases h
          refine Or.inr ⟨rfl, ?_⟩
          rcases satisfy_quality_post ops opts hv hr fuel w3 w4 hs with hq | hq
          · left
            rw [post_adapt_mesh]
            exact le_trans hq (hpost w4.mesh)
          · exact Or.inr (post_adapt_log ops opts _ _ hq)

theorem toy_still_low_quality_run :
    adapt (toy_ops ToyMesh.still) (AdaptOpts.ofDim 2 0 0) 1
        (World.start { quals := [1 / 10], lens := [1], angle := [0], budget := 0 }) =
      .ok (true,
        { mesh := { quals := [1 / 10], lens := [1], angle := [0], budget := 0 }
          calls := [Call.setup_conservation_tags, Call.refine_by_size false,
            Call.coarsen_by_size false, Call.swap_edges false, Call.coarsen_slivers false,
            Call.correct_integral_errors, Call.set_parting Omega_h_Parting.OMEGA_H_ELEM_BASED]
          log := [Msg.worst_input_quality_warning (1 / 10) (3 / 10), Msg.before_adapting,
            Msg.goal_stats_quality (1 / 10) (1 / 10), Msg.goal_stats_length 1 1,
            Msg.addressing_edge_lengths, Msg.addressing_element_qualities,
            Msg.could_not_satisfy_quality, Msg.lengths_took, Msg.qualities_took,
            Msg.adapting_took] }) := by
  norm_num [adapt, pre_adapt, validate, TransferOpts.validate, TransferOpts.validate_pairs,
    TransferOpts.default, print_adapt_status, get_minmax, get_min, get_max,
    get_fixable_qualities, min_fixable_quality, adapt_summary, World.say, satisfy_lengths,
    satisfy_lengths_pass, World.run, post_rebuild, snap_and_satisfy_quality, satisfy_quality,
    satisfy_quality_loop, satisfy_quality_scan,
    post_adapt, print_adapt_histograms, toy_ops, ToyMesh.still, World.start, AdaptOpts.ofDim,
    Verbosity.toNat, Real_max, sqrt_2]
  simp [show Verbosity.EACH_REBUILD ≠ Verbosity.EACH_ADAPT by decide]

theorem adapt_default_quality_met_or_warned_witness :
    min_fixable_quality (toy_ops ToyMesh.still)
        { quals := [1 / 10], lens := [1], angle := [0], budget := 0 } (AdaptOpts.ofDim 2 0 0) ≥
          (AdaptOpts.ofDim 2 0 0).min_quality_desired ∨
        Msg.could_not_satisfy_quality ∈
          [Msg.worst_input_quality_warning (1 / 10) (3 / 10), Msg.before_adapting,
            Msg.goal_stats_quality (1 / 10) (1 / 10), Msg.goal_stats_length 1 1,
            Msg.addressing_edge_lengths, Msg.addressing_element_qualities,
            Msg.could_not_satisfy_quality, Msg.lengths_took, Msg.qualities_took,
            Msg.adapting_took] := by
  rcases adapt_default_quality_met_or_warned (toy_ops ToyMesh.still) 2 0 0 1
    (World.start { quals := [1 / 10], lens := [1], angle := [0], budget := 0 }) _ true
    (fun _ => rfl) (fun _ => le_refl _) toy_still_low_quality_run with h | ⟨_, h⟩
  · exact absurd h.1 (by decide)
  · exact h

/-! ## Facts about `Comm::alltoallv` -/

theorem HostRead_last_of_getLast? {T : Type} (a : List T) (v : T)
    (h : a.getLast? = some v) : HostRead_last a = .ok v := by
  have hne : a ≠ [] := by
    intro h0
    subst h0
    simp at h
  have hpos : 0 < a.length := List.length_pos.mpr hne
  unfold HostRead_last Read_get
  have h1 : (0 : Int) ≤ (a.length : Int) - 1 := by omega
  have h2 : ((a.length : Int) - 1).toNat = a.length - 1 := by omega
  rw [if_pos h1, h2, ← List.getLast?_eq_getElem?, h]

theorem getLast?_of_length_succ {T : Type} (a : List T) (n : Nat) (h : a.length = n + 1) :
    ∃ v, a.getLast? = some v := by
  cases a with
  | nil => simp at h
  | cons x xs => exact ⟨_, List.getLast?_eq_getLast (x :: xs) (by simp)⟩

theorem alltoallv_host_of_checks {T : Type} [Inhabited T] (c : Comm)
    (tr : A2A T → List T → Except Fail (List T)) (a : A2A T) (nrecvd : Nat)
    (hc : A2A.checks c a) (hn : a.rdispls.getLast? = some nrecvd) :
    c.alltoallv_host tr a = tr a (List.replicate nrecvd default) := by
  obtain ⟨h1, h2, h3, h4, h5⟩ := hc
  unfold Comm.alltoallv_host
  rw [if_neg (not_not.mpr h1), HostRead_last_of_getLast? _ _ hn]
  dsimp only
  unfold Write_new
  rw [if_pos (by omega)]
  dsimp only
  rw [if_neg (not_not.mpr h2), if_neg (not_not.mpr h3), if_neg (not_not.mpr h4),
    HostRead_last_of_getLast? _ _ h5]
  dsimp only
  rw [if_neg (not_not.mpr rfl)]
  simp

theorem alltoallv_host_of_not_checks {T : Type} [Inhabited T] (c : Comm) (a : A2A T)
    (hc : ¬ A2A.checks c a) :
    ∃ line, line ∈ [483, 486, 487, 488, 489] ∧
      ∀ tr : A2A T → List T → Except Fail (List T),
        c.alltoallv_host tr a = .error (Fail.check line) := by
  unfold A2A.checks at hc
  by_cases h1 : a.rdispls.length = a.recvcounts.length + 1
  · obtain ⟨nrecvd, hn⟩ := getLast?_of_length_succ _ _ h1
    have e1 : ∀ tr : A2A T → List T → Except Fail (List T), c.alltoallv_host tr a =
        (if ¬ (a.sendcounts.length = c.dsts_.length) then .error (Fail.check 486)
        else if ¬ (a.recvcounts.length = c.srcs_.length) then .error (Fail.check 487)
        else if ¬ (a.sdispls.length = a.sendcounts.length + 1) then .error (Fail.check 488)
        else
          match HostRead_last a.sdispls with
          | .error e => .error e
          | .ok last =>
            if ¬ (a.sendbuf.length = last) then .error (Fail.check 489)
            else tr a (List.replicate nrecvd default)) := by
      intro tr
      unfold Comm.alltoallv_host
      rw [if_neg (not_not.mpr h1), HostRead_last_of_getLast? _ _ hn]
      dsimp only
      unfold Write_new
      rw [if_pos (by omega)]
      simp
    by_cases h2 : a.sendcounts.length = c.dsts_.length
    · by_cases h3 : a.recvcounts.length = c.srcs_.length
      · by_cases h4 : a.sdispls.length = a.sendcounts.length + 1
        · obtain ⟨last, hl⟩ := getLast?_of_length_succ _ _ h4
          have h5 : ¬ a.sendbuf.length = last := by
            intro h5
            exact hc ⟨h1, h2, h3, h4, by rw [hl, h5]⟩
          refine ⟨489, by simp, fun tr => ?_⟩
          rw [e1, if_neg (not_not.mpr h2), if_neg (not_not.mpr h3), if_neg (not_not.mpr h4),
            HostRead_last_of_getLast? _ _ hl]
          dsimp only
          rw [if_pos h5]
        · refine ⟨488, by simp, fun tr => ?_⟩
          rw [e1, if_neg (not_not.mpr h2), if_neg (not_not.mpr h3), if_pos h4]
      · refine ⟨487, by simp, fun tr => ?_⟩
        rw [e1, if_neg (not_not.mpr h2), if_pos h3]
    · refine ⟨486, by simp, fun tr => ?_⟩
      rw [e1, if_pos h2]
  · refine ⟨483, by simp, fun tr => ?_⟩
    unfold Comm.alltoallv_host
    rw [if_pos h1]

/-- C7: in an MPI build `Comm::alltoallv` hands its arrays to the transport exactly
when the five size conditions hold, and then both `last()` accesses are in bounds;
when a condition is violated the call fails one of the five assertions whatever the
transport would do.  In the CUDA build the same holds of the arrays
`self_send_part1` leaves behind. -/
theorem alltoallv_transport_guarded_by_checks {T : Type} [Inhabited T] (c : Comm)
    (sizeofT : Nat) (a : A2A T) :
    (A2A.checks c a →
      ∃ nrecvd, HostRead_last a.rdispls = .ok nrecvd ∧
        HostRead_last a.sdispls = .ok a.sendbuf.length ∧
        ∀ tr : A2A T → List T → Except Fail (List T),
          c.alltoallv false sizeofT tr a = tr a (List.replicate nrecvd default)) ∧
    (¬ A2A.checks c a →
      ∃ line, line ∈ [483, 486, 487, 488, 489] ∧
        ∀ tr : A2A T → List T → Except Fail (List T),
          c.alltoallv false sizeofT tr a = .error (Fail.check line)) ∧
    (∀ (self_data : Option (List T)) (a1 : A2A T),
      self_send_part1 sizeofT c.self_dst_ c.self_src_ a c.self_send_threshold =
        .ok (self_data, a1) →
      ¬ A2A.checks c a1 →
      ∃ line, line ∈ [483, 486, 487, 488, 489] ∧
        ∀ tr : A2A T → List T → Except Fail (List T),
          c.alltoallv true sizeofT tr a = .error (Fail.check line)) := by
  refine ⟨?_, ?_, ?_⟩
  · intro hc
    obtain ⟨nrecvd, hn⟩ := getLast?_of_length_succ _ _ hc.1
    refine ⟨nrecvd, HostRead_last_of_getLast? _ _ hn,
      HostRead_last_of_getLast? _ _ hc.2.2.2.2, fun tr => ?_⟩
    unfold Comm.alltoallv
    simp only [Bool.false_eq_true, if_false]
    exact alltoallv_host_of_checks c tr a nrecvd hc hn
  · intro hc
    obtain ⟨line, hl, h⟩ := alltoallv_host_of_not_checks c a hc
    refine ⟨line, hl, fun tr => ?_⟩
    unfold Comm.alltoallv
    simp only [Bool.false_eq_true, if_false]
    exact h tr
  · intro self_data a1 h1 hc
    obtain ⟨line, hl, h⟩ := alltoallv_host_of_not_checks c a1 hc
    refine ⟨line, hl, fun tr => ?_⟩
    unfold Comm.alltoallv
    simp only [if_true]
    rw [h1]
    dsimp only
    rw [h tr]

theorem alltoallv_transport_guarded_by_checks_witness :
    ∃ nrecvd, HostRead_last loop_args.rdispls = .ok nrecvd ∧
        HostRead_last loop_args.sdispls = .ok loop_args.sendbuf.length ∧
        ∀ tr : A2A Nat → List Nat → Except Fail (List Nat),
          loop_comm.alltoallv false 4 tr loop_args =
            tr loop_args (List.replicate nrecvd default) :=
  (alltoallv_transport_guarded_by_checks loop_comm 4 loop_args).1
    (by simp [A2A.checks, loop_comm, loop_args])

/-! ### Arrays, prefix sums and kernels -/

theorem Read_get_ofNat {T : Type} (a : List T) (i : Nat) (v : T) (h : a[i]? = some v) :
    Read_get a (i : Int) = .ok v := by
  unfold Read_get
  rw [if_pos (by omega), Int.toNat_ofNat, h]

theorem Read_get_of_getElem? {T : Type} (a : List T) (i : Int) (v : T) (hi : 0 ≤ i)
    (h : a[i.toNat]? = some v) : Read_get a i = .ok v := by
  unfold Read_get
  rw [if_pos hi, h]

theorem Write_set_ofNat {T : Type} (a : List T) (i : Nat) (v : T) (h : i < a.length) :
    Write_set a (i : Int) v = .ok (a.set i v) := by
  unfold Write_set
  rw [if_pos ⟨by omega, by simpa using h⟩, Int.toNat_ofNat]

theorem Write_set_of_lt {T : Type} (a : List T) (i : Int) (v : T) (hi : 0 ≤ i)
    (h : i.toNat < a.length) : Write_set a i v = .ok (a.set i.toNat v) := by
  unfold Write_set
  rw [if_pos ⟨hi, h⟩]

theorem Write_new_ofNat {T : Type} [Inhabited T] (n : Nat) :
    Write_new (T := T) (n : Int) = .ok (List.replicate n default) := by
  unfold Write_new
  rw [if_pos (by omega), Int.toNat_ofNat]

theorem offset_scan_length (a : List Nat) : (offset_scan a).length = a.length + 1 := by
  simp [offset_scan]

theorem offset_scan_getElem? (a : List Nat) (i : Nat) (h : i ≤ a.length) :
    (offset_scan a)[i]? = some (a.take i).sum := by
  unfold offset_scan
  rw [List.getElem?_map, List.getElem?_range (by omega)]
  rfl

theorem offset_scan_getD (a : List Nat) (i : Nat) (h : i ≤ a.length) :
    (offset_scan a).getD i 0 = (a.take i).sum := by
  rw [List.getD_eq_getElem?_getD, offset_scan_getElem? a i h]
  rfl

theorem offset_scan_getLast? (a : List Nat) : (offset_scan a).getLast? = some a.sum := by
  rw [List.getLast?_eq_getElem?, offset_scan_length, Nat.add_sub_cancel,
    offset_scan_getElem? a _ (le_refl _), List.take_length]

theorem sum_take_succ (l : List Nat) (i : Nat) (h : i < l.length) :
    (l.take (i + 1)).sum = (l.take i).sum + l.getD i 0 := by
  rw [List.take_succ, List.sum_append, List.getD_eq_getElem?_getD, List.getElem?_eq_getElem h]
  simp

theorem sum_take_le (l : List Nat) (i : Nat) : (l.take i).sum ≤ l.sum := by
  conv_rhs => rw [← List.take_append_drop i l]
  rw [List.sum_append]
  omega

theorem sum_take_succ_le (l : List Nat) (i : Nat) (h : i < l.length) :
    (l.take i).sum + l.getD i 0 ≤ l.sum := by
  rw [← sum_take_succ l i h]
  exact sum_take_le l (i + 1)

theorem sum_set_zero (l : List Nat) (i : Nat) (h : i < l.length) :
    (l.set i 0).sum + l.getD i 0 = l.sum := by
  induction l generalizing i with
  | nil => simp at h
  | cons x xs ih =>
    cases i with
    | zero => simp [List.set]; omega
    | succ i =>
      have := ih i (by simpa using h)
      simp only [List.set, List.sum_cons, List.getD_cons_succ]
      omega

theorem take_set_of_le {T : Type} (l : List T) (i j : Nat) (v : T) (h : j ≤ i) :
    (l.set i v).take j = l.take j := by
  apply List.ext_getElem?
  intro n
  by_cases hn : n < j
  · rw [List.getElem?_take_of_lt hn, List.getElem?_take_of_lt hn,
      List.getElem?_set_ne (by omega)]
  · rw [List.getElem?_take_eq_none (by omega), List.getElem?_take_eq_none (by omega)]

theorem parallel_for_from_inv {σ : Type} (f : Nat → σ → Except Fail σ)
    (Inv : Nat → σ → Prop) :
    ∀ (k i : Nat) (s : σ), Inv i s →
      (∀ j t, i ≤ j → j < i + k → Inv j t → ∃ t1, f j t = .ok t1 ∧ Inv (j + 1) t1) →
      ∃ s1, parallel_for_from f k i s = .ok s1 ∧ Inv (i + k) s1 := by
  intro k
  induction k with
  | zero => intro i s h _; exact ⟨s, rfl, h⟩
  | succ k ih =>
    intro i s h step
    obtain ⟨t1, h1, h2⟩ := step i s (le_refl _) (by omega) h
    obtain ⟨s1, g1, g2⟩ := ih (i + 1) t1 h2 (fun j t hj hj2 hinv =>
      step j t (by omega) (by omega) hinv)
    refine ⟨s1, ?_, ?_⟩
    · rw [parallel_for_from, h1]
      exact g1
    · have e : i + (k + 1) = i + 1 + k := by omega
      rw [e]
      exact g2

theorem parallel_for_inv {σ : Type} (f : Nat → σ → Except Fail σ) (Inv : Nat → σ → Prop)
    (n : Nat) (s : σ) (h0 : Inv 0 s)
    (step : ∀ j t, j < n → Inv j t → ∃ t1, f j t = .ok t1 ∧ Inv (j + 1) t1) :
    ∃ s1, parallel_for n f s = .ok s1 ∧ Inv n s1 := by
  obtain ⟨s1, h1, h2⟩ := parallel_for_from_inv f Inv n 0 s h0
    (fun j t _ hj hinv => step j t (by omega) hinv)
  exact ⟨s1, h1, by simpa using h2⟩

/-- What the kernel of `self_send_part1` leaves in its two arrays when the self
slice `[b, e)` lies inside the send buffer. -/
theorem self_send_part1_kernel_loop {T : Type} [Inhabited T] (sendbuf : List T) (b e : Nat)
    (hbe : b ≤ e) (hen : e ≤ sendbuf.length) :
    parallel_for sendbuf.length
        (self_send_part1_kernel sendbuf (b : Int) (e : Int) ((e : Int) - (b : Int)))
        (List.replicate (e - b) default, List.replicate (sendbuf.length - (e - b)) default) =
      .ok ((sendbuf.drop b).take (e - b), sendbuf.take b ++ sendbuf.drop e) := by
  obtain ⟨⟨s, o⟩, hrun, hs, ho, h1, h2, h3⟩ := parallel_for_inv
    (self_send_part1_kernel sendbuf (b : Int) (e : Int) ((e : Int) - (b : Int)))
    (fun j (st : List T × List T) =>
      st.1.length = e - b ∧ st.2.length = sendbuf.length - (e - b) ∧
      (∀ t, t < j → t < b → st.2[t]? = sendbuf[t]?) ∧
      (∀ t, t < j → b ≤ t → t < e → st.1[t - b]? = sendbuf[t]?) ∧
      (∀ t, t < j → e ≤ t → st.2[t - (e - b)]? = sendbuf[t]?))
    sendbuf.length
    (List.replicate (e - b) default, List.replicate (sendbuf.length - (e - b)) default)
    ⟨by simp, by simp, fun t ht => by omega, fun t ht => by omega, fun t ht => by omega⟩
    (by
      rintro j ⟨s, o⟩ hj ⟨hs, ho, h1, h2, h3⟩
      dsimp only at hs ho h1 h2 h3
      have hv : sendbuf[j]? = some sendbuf[j] := List.getElem?_eq_getElem hj
      unfold self_send_part1_kernel
      rw [Read_get_ofNat sendbuf j _ hv]
      dsimp only
      by_cases c1 : (j : Int) < (b : Int)
      · have c1n : j < b := by omega
        rw [if_pos c1, Write_set_ofNat o j _ (by omega)]
        refine ⟨_, rfl, hs, by simp [ho], ?_, ?_, ?_⟩
        · intro t ht htb
          dsimp only
          by_cases e1 : t = j
          · subst e1
            rw [List.getElem?_set_self (by omega), hv]
          · rw [List.getElem?_set_ne (by omega)]
            exact h1 t (by omega) htb
        · intro t ht hbt hte
          exact h2 t (by omega) hbt hte
        · intro t ht het
          dsimp only
          rw [List.getElem?_set_ne (by omega)]
          exact h3 t (by omega) het
      · rw [if_neg c1]
        by_cases c2 : (j : Int) < (e : Int)
        · have hidx : ((j : Int) - (b : Int)).toNat = j - b := by omega
          rw [if_pos c2, Write_set_of_lt s _ _ (by omega) (by omega), hidx]
          refine ⟨_, rfl, by simp [hs], ho, ?_, ?_, ?_⟩
          · intro t ht htb
            exact h1 t (by omega) htb
          · intro t ht hbt hte
            dsimp only
            by_cases e1 : t = j
            · subst e1
              rw [List.getElem?_set_self (by omega), hv]
            · rw [List.getElem?_set_ne (by omega)]
              exact h2 t (by omega) hbt hte
          · intro t ht het
            exact h3 t (by omega) het
        · have hidx : ((j : Int) - ((e : Int) - (b : Int))).toNat = j - (e - b) := by omega
          rw [if_neg c2, Write_set_of_lt o _ _ (by omega) (by omega), hidx]
          refine ⟨_, rfl, hs, by simp [ho], ?_, ?_, ?_⟩
          · intro t ht htb
            dsimp only
            rw [List.getElem?_set_ne (by omega)]
            exact h1 t (by omega) htb
          · intro t ht hbt hte
            exact h2 t (by omega) hbt hte
          · intro t ht het
            dsimp only
            by_cases e1 : t = j
            · subst e1
              rw [List.getElem?_set_self (by omega), hv]
            · rw [List.getElem?_set_ne (by omega)]
              exact h3 t (by omega) het)
  dsimp only at hs ho h1 h2 h3
  rw [hrun]
  have es : s = (sendbuf.drop b).take (e - b) := by
    apply List.ext_getElem?
    intro m
    by_cases hm : m < e - b
    · have := h2 (m + b) (by omega) (by omega) (by omega)
      rw [Nat.add_sub_cancel] at this
      rw [this, List.getElem?_take_of_lt hm, List.getElem?_drop, Nat.add_comm]
    · rw [List.getElem?_eq_none (by omega), List.getElem?_take_eq_none (by omega)]
  have eo : o = sendbuf.take b ++ sendbuf.drop e := by
    apply List.ext_getElem?
    intro m
    have hlt : (sendbuf.take b).length = b := by simp; omega
    by_cases hm : m < b
    · rw [h1 m (by omega) hm, List.getElem?_append_left (by omega),
        List.getElem?_take_of_lt hm]
    · rw [List.getElem?_append_right (by omega), hlt, List.getElem?_drop]
      by_cases hm2 : m < sendbuf.length - (e - b)
      · have := h3 (m + (e - b)) (by omega) (by omega)
        rw [Nat.add_sub_cancel] at this
        rw [this]
        congr 1
        omega
      · rw [List.getElem?_eq_none (by omega), List.getElem?_eq_none (by omega)]
  rw [es, eo]

theorem splice_getElem? {T : Type} (recvbuf sd : List T) (b : Nat) (hb : b ≤ recvbuf.length)
    (m : Nat) :
    (recvbuf.take b ++ sd ++ recvbuf.drop b)[m]? =
      if m < b then recvbuf[m]?
      else if m < b + sd.length then sd[m - b]?
      else recvbuf[m - sd.length]? := by
  have hlt : (recvbuf.take b).length = b := by simp; omega
  by_cases h1 : m < b
  · rw [if_pos h1, List.append_assoc, List.getElem?_append_left (by omega),
      List.getElem?_take_of_lt h1]
  · rw [if_neg h1, List.append_assoc, List.getElem?_append_right (by omega), hlt]
    by_cases h2 : m < b + sd.length
    · rw [if_pos h2, List.getElem?_append_left (by omega)]
    · rw [if_neg h2, List.getElem?_append_right (by omega), List.getElem?_drop]
      congr 1
      omega

/-- What the kernel of `self_send_part2` builds when the insertion point `b` lies
inside the received buffer. -/
theorem self_send_part2_kernel_loop {T : Type} [Inhabited T] (recvbuf sd : List T) (b : Nat)
    (hb : b ≤ recvbuf.length) :
    parallel_for (recvbuf.length + sd.length)
        (self_send_part2_kernel recvbuf sd (b : Int) ((b : Int) + (sd.length : Int))
          (sd.length : Int))
        (List.replicate (recvbuf.length + sd.length) default) =
      .ok (recvbuf.take b ++ sd ++ recvbuf.drop b) := by
  obtain ⟨w, hrun, hw, hcell⟩ := parallel_for_inv
    (self_send_part2_kernel recvbuf sd (b : Int) ((b : Int) + (sd.length : Int))
      (sd.length : Int))
    (fun j (w : List T) =>
      w.length = recvbuf.length + sd.length ∧
      ∀ t, t < j → w[t]? = (recvbuf.take b ++ sd ++ recvbuf.drop b)[t]?)
    (recvbuf.length + sd.length)
    (List.replicate (recvbuf.length + sd.length) default)
    ⟨by simp, fun t ht => by omega⟩
    (by
      rintro j w hj ⟨hw, hcell⟩
      have keep : ∀ v : T, some v = (recvbuf.take b ++ sd ++ recvbuf.drop b)[j]? →
          (w.set j v).length = recvbuf.length + sd.length ∧
          ∀ t, t < j + 1 → (w.set j v)[t]? = (recvbuf.take b ++ sd ++ recvbuf.drop b)[t]? := by
        intro v hv
        refine ⟨by simp [hw], fun t ht => ?_⟩
        by_cases e1 : t = j
        · subst e1
          rw [List.getElem?_set_self (by omega), hv]
        · rw [List.getElem?_set_ne (by omega)]
          exact hcell t (by omega)
      unfold self_send_part2_kernel
      by_cases c1 : (j : Int) < (b : Int)
      · have hr : recvbuf[j]? = some recvbuf[j] := List.getElem?_eq_getElem (by omega)
        rw [if_pos c1, Read_get_ofNat recvbuf j _ hr]
        dsimp only
        rw [Write_set_ofNat w j _ (by omega)]
        refine ⟨_, rfl, keep _ ?_⟩
        have p1 : j < b := by omega
        rw [splice_getElem? recvbuf sd b hb, if_pos p1, hr]
      · rw [if_neg c1]
        by_cases c2 : (j : Int) < (b : Int) + (sd.length : Int)
        · have hidx : ((j : Int) - (b : Int)).toNat = j - b := by omega
          have hr : sd[j - b]? = some sd[j - b] := List.getElem?_eq_getElem (by omega)
          rw [if_pos c2, Read_get_of_getElem? sd _ _ (by omega) (by rw [hidx]; exact hr)]
          dsimp only
          rw [Write_set_ofNat w j _ (by omega)]
          refine ⟨_, rfl, keep _ ?_⟩
          have n1 : ¬ j < b := by omega
          have p2 : j < b + sd.length := by omega
          rw [splice_getElem? recvbuf sd b hb, if_neg n1, if_pos p2, hr]
        · have hidx : ((j : Int) - (sd.length : Int)).toNat = j - sd.length := by omega
          have hr : recvbuf[j - sd.length]? = some recvbuf[j - sd.length] :=
            List.getElem?_eq_getElem (by omega)
          rw [if_neg c2, Read_get_of_getElem? recvbuf _ _ (by omega) (by rw [hidx]; exact hr)]
          dsimp only
          rw [Write_set_ofNat w j _ (by omega)]
          refine ⟨_, rfl, keep _ ?_⟩
          have n1 : ¬ j < b := by omega
          have n2 : ¬ j < b + sd.length := by omega
          rw [splice_getElem? recvbuf sd b hb, if_neg n1, if_neg n2, hr])
  rw [hrun]
  congr 1
  apply List.ext_getElem?
  intro m
  by_cases hm : m < recvbuf.length + sd.length
  · exact hcell m hm
  · rw [List.getElem?_eq_none (by omega), List.getElem?_eq_none (by simp; omega)]

/-- `self_send_part2` with existing self data inserts it at the receive displacement
of the self source. -/
theorem self_send_part2_some {T : Type} [Inhabited T] (sd recvbuf : List T)
    (self_src : Int) (rdispls : List Nat) (b : Nat) (hs : 0 ≤ self_src)
    (hb : rdispls[self_src.toNat]? = some b) (hle : b ≤ recvbuf.length) :
    self_send_part2 (some sd) self_src recvbuf rdispls =
      .ok (recvbuf.take b ++ sd ++ recvbuf.drop b) := by
  unfold self_send_part2
  dsimp only
  by_cases h0 : recvbuf.length = 0
  · rw [if_pos h0]
    have : recvbuf = [] := List.length_eq_zero.mp h0
    subst this
    simp
  · rw [if_neg h0, Read_get_of_getElem? rdispls self_src b hs hb]
    dsimp only
    have e : (recvbuf.length : Int) + (sd.length : Int) =
        ((recvbuf.length + sd.length : Nat) : Int) := by push_cast; rfl
    rw [e, Write_new_ofNat]
    dsimp only
    rw [List.length_replicate]
    exact self_send_part2_kernel_loop recvbuf sd b hle

/-! ### The preconditions of `alltoallv` and the elided arrays -/

theorem getD_set_self_zero (l : List Nat) (i : Nat) : (l.set i 0).getD i 0 = 0 := by
  rw [List.getD_eq_getElem?_getD]
  by_cases h : i < l.length
  · rw [List.getElem?_set_self h]; rfl
  · rw [List.getElem?_eq_none (by simp; omega)]; rfl

theorem getD_set_ne (l : List Nat) (i j : Nat) (h : i ≠ j) :
    (l.set i 0).getD j 0 = l.getD j 0 := by
  rw [List.getD_eq_getElem?_getD, List.getD_eq_getElem?_getD, List.getElem?_set_ne h]

/-- Under the preconditions the slice bounds are the prefix sums of the send counts. -/
theorem pre_slice_bounds {T : Type} (c : Comm) (remote : Nat → List T) (a : A2A T)
    (hpre : A2A.pre c remote a) (hd : 0 ≤ c.self_dst_) :
    c.self_dst_.toNat < a.sendcounts.length ∧
    c.self_src_.toNat < a.recvcounts.length ∧
    a.sdispls.getD c.self_dst_.toNat 0 = (a.sendcounts.take c.self_dst_.toNat).sum ∧
    a.sdispls.getD (c.self_dst_.toNat + 1) 0 =
      (a.sendcounts.take c.self_dst_.toNat).sum + a.sendcounts.getD c.self_dst_.toNat 0 ∧
    (a.sendcounts.take c.self_dst_.toNat).sum + a.sendcounts.getD c.self_dst_.toNat 0 ≤
      a.sendbuf.length := by
  obtain ⟨h1, h2, h3, h4, h5, h6, h7, h8, h9⟩ := hpre
  have hs := (h8 hd).1
  have d1 : c.self_dst_.toNat < a.sendcounts.length := by omega
  have s1 : c.self_src_.toNat < a.recvcounts.length := by omega
  refine ⟨d1, s1, ?_, ?_, ?_⟩
  · rw [h3, offset_scan_getD _ _ (by omega)]
  · rw [h3, offset_scan_getD _ _ (by omega), sum_take_succ _ _ d1]
  · rw [h5]
    exact sum_take_succ_le _ _ d1

/-! ### The three outcomes of `self_send_part1` -/

theorem self_send_part1_reads {T : Type} (self_dst self_src : Int) (a : A2A T) (b e : Nat)
    (hd : 0 ≤ self_dst) (hs : 0 ≤ self_src)
    (hb : a.sdispls[self_dst.toNat]? = some b)
    (he : a.sdispls[self_dst.toNat + 1]? = some e) :
    Read_get a.sdispls self_dst = .ok b ∧ Read_get a.sdispls (self_dst + 1) = .ok e ∧
      ¬ self_dst < 0 ∧ ¬ ¬ self_src ≥ 0 := by
  refine ⟨Read_get_of_getElem? _ _ _ hd hb, Read_get_of_getElem? _ _ _ (by omega) ?_,
    by omega, by omega⟩
  have : (self_dst + 1).toNat = self_dst.toNat + 1 := by omega
  rw [this]
  exact he

theorem self_send_part1_skip {T : Type} [Inhabited T] (sizeofT : Nat)
    (self_dst self_src : Int) (a : A2A T) (threshold : Int) (b e : Nat)
    (hd : 0 ≤ self_dst) (hs : 0 ≤ self_src)
    (hb : a.sdispls[self_dst.toNat]? = some b)
    (he : a.sdispls[self_dst.toNat + 1]? = some e)
    (hne : (e : Int) - (b : Int) ≠ (a.sendbuf.length : Int))
    (hlt : to_size_t (((e : Int) - (b : Int)) * (sizeofT : Int)) < to_size_t threshold) :
    self_send_part1 sizeofT self_dst self_src a threshold = .ok (none, a) := by
  obtain ⟨r1, r2, n1, n2⟩ := self_send_part1_reads self_dst self_src a b e
    hd hs hb he
  unfold self_send_part1
  rw [if_neg n1, if_neg n2, r1]
  dsimp only
  rw [r2]
  dsimp only
  rw [if_neg hne, if_pos hlt]

theorem self_send_part1_whole_fail {T : Type} [Inhabited T] (sizeofT : Nat)
    (self_dst self_src : Int) (a : A2A T) (threshold : Int) (b e : Nat)
    (hd : 0 ≤ self_dst) (hs : 0 ≤ self_src)
    (hb : a.sdispls[self_dst.toNat]? = some b)
    (he : a.sdispls[self_dst.toNat + 1]? = some e)
    (heq : (e : Int) - (b : Int) = (a.sendbuf.length : Int))
    (hlen : a.sendcounts.length ≠ 1) :
    self_send_part1 sizeofT self_dst self_src a threshold = .error (Fail.check 402) := by
  obtain ⟨r1, r2, n1, n2⟩ := self_send_part1_reads self_dst self_src a b e
    hd hs hb he
  unfold self_send_part1
  rw [if_neg n1, if_neg n2, r1]
  dsimp only
  rw [r2]
  dsimp only
  rw [if_pos heq, if_pos hlen]

theorem self_send_part1_whole {T : Type} [Inhabited T] (sizeofT : Nat)
    (self_dst self_src : Int) (a : A2A T) (threshold : Int) (b e : Nat)
    (hd : 0 ≤ self_dst) (hs : 0 ≤ self_src)
    (hb : a.sdispls[self_dst.toNat]? = some b)
    (he : a.sdispls[self_dst.toNat + 1]? = some e)
    (heq : (e : Int) - (b : Int) = (a.sendbuf.length : Int))
    (hlen : a.sendcounts.length = 1)
    (hsrc : self_src.toNat < a.recvcounts.length) :
    self_send_part1 sizeofT self_dst self_src a threshold =
      .ok (some a.sendbuf,
        { sendbuf := [], sendcounts := [0], sdispls := [0, 0],
          recvcounts := a.recvcounts.set self_src.toNat 0,
          rdispls := offset_scan (a.recvcounts.set self_src.toNat 0) }) := by
  obtain ⟨r1, r2, n1, n2⟩ := self_send_part1_reads self_dst self_src a b e
    hd hs hb he
  unfold self_send_part1
  rw [if_neg n1, if_neg n2, r1]
  dsimp only
  rw [r2]
  dsimp only
  rw [if_pos heq, if_neg (not_not.mpr hlen), Write_set_of_lt _ _ _ hs hsrc]

theorem self_send_part1_splice {T : Type} [Inhabited T] (sizeofT : Nat)
    (self_dst self_src : Int) (a : A2A T) (threshold : Int) (b e : Nat)
    (hd : 0 ≤ self_dst) (hs : 0 ≤ self_src)
    (hb : a.sdispls[self_dst.toNat]? = some b)
    (he : a.sdispls[self_dst.toNat + 1]? = some e)
    (hbe : b ≤ e) (hen : e ≤ a.sendbuf.length)
    (hne : (e : Int) - (b : Int) ≠ (a.sendbuf.length : Int))
    (hge : ¬ to_size_t (((e : Int) - (b : Int)) * (sizeofT : Int)) < to_size_t threshold)
    (hdst : self_dst.toNat < a.sendcounts.length)
    (hsrc : self_src.toNat < a.recvcounts.length) :
    self_send_part1 sizeofT self_dst self_src a threshold =
      .ok (some ((a.sendbuf.drop b).take (e - b)),
        { sendbuf := a.sendbuf.take b ++ a.sendbuf.drop e
          sendcounts := a.sendcounts.set self_dst.toNat 0
          sdispls := offset_scan (a.sendcounts.set self_dst.toNat 0)
          recvcounts := a.recvcounts.set self_src.toNat 0
          rdispls := offset_scan (a.recvcounts.set self_src.toNat 0) }) := by
  obtain ⟨r1, r2, n1, n2⟩ := self_send_part1_reads self_dst self_src a b e
    hd hs hb he
  have e1 : (e : Int) - (b : Int) = ((e - b : Nat) : Int) := by omega
  have e2 : (a.sendbuf.length : Int) - ((e : Int) - (b : Int)) =
      ((a.sendbuf.length - (e - b) : Nat) : Int) := by omega
  unfold self_send_part1
  rw [if_neg n1, if_neg n2, r1]
  dsimp only
  rw [r2]
  dsimp only
  have w1 : Write_new (T := T) ((e : Int) - (b : Int)) =
      .ok (List.replicate (e - b) default) := by rw [e1, Write_new_ofNat]
  have w2 : Write_new (T := T) ((a.sendbuf.length : Int) - ((e : Int) - (b : Int))) =
      .ok (List.replicate (a.sendbuf.length - (e - b)) default) := by rw [e2, Write_new_ofNat]
  rw [if_neg hne, if_neg hge, w1]
  dsimp only
  rw [w2]
  dsimp only
  rw [self_send_part1_kernel_loop a.sendbuf b e hbe hen]
  dsimp only
  rw [Write_set_of_lt _ _ _ hd hdst, Write_set_of_lt _ _ _ hs hsrc]

/-- Under the preconditions, a rank that sends to itself gets one of three outcomes
from `self_send_part1`: the assertion at line 402 fails (the self slice is the whole
send buffer but there are other destinations), elision is skipped (the slice is not
the whole buffer and is below the threshold), or the slice is taken out. -/
theorem self_send_part1_pre {T : Type} [Inhabited T] (c : Comm) (remote : Nat → List T)
    (sizeofT : Nat) (a : A2A T) (hpre : A2A.pre c remote a) (hd : 0 ≤ c.self_dst_) :
    (a.sendcounts.getD c.self_dst_.toNat 0 = a.sendbuf.length → a.sendcounts.length ≠ 1 →
      self_send_part1 sizeofT c.self_dst_ c.self_src_ a c.self_send_threshold =
        .error (Fail.check 402)) ∧
    (a.sendcounts.getD c.self_dst_.toNat 0 ≠ a.sendbuf.length →
      to_size_t ((a.sendcounts.getD c.self_dst_.toNat 0 : Int) * (sizeofT : Int)) <
        to_size_t c.self_send_threshold →
      self_send_part1 sizeofT c.self_dst_ c.self_src_ a c.self_send_threshold =
        .ok (none, a)) ∧
    ((a.sendcounts.getD c.self_dst_.toNat 0 = a.sendbuf.length ∧ a.sendcounts.length = 1) ∨
      (a.sendcounts.getD c.self_dst_.toNat 0 ≠ a.sendbuf.length ∧
        ¬ to_size_t ((a.sendcounts.getD c.self_dst_.toNat 0 : Int) * (sizeofT : Int)) <
          to_size_t c.self_send_threshold) →
      self_send_part1 sizeofT c.self_dst_ c.self_src_ a c.self_send_threshold =
        .ok (some (a.self_slice c.self_dst_.toNat),
          a.reduce c.self_dst_.toNat c.self_src_.toNat)) := by
  obtain ⟨d1, s1, hb, he, hle⟩ := pre_slice_bounds c remote a hpre hd
  obtain ⟨h1, h2, h3, h4, h5, h6, h7, h8, h9⟩ := hpre
  have hs := (h8 hd).1
  have gb : a.sdispls[c.self_dst_.toNat]? =
      some (a.sendcounts.take c.self_dst_.toNat).sum := by
    rw [h3, offset_scan_getElem? _ _ (by omega)]
  have ge : a.sdispls[c.self_dst_.toNat + 1]? =
      some ((a.sendcounts.take c.self_dst_.toNat).sum +
        a.sendcounts.getD c.self_dst_.toNat 0) := by
    rw [h3, offset_scan_getElem? _ _ (by omega), sum_take_succ _ _ d1]
  have ediff : ∀ x y : Nat, (((x + y : Nat) : Int)) - (x : Int) = (y : Int) := by
    intro x y; omega
  refine ⟨?_, ?_, ?_⟩
  · intro hw hlen
    exact self_send_part1_whole_fail sizeofT _ _ a _ _ _ hd hs gb ge
      (by rw [ediff, hw]) hlen
  · intro hnw hlt
    exact self_send_part1_skip sizeofT _ _ a _ _ _ hd hs gb ge
      (by rw [ediff]; exact_mod_cast hnw) (by rw [ediff]; exact hlt)
  · rintro (⟨hw, hlen⟩ | ⟨hnw, hge⟩)
    · rw [self_send_part1_whole sizeofT _ _ a _ _ _ hd hs gb ge (by rw [ediff, hw]) hlen s1]
      have d0 : c.self_dst_.toNat = 0 := by omega
      obtain ⟨x, hx⟩ : ∃ x, a.sendcounts = [x] := by
        match hsc : a.sendcounts, hlen with
        | [x], _ => exact ⟨x, rfl⟩
      have hxn : x = a.sendbuf.length := by
        rw [← hw, d0, hx]
        rfl
      unfold A2A.self_slice A2A.reduce
      rw [he, hb, d0, hx]
      simp only [List.take_zero, List.sum_nil, List.getD_cons_zero, Nat.zero_add, List.drop_zero,
        Nat.add_sub_cancel, List.nil_append, List.set_cons_zero]
      rw [hxn, Nat.sub_zero, List.take_length, List.drop_length]
      rfl
    · rw [self_send_part1_splice sizeofT _ _ a _ _ _ hd hs gb ge (by omega) hle
        (by rw [ediff]; exact_mod_cast hnw) (by rw [ediff]; exact hge) d1 s1]
      unfold A2A.self_slice A2A.reduce
      rw [he, hb, Nat.add_sub_cancel_left]

/-! ### The exchange under the preconditions -/

theorem incoming_length {T : Type} (c : Comm) (remote : Nat → List T) (a : A2A T)
    (hpre : A2A.pre c remote a) (i : Nat) (hi : i < c.srcs_.length) :
    (incoming c remote a i).length = a.recvcounts.getD i 0 := by
  unfold incoming
  by_cases hself : (i : Int) = c.self_src_ ∧ 0 ≤ c.self_dst_
  · obtain ⟨_, _, hb, _, hle⟩ := pre_slice_bounds c remote a hpre hself.2
    obtain ⟨_, _, _, _, _, _, _, h8, _⟩ := hpre
    have hi2 : c.self_src_.toNat = i := by omega
    rw [if_pos hself, List.length_take, List.length_drop, hb, ← hi2, (h8 hself.2).2]
    omega
  · rw [if_neg hself]
    exact hpre.2.2.2.2.2.2.2.2 i hi hself

theorem write_block_ok {T : Type} (buf : List T) (off : Nat) (msg : List T)
    (h : off + msg.length ≤ buf.length) :
    write_block buf off msg = .ok (buf.take off ++ msg ++ buf.drop (off + msg.length)) := by
  unfold write_block
  rw [if_pos h]

/-- When every arriving message has the posted length and the receive displacements
are the prefix sums of the receive counts, the exchange fills the receive buffer with
the messages in `sources()` order. -/
theorem Neighbor_alltoallv_result {T : Type} (c : Comm) (remote : Nat → List T) (a : A2A T)
    (recvbuf : List T)
    (hlen : ∀ i, i < c.srcs_.length → (incoming c remote a i).length = a.recvcounts.getD i 0)
    (hrc : a.recvcounts.length = c.srcs_.length)
    (hrd : a.rdispls = offset_scan a.recvcounts)
    (hbuf : recvbuf.length = a.recvcounts.sum) :
    Neighbor_alltoallv c remote a recvbuf =
      .ok ((List.range c.srcs_.length).map (incoming c remote a)).flatten := by
  obtain ⟨buf, hrun, hl, hpre⟩ := parallel_for_inv
    (fun i buf =>
      if (incoming c remote a i).length > a.recvcounts.getD i 0 then .error Fail.transport
      else write_block buf (a.rdispls.getD i 0) (incoming c remote a i))
    (fun j (buf : List T) =>
      buf.length = a.recvcounts.sum ∧
      buf.take (a.recvcounts.take j).sum = ((List.range j).map (incoming c remote a)).flatten)
    c.srcs_.length recvbuf ⟨hbuf, by simp⟩
    (by
      intro j buf hj ⟨hl, hp⟩
      have hj2 : j < a.recvcounts.length := by omega
      have hm := hlen j hj
      have hoff : a.rdispls.getD j 0 = (a.recvcounts.take j).sum := by
        rw [hrd, offset_scan_getD _ _ (by omega)]
      have hfit := sum_take_succ_le a.recvcounts j hj2
      dsimp only
      rw [if_neg (by omega), hoff, write_block_ok _ _ _ (by omega)]
      refine ⟨_, rfl, ?_, ?_⟩
      · simp only [List.length_append, List.length_take, List.length_drop]
        omega
      · rw [sum_take_succ _ _ hj2, ← hm, List.range_succ, List.map_append, List.flatten_append,
          ← hp]
        have hlt : (buf.take (a.recvcounts.take j).sum ++ incoming c remote a j).length =
            (a.recvcounts.take j).sum + (incoming c remote a j).length := by
          simp only [List.length_append, List.length_take]
          omega
        rw [List.take_left' hlt]
        simp)
  unfold Neighbor_alltoallv
  rw [hrun]
  congr 1
  rw [← hpre, ← hrc, List.take_length, ← hl, List.take_length]

/-- Under the preconditions the host part of `alltoallv` passes its checks and returns
the arriving messages in `sources()` order. -/
theorem alltoallv_host_pre {T : Type} [Inhabited T] (c : Comm) (remote : Nat → List T)
    (a : A2A T) (hpre : A2A.pre c remote a) :
    c.alltoallv_host (Neighbor_alltoallv c remote) a =
      .ok ((List.range c.srcs_.length).map (incoming c remote a)).flatten := by
  have hlen := incoming_length c remote a hpre
  obtain ⟨h1, h2, h3, h4, h5, _⟩ := hpre
  have hc : A2A.checks c a := by
    refine ⟨by rw [h4, offset_scan_length], h1, h2, by rw [h3, offset_scan_length], ?_⟩
    rw [h3, offset_scan_getLast?, h5]
  rw [alltoallv_host_of_checks c _ a a.recvcounts.sum hc (by rw [h4, offset_scan_getLast?])]
  exact Neighbor_alltoallv_result c remote a _ hlen h2 h4 (by simp)

theorem flatten_incoming_length {T : Type} (c : Comm) (remote : Nat → List T) (a : A2A T)
    (hpre : A2A.pre c remote a) (j : Nat) (hj : j ≤ c.srcs_.length) :
    (((List.range j).map (incoming c remote a)).flatten).length =
      (a.recvcounts.take j).sum := by
  induction j with
  | zero => simp
  | succ j ih =>
    have hj2 : j < a.recvcounts.length := by rw [hpre.2.1]; omega
    rw [List.range_succ, List.map_append, List.flatten_append, List.length_append, ih (by omega),
      sum_take_succ _ _ hj2]
    simp [incoming_length c remote a hpre j (by omega)]

theorem range_split (n s : Nat) (h : s < n) :
    List.range n = List.range s ++ s :: List.range' (s + 1) (n - s - 1) := by
  have e : n = (n - s - 1 + 1) + s := by omega
  conv_lhs => rw [e]
  rw [List.range_eq_range', ← List.range'_append_1 0 s (n - s - 1 + 1), List.range'_succ,
    List.range_eq_range']
  simp

/-- Taking the self slice out keeps the preconditions. -/
theorem reduce_pre {T : Type} (c : Comm) (remote : Nat → List T) (a : A2A T)
    (hpre : A2A.pre c remote a) (hd : 0 ≤ c.self_dst_) :
    A2A.pre c remote (a.reduce c.self_dst_.toNat c.self_src_.toNat) := by
  obtain ⟨d1, s1, hb, he, hle⟩ := pre_slice_bounds c remote a hpre hd
  obtain ⟨h1, h2, h3, h4, h5, h6, h7, h8, h9⟩ := hpre
  have hs := (h8 hd).1
  have hsum := sum_set_zero a.sendcounts _ d1
  refine ⟨by simp [A2A.reduce, h1], by simp [A2A.reduce, h2], rfl, rfl, ?_, h6, h7, ?_, ?_⟩
  · simp only [A2A.reduce, List.length_append, List.length_take, List.length_drop]
    rw [hb, he]
    omega
  · intro _
    refine ⟨hs, ?_⟩
    simp only [A2A.reduce]
    rw [getD_set_self_zero, getD_set_self_zero]
  · intro i hi hself
    simp only [A2A.reduce]
    rw [getD_set_ne _ _ _ (by omega)]
    exact h9 i hi hself

theorem incoming_reduce_self {T : Type} (c : Comm) (remote : Nat → List T) (a : A2A T)
    (hd : 0 ≤ c.self_dst_) (hs : 0 ≤ c.self_src_) :
    incoming c remote (a.reduce c.self_dst_.toNat c.self_src_.toNat) c.self_src_.toNat = [] := by
  unfold incoming
  rw [if_pos ⟨by omega, hd⟩]
  simp only [A2A.reduce]
  rw [getD_set_self_zero, List.take_zero]

theorem incoming_self {T : Type} (c : Comm) (remote : Nat → List T) (a : A2A T)
    (hpre : A2A.pre c remote a) (hd : 0 ≤ c.self_dst_) :
    incoming c remote a c.self_src_.toNat = a.self_slice c.self_dst_.toNat := by
  obtain ⟨_, _, hb, he, _⟩ := pre_slice_bounds c remote a hpre hd
  have hs := (hpre.2.2.2.2.2.2.2.1 hd).1
  unfold incoming A2A.self_slice
  rw [if_pos ⟨by omega, hd⟩, he, hb, Nat.add_sub_cancel_left]

theorem incoming_reduce_other {T : Type} (c : Comm) (remote : Nat → List T) (a : A2A T)
    (hs : 0 ≤ c.self_src_) (i : Nat) (hi : i ≠ c.self_src_.toNat) :
    incoming c remote (a.reduce c.self_dst_.toNat c.self_src_.toNat) i =
      incoming c remote a i := by
  unfold incoming
  have : ¬ ((i : Int) = c.self_src_ ∧ 0 ≤ c.self_dst_) := by
    intro h
    apply hi
    omega
  rw [if_neg this, if_neg this]

theorem alltoallv_plain_pre {T : Type} [Inhabited T] (c : Comm) (remote : Nat → List T)
    (sizeofT : Nat) (a : A2A T) (hpre : A2A.pre c remote a) :
    c.alltoallv false sizeofT (Neighbor_alltoallv c remote) a =
      .ok ((List.range c.srcs_.length).map (incoming c remote a)).flatten := by
  unfold Comm.alltoallv
  simp only [Bool.false_eq_true, if_false]
  exact alltoallv_host_pre c remote a hpre

/-- When `self_send_part1` takes the self slice out, the exchange on the reduced arrays
followed by `self_send_part2` rebuilds the buffer of the plain exchange. -/
theorem alltoallv_elide_rebuilds {T : Type} [Inhabited T] (c : Comm) (remote : Nat → List T)
    (a : A2A T) (hpre : A2A.pre c remote a) (hd : 0 ≤ c.self_dst_) :
    ∃ buf1, c.alltoallv_host (Neighbor_alltoallv c remote)
        (a.reduce c.self_dst_.toNat c.self_src_.toNat) = .ok buf1 ∧
      self_send_part2 (some (a.self_slice c.self_dst_.toNat)) c.self_src_ buf1
        (a.reduce c.self_dst_.toNat c.self_src_.toNat).rdispls =
        .ok ((List.range c.srcs_.length).map (incoming c remote a)).flatten := by
  have hpre1 := reduce_pre c remote a hpre hd
  have hs := (hpre.2.2.2.2.2.2.2.1 hd).1
  have hsn : c.self_src_.toNat < c.srcs_.length := by
    have := hpre.2.2.2.2.2.2.1
    omega
  refine ⟨_, alltoallv_host_pre c remote _ hpre1, ?_⟩
  have hA : (List.range c.self_src_.toNat).map
      (incoming c remote (a.reduce c.self_dst_.toNat c.self_src_.toNat)) =
      (List.range c.self_src_.toNat).map (incoming c remote a) := by
    apply List.map_congr_left
    intro i hi
    rw [List.mem_range] at hi
    exact incoming_reduce_other c remote a hs i (by omega)
  have hB : (List.range' (c.self_src_.toNat + 1) (c.srcs_.length - c.self_src_.toNat - 1)).map
      (incoming c remote (a.reduce c.self_dst_.toNat c.self_src_.toNat)) =
      (List.range' (c.self_src_.toNat + 1) (c.srcs_.length - c.self_src_.toNat - 1)).map
        (incoming c remote a) := by
    apply List.map_congr_left
    intro i hi
    rw [List.mem_range'_1] at hi
    exact incoming_reduce_other c remote a hs i (by omega)
  have hlenA := flatten_incoming_length c remote _ hpre1 c.self_src_.toNat (by omega)
  rw [hA] at hlenA
  have hread : (a.reduce c.self_dst_.toNat c.self_src_.toNat).rdispls[c.self_src_.toNat]? =
      some (((a.reduce c.self_dst_.toNat c.self_src_.toNat).recvcounts.take
        c.self_src_.toNat).sum) := by
    rw [hpre1.2.2.2.1, offset_scan_getElem? _ _ (by rw [hpre1.2.1]; omega)]
  have hsplit : ((List.range c.srcs_.length).map
      (incoming c remote (a.reduce c.self_dst_.toNat c.self_src_.toNat))).flatten =
      ((List.range c.self_src_.toNat).map (incoming c remote a)).flatten ++
      ((List.range' (c.self_src_.toNat + 1) (c.srcs_.length - c.self_src_.toNat - 1)).map
        (incoming c remote a)).flatten := by
    rw [range_split _ _ hsn, List.map_append, List.map_cons, List.flatten_append,
      List.flatten_cons, incoming_reduce_self c remote a hd hs, List.nil_append, hA, hB]
  rw [self_send_part2_some _ _ _ _ _ hs hread (by
    rw [hsplit, List.length_append, hlenA]
    omega)]
  congr 1
  rw [hsplit, List.take_left' hlenA, List.drop_left' hlenA]
  conv_rhs => rw [range_split _ _ hsn]
  rw [List.map_append, List.map_cons, List.flatten_append, List.flatten_cons,
    incoming_self c remote a hpre hd, List.append_assoc]

/-- Outside the case that fails the assertion at line 402, the CUDA build of `alltoallv`
returns what the plain MPI build returns. -/
theorem alltoallv_elided_eq_plain {T : Type} [Inhabited T] (c : Comm) (remote : Nat → List T)
    (sizeofT : Nat) (a : A2A T) (hpre : A2A.pre c remote a)
    (hok : ¬ (0 ≤ c.self_dst_ ∧ a.sendcounts.getD c.self_dst_.toNat 0 = a.sendbuf.length ∧
      a.sendcounts.length ≠ 1)) :
    c.alltoallv true sizeofT (Neighbor_alltoallv c remote) a =
      c.alltoallv false sizeofT (Neighbor_alltoallv c remote) a := by
  rw [alltoallv_plain_pre c remote sizeofT a hpre]
  unfold Comm.alltoallv
  simp only [if_true]
  by_cases hd : 0 ≤ c.self_dst_
  · obtain ⟨_, p2, p3⟩ := self_send_part1_pre c remote sizeofT a hpre hd
    by_cases hskip : a.sendcounts.getD c.self_dst_.toNat 0 ≠ a.sendbuf.length ∧
        to_size_t ((a.sendcounts.getD c.self_dst_.toNat 0 : Int) * (sizeofT : Int)) <
          to_size_t c.self_send_threshold
    · rw [p2 hskip.1 hskip.2]
      dsimp only
      rw [alltoallv_host_pre c remote a hpre]
      rfl
    · have hcase : (a.sendcounts.getD c.self_dst_.toNat 0 = a.sendbuf.length ∧
            a.sendcounts.length = 1) ∨
          (a.sendcounts.getD c.self_dst_.toNat 0 ≠ a.sendbuf.length ∧
            ¬ to_size_t ((a.sendcounts.getD c.self_dst_.toNat 0 : Int) * (sizeofT : Int)) <
              to_size_t c.self_send_threshold) := by
        by_cases hw : a.sendcounts.getD c.self_dst_.toNat 0 = a.sendbuf.length
        · left
          refine ⟨hw, ?_⟩
          by_contra hl
          exact hok ⟨hd, hw, hl⟩
        · right
          exact ⟨hw, fun hlt => hskip ⟨hw, hlt⟩⟩
      obtain ⟨buf1, hb1, hb2⟩ := alltoallv_elide_rebuilds c remote a hpre hd
      rw [p3 hcase]
      dsimp only
      rw [hb1]
      dsimp only
      exact hb2
  · have hneg : c.self_dst_ < 0 := by omega
    unfold self_send_part1
    rw [if_pos hneg]
    dsimp only
    rw [alltoallv_host_pre c remote a hpre]
    rfl

theorem pair_args_pre (threshold : Int) : A2A.pre (pair_comm threshold) pair_remote pair_args := by
  refine ⟨rfl, rfl, by decide, by decide, rfl, by simp [pair_comm], by simp [pair_comm],
    ?_, ?_⟩
  · intro _
    exact ⟨by simp [pair_comm], rfl⟩
  · intro i hi hne
    have h2 : i < 2 := hi
    have h1 : i = 1 := by
      rcases Nat.lt_or_ge i 1 with h | h
      · exfalso
        apply hne
        exact ⟨by simp [pair_comm]; omega, by simp [pair_comm]⟩
      · omega
    subst h1
    rfl

theorem pair_args_idle_pre (threshold : Int) :
    A2A.pre (pair_comm threshold) pair_remote pair_args_idle := by
  refine ⟨rfl, rfl, by decide, by decide, rfl, by simp [pair_comm], by simp [pair_comm],
    ?_, ?_⟩
  · intro _
    exact ⟨by simp [pair_comm], rfl⟩
  · intro i hi hne
    have h2 : i < 2 := hi
    have h1 : i = 1 := by
      rcases Nat.lt_or_ge i 1 with h | h
      · exfalso
        apply hne
        exact ⟨by simp [pair_comm]; omega, by simp [pair_comm]⟩
      · omega
    subst h1
    rfl

/-- C8: for every input that satisfies the preconditions, the last entry of `rdispls`
exists; the plain MPI path returns a buffer of that length; every buffer the eliding
path returns has that length, and it does return one except when the self slice is
the whole send buffer while there are other destinations, where the assertion at
line 402 fails instead. -/
theorem alltoallv_length_is_last_rdispl {T : Type} [Inhabited T] (c : Comm)
    (remote : Nat → List T) (sizeofT : Nat) (a : A2A T) (hpre : A2A.pre c remote a) :
    ∃ total, a.rdispls.getLast? = some total ∧
      (∃ buf, c.alltoallv false sizeofT (Neighbor_alltoallv c remote) a = .ok buf ∧
        buf.length = total) ∧
      (∀ buf, c.alltoallv true sizeofT (Neighbor_alltoallv c remote) a = .ok buf →
        buf.length = total) ∧
      (¬ (0 ≤ c.self_dst_ ∧ a.sendcounts.getD c.self_dst_.toNat 0 = a.sendbuf.length ∧
          a.sendcounts.length ≠ 1) →
        ∃ buf, c.alltoallv true sizeofT (Neighbor_alltoallv c remote) a = .ok buf ∧
          buf.length = total) ∧
      ((0 ≤ c.self_dst_ ∧ a.sendcounts.getD c.self_dst_.toNat 0 = a.sendbuf.length ∧
          a.sendcounts.length ≠ 1) →
        c.alltoallv true sizeofT (Neighbor_alltoallv c remote) a = .error (Fail.check 402)) := by
  have hplain := alltoallv_plain_pre c remote sizeofT a hpre
  have hlen : (((List.range c.srcs_.length).map (incoming c remote a)).flatten).length =
      a.recvcounts.sum := by
    rw [flatten_incoming_length c remote a hpre _ (le_refl _), ← hpre.2.1, List.take_length]
  have hbad : (0 ≤ c.self_dst_ ∧ a.sendcounts.getD c.self_dst_.toNat 0 = a.sendbuf.length ∧
      a.sendcounts.length ≠ 1) →
      c.alltoallv true sizeofT (Neighbor_alltoallv c remote) a = .error (Fail.check 402) := by
    rintro ⟨hd, hw, hl⟩
    unfold Comm.alltoallv
    simp only [if_true]
    rw [(self_send_part1_pre c remote sizeofT a hpre hd).1 hw hl]
  refine ⟨a.recvcounts.sum, by rw [hpre.2.2.2.1, offset_scan_getLast?], ⟨_, hplain, hlen⟩,
    ?_, ?_, hbad⟩
  · intro buf hbuf
    by_cases hcase : 0 ≤ c.self_dst_ ∧
        a.sendcounts.getD c.self_dst_.toNat 0 = a.sendbuf.length ∧ a.sendcounts.length ≠ 1
    · rw [hbad hcase] at hbuf
      cases hbuf
    · rw [alltoallv_elided_eq_plain c remote sizeofT a hpre hcase, hplain] at hbuf
      cases hbuf
      exact hlen
  · intro hcase
    exact ⟨_, (alltoallv_elided_eq_plain c remote sizeofT a hpre hcase).trans hplain, hlen⟩

theorem alltoallv_length_is_last_rdispl_witness :
    ∃ total, pair_args.rdispls.getLast? = some total ∧
      (∃ buf, (pair_comm 0).alltoallv false 4 (Neighbor_alltoallv (pair_comm 0) pair_remote)
          pair_args = .ok buf ∧ buf.length = total) ∧
      (∀ buf, (pair_comm 0).alltoallv true 4 (Neighbor_alltoallv (pair_comm 0) pair_remote)
          pair_args = .ok buf → buf.length = total) :=
  let ⟨total, h1, h2, h3, _⟩ :=
    alltoallv_length_is_last_rdispl (pair_comm 0) pair_remote 4 pair_args (pair_args_pre 0)
  ⟨total, h1, h2, h3⟩

/-- C9 as stated fails: rank 0 sends its whole buffer `[7, 8]` to itself and nothing to
its other destination, rank 1, from which it receives `[60]`.  The preconditions hold
and the plain path returns `[7, 8, 60]`, but the eliding path fails the assertion
`sendcounts.size() == 1` at line 402. -/
theorem alltoallv_elision_idle_neighbour_counterexample :
    (pair_comm 0).alltoallv false 4 (Neighbor_alltoallv (pair_comm 0) pair_remote)
        pair_args_idle = .ok [7, 8, 60] ∧
    (pair_comm 0).alltoallv true 4 (Neighbor_alltoallv (pair_comm 0) pair_remote)
        pair_args_idle = .error (Fail.check 402) := by
  constructor <;> rfl

/-- C9 (amended): for every rank and every input satisfying the preconditions, unless
the self slice is the whole send buffer while the rank has other destinations, the
eliding path (`self_send_part1`, the exchange on the reduced arrays, `self_send_part2`)
returns a buffer, and it is the very buffer the plain path returns: the arriving
messages in `sources()` order. -/
theorem alltoallv_elision_preserves_buffer {T : Type} [Inhabited T] (c : Comm)
    (remote : Nat → List T) (sizeofT : Nat) (a : A2A T) (hpre : A2A.pre c remote a)
    (hok : ¬ (0 ≤ c.self_dst_ ∧ a.sendcounts.getD c.self_dst_.toNat 0 = a.sendbuf.length ∧
      a.sendcounts.length ≠ 1)) :
    ∃ buf, c.alltoallv true sizeofT (Neighbor_alltoallv c remote) a = .ok buf ∧
      c.alltoallv false sizeofT (Neighbor_alltoallv c remote) a = .ok buf ∧
      buf = ((List.range c.srcs_.length).map (incoming c remote a)).flatten :=
  ⟨_, (alltoallv_elided_eq_plain c remote sizeofT a hpre hok).trans
      (alltoallv_plain_pre c remote sizeofT a hpre),
    alltoallv_plain_pre c remote sizeofT a hpre, rfl⟩

theorem alltoallv_elision_preserves_buffer_witness :
    ∃ buf, (pair_comm 0).alltoallv true 4 (Neighbor_alltoallv (pair_comm 0) pair_remote)
        pair_args = .ok buf ∧
      (pair_comm 0).alltoallv false 4 (Neighbor_alltoallv (pair_comm 0) pair_remote)
        pair_args = .ok buf ∧
      buf = ((List.range (pair_comm 0).srcs_.length).map
        (incoming (pair_comm 0) pair_remote pair_args)).flatten :=
  alltoallv_elision_preserves_buffer (pair_comm 0) pair_remote 4 pair_args (pair_args_pre 0)
    (by decide)

/-- C10 as stated fails: when the self slice is the whole send buffer the threshold is
not consulted.  With `sizeof(T) = 4` and a threshold of 1024 bytes, the two elements
`[7, 8]` (8 bytes) a rank sends only to itself are still taken out: `self_data` exists
and the send buffer, counts and displacements are replaced. -/
theorem self_send_part1_whole_buffer_ignores_threshold_counterexample :
    to_size_t (((2 : Int) - (0 : Int)) * ((4 : Nat) : Int)) < to_size_t 1024 ∧
    self_send_part1 4 0 0 loop_args 1024 =
      .ok (some [7, 8],
        { sendbuf := [], sendcounts := [0], sdispls := [0, 0], recvcounts := [0],
          rdispls := [0, 0] }) := by
  constructor
  · decide
  · rfl

/-- C10 (amended): for every input to `self_send_part1` of a rank that sends to itself
(`self_dst` and `self_src` non-negative, `sdispls` readable at `self_dst` and
`self_dst + 1`), if the self slice is not the whole send buffer and its byte volume
`self_count * sizeof(T)` is below the threshold, elision is skipped: the returned
`self_data` does not exist and the five arrays are left unchanged. -/
theorem self_send_part1_below_threshold_skips {T : Type} [Inhabited T] (sizeofT : Nat)
    (self_dst self_src : Int) (a : A2A T) (threshold : Int) (begin end_ : Nat)
    (hd : 0 ≤ self_dst) (hs : 0 ≤ self_src)
    (hb : a.sdispls[self_dst.toNat]? = some begin)
    (he : a.sdispls[self_dst.toNat + 1]? = some end_)
    (hne : (end_ : Int) - (begin : Int) ≠ (a.sendbuf.length : Int))
    (hlt : to_size_t (((end_ : Int) - (begin : Int)) * (sizeofT : Int)) <
      to_size_t threshold) :
    self_send_part1 sizeofT self_dst self_src a threshold = .ok (none, a) :=
  self_send_part1_skip sizeofT self_dst self_src a threshold begin end_ hd hs hb he hne hlt

theorem self_send_part1_below_threshold_skips_witness :
    self_send_part1 4 0 0 pair_args 1024 = .ok (none, pair_args) :=
  self_send_part1_below_threshold_skips 4 0 0 pair_args 1024 0 2 (by decide) (by decide)
    rfl rfl (by decide) (by decide)

/-! ## Facts about the metric algorithms -/

theorem get_metric_dim_eq (ncomps : Int) :
    get_metric_dim ncomps =
      if ncomps = 1 then .ok 1 else if ncomps = 3 then .ok 2
      else if ncomps = 6 then .ok 3 else .error (.check 18) := by
  simp [get_metric_dim, get_metric_dim_from, symm_ncomps]

/-- C11: `get_metric_dim` returns 1, 2, 3 for 1, 3, 6 components and fails its
assertion (line 18) for every other integer, in particular for 0, 2, 4, 5, 10 and
every negative value; a returned `d` is the one in {1, 2, 3} with
`d (d + 1) / 2 = ncomps`. -/
theorem get_metric_dim_inverts_symm_ncomps :
    get_metric_dim 1 = .ok 1 ∧ get_metric_dim 3 = .ok 2 ∧ get_metric_dim 6 = .ok 3 ∧
    (∀ ncomps : Int, ¬ (ncomps = 1 ∨ ncomps = 3 ∨ ncomps = 6) ↔
      get_metric_dim ncomps = .error (.check 18)) ∧
    (∀ ncomps d : Int, get_metric_dim ncomps = .ok d ↔
      (d = 1 ∨ d = 2 ∨ d = 3) ∧ ncomps = (symm_ncomps d.toNat : Int)) ∧
    get_metric_dim 0 = .error (.check 18) ∧ get_metric_dim 2 = .error (.check 18) ∧
    get_metric_dim 4 = .error (.check 18) ∧ get_metric_dim 5 = .error (.check 18) ∧
    get_metric_dim 10 = .error (.check 18) ∧
    (∀ ncomps : Int, ncomps < 0 → get_metric_dim ncomps = .error (.check 18)) := by
  refine ⟨rfl, rfl, rfl, ?_, ?_, rfl, rfl, rfl, rfl, rfl, ?_⟩
  · intro n
    rw [get_metric_dim_eq]
    split_ifs <;> simp_all
  · intro n d
    rw [get_metric_dim_eq]
    constructor
    · intro h
      split_ifs at h <;> simp_all [symm_ncomps]
      all_goals (cases h; simp)
    · rintro ⟨h | h | h, rfl⟩ <;> subst h <;> simp [symm_ncomps]
  · intro n
    rw [get_metric_dim_eq]
    intro h
    split_ifs <;> first | omega | rfl

theorem get_metric_dim_inverts_symm_ncomps_witness :
    (-4 : Int) < 0 ∧ get_metric_dim (-4) = .error (.check 18) :=
  ⟨by decide, get_metric_dim_inverts_symm_ncomps.2.2.2.2.2.2.2.2.2.2 (-4) (by decide)⟩

/-! ### Packed storage of symmetric matrices -/

theorem symm_ncomps_one : symm_ncomps 1 = 1 := rfl

theorem symm_ncomps_two : symm_ncomps 2 = 3 := rfl

theorem symm_ncomps_three : symm_ncomps 3 = 6 := rfl

theorem symm_ncomps_pos (dim : Nat) (h : 1 ≤ dim) : 0 < symm_ncomps dim := by
  unfold symm_ncomps
  have : 2 ≤ (dim + 1) * dim := by nlinarith
  omega

theorem symm2vector_length (dim : Nat) (h1 : 1 ≤ dim) (h3 : dim ≤ 3)
    (m : Matrix (Fin dim) (Fin dim) K) : (symm2vector dim m).length = symm_ncomps dim := by
  interval_cases dim <;> rfl

theorem vector2symm_transpose (dim : Nat) (v : List K) :
    (vector2symm dim v).transpose = vector2symm dim v := by
  match dim with
  | 0 => ext i; exact i.elim0
  | 1 => ext i j; fin_cases i; fin_cases j; rfl
  | 2 => ext i j; fin_cases i <;> fin_cases j <;> rfl
  | 3 => ext i j; fin_cases i <;> fin_cases j <;> rfl
  | n + 4 => simp [vector2symm]

theorem vector2symm_symm2vector (dim : Nat) (h1 : 1 ≤ dim) (h3 : dim ≤ 3)
    (m : Matrix (Fin dim) (Fin dim) K) (hs : m.transpose = m) :
    vector2symm dim (symm2vector dim m) = m := by
  have e : ∀ i j, m j i = m i j := fun i j => by
    have := congrFun (congrFun hs i) j
    simpa [Matrix.transpose_apply] using this
  interval_cases dim
  · ext i j; fin_cases i; fin_cases j; simp [symm2vector, vector2symm]
  · ext i j
    fin_cases i <;> fin_cases j <;> simp [symm2vector, vector2symm]
    exact (e 1 0)
  · ext i j
    fin_cases i <;> fin_cases j <;> simp [symm2vector, vector2symm]
    · exact (e 1 0)
    · exact (e 2 0)
    · exact (e 2 1)

theorem symm2vector_vector2symm (dim : Nat) (h1 : 1 ≤ dim) (h3 : dim ≤ 3) (v : List K)
    (hl : v.length = symm_ncomps dim) : symm2vector dim (vector2symm dim v) = v := by
  interval_cases dim
  · match v, hl with
    | [a], _ => simp [symm2vector, vector2symm]
  · match v, hl with
    | [a, b, c], _ => simp [symm2vector, vector2symm]
  · match v, hl with
    | [a, b, c, d, e, f], _ => simp [symm2vector, vector2symm]

theorem block_getElem? (nc : Nat) (a : List K) (i k : Nat) :
    (block nc a i)[k]? = if k < nc then a[i * nc + k]? else none := by
  simp [block, List.getElem?_take, List.getElem?_drop]

theorem block_length (nc n : Nat) (a : List K) (i : Nat) (hl : a.length = n * nc)
    (hi : i < n) : (block nc a i).length = nc := by
  have : (i + 1) * nc ≤ n * nc := Nat.mul_le_mul_right nc hi
  simp only [block, List.length_take, List.length_drop]
  have e : (i + 1) * nc = i * nc + nc := by ring
  omega

/-- Two arrays of the same number of entries with the same blocks are equal. -/
theorem block_ext (nc n : Nat) (a b : List K) (ha : a.length = n * nc)
    (hb : b.length = n * nc) (h : ∀ i, i < n → block nc a i = block nc b i) : a = b := by
  apply List.ext_getElem?
  intro p
  by_cases hp : p < n * nc
  · have hnc : 0 < nc := by
      rcases Nat.eq_zero_or_pos nc with h0 | h0
      · subst h0; simp at hp
      · exact h0
    have hi : p / nc < n := (Nat.div_lt_iff_lt_mul hnc).2 hp
    have e1 := block_getElem? nc a (p / nc) (p % nc)
    have e2 := block_getElem? nc b (p / nc) (p % nc)
    rw [if_pos (Nat.mod_lt _ hnc)] at e1 e2
    have e3 : p / nc * nc + p % nc = p := by
      rw [Nat.mul_comm]; exact Nat.div_add_mod p nc
    rw [e3] at e1 e2
    rw [← e1, ← e2, h _ hi]
  · rw [List.getElem?_eq_none (by omega), List.getElem?_eq_none (by omega)]

theorem get_symm_ok (dim n : Nat) (a : List K) (i : Nat) (hl : a.length = n * symm_ncomps dim)
    (hi : i < n) :
    get_symm dim a (i : Int) = .ok (vector2symm dim (block (symm_ncomps dim) a i)) := by
  have : (i + 1) * symm_ncomps dim ≤ n * symm_ncomps dim := Nat.mul_le_mul_right _ hi
  unfold get_symm
  rw [if_pos ⟨Int.natCast_nonneg _, by simpa [hl] using this⟩]
  simp

theorem set_symm_ok (dim n : Nat) (h1 : 1 ≤ dim) (h3 : dim ≤ 3) (a : List K) (i : Nat)
    (hl : a.length = n * symm_ncomps dim) (hi : i < n) (m : Matrix (Fin dim) (Fin dim) K) :
    ∃ a1, set_symm dim a (i : Int) m = .ok a1 ∧ a1.length = n * symm_ncomps dim ∧
      block (symm_ncomps dim) a1 i = symm2vector dim m ∧
      ∀ j, j ≠ i → block (symm_ncomps dim) a1 j = block (symm_ncomps dim) a j := by
  have hle : (i + 1) * symm_ncomps dim ≤ n * symm_ncomps dim := Nat.mul_le_mul_right _ hi
  have hsv := symm2vector_length dim h1 h3 m
  have e : (i + 1) * symm_ncomps dim = i * symm_ncomps dim + symm_ncomps dim := by ring
  unfold set_symm
  rw [if_pos ⟨Int.natCast_nonneg _, by simpa [hl] using hle⟩]
  simp only [Int.toNat_ofNat]
  refine ⟨_, rfl, ?_, ?_, ?_⟩
  · simp only [List.length_append, List.length_take, List.length_drop, hsv]
    omega
  · apply List.ext_getElem?
    intro k
    rw [block_getElem?]
    by_cases hk : k < symm_ncomps dim
    · rw [if_pos hk, List.append_assoc, List.getElem?_append_right (by simp)]
      simp only [List.length_take]
      have e2 : i * symm_ncomps dim + k - min (i * symm_ncomps dim) a.length = k := by omega
      rw [e2, List.getElem?_append_left (by omega)]
    · rw [if_neg hk, List.getElem?_eq_none (by omega)]
  · intro j hj
    apply List.ext_getElem?
    intro k
    rw [block_getElem?, block_getElem?]
    by_cases hk : k < symm_ncomps dim
    · rw [if_pos hk, if_pos hk, List.append_assoc]
      rcases Nat.lt_or_gt_of_ne hj with hlt | hgt
      · have : (j + 1) * symm_ncomps dim ≤ i * symm_ncomps dim := Nat.mul_le_mul_right _ hlt
        have e3 : (j + 1) * symm_ncomps dim = j * symm_ncomps dim + symm_ncomps dim := by ring
        rw [List.getElem?_append_left (by simp; omega), List.getElem?_take_of_lt (by omega)]
      · have : (i + 1) * symm_ncomps dim ≤ j * symm_ncomps dim := Nat.mul_le_mul_right _ hgt
        rw [List.getElem?_append_right (by simp; omega)]
        simp only [List.length_take]
        rw [List.getElem?_append_right (by omega), List.getElem?_drop]
        congr 1
        omega
    · rw [if_neg hk, if_neg hk]

/-- A loop of kernels that store the matrix `F i` at entry `i` fills an array of `n`
entries with the packed matrices. -/
theorem symm_kernel_loop (dim n : Nat) (h1 : 1 ≤ dim) (h3 : dim ≤ 3)
    (g : Int → Except Fail (Matrix (Fin dim) (Fin dim) K))
    (F : Nat → Matrix (Fin dim) (Fin dim) K) (hg : ∀ i, i < n → g (i : Int) = .ok (F i))
    (out0 : List K) (h0 : out0.length = n * symm_ncomps dim) :
    ∃ out, parallel_for n (symm_kernel dim g) out0 = .ok out ∧
      out.length = n * symm_ncomps dim ∧
      ∀ i, i < n → block (symm_ncomps dim) out i = symm2vector dim (F i) := by
  have h := parallel_for_inv (symm_kernel dim g)
    (fun j t => t.length = n * symm_ncomps dim ∧
      ∀ i, i < j → block (symm_ncomps dim) t i = symm2vector dim (F i))
    n out0 ⟨h0, fun i hi => absurd hi (Nat.not_lt_zero i)⟩
    (fun j t hj hinv => by
      obtain ⟨a1, e1, e2, e3, e4⟩ := set_symm_ok dim n h1 h3 t j hinv.1 hj (F j)
      refine ⟨a1, ?_, e2, ?_⟩
      · simp only [symm_kernel, hg j hj, e1]
      · intro i hi
        rcases Nat.lt_succ_iff_lt_or_eq.1 hi with hlt | heq
        · rw [e4 i (by omega)]; exact hinv.2 i hlt
        · rw [heq]; exact e3)
  obtain ⟨out, e1, e2, e3⟩ := h
  exact ⟨out, e1, e2, e3⟩

/-! ### Dimension dispatch -/

theorem get_metrics_dim_line_values_2d : get_metrics_dim line_mesh.nverts line_values_2d = .ok 2 := by
  rfl

theorem intersect_metrics_one (N : Numerics K) (m1 m2 : Matrix (Fin 1) (Fin 1) K) :
    intersect_metrics N m1 m2 = Matrix.of ![![max (m1 0 0) (m2 0 0)]] := rfl

theorem limit_gradation_once_line_values_2d :
    limit_gradation_once toy_numerics line_mesh line_values_2d 1 = .ok [1, 4] := by
  have h : limit_gradation_once toy_numerics line_mesh line_values_2d 1 =
      limit_gradation_once_tmpl toy_numerics 1 1 line_mesh line_values_2d 1 := rfl
  rw [h]
  simp [limit_gradation_once_tmpl, Write_new, parallel_for, parallel_for_from, symm_kernel,
    limit_gradation_at, limit_gradation_neighbors, get_symm, set_symm, get_vector, Read_get,
    line_mesh, line_values_2d, symm_ncomps, block, vector2symm, symm2vector,
    intersect_metrics_one, metric_length, metric_product, metric_eigenvalue_from_length,
    toy_numerics, Matrix.dotProduct, Matrix.mulVec]
  norm_num

/-- On a one-dimensional mesh the two dispatchers take the branch of line 222 / 511
whatever the metric dimension is. -/
theorem dispatch_mesh_dim_one (N : Numerics K) (S : SizeRoutines K) (mesh : Mesh K)
    (values : List K) (max_rate : K) (metric_dim : Int) (hd : mesh.dim = 1)
    (hm : get_metrics_dim mesh.nverts values = .ok metric_dim) :
    limit_gradation_once N mesh values max_rate =
      limit_gradation_once_tmpl N 1 1 mesh values max_rate ∧
    get_expected_nelems_per_elem N S mesh values =
      get_expected_nelems_per_elem_tmpl N S 1 1 mesh values := by
  simp [limit_gradation_once, get_expected_nelems_per_elem, hm, hd]

/-- Off the one-dimensional meshes the two dispatchers fail at their last line for
every pair they do not list. -/
theorem dispatch_unsupported_fails (N : Numerics K) (S : SizeRoutines K) (mesh : Mesh K)
    (values : List K) (max_rate : K) (metric_dim : Int) (hd : mesh.dim ≠ 1)
    (hm : get_metrics_dim mesh.nverts values = .ok metric_dim)
    (h : ¬ ((mesh.dim = 3 ∧ metric_dim = 3) ∨ (mesh.dim = 2 ∧ metric_dim = 2) ∨
      (mesh.dim = 3 ∧ metric_dim = 1) ∨ (mesh.dim = 2 ∧ metric_dim = 1))) :
    limit_gradation_once N mesh values max_rate = .error (.check 225) ∧
    get_expected_nelems_per_elem N S mesh values = .error (.check 514) := by
  simp only [not_or] at h
  obtain ⟨h1, h2, h3, h4⟩ := h
  simp [limit_gradation_once, get_expected_nelems_per_elem, hm, hd, h1, h2, h3, h4]

/-- The dispatcher `get_mident_metrics` fails at line 91 for every pair it does not
list. -/
theorem get_mident_metrics_unsupported_fails (N : Numerics K) (mesh : Mesh K) (ent_dim : Int)
    (entities : List Int) (v2m : List K) (metrics_dim : Int)
    (hm : get_metrics_dim mesh.nverts v2m = .ok metrics_dim)
    (h : ¬ ((metrics_dim = 3 ∧ ent_dim = 3) ∨ (metrics_dim = 3 ∧ ent_dim = 1) ∨
      (metrics_dim = 2 ∧ ent_dim = 2) ∨ (metrics_dim = 2 ∧ ent_dim = 1) ∨
      (metrics_dim = 1 ∧ ent_dim = 3) ∨ (metrics_dim = 1 ∧ ent_dim = 2) ∨
      (metrics_dim = 1 ∧ ent_dim = 1))) :
    get_mident_metrics N mesh ent_dim entities v2m = .error (.check 91) := by
  simp only [not_or] at h
  obtain ⟨h1, h2, h3, h4, h5, h6, h7⟩ := h
  simp [get_mident_metrics, hm, h1, h2, h3, h4, h5, h6, h7]

/-- C20: on the one-dimensional `line_mesh` whose two vertices carry two-dimensional
metrics (three components each) neither `limit_gradation_once` nor
`get_expected_nelems_per_elem` fails: both take the branch for `mesh->dim() == 1`, which
does not test the metric dimension, and run the one-component kernel on the
three-component field.  The gradation pass returns two numbers, the first two
components of vertex 0, and the element counts are returned whatever the numerical
routines are. -/
theorem dispatch_line_mesh_accepts_two_dimensional_metrics :
    line_mesh.dim = 1 ∧ get_metrics_dim line_mesh.nverts line_values_2d = .ok 2 ∧
    limit_gradation_once toy_numerics line_mesh line_values_2d 1 = .ok [1, 4] ∧
    (∀ (N : Numerics Rat) (S : SizeRoutines Rat),
      get_expected_nelems_per_elem N S line_mesh line_values_2d =
        get_expected_nelems_per_elem_tmpl N S 1 1 line_mesh line_values_2d ∧
      ∃ r, get_expected_nelems_per_elem N S line_mesh line_values_2d = .ok r ∧
        r.length = 1) :=
  ⟨rfl, rfl, limit_gradation_once_line_values_2d, fun _ _ => ⟨rfl, _, rfl, rfl⟩⟩

/-! ### Scaling to a target element count -/

/-- C14: in exact arithmetic over any ordered field `K`, for `dim` in {1, 2, 3} and
positive element counts the scalar returned by
`get_metric_scalar_for_nelems` is `(target / expected)^(2 / dim)`: its `dim`-th power is
`(target / expected)^2`, it is 1 when the counts are equal and it exceeds 1 exactly
when `target > expected`.  For `dim = 3` the cube root the code calls is taken to be
the cube root of `target / expected`, as the real cube root is of every positive number. -/
theorem get_metric_scalar_for_nelems_is_root (N : Numerics K) (dim : Nat)
    (expected target : K) (hd : dim = 1 ∨ dim = 2 ∨ dim = 3) (he : 0 < expected)
    (ht : 0 < target)
    (hc : dim = 3 → N.cbrt (target / expected) ^ 3 = target / expected) :
    get_metric_scalar_for_nelems N (dim : Int) expected target ^ dim =
      (target / expected) ^ 2 ∧
    (target = expected → get_metric_scalar_for_nelems N (dim : Int) expected target = 1) ∧
    (1 < get_metric_scalar_for_nelems N (dim : Int) expected target ↔ expected < target) := by
  have hs : 0 < target / expected := div_pos ht he
  have h1 : 1 < target / expected ↔ expected < target := by
    rw [lt_div_iff₀ he, one_mul]
  have h2 : target = expected → target / expected = 1 := fun h => by
    rw [h, div_self (ne_of_gt he)]
  have hr : get_metric_scalar_for_nelems N (dim : Int) expected target =
      power N (target / expected) 2 (dim : Int) := rfl
  rw [hr, ← h1]
  generalize target / expected = s at hs h2 hc
  rcases hd with rfl | rfl | rfl
  · have hp : power N s 2 ((1 : Nat) : Int) = s * s := by simp [power]
    rw [hp]
    refine ⟨by ring, fun h => by rw [h2 h]; norm_num, ?_⟩
    constructor
    · intro h
      by_contra hn
      have : s * s ≤ 1 * 1 := mul_le_mul (not_lt.1 hn) (not_lt.1 hn) (le_of_lt hs) (by norm_num)
      linarith
    · intro h
      nlinarith
  · have hp : power N s 2 ((2 : Nat) : Int) = s := by simp [power]
    rw [hp]
    exact ⟨rfl, h2, Iff.rfl⟩
  · have hc3 := hc rfl
    have hp : power N s 2 ((3 : Nat) : Int) = N.cbrt s * N.cbrt s := by simp [power]
    rw [hp]
    generalize N.cbrt s = c at hc3
    have hcube : c ^ 3 = c * (c * c) := by ring
    have hcpos : 0 < c := by
      by_contra hn
      have : c * (c * c) ≤ 0 :=
        mul_nonpos_of_nonpos_of_nonneg (not_lt.1 hn) (mul_self_nonneg c)
      linarith
    have hlt : 1 < c * c ↔ 1 < c := by
      constructor
      · intro h
        by_contra hn
        have : c * c ≤ 1 * 1 :=
          mul_le_mul (not_lt.1 hn) (not_lt.1 hn) (le_of_lt hcpos) (by norm_num)
        linarith
      · intro h
        nlinarith
    have hlt3 : 1 < s ↔ 1 < c := by
      rw [← hc3, hcube]
      constructor
      · intro h
        by_contra hn
        have h5 : c ≤ 1 := not_lt.1 hn
        have h6 : c * c ≤ 1 * 1 := mul_le_mul h5 h5 (le_of_lt hcpos) (by norm_num)
        have h8 : c * (c * c) ≤ 1 * 1 :=
          mul_le_mul h5 (by linarith) (mul_self_nonneg c) (by norm_num)
        linarith
      · intro h
        have : 1 < c * c := hlt.2 h
        nlinarith
    refine ⟨?_, ?_, ?_⟩
    · rw [← hc3]; ring
    · intro h
      have hs1 := h2 h
      rw [hs1] at hc3
      have h3 : (c - 1) * (c * c + c + 1) = 0 := by
        have : (c - 1) * (c * c + c + 1) = c ^ 3 - 1 := by ring
        rw [this, hc3]; norm_num
      rcases mul_eq_zero.1 h3 with h4 | h4
      · have : c = 1 := by linarith
        rw [this]; norm_num
      · nlinarith
    · rw [hlt, hlt3]

theorem get_metric_scalar_for_nelems_is_root_witness :
    get_metric_scalar_for_nelems
        (numerics_of Real.sqrt (fun x => x ^ ((1 : ℝ) / 3)) Real.log Real.exp
          (fun _ m => (1, fun i => m i i))) ((3 : Nat) : Int) 1 2 ^ 3 =
      ((2 : ℝ) / 1) ^ 2 ∧
    (1 < get_metric_scalar_for_nelems
        (numerics_of Real.sqrt (fun x => x ^ ((1 : ℝ) / 3)) Real.log Real.exp
          (fun _ m => (1, fun i => m i i))) ((3 : Nat) : Int) 1 2 ↔
      (1 : ℝ) < 2) :=
  let h := get_metric_scalar_for_nelems_is_root
    (numerics_of Real.sqrt (fun x => x ^ ((1 : ℝ) / 3)) Real.log Real.exp
      (fun _ m => (1, fun i => m i i))) 3 1 2 (Or.inr (Or.inr rfl))
    (by norm_num) (by norm_num) (fun _ => by
      show (((2 : ℝ) / 1) ^ ((1 : ℝ) / 3)) ^ 3 = 2 / 1
      rw [← Real.rpow_natCast, ← Real.rpow_mul (by norm_num)]
      norm_num)
  ⟨h.1, h.2.2⟩

/-! ### Gradient-based metrics -/

theorem round_mul (N : Numerics K) (hround : ∀ x, N.round x = Double.fin x) (x y : K) :
    N.mul (Double.fin x) (Double.fin y) = Double.fin (x * y) := by
  simp [Numerics.mul, hround]

theorem round_add (N : Numerics K) (hround : ∀ x, N.round x = Double.fin x) (x y : K) :
    N.add (Double.fin x) (Double.fin y) = Double.fin (x + y) := by
  simp [Numerics.add, hround]

theorem round_div (N : Numerics K) (hround : ∀ x, N.round x = Double.fin x) (x y : K)
    (hy : y ≠ 0) : N.div (Double.fin x) (Double.fin y) = Double.fin (x / y) := by
  simp [Numerics.div, hround, hy]

theorem foldl_add_fin (N : Numerics K) (hround : ∀ x, N.round x = Double.fin x) :
    ∀ (xs : List K) (x : K),
      (xs.map Double.fin).foldl N.add (Double.fin x) = Double.fin (x + xs.sum) := by
  intro xs
  induction xs with
  | nil => intro x; simp
  | cons y ys ih =>
    intro x
    rw [List.map_cons, List.foldl_cons, round_add N hround, ih, List.sum_cons, add_assoc]

/-- In exact arithmetic `norm_squared` of a finite vector is the sum of the squares of
its components. -/
theorem norm_squared_fin (N : Numerics K) (hround : ∀ x, N.round x = Double.fin x) {dim : Nat}
    (g : Fin dim → K) :
    N.norm_squared (fun i => Double.fin (g i)) = Double.fin (Matrix.dotProduct g g) := by
  have e : List.ofFn (fun i => N.mul (Double.fin (g i)) (Double.fin (g i))) =
      (List.ofFn (fun i => g i * g i)).map Double.fin := by
    rw [List.map_ofFn]
    congr 1
    funext i
    exact round_mul N hround _ _
  have hsum : Matrix.dotProduct g g = (List.ofFn (fun i => g i * g i)).sum := by
    rw [List.sum_ofFn]
    rfl
  unfold Numerics.norm_squared
  rw [e, hsum]
  cases List.ofFn (fun i => g i * g i) with
  | nil => simp
  | cons x xs =>
    simp only [List.map_cons, List.sum_cons]
    exact foldl_add_fin N hround xs x

theorem gradient_eigenvalue_eq (dim : Nat) (g eps : K) :
    ((dim : K) * dim * g) / ((2 * ((dim : K) + 1)) * (2 * ((dim : K) + 1)) * (eps * eps)) =
      gradient_eigenvalue dim g eps := by
  unfold gradient_eigenvalue
  congr 1 <;> ring

/-- In exact arithmetic, on a finite gradient and a non-zero finite `eps`:
`metric_from_gradient` is zero when the scaled value is below `EPSILON` and the scaled
outer product of `grad / |grad|` otherwise. -/
theorem metric_from_gradient_fin (N : Numerics K) (hround : ∀ x, N.round x = Double.fin x)
    {dim : Nat} (g : Fin dim → K) (eps : K) (heps : eps ≠ 0) (i j : Fin dim) :
    metric_from_gradient N (fun i => Double.fin (g i)) (Double.fin eps) i j =
      if gradient_eigenvalue dim (Matrix.dotProduct g g) eps < N.EPSILON then Double.fin 0
      else if N.sqrt (Matrix.dotProduct g g) = 0 then
        N.mul (N.mul (N.div (Double.fin (g i)) (Double.fin 0))
          (N.div (Double.fin (g j)) (Double.fin 0)))
          (Double.fin (gradient_eigenvalue dim (Matrix.dotProduct g g) eps))
      else Double.fin (g i / N.sqrt (Matrix.dotProduct g g) *
        (g j / N.sqrt (Matrix.dotProduct g g)) *
        gradient_eigenvalue dim (Matrix.dotProduct g g) eps) := by
  have hd : (2 * ((dim : K) + 1)) * (2 * ((dim : K) + 1)) * (eps * eps) ≠ 0 := by
    have h1 : (0 : K) < (dim : K) + 1 := by positivity
    have h2 : 0 < eps * eps := mul_self_pos.2 heps
    positivity
  have hn : ¬ Matrix.dotProduct g g < 0 := not_lt.2 (Finset.sum_nonneg
    (fun i _ => mul_self_nonneg (g i)))
  unfold metric_from_gradient
  simp only [norm_squared_fin N hround, round_mul N hround, round_div N hround _ _ hd,
    gradient_eigenvalue_eq, Double.lt, decide_eq_true_eq, Numerics.std_sqrt, if_neg hn]
  split_ifs with h1 h2
  · rfl
  · rw [h2]
  · dsimp only
    rw [round_div N hround _ _ h2, round_div N hround _ _ h2, round_mul N hround,
      round_mul N hround]

/-- C16 (counterexample): for the gradient `(1)` in one dimension the metric is `1/16`
at `eps = 1` and `1/64` at `eps = 2`, a quarter and not a half; no constants `c`, `c'`
give both values through `(c dim^2 |g|^2) / (c' (dim + 1)^2 eps)`. -/
theorem metric_from_gradient_doubling_eps_counterexample :
    metric_from_gradient toy_numerics ![Double.fin 1] (Double.fin 1) 0 0 = Double.fin (1 / 16) ∧
    metric_from_gradient toy_numerics ![Double.fin 1] (Double.fin 2) 0 0 = Double.fin (1 / 64) ∧
    ¬ ∃ c c' : Rat,
      metric_from_gradient toy_numerics ![Double.fin 1] (Double.fin 1) 0 0 =
        Double.fin ((c * 1 ^ 2 * Matrix.dotProduct ![(1 : Rat)] ![(1 : Rat)]) /
          (c' * (1 + 1) ^ 2 * 1)) ∧
      metric_from_gradient toy_numerics ![Double.fin 1] (Double.fin 2) 0 0 =
        Double.fin ((c * 1 ^ 2 * Matrix.dotProduct ![(1 : Rat)] ![(1 : Rat)]) /
          (c' * (1 + 1) ^ 2 * 2)) := by
  have hv : (fun i => Double.fin (![(1 : Rat)] i)) = ![Double.fin 1] := by
    funext i
    fin_cases i
    rfl
  have h1 : metric_from_gradient toy_numerics ![Double.fin 1] (Double.fin 1) 0 0 =
      Double.fin (1 / 16) := by
    rw [← hv, metric_from_gradient_fin toy_numerics (fun _ => rfl) _ _ (by norm_num)]
    norm_num [toy_numerics, Matrix.dotProduct, gradient_eigenvalue]
  have h2 : metric_from_gradient toy_numerics ![Double.fin 1] (Double.fin 2) 0 0 =
      Double.fin (1 / 64) := by
    rw [← hv, metric_from_gradient_fin toy_numerics (fun _ => rfl) _ _ (by norm_num)]
    norm_num [toy_numerics, Matrix.dotProduct, gradient_eigenvalue]
  refine ⟨h1, h2, ?_⟩
  rintro ⟨c, c', e1, e2⟩
  rw [h1, Double.fin.injEq] at e1
  rw [h2, Double.fin.injEq] at e2
  have e3 : (c * 1 ^ 2 * Matrix.dotProduct ![(1 : Rat)] ![(1 : Rat)]) / (c' * (1 + 1) ^ 2 * 2) =
      (c * 1 ^ 2 * Matrix.dotProduct ![(1 : Rat)] ![(1 : Rat)]) / (c' * (1 + 1) ^ 2 * 1) / 2 := by
    rw [div_div]
    congr 1
    ring
  rw [e3, ← e1] at e2
  norm_num at e2

theorem dotProduct_self_nonneg (dim : Nat) (v : Fin dim → K) :
    0 ≤ Matrix.dotProduct v v :=
  Finset.sum_nonneg (fun i _ => mul_self_nonneg (v i))

/-- The product with a vector of the matrix `l (g / n) (g / n)^T`. -/
theorem scaled_outer_product_mulVec (dim : Nat) (g x : Fin dim → K) (n l : K) :
    Matrix.mulVec (Matrix.of (fun i j => g i / n * (g j / n) * l)) x =
      (l * (Matrix.dotProduct g x / (n * n))) • g := by
  ext i
  simp only [Matrix.mulVec, Matrix.dotProduct, Matrix.of_apply, Pi.smul_apply, smul_eq_mul]
  rw [Finset.sum_div, Finset.mul_sum, Finset.sum_mul]
  apply Finset.sum_congr rfl
  intro j _
  ring

/-- C16 (amended): in exact arithmetic over any ordered field `K`, for a non-negligible
gradient `g`, `eps > 0` and a square root that is exact at `|g|^2`, the gradient-based
metric is a matrix with the eigenvalue
`gradient_eigenvalue dim |g|^2 eps = (dim^2 |g|^2) / (4 (dim + 1)^2 eps^2)` along `g`,
which is positive, and it sends every vector orthogonal to `g` to zero; doubling `eps`
quarters the eigenvalue, and the metric where the gradient stays non-negligible. -/
theorem metric_from_gradient_eigenvalue (N : Numerics K) (dim : Nat) (grad : Fin dim → K)
    (eps : K) (hround : ∀ x, N.round x = Double.fin x) (hE : 0 < N.EPSILON) (heps : 0 < eps)
    (hl : ¬ gradient_eigenvalue dim (Matrix.dotProduct grad grad) eps < N.EPSILON)
    (hs : N.sqrt (Matrix.dotProduct grad grad) * N.sqrt (Matrix.dotProduct grad grad) =
      Matrix.dotProduct grad grad) :
    ∃ M : Matrix (Fin dim) (Fin dim) K,
      (∀ i j, metric_from_gradient N (fun i => Double.fin (grad i)) (Double.fin eps) i j =
        Double.fin (M i j)) ∧
      Matrix.mulVec M grad = gradient_eigenvalue dim (Matrix.dotProduct grad grad) eps • grad ∧
      0 < gradient_eigenvalue dim (Matrix.dotProduct grad grad) eps ∧
      (∀ x : Fin dim → K, Matrix.dotProduct grad x = 0 → Matrix.mulVec M x = 0) ∧
      gradient_eigenvalue dim (Matrix.dotProduct grad grad) (2 * eps) =
        gradient_eigenvalue dim (Matrix.dotProduct grad grad) eps / 4 ∧
      (¬ gradient_eigenvalue dim (Matrix.dotProduct grad grad) (2 * eps) < N.EPSILON →
        ∀ i j, metric_from_gradient N (fun i => Double.fin (grad i)) (Double.fin (2 * eps)) i j =
          Double.fin (1 / 4 * M i j)) := by
  have hpos : 0 < gradient_eigenvalue dim (Matrix.dotProduct grad grad) eps :=
    lt_of_lt_of_le hE (not_lt.1 hl)
  have hg : Matrix.dotProduct grad grad ≠ 0 := by
    intro h0
    rw [h0] at hpos
    simp [gradient_eigenvalue] at hpos
  have hn : N.sqrt (Matrix.dotProduct grad grad) ≠ 0 := by
    intro h0
    rw [h0, mul_zero] at hs
    exact hg hs.symm
  have hquarter : gradient_eigenvalue dim (Matrix.dotProduct grad grad) (2 * eps) =
      gradient_eigenvalue dim (Matrix.dotProduct grad grad) eps / 4 := by
    unfold gradient_eigenvalue
    rw [div_div]
    congr 1
    ring
  refine ⟨Matrix.of (fun i j => grad i / N.sqrt (Matrix.dotProduct grad grad) *
    (grad j / N.sqrt (Matrix.dotProduct grad grad)) *
    gradient_eigenvalue dim (Matrix.dotProduct grad grad) eps), ?_, ?_, hpos, ?_, hquarter, ?_⟩
  · intro i j
    rw [metric_from_gradient_fin N hround grad eps (ne_of_gt heps), if_neg hl, if_neg hn]
    rfl
  · rw [scaled_outer_product_mulVec, hs, div_self hg, mul_one]
  · intro x hx
    rw [scaled_outer_product_mulVec, hx]
    simp
  · intro h2 i j
    rw [metric_from_gradient_fin N hround grad (2 * eps)
      (mul_ne_zero (by norm_num) (ne_of_gt heps)), if_neg h2, if_neg hn, hquarter]
    simp only [Matrix.of_apply]
    congr 1
    ring

theorem metric_from_gradient_eigenvalue_witness :
    ∃ M : Matrix (Fin 2) (Fin 2) ℝ,
      (∀ i j, metric_from_gradient
          (numerics_of Real.sqrt Real.sqrt Real.log Real.exp (fun _ m => (1, fun i => m i i)))
          (fun i => Double.fin (![(1 : ℝ), 1] i)) (Double.fin 1) i j = Double.fin (M i j)) ∧
      Matrix.mulVec M ![(1 : ℝ), 1] =
        gradient_eigenvalue 2 (Matrix.dotProduct ![(1 : ℝ), 1] ![(1 : ℝ), 1]) 1 •
          ![(1 : ℝ), 1] :=
  let ⟨M, h1, h2, _⟩ := metric_from_gradient_eigenvalue
    (numerics_of Real.sqrt Real.sqrt Real.log Real.exp (fun _ m => (1, fun i => m i i)))
    2 ![(1 : ℝ), 1] 1 (fun _ => rfl) (by norm_num [numerics_of]) (by norm_num)
    (by norm_num [numerics_of, gradient_eigenvalue, Matrix.dotProduct, Fin.sum_univ_two])
    (Real.mul_self_sqrt (dotProduct_self_nonneg 2 _))
  ⟨M, h1, h2⟩

/-- C17: with the arithmetic of `ranged_numerics`, `eps = 1e-200` and the zero gradient in
one dimension: `eps > 0` holds, so `get_gradient_metrics` passes its check; `square(eps)`
underflows to zero, `l = 0 / 0` is not-a-number, the comparison `l < EPSILON` is false,
and the gradient is divided by the norm `sqrt(0) = 0`: the metric returned is
not-a-number, not the zero metric. -/
theorem metric_from_gradient_underflow_divides_by_zero :
    Double.lt (Double.fin 0) (Double.fin ((1 : Rat) / 10 ^ 200)) = true ∧
    ranged_numerics.mul (Double.fin (1 / 10 ^ 200)) (Double.fin (1 / 10 ^ 200)) = Double.fin 0 ∧
    ranged_numerics.div
        (ranged_numerics.mul (Double.fin 1) (ranged_numerics.norm_squared ![Double.fin 0]))
        (ranged_numerics.mul (Double.fin 16)
          (ranged_numerics.mul (Double.fin (1 / 10 ^ 200)) (Double.fin (1 / 10 ^ 200)))) =
      Double.nan ∧
    Double.lt (Double.nan : Double Rat) (Double.fin ranged_numerics.EPSILON) = false ∧
    ranged_numerics.std_sqrt (ranged_numerics.norm_squared ![Double.fin 0]) = Double.fin 0 ∧
    metric_from_gradient ranged_numerics ![Double.fin 0] (Double.fin (1 / 10 ^ 200)) 0 0 =
      Double.nan ∧
    get_gradient_metrics ranged_numerics 1 [Double.fin 0] (Double.fin (1 / 10 ^ 200)) =
      .ok [Double.nan] := by
  have hsq : ranged_numerics.mul (Double.fin (1 / 10 ^ 200)) (Double.fin (1 / 10 ^ 200)) =
      Double.fin 0 := by
    simp only [Numerics.mul, ranged_numerics]
    rw [if_pos]
    rw [abs_of_nonneg (by positivity)]
    norm_num
  have hz : ∀ x : Rat, ranged_numerics.mul (Double.fin x) (Double.fin 0) = Double.fin 0 := by
    intro x
    simp [Numerics.mul, ranged_numerics]
  have hns : ranged_numerics.norm_squared ![Double.fin 0] = Double.fin 0 := by
    have e : List.ofFn (fun i : Fin 1 => ranged_numerics.mul (![Double.fin (0 : Rat)] i)
        (![Double.fin (0 : Rat)] i)) = [Double.fin 0] := by
      simp [List.ofFn_succ, hz]
    unfold Numerics.norm_squared
    rw [e]
    rfl
  have hdiv : ranged_numerics.div (Double.fin 0) (Double.fin 0) = Double.nan := by
    simp [Numerics.div]
  have hsqrt : ranged_numerics.std_sqrt (Double.fin 0) = Double.fin 0 := by
    simp [Numerics.std_sqrt, ranged_numerics, toy_numerics]
  have hnan : ∀ a : Double Rat, ranged_numerics.mul Double.nan a = Double.nan := by
    intro a
    cases a <;> rfl
  have hm : metric_from_gradient ranged_numerics ![Double.fin 0] (Double.fin (1 / 10 ^ 200))
      0 0 = Double.nan := by
    unfold metric_from_gradient
    simp only [hns, hsq, hz, hdiv, hsqrt, Double.lt, Matrix.cons_val_zero, hnan]
    rfl
  refine ⟨?_, hsq, ?_, rfl, ?_, hm, ?_⟩
  · simp [Double.lt]
  · rw [hns, hsq, hz, hz, hdiv]
  · rw [hns, hsqrt]
  · have hlt : Double.lt (Double.fin 0) (Double.fin ((1 : Rat) / 10 ^ 200)) = true := by
      simp [Double.lt]
    have hvec : (fun _ : Fin 1 => Double.fin (0 : Rat)) = ![Double.fin 0] := by
      funext k
      fin_cases k
      rfl
    rw [← hvec] at hm
    simp only [one_div] at hm hlt
    simp [get_gradient_metrics, metric_from_gradients_dim, hlt, divide_no_remainder, Write_new,
      parallel_for, parallel_for_from, symm_kernel, get_vector, set_symm, symm_ncomps,
      symm2vector, hm]

/-- Where the guard of `metric_from_gradient` does work: if the denominator
`c_denom * square(eps)` is a non-zero number or an infinity (so `square(eps)` has not
underflowed) and zero is stored as zero, a gradient whose squared norm is computed as
zero gets the zero metric, and the division by the norm is not reached. -/
theorem metric_from_gradient_guard (N : Numerics K) {dim : Nat} (grad : Fin dim → Double K)
    (eps : Double K) (hr0 : N.round 0 = Double.fin 0) (hE : 0 < N.EPSILON)
    (hden : (∃ y, y ≠ 0 ∧ N.mul (Double.fin ((2 * ((dim : K) + 1)) * (2 * ((dim : K) + 1))))
        (N.mul eps eps) = Double.fin y) ∨
      ∃ s, N.mul (Double.fin ((2 * ((dim : K) + 1)) * (2 * ((dim : K) + 1))))
        (N.mul eps eps) = Double.inf s)
    (hzero : N.norm_squared grad = Double.fin 0) :
    metric_from_gradient N grad eps = fun _ _ => Double.fin 0 := by
  have hnum : N.mul (Double.fin ((dim : K) * (dim : K))) (Double.fin 0) = Double.fin 0 := by
    simp [Numerics.mul, hr0]
  unfold metric_from_gradient
  simp only [hzero, hnum]
  rcases hden with ⟨y, hy, e⟩ | ⟨s, e⟩
  · rw [e]
    simp [Numerics.div, hy, hr0, Double.lt, hE]
  · rw [e]
    simp [Numerics.div, Double.lt, hE]

/-! ### Array functions that map a kernel over the entries -/

theorem divide_no_remainder_mul (n nc : Nat) (h : 0 < nc) :
    divide_no_remainder ((n * nc : Nat) : Int) (nc : Int) = .ok (n : Int) := by
  unfold divide_no_remainder
  have h0 : (nc : Int) ≠ 0 := by exact_mod_cast (ne_of_gt h)
  rw [if_neg h0, ← Int.ofNat_tmod, ← Int.ofNat_tdiv]
  simp [Nat.mul_div_cancel _ h]

theorem Write_new_mul (n nc : Nat) :
    Write_new ((n : Int) * (nc : Int)) = .ok (List.replicate (n * nc) (default : K)) := by
  have e : ((n : Int) * (nc : Int)).toNat = n * nc := by
    have : (n : Int) * (nc : Int) = ((n * nc : Nat) : Int) := by push_cast; ring
    rw [this, Int.toNat_ofNat]
  unfold Write_new
  rw [if_pos (by positivity), e]

/-- Allocation followed by a loop of kernels that store `F i` at entry `i`. -/
theorem symm_array_loop (dim n : Nat) (h1 : 1 ≤ dim) (h3 : dim ≤ 3)
    (g : Int → Except Fail (Matrix (Fin dim) (Fin dim) K))
    (F : Nat → Matrix (Fin dim) (Fin dim) K) (hg : ∀ i, i < n → g (i : Int) = .ok (F i)) :
    ∃ out,
      (match Write_new ((n : Int) * (symm_ncomps dim : Int)) with
        | .error e => Except.error e
        | .ok out0 => parallel_for (n : Int).toNat (symm_kernel dim g) out0) = .ok out ∧
      out.length = n * symm_ncomps dim ∧
      ∀ i, i < n → block (symm_ncomps dim) out i = symm2vector dim (F i) := by
  rw [Write_new_mul]
  simp only [Int.toNat_ofNat]
  exact symm_kernel_loop dim n h1 h3 g F hg _ (by simp)

theorem invert_mul_self {dim : Nat} (q : Matrix (Fin dim) (Fin dim) K) (h : q.det ≠ 0) :
    invert q * q = 1 := by
  unfold invert
  rw [Matrix.smul_mul, Matrix.adjugate_mul, smul_smul, inv_mul_cancel₀ h, one_smul]

theorem self_mul_invert {dim : Nat} (q : Matrix (Fin dim) (Fin dim) K) (h : q.det ≠ 0) :
    q * invert q = 1 := by
  unfold invert
  rw [Matrix.mul_smul, Matrix.mul_adjugate, smul_smul, inv_mul_cancel₀ h, one_smul]

theorem compose_eigen_mul {dim : Nat} (q : Matrix (Fin dim) (Fin dim) K) (l : Fin dim → K)
    (h : q.det ≠ 0) : compose_eigen q l * q = q * Matrix.diagonal l := by
  unfold compose_eigen
  rw [Matrix.mul_assoc, invert_mul_self q h, Matrix.mul_one]

/-! ### Hessian-based metrics -/

theorem metric_from_hessians_dim_ok (N : Numerics K) (dim n : Nat) (h1 : 1 ≤ dim) (h3 : dim ≤ 3)
    (hessians : List K) (eps : K) (hl : hessians.length = n * symm_ncomps dim) :
    ∃ out, metric_from_hessians_dim N dim hessians eps = .ok out ∧
      out.length = hessians.length ∧
      ∀ i, i < n → block (symm_ncomps dim) out i =
        symm2vector dim
          (metric_from_hessian N (vector2symm dim (block (symm_ncomps dim) hessians i)) eps) := by
  unfold metric_from_hessians_dim
  simp only [hl, divide_no_remainder_mul n _ (symm_ncomps_pos dim h1)]
  apply symm_array_loop dim n h1 h3
  intro i hi
  rw [get_symm_ok dim n hessians i hl hi]

/-- C15: with `(Q, l)` the eigen-decomposition the solver returns for the Hessian `H`, `Q`
invertible and `eps > 0`, the Hessian-based metric `M` has the columns of `Q` as
eigenvectors, `M Q = Q diag(l')`, with the eigenvalues
`l'_i = dim^2 |l_i| / (2 (dim + 1)^2 eps)`, all non-negative.  `get_hessian_metrics` fails
at line 375 unless `eps > 0` and at line 379 unless `dim` is 1, 2 or 3, and otherwise
stores the metric of every entry of an array of `n` Hessians. -/
theorem metric_from_hessian_eigen (N : Numerics K) (dim : Nat)
    (H : Matrix (Fin dim) (Fin dim) K) (eps : K) (heps : 0 < eps)
    (hQ : (N.decompose_eigen dim H).1.det ≠ 0) :
    (metric_from_hessian N H eps * (N.decompose_eigen dim H).1 =
      (N.decompose_eigen dim H).1 *
        Matrix.diagonal (fun i => hessian_eigenvalue dim ((N.decompose_eigen dim H).2 i) eps) ∧
    ∀ i, 0 ≤ hessian_eigenvalue dim ((N.decompose_eigen dim H).2 i) eps) ∧
    (∀ (d : Int) (hessians : List K) (e : K), ¬ (e > 0) →
      get_hessian_metrics N d hessians e = .error (.check 375)) ∧
    (∀ (d : Int) (hessians : List K), d ≠ 1 → d ≠ 2 → d ≠ 3 →
      get_hessian_metrics N d hessians eps = .error (.check 379)) ∧
    (∀ (n : Nat) (hessians : List K), 1 ≤ dim → dim ≤ 3 →
      hessians.length = n * symm_ncomps dim →
      ∃ out, get_hessian_metrics N (dim : Int) hessians eps = .ok out ∧
        out.length = hessians.length ∧
        ∀ i, i < n → block (symm_ncomps dim) out i =
          symm2vector dim
            (metric_from_hessian N (vector2symm dim (block (symm_ncomps dim) hessians i))
              eps)) := by
  refine ⟨⟨?_, ?_⟩, ?_, ?_, ?_⟩
  · have e : metric_from_hessian N H eps =
        compose_eigen (N.decompose_eigen dim H).1
          (fun i => hessian_eigenvalue dim ((N.decompose_eigen dim H).2 i) eps) := by
      unfold metric_from_hessian hessian_eigenvalue
      dsimp only
      apply congrArg
      funext i
      congr 1 <;> ring
    rw [e, compose_eigen_mul _ _ hQ]
  · intro i
    unfold hessian_eigenvalue
    positivity
  · intro d hessians e he
    simp [get_hessian_metrics, he]
  · intro d hessians d1 d2 d3
    simp [get_hessian_metrics, heps, d1, d2, d3]
  · intro n hessians h1 h3 hl
    have hd : dim = 1 ∨ dim = 2 ∨ dim = 3 := by omega
    have key := metric_from_hessians_dim_ok N dim n h1 h3 hessians eps hl
    rcases hd with rfl | rfl | rfl
    · simpa [get_hessian_metrics, heps] using key
    · simpa [get_hessian_metrics, heps] using key
    · simpa [get_hessian_metrics, heps] using key

theorem metric_from_hessian_eigen_witness :
    metric_from_hessian toy_numerics (Matrix.diagonal ![(2 : Rat), -3]) 1 *
        (toy_numerics.decompose_eigen 2 (Matrix.diagonal ![(2 : Rat), -3])).1 =
      (toy_numerics.decompose_eigen 2 (Matrix.diagonal ![(2 : Rat), -3])).1 *
        Matrix.diagonal (fun i => hessian_eigenvalue 2
          ((toy_numerics.decompose_eigen 2 (Matrix.diagonal ![(2 : Rat), -3])).2 i) 1) :=
  (metric_from_hessian_eigen toy_numerics 2 (Matrix.diagonal ![(2 : Rat), -3]) 1
    (by norm_num) (by simp [toy_numerics])).1.1

/-! ### Intersection of two metrics -/

theorem metric_product_self {dim : Nat} (m : Matrix (Fin dim) (Fin dim) K)
    (v : Fin dim → K) : metric_product m v = quadratic_form m v := by
  simp [metric_product, quadratic_form]

theorem intersect_metrics_of_ne_one (N : Numerics K) {dim : Nat} (h : dim ≠ 1)
    (m1 m2 : Matrix (Fin dim) (Fin dim) K) :
    intersect_metrics N m1 m2 =
      (invert (intersect_basis N m1 m2)).transpose *
        Matrix.diagonal (fun i => max (quadratic_form m1 (fun k => intersect_basis N m1 m2 k i))
          (quadratic_form m2 (fun k => intersect_basis N m1 m2 k i))) *
        invert (intersect_basis N m1 m2) := by
  match dim, h, m1, m2 with
  | 0, _, m1, m2 => simp [intersect_metrics, intersect_basis, metric_product_self]
  | n + 2, _, m1, m2 => simp [intersect_metrics, intersect_basis, metric_product_self]

theorem quadratic_form_column_pos {dim : Nat} (p a : Matrix (Fin dim) (Fin dim) K)
    (ha : positive_definite a) (hp : p.det ≠ 0) (i : Fin dim) :
    0 < quadratic_form a (fun k => p k i) := by
  have hx : (fun k => p k i) ≠ 0 := by
    intro h0
    exact hp (Matrix.det_eq_zero_of_column_eq_zero i (fun k => congrFun h0 k))
  have := ha.2 _ hx
  simpa [quadratic_form] using this

theorem get_metrics_dim_ok (dim n : Nat) (h1 : 1 ≤ dim) (h3 : dim ≤ 3) (hn : 1 ≤ n)
    (a : List K) (hl : a.length = n * symm_ncomps dim) :
    get_metrics_dim (n : Int) a = .ok (dim : Int) := by
  unfold get_metrics_dim
  rw [hl, Nat.mul_comm, divide_no_remainder_mul _ n hn]
  interval_cases dim <;> rfl

theorem get_symm_metric_at (dim n : Nat) (a : List K) (i : Nat)
    (hl : a.length = n * symm_ncomps dim) (hi : i < n) :
    get_symm dim a (i : Int) = .ok (metric_at dim a i) :=
  get_symm_ok dim n a i hl hi

/-- If `diag(u) R = R diag(v)` and `f`, `g` agree wherever `u i = v j`, then
`diag(f u) R = R diag(g v)`. -/
theorem diagonal_intertwine {dim : Nat} (R : Matrix (Fin dim) (Fin dim) K)
    (u v : Fin dim → K) (f g : K → K)
    (h : Matrix.diagonal u * R = R * Matrix.diagonal v)
    (hfg : ∀ i j, u i = v j → f (u i) = g (v j)) :
    Matrix.diagonal (fun i => f (u i)) * R = R * Matrix.diagonal (fun j => g (v j)) := by
  ext i j
  have e := congrFun (congrFun h i) j
  rw [Matrix.diagonal_mul, Matrix.mul_diagonal] at e
  rw [Matrix.diagonal_mul, Matrix.mul_diagonal]
  by_cases hr : R i j = 0
  · rw [hr, mul_zero, zero_mul]
  · have : u i = v j := by
      have e2 : R i j * u i = R i j * v j := by rw [mul_comm, e]
      exact mul_left_cancel₀ hr e2
    rw [hfg i j this, mul_comm]

theorem compose_eigen_of_mul {dim : Nat} (m q : Matrix (Fin dim) (Fin dim) K)
    (l : Fin dim → K) (hq : q.det ≠ 0) (h : m * q = q * Matrix.diagonal l) :
    compose_eigen q l = m := by
  unfold compose_eigen
  rw [← h, Matrix.mul_assoc, self_mul_invert q hq, Matrix.mul_one]

/-- A function of a symmetric matrix, taken on the eigenvalues of an exact
decomposition, is symmetric. -/
theorem compose_eigen_symmetric {dim : Nat} (m q : Matrix (Fin dim) (Fin dim) K)
    (l : Fin dim → K) (f : K → K) (hm : m.transpose = m) (hq : q.det ≠ 0)
    (h : m * q = q * Matrix.diagonal l) :
    (compose_eigen q (fun i => f (l i))).transpose = compose_eigen q (fun i => f (l i)) := by
  have qiq := self_mul_invert q hq
  have iqq := invert_mul_self q hq
  -- `G = q^T q` commutes with `diag(l)`, hence with `diag(f l)`
  have hG : Matrix.diagonal l * (q.transpose * q) = (q.transpose * q) * Matrix.diagonal l := by
    have e1 : q.transpose * m * q = (q.transpose * q) * Matrix.diagonal l := by
      rw [Matrix.mul_assoc, h, ← Matrix.mul_assoc]
    have e2 : (q.transpose * m * q).transpose = q.transpose * m * q := by
      rw [Matrix.transpose_mul, Matrix.transpose_mul, Matrix.transpose_transpose, hm,
        Matrix.mul_assoc]
    rw [e1, Matrix.transpose_mul, Matrix.transpose_mul, Matrix.transpose_transpose,
      Matrix.diagonal_transpose] at e2
    exact e2
  have hGf := diagonal_intertwine (q.transpose * q) l l f f hG (fun i j hij => by rw [hij])
  -- conjugating back with `invert q`
  set D := Matrix.diagonal (fun i => f (l i)) with hD
  have ht : (invert q).transpose * q.transpose = 1 := by
    rw [← Matrix.transpose_mul, qiq, Matrix.transpose_one]
  have e3 : (invert q).transpose * (D * (q.transpose * q)) * invert q =
      (invert q).transpose * D * q.transpose := by
    simp only [Matrix.mul_assoc]
    rw [qiq, Matrix.mul_one]
  have e4 : (invert q).transpose * ((q.transpose * q) * D) * invert q =
      q * D * invert q := by
    rw [← Matrix.mul_assoc, ← Matrix.mul_assoc, ht, Matrix.one_mul]
  unfold compose_eigen
  rw [Matrix.transpose_mul, Matrix.transpose_mul, ← hD, hD, Matrix.diagonal_transpose, ← hD,
    ← Matrix.mul_assoc, ← e3, hGf, e4]

/-- Delinearizing a linearized metric gives the metric back when the eigen-solver is
exact at the metric and at its linearization and `exp` inverts `log` at the
eigenvalues. -/
theorem delinearize_linearize_metric (N : Numerics K) {dim : Nat}
    (m : Matrix (Fin dim) (Fin dim) K) (h1 : decompose_eigen_exact N m)
    (h2 : decompose_eigen_exact N (linearize_metric N m))
    (hexp : ∀ i, N.exp (N.log ((N.decompose_eigen dim m).2 i)) = (N.decompose_eigen dim m).2 i) :
    delinearize_metric N (linearize_metric N m) = m := by
  obtain ⟨hq, hm⟩ := h1
  obtain ⟨hq2, hL⟩ := h2
  set q := (N.decompose_eigen dim m).1 with hqdef
  set l := (N.decompose_eigen dim m).2 with hldef
  have hlin : linearize_metric N m = compose_eigen q (fun i => N.log (l i)) := rfl
  rw [hlin] at hL hq2 ⊢
  set L := compose_eigen q (fun i => N.log (l i)) with hLdef
  set q2 := (N.decompose_eigen dim L).1 with hq2def
  set l2 := (N.decompose_eigen dim L).2 with hl2def
  have hdel : delinearize_metric N L = compose_eigen q2 (fun i => N.exp (l2 i)) := rfl
  rw [hdel]
  apply compose_eigen_of_mul m q2 _ hq2
  have qiq := self_mul_invert q hq
  have iqq := invert_mul_self q hq
  -- `R = invert q * q2` intertwines `diag(log l)` and `diag(l2)`
  have hR : Matrix.diagonal (fun i => N.log (l i)) * (invert q * q2) =
      (invert q * q2) * Matrix.diagonal l2 := by
    have : invert q * (L * q2) = invert q * (q2 * Matrix.diagonal l2) := by rw [hL]
    rw [hLdef] at this
    unfold compose_eigen at this
    simp only [Matrix.mul_assoc] at this
    rw [← Matrix.mul_assoc (invert q) q, iqq, Matrix.one_mul] at this
    rw [this, Matrix.mul_assoc]
  have hR3 : Matrix.diagonal l * (invert q * q2) =
      (invert q * q2) * Matrix.diagonal (fun j => N.exp (l2 j)) := by
    have := diagonal_intertwine (invert q * q2) (fun i => N.log (l i)) l2 N.exp N.exp hR
      (fun i j hij => by rw [hij])
    simp only [hexp] at this
    exact this
  calc m * q2 = m * (q * (invert q * q2)) := by
        rw [← Matrix.mul_assoc q, qiq, Matrix.one_mul]
    _ = q * (Matrix.diagonal l * (invert q * q2)) := by
        rw [← Matrix.mul_assoc, hm, Matrix.mul_assoc]
    _ = q * ((invert q * q2) * Matrix.diagonal (fun j => N.exp (l2 j))) := by rw [hR3]
    _ = q2 * Matrix.diagonal (fun j => N.exp (l2 j)) := by
        rw [← Matrix.mul_assoc, ← Matrix.mul_assoc, qiq, Matrix.one_mul]

theorem tdiv_mul_cancel (n nc : Nat) (h : 0 < nc) :
    Int.tdiv ((n * nc : Nat) : Int) (nc : Int) = (n : Int) := by
  rw [← Int.ofNat_tdiv, Nat.mul_div_cancel _ h]

theorem linearize_metrics_dim_ok (N : Numerics K) (dim n : Nat) (h1 : 1 ≤ dim) (h3 : dim ≤ 3)
    (metrics : List K) (hl : metrics.length = n * symm_ncomps dim) :
    ∃ out, linearize_metrics_dim N dim metrics = .ok out ∧
      out.length = n * symm_ncomps dim ∧
      ∀ i, i < n → block (symm_ncomps dim) out i =
        symm2vector dim (linearize_metric N (metric_at dim metrics i)) := by
  unfold linearize_metrics_dim
  simp only [hl, tdiv_mul_cancel n _ (symm_ncomps_pos dim h1)]
  apply symm_array_loop dim n h1 h3
  intro i hi
  rw [get_symm_metric_at dim n metrics i hl hi]

theorem delinearize_metrics_dim_ok (N : Numerics K) (dim n : Nat) (h1 : 1 ≤ dim) (h3 : dim ≤ 3)
    (lms : List K) (hl : lms.length = n * symm_ncomps dim) :
    ∃ out, delinearize_metrics_dim N dim lms = .ok out ∧
      out.length = n * symm_ncomps dim ∧
      ∀ i, i < n → block (symm_ncomps dim) out i =
        symm2vector dim (delinearize_metric N (metric_at dim lms i)) := by
  unfold delinearize_metrics_dim
  simp only [hl, tdiv_mul_cancel n _ (symm_ncomps_pos dim h1)]
  apply symm_array_loop dim n h1 h3
  intro i hi
  rw [get_symm_metric_at dim n lms i hl hi]

theorem linearize_metrics_ok (N : Numerics K) (dim n : Nat) (h1 : 1 ≤ dim) (h3 : dim ≤ 3)
    (hn : 1 ≤ n) (metrics : List K) (hl : metrics.length = n * symm_ncomps dim) :
    ∃ out, linearize_metrics N (n : Int) metrics = .ok out ∧
      out.length = n * symm_ncomps dim ∧
      ∀ i, i < n → block (symm_ncomps dim) out i =
        symm2vector dim (linearize_metric N (metric_at dim metrics i)) := by
  have key := linearize_metrics_dim_ok N dim n h1 h3 metrics hl
  unfold linearize_metrics
  rw [get_metrics_dim_ok dim n h1 h3 hn metrics hl]
  have hd : dim = 1 ∨ dim = 2 ∨ dim = 3 := by omega
  rcases hd with rfl | rfl | rfl
  · simpa using key
  · simpa using key
  · simpa using key

theorem delinearize_metrics_ok (N : Numerics K) (dim n : Nat) (h1 : 1 ≤ dim) (h3 : dim ≤ 3)
    (hn : 1 ≤ n) (lms : List K) (hl : lms.length = n * symm_ncomps dim) :
    ∃ out, delinearize_metrics N (n : Int) lms = .ok out ∧
      out.length = n * symm_ncomps dim ∧
      ∀ i, i < n → block (symm_ncomps dim) out i =
        symm2vector dim (delinearize_metric N (metric_at dim lms i)) := by
  have key := delinearize_metrics_dim_ok N dim n h1 h3 lms hl
  unfold delinearize_metrics
  rw [get_metrics_dim_ok dim n h1 h3 hn lms hl]
  have hd : dim = 1 ∨ dim = 2 ∨ dim = 3 := by omega
  rcases hd with rfl | rfl | rfl
  · simpa using key
  · simpa using key
  · simpa using key

theorem interpolate_between_self (a : List K) (t : K) :
    interpolate_between a a t = .ok a := by
  unfold interpolate_between
  rw [if_pos rfl]
  congr 1
  induction a with
  | nil => rfl
  | cons x xs ih =>
    rw [List.zipWith_cons_cons, ih]
    congr 1
    ring

/-- The eigenvalues an exact eigen-solver returns for a positive-definite metric are
positive. -/
theorem decompose_eigen_exact_pos (N : Numerics K) {dim : Nat}
    (m : Matrix (Fin dim) (Fin dim) K) (hpd : positive_definite m)
    (h : decompose_eigen_exact N m) (k : Fin dim) : 0 < (N.decompose_eigen dim m).2 k := by
  obtain ⟨hq, hm⟩ := h
  set q := (N.decompose_eigen dim m).1 with hqdef
  set l := (N.decompose_eigen dim m).2 with hldef
  have hpos := quadratic_form_column_pos q m hpd hq k
  have hx : (fun i => q i k) ≠ 0 := by
    intro h0
    exact hq (Matrix.det_eq_zero_of_column_eq_zero k (fun i => congrFun h0 i))
  have hxx : 0 < Matrix.dotProduct (fun i => q i k) (fun i => q i k) := by
    obtain ⟨i, hi⟩ : ∃ i, q i k ≠ 0 := by
      by_contra hn
      exact hx (funext fun i => by simpa using not_exists.1 hn i)
    exact lt_of_lt_of_le (mul_self_pos.2 hi)
      (Finset.single_le_sum (f := fun i => q i k * q i k) (fun j _ => mul_self_nonneg (q j k))
        (Finset.mem_univ i))
  have hmv : Matrix.mulVec m (fun i => q i k) = l k • (fun i => q i k) := by
    funext i
    have := congrFun (congrFun hm i) k
    rw [Matrix.mul_apply, Matrix.mul_diagonal] at this
    simp only [Matrix.mulVec, Matrix.dotProduct, Pi.smul_apply, smul_eq_mul]
    rw [this]
    ring
  have hqf : quadratic_form m (fun i => q i k) =
      l k * Matrix.dotProduct (fun i => q i k) (fun i => q i k) := by
    unfold quadratic_form
    rw [hmv, Matrix.dotProduct_smul, smul_eq_mul]
  rw [hqf] at hpos
  by_contra hneg
  have : l k * Matrix.dotProduct (fun i => q i k) (fun i => q i k) ≤ 0 :=
    mul_nonpos_of_nonpos_of_nonneg (not_lt.1 hneg) (le_of_lt hxx)
  linarith

/-- The round trip through `linearize_metrics` and `delinearize_metrics` on an array of
`n` positive-definite metrics at whose entries the eigen-solver is exact. -/
theorem delinearize_linearize_metrics (N : Numerics K) (dim n : Nat) (h1 : 1 ≤ dim)
    (h3 : dim ≤ 3) (hn : 1 ≤ n) (metrics : List K)
    (hl : metrics.length = n * symm_ncomps dim)
    (hpd : ∀ i, i < n → positive_definite (metric_at dim metrics i))
    (hq : ∀ i, i < n → decompose_eigen_exact N (metric_at dim metrics i))
    (hq2 : ∀ i, i < n →
      decompose_eigen_exact N (linearize_metric N (metric_at dim metrics i)))
    (hexp : ∀ x : K, 0 < x → N.exp (N.log x) = x) :
    ∃ lms, linearize_metrics N (n : Int) metrics = .ok lms ∧
      lms.length = metrics.length ∧
      delinearize_metrics N (n : Int) lms = .ok metrics := by
  obtain ⟨lms, e1, e2, e3⟩ := linearize_metrics_ok N dim n h1 h3 hn metrics hl
  obtain ⟨out, f1, f2, f3⟩ := delinearize_metrics_ok N dim n h1 h3 hn lms e2
  refine ⟨lms, e1, by rw [e2, hl], ?_⟩
  rw [f1]
  congr 1
  apply block_ext (symm_ncomps dim) n out metrics f2 hl
  intro i hi
  have hs : metric_at dim lms i = linearize_metric N (metric_at dim metrics i) := by
    unfold metric_at
    rw [e3 i hi]
    apply vector2symm_symm2vector dim h1 h3
    exact compose_eigen_symmetric (metric_at dim metrics i) _ _ N.log
      (vector2symm_transpose dim _) (hq i hi).1 (hq i hi).2
  rw [f3 i hi, hs, delinearize_linearize_metric N _ (hq i hi) (hq2 i hi)
    (fun k => hexp _ (decompose_eigen_exact_pos N _ (hpd i hi) (hq i hi) k))]
  unfold metric_at
  exact symm2vector_vector2symm dim h1 h3 _ (block_length _ n metrics i hl hi)

/-- C13: in exact arithmetic, over any ordered field `K`: on an array of `n >= 1`
positive-definite metrics of dimension 1, 2 or 3, with an `exp` that inverts `log` on
the positive numbers and an eigen-solver that is exact at the entries and at their
linearizations, `linearize_metrics` followed by `delinearize_metrics` returns the
array itself (so within every tolerance), through an array of the same length;
consequently `interpolate_between_metrics(n, a, a, t)` returns `a` for every `t`. -/
theorem delinearize_linearize_roundtrip (N : Numerics K) (dim n : Nat) (h1 : 1 ≤ dim)
    (h3 : dim ≤ 3) (hn : 1 ≤ n) (metrics : List K)
    (hl : metrics.length = n * symm_ncomps dim)
    (hpd : ∀ i, i < n → positive_definite (metric_at dim metrics i))
    (hq : ∀ i, i < n → decompose_eigen_exact N (metric_at dim metrics i))
    (hq2 : ∀ i, i < n →
      decompose_eigen_exact N (linearize_metric N (metric_at dim metrics i)))
    (hexp : ∀ x : K, 0 < x → N.exp (N.log x) = x) :
    (∃ lms, linearize_metrics N (n : Int) metrics = .ok lms ∧
      lms.length = metrics.length ∧
      delinearize_metrics N (n : Int) lms = .ok metrics) ∧
    ∀ t : K, interpolate_between_metrics N (n : Int) metrics metrics t = .ok metrics := by
  obtain ⟨lms, e1, e2, e3⟩ :=
    delinearize_linearize_metrics N dim n h1 h3 hn metrics hl hpd hq hq2 hexp
  refine ⟨⟨lms, e1, e2, e3⟩, ?_⟩
  intro t
  unfold interpolate_between_metrics
  simp only [e1, interpolate_between_self, e3]

theorem invert_one {dim : Nat} : invert (1 : Matrix (Fin dim) (Fin dim) K) = 1 := by
  simp [invert]

/-- The solver `skew_eigen` is exact on every matrix `sk a b`. -/
theorem skew_eigen_exact (N : Numerics K) (hN : N.decompose_eigen = skew_eigen) (a b : K) :
    decompose_eigen_exact N (sk a b) := by
  unfold decompose_eigen_exact
  rw [hN]
  refine ⟨?_, ?_⟩
  · simp only [skew_eigen]
    rw [Matrix.det_fin_two]
    norm_num
  · simp only [skew_eigen]
    ext i j
    fin_cases i <;> fin_cases j <;>
      simp [sk, Matrix.mul_apply, Fin.sum_univ_two, Matrix.diagonal] <;> ring

theorem invert_skew_basis :
    invert (Matrix.of ![![(1 : K), 1], ![1, -1]]) = Matrix.of ![![1 / 2, 1 / 2], ![1 / 2, -(1 / 2)]] := by
  ext i j
  fin_cases i <;> fin_cases j <;>
    simp [invert, Matrix.det_fin_two, Matrix.adjugate_fin_two] <;> norm_num

/-- With the solver `skew_eigen`, the matrix composed from the eigenvalues `x`, `y` is
`sk ((x + y) / 2) ((x - y) / 2)`. -/
theorem compose_skew_basis (x y : K) :
    compose_eigen (Matrix.of ![![(1 : K), 1], ![1, -1]]) ![x, y] =
      sk ((x + y) / 2) ((x - y) / 2) := by
  unfold compose_eigen
  rw [invert_skew_basis]
  have hd : Matrix.diagonal ![x, y] = Matrix.of ![![x, 0], ![0, y]] := by
    ext i j
    fin_cases i <;> fin_cases j <;> simp
  rw [hd]
  ext i j
  fin_cases i <;> fin_cases j <;>
    simp [Matrix.mul_apply, Fin.sum_univ_two, sk] <;> ring

theorem linearize_sk (N : Numerics K) (hN : N.decompose_eigen = skew_eigen) (a b : K) :
    linearize_metric N (sk a b) =
      sk ((N.log (a + b) + N.log (a - b)) / 2) ((N.log (a + b) - N.log (a - b)) / 2) := by
  unfold linearize_metric
  rw [hN]
  simp only [skew_eigen]
  rw [← compose_skew_basis]
  congr 1

theorem metric_at_sk (a b : K) : metric_at 2 [a, a, b] 0 = sk a b := by
  ext i j
  fin_cases i <;> fin_cases j <;> simp [metric_at, block, vector2symm, symm_ncomps, sk]

theorem positive_definite_sk (a b : K) (h1 : 0 < a + b) (h2 : 0 < a - b) :
    positive_definite (sk a b) := by
  refine ⟨?_, fun x hx => ?_⟩
  · ext i j
    fin_cases i <;> fin_cases j <;> simp [sk]
  · have e : quadratic_form (sk a b) x =
        ((a + b) * ((x 0 + x 1) * (x 0 + x 1)) + (a - b) * ((x 0 - x 1) * (x 0 - x 1))) / 2 := by
      simp [quadratic_form, Matrix.dotProduct, Matrix.mulVec, Fin.sum_univ_two, sk]
      ring
    rw [e]
    have hne : x 0 ≠ 0 ∨ x 1 ≠ 0 := by
      by_contra hn
      push_neg at hn
      exact hx (funext fun i => by fin_cases i <;> simp [hn.1, hn.2])
    have hs : 0 < (x 0 + x 1) * (x 0 + x 1) + (x 0 - x 1) * (x 0 - x 1) := by
      rcases hne with h | h
      · nlinarith [mul_self_pos.2 h, mul_self_nonneg (x 1)]
      · nlinarith [mul_self_pos.2 h, mul_self_nonneg (x 0)]
    have hp : 0 ≤ (x 0 + x 1) * (x 0 + x 1) := mul_self_nonneg _
    have hm : 0 ≤ (x 0 - x 1) * (x 0 - x 1) := mul_self_nonneg _
    apply div_pos _ (by norm_num)
    rcases lt_or_eq_of_le hp with hp1 | hp1
    · have := mul_pos h1 hp1
      have := mul_nonneg (le_of_lt h2) hm
      linarith
    · rw [← hp1] at hs ⊢
      have hm1 : 0 < (x 0 - x 1) * (x 0 - x 1) := by linarith
      have := mul_pos h2 hm1
      linarith

theorem delinearize_linearize_roundtrip_witness :
    interpolate_between_metrics
        (numerics_of Real.sqrt Real.sqrt Real.log Real.exp skew_eigen) ((1 : Nat) : Int)
        [2, 2, 1] [2, 2, 1] (1 / 2) = .ok [(2 : ℝ), 2, 1] :=
  (delinearize_linearize_roundtrip
    (numerics_of Real.sqrt Real.sqrt Real.log Real.exp skew_eigen) 2 1 (by decide) (by decide)
    (by decide) [2, 2, 1] rfl
    (fun i hi => by
      have : i = 0 := by omega
      rw [this, metric_at_sk]
      exact positive_definite_sk 2 1 (by norm_num) (by norm_num))
    (fun i hi => by
      have : i = 0 := by omega
      rw [this, metric_at_sk]
      exact skew_eigen_exact _ rfl 2 1)
    (fun i hi => by
      have : i = 0 := by omega
      rw [this, metric_at_sk, linearize_sk _ rfl]
      exact skew_eigen_exact _ rfl _ _)
    (fun x hx => Real.exp_log hx)).2 (1 / 2)

/-! ### One pass of gradation limiting -/

theorem get_vector_ok (dim n : Nat) (a : List K) (i : Nat) (hl : a.length = n * dim)
    (hi : i < n) : get_vector dim a (i : Int) = .ok (point_at dim a i) := by
  have : (i + 1) * dim ≤ n * dim := Nat.mul_le_mul_right _ hi
  unfold get_vector
  rw [if_pos ⟨Int.natCast_nonneg _, by simpa [hl] using this⟩]
  simp only [Int.toNat_ofNat]
  rfl

theorem Read_get_natCast {T : Type} (a : List T) (i : Nat) (x : T) (h : a[i]? = some x) :
    Read_get a (i : Int) = .ok x := by
  simp [Read_get, h]

/-- The neighbour loop folds the intersection over the limiters of the neighbours. -/
theorem limit_gradation_neighbors_fold (N : Numerics K) (mesh_dim metric_dim n : Nat) (mesh : Mesh K)
    (values : List K) (max_rate : K) (v : Nat)
    (hv : values.length = n * symm_ncomps metric_dim) (hc : mesh.coords.length = n * mesh_dim) :
    ∀ (l : List Nat) (vv : Nat) (m : Matrix (Fin metric_dim) (Fin metric_dim) K),
      (∀ k (hk : k < l.length),
        mesh.star_ab2b[vv + k]? = some ((l[k] : Nat) : Int) ∧ l[k] < n) →
      limit_gradation_neighbors N mesh_dim metric_dim mesh values max_rate
          (point_at mesh_dim mesh.coords v) l.length (vv : Int) m =
        .ok ((l.map (gradation_limiter N mesh_dim metric_dim mesh values max_rate v)).foldl
          (intersect_metrics N) m) := by
  intro l
  induction l with
  | nil => intro vv m _; rfl
  | cons av rest ih =>
    intro vv m h
    have h0 := h 0 (by simp)
    simp only [Nat.add_zero, List.getElem_cons_zero] at h0
    have hrest : ∀ k (hk : k < rest.length),
        mesh.star_ab2b[vv + 1 + k]? = some ((rest[k] : Nat) : Int) ∧ rest[k] < n := by
      intro k hk
      have := h (k + 1) (by simp; omega)
      simp only [List.getElem_cons_succ] at this
      rw [show vv + 1 + k = vv + (k + 1) by omega]
      exact this
    have e := ih (vv + 1)
      (intersect_metrics N m (gradation_limiter N mesh_dim metric_dim mesh values max_rate v av))
      hrest
    simp only [List.length_cons, limit_gradation_neighbors,
      Read_get_natCast _ _ _ h0.1, get_symm_metric_at metric_dim n values av hv h0.2,
      get_vector_ok mesh_dim n mesh.coords av hc h0.2, List.map_cons, List.foldl_cons]
    have hlim : (metric_eigenvalue_from_length
          (1 + metric_length N (metric_at metric_dim values av)
            (point_at mesh_dim mesh.coords av - point_at mesh_dim mesh.coords v) * max_rate)) •
          metric_at metric_dim values av =
        gradation_limiter N mesh_dim metric_dim mesh values max_rate v av := by
      unfold gradation_limiter metric_eigenvalue_from_length metric_length
      congr 1
      ring
    rw [hlim]
    have hcast : ((vv : Int) + 1) = ((vv + 1 : Nat) : Int) := by push_cast; ring
    rw [hcast]
    exact e

theorem limit_gradation_at_eq (N : Numerics K) (mesh_dim metric_dim n : Nat) (mesh : Mesh K)
    (values : List K) (max_rate : K) (nbrs : Nat → List Nat)
    (hv : values.length = n * symm_ncomps metric_dim) (hc : mesh.coords.length = n * mesh_dim)
    (hs : is_star mesh n nbrs) (v : Nat) (hvn : v < n) :
    limit_gradation_at N mesh_dim metric_dim mesh values max_rate (v : Int) =
      .ok (limited_metric N mesh_dim metric_dim mesh values max_rate v (nbrs v)) := by
  obtain ⟨first, h1, h2, h3⟩ := hs v hvn
  have h2i : Read_get mesh.star_a2ab ((v : Int) + 1) =
      .ok ((first + (nbrs v).length : Nat) : Int) := by
    have hcast : ((v : Int) + 1) = ((v + 1 : Nat) : Int) := by push_cast; ring
    rw [hcast]
    exact Read_get_natCast _ _ _ h2
  have hcount : (((first + (nbrs v).length : Nat) : Int) - (first : Int)).toNat =
      (nbrs v).length := by
    push_cast
    simp
  unfold limit_gradation_at
  simp only [get_symm_metric_at metric_dim n values v hv hvn,
    get_vector_ok mesh_dim n mesh.coords v hc hvn, Read_get_natCast _ _ _ h1, h2i, hcount]
  exact limit_gradation_neighbors_fold N mesh_dim metric_dim n mesh values max_rate v hv hc
    (nbrs v) first _ h3

/-- What `limit_gradation_once_tmpl` computes before it synchronises the array. -/
theorem limit_gradation_once_tmpl_ok (N : Numerics K) (mesh_dim metric_dim n : Nat)
    (h1 : 1 ≤ metric_dim) (h3 : metric_dim ≤ 3) (mesh : Mesh K) (values : List K)
    (max_rate : K) (nbrs : Nat → List Nat) (hn : mesh.nverts = (n : Int))
    (hv : values.length = n * symm_ncomps metric_dim) (hc : mesh.coords.length = n * mesh_dim)
    (hs : is_star mesh n nbrs) :
    ∃ out, limit_gradation_once_tmpl N mesh_dim metric_dim mesh values max_rate =
        .ok (mesh.sync_array out (symm_ncomps metric_dim)) ∧
      out.length = values.length ∧
      ∀ v, v < n → block (symm_ncomps metric_dim) out v =
        symm2vector metric_dim
          (limited_metric N mesh_dim metric_dim mesh values max_rate v (nbrs v)) := by
  obtain ⟨out, e1, e2, e3⟩ := symm_array_loop metric_dim n h1 h3
    (limit_gradation_at N mesh_dim metric_dim mesh values max_rate)
    (fun v => limited_metric N mesh_dim metric_dim mesh values max_rate v (nbrs v))
    (fun v hvn => limit_gradation_at_eq N mesh_dim metric_dim n mesh values max_rate nbrs
      hv hc hs v hvn)
  refine ⟨out, ?_, by rw [e2, hv], e3⟩
  unfold limit_gradation_once_tmpl
  rw [hn]
  revert e1
  cases (Write_new ((n : Int) * (symm_ncomps metric_dim : Int)) : Except Fail (List K)) with
  | error e => intro e1; cases e1
  | ok out0 =>
    intro e1
    simp only at e1
    simp only [e1]

theorem metric_at_one_apply (a : List K) (v : Nat) : metric_at 1 a v 0 0 = a.getD v 0 := by
  simp [metric_at, vector2symm, block, symm_ncomps, List.getD_eq_getElem?_getD,
    List.getElem?_take, List.getElem?_drop]

/-- What `limit_gradation_once_tmpl` returns: the array the kernel loop computes, after
`sync_array` has given every copy the components of its owner. -/
theorem limit_gradation_once_tmpl_synced (N : Numerics K) (mesh_dim metric_dim n : Nat)
    (h1 : 1 ≤ metric_dim) (h3 : metric_dim ≤ 3) (mesh : Mesh K) (values : List K)
    (max_rate : K) (nbrs : Nat → List Nat) (owner : Nat → Nat) (hn : mesh.nverts = (n : Int))
    (hv : values.length = n * symm_ncomps metric_dim) (hc : mesh.coords.length = n * mesh_dim)
    (hs : is_star mesh n nbrs) (hsync : mesh.synchronizes n owner) :
    ∃ r, limit_gradation_once_tmpl N mesh_dim metric_dim mesh values max_rate = .ok r ∧
      r.length = values.length ∧
      ∀ v, v < n → block (symm_ncomps metric_dim) r v =
        symm2vector metric_dim
          (limited_metric N mesh_dim metric_dim mesh values max_rate (owner v)
            (nbrs (owner v))) := by
  obtain ⟨out, e1, e2, e3⟩ := limit_gradation_once_tmpl_ok N mesh_dim metric_dim n h1 h3 mesh
    values max_rate nbrs hn hv hc hs
  obtain ⟨s1, s2⟩ := hsync.2 out (symm_ncomps metric_dim) (by rw [e2, hv])
  refine ⟨_, e1, by rw [s1, e2], fun v hvn => ?_⟩
  rw [s2 v hvn, e3 _ (hsync.1 v hvn).1]

theorem line_mesh_is_star : is_star line_mesh 2 line_nbrs := by
  intro v hv
  have hcases : v = 0 ∨ v = 1 := by omega
  rcases hcases with rfl | rfl
  · refine ⟨0, rfl, rfl, ?_⟩
    intro k hk
    have : k = 0 := by simpa [line_nbrs] using hk
    subst this
    exact ⟨rfl, by simp [line_nbrs]⟩
  · refine ⟨1, rfl, rfl, ?_⟩
    intro k hk
    have : k = 0 := by simpa [line_nbrs] using hk
    subst this
    exact ⟨rfl, by simp [line_nbrs]⟩

/-! ### Gradation limiting applied twice -/

theorem smul_sk (c a b : Rat) : c • sk a b = sk (c * a) (c * b) := by
  ext i j
  fin_cases i <;> fin_cases j <;> simp [sk]

theorem symm2vector_sk (a b : Rat) : symm2vector 2 (sk a b) = [a, a, b] := by
  simp [symm2vector, sk]

theorem metric_product_sk (a b : Rat) (e : Fin 2 → Rat) :
    metric_product (sk a b) e = a * (e 0 * e 0 + e 1 * e 1) + 2 * b * (e 0 * e 1) := by
  rw [metric_product_self]
  simp [quadratic_form, sk, Matrix.dotProduct, Matrix.mulVec, Fin.sum_univ_two]
  ring

theorem intersect_sk (a b c d : Rat) :
    intersect_metrics skew_numerics (sk a b) (sk c d) =
      sk ((max (2 * a + 2 * b) (2 * c + 2 * d) + max (2 * a - 2 * b) (2 * c - 2 * d)) / 4)
        ((max (2 * a + 2 * b) (2 * c + 2 * d) - max (2 * a - 2 * b) (2 * c - 2 * d)) / 4) := by
  rw [intersect_metrics_of_ne_one skew_numerics (by decide)]
  have hb : intersect_basis skew_numerics (sk a b) (sk c d) =
      Matrix.of ![![(1 : Rat), 1], ![1, -1]] := rfl
  rw [hb, invert_skew_basis]
  have q0 : ∀ x y : Rat, quadratic_form (sk x y)
      (fun k => (Matrix.of ![![(1 : Rat), 1], ![1, -1]]) k 0) = 2 * x + 2 * y := by
    intro x y
    simp [quadratic_form, sk, Matrix.dotProduct, Matrix.mulVec, Fin.sum_univ_two]
    ring
  have q1 : ∀ x y : Rat, quadratic_form (sk x y)
      (fun k => (Matrix.of ![![(1 : Rat), 1], ![1, -1]]) k 1) = 2 * x - 2 * y := by
    intro x y
    simp [quadratic_form, sk, Matrix.dotProduct, Matrix.mulVec, Fin.sum_univ_two]
    ring
  have hw : (fun i => max
      (quadratic_form (sk a b) (fun k => (Matrix.of ![![(1 : Rat), 1], ![1, -1]]) k i))
      (quadratic_form (sk c d) (fun k => (Matrix.of ![![(1 : Rat), 1], ![1, -1]]) k i))) =
      ![max (2 * a + 2 * b) (2 * c + 2 * d), max (2 * a - 2 * b) (2 * c - 2 * d)] := by
    refine funext (Fin.forall_fin_two.2 ⟨?_, ?_⟩)
    · simp only [q0, Matrix.cons_val_zero]
    · simp only [q1, Matrix.cons_val_one, Matrix.head_cons]
  have ht : (Matrix.of ![![(1 : Rat) / 2, 1 / 2], ![1 / 2, -(1 / 2)]]).transpose =
      Matrix.of ![![(1 : Rat) / 2, 1 / 2], ![1 / 2, -(1 / 2)]] := by
    ext i j
    fin_cases i <;> fin_cases j <;> rfl
  rw [hw, ht]
  generalize max (2 * a + 2 * b) (2 * c + 2 * d) = w0
  generalize max (2 * a - 2 * b) (2 * c - 2 * d) = w1
  have hd : Matrix.diagonal ![w0, w1] = Matrix.of ![![w0, 0], ![0, w1]] := by
    ext i j
    fin_cases i <;> fin_cases j <;> simp
  rw [hd]
  ext i j
  fin_cases i <;> fin_cases j <;>
    simp [Matrix.mul_apply, Fin.sum_univ_two, sk] <;> ring

theorem kite_limiter (values : List Rat) (v av : Nat) (a b s : Rat)
    (hm : metric_at 2 values av = sk a b)
    (hs : skew_numerics.sqrt (metric_product (sk a b)
      (point_at 2 kite_mesh.coords av - point_at 2 kite_mesh.coords v)) = s) :
    gradation_limiter skew_numerics 2 2 kite_mesh values (1 / 1920) v av =
      sk (1 / (1 + 1 / 1920 * s) ^ 2 * a) (1 / (1 + 1 / 1920 * s) ^ 2 * b) := by
  unfold gradation_limiter
  rw [hm, hs, smul_sk]

theorem kite_mesh_is_star : is_star kite_mesh 4 kite_nbrs := by
  intro v hv
  have hcases : v = 0 ∨ v = 1 ∨ v = 2 ∨ v = 3 := by omega
  rcases hcases with rfl | rfl | rfl | rfl
  · refine ⟨0, rfl, rfl, ?_⟩
    intro k hk
    have hk2 : k < 2 := hk
    have : k = 0 ∨ k = 1 := by omega
    rcases this with rfl | rfl <;> exact ⟨rfl, by simp [kite_nbrs]⟩
  · refine ⟨2, rfl, rfl, ?_⟩
    intro k hk
    have hk2 : k < 3 := hk
    have : k = 0 ∨ k = 1 ∨ k = 2 := by omega
    rcases this with rfl | rfl | rfl <;> exact ⟨rfl, by simp [kite_nbrs]⟩
  · refine ⟨5, rfl, rfl, ?_⟩
    intro k hk
    have hk2 : k < 3 := hk
    have : k = 0 ∨ k = 1 ∨ k = 2 := by omega
    rcases this with rfl | rfl | rfl <;> exact ⟨rfl, by simp [kite_nbrs]⟩
  · refine ⟨8, rfl, rfl, ?_⟩
    intro k hk
    have hk2 : k < 2 := hk
    have : k = 0 ∨ k = 1 := by omega
    rcases this with rfl | rfl <;> exact ⟨rfl, by simp [kite_nbrs]⟩

theorem metric_at_kite_values_0 : metric_at 2 kite_values 0 = sk 4951 3799 := by
  ext i j
  fin_cases i <;> fin_cases j <;> rfl

theorem metric_at_kite_values_1 : metric_at 2 kite_values 1 = sk 1576 424 := by
  ext i j
  fin_cases i <;> fin_cases j <;> rfl

theorem metric_at_kite_values_2 : metric_at 2 kite_values 2 = sk 1576 424 := by
  ext i j
  fin_cases i <;> fin_cases j <;> rfl

theorem metric_at_kite_values_3 : metric_at 2 kite_values 3 = sk 1152 0 := by
  ext i j
  fin_cases i <;> fin_cases j <;> rfl

theorem limited_metric_kite_values_0 :
    limited_metric skew_numerics 2 2 kite_mesh kite_values (1 / 1920) 0 (kite_nbrs 0) =
      sk 4951 3799 := by
  have hn : kite_nbrs 0 = [1, 2] := rfl
  rw [hn]
  simp only [limited_metric, List.map_cons, List.map_nil, List.foldl_cons, List.foldl_nil]
  rw [metric_at_kite_values_0,
    kite_limiter kite_values 0 1 1576 424 880 metric_at_kite_values_1
      (by rw [metric_product_sk]; norm_num [skew_numerics, point_at, kite_mesh]),
    intersect_sk,
    kite_limiter kite_values 0 2 1576 424 880 metric_at_kite_values_2
      (by rw [metric_product_sk]; norm_num [skew_numerics, point_at, kite_mesh]),
    intersect_sk]
  norm_num [max_def]

theorem limited_metric_kite_values_1 :
    limited_metric skew_numerics 2 2 kite_mesh kite_values (1 / 1920) 1 (kite_nbrs 1) =
      sk 2151 999 := by
  have hn : kite_nbrs 1 = [0, 2, 3] := rfl
  rw [hn]
  simp only [limited_metric, List.map_cons, List.map_nil, List.foldl_cons, List.foldl_nil]
  rw [metric_at_kite_values_1,
    kite_limiter kite_values 1 0 4951 3799 1280 metric_at_kite_values_0
      (by rw [metric_product_sk]; norm_num [skew_numerics, point_at, kite_mesh]),
    intersect_sk,
    kite_limiter kite_values 1 2 1576 424 1440 metric_at_kite_values_2
      (by rw [metric_product_sk]; norm_num [skew_numerics, point_at, kite_mesh]),
    intersect_sk,
    kite_limiter kite_values 1 3 1152 0 816 metric_at_kite_values_3
      (by rw [metric_product_sk]; norm_num [skew_numerics, point_at, kite_mesh]),
    intersect_sk]
  norm_num [max_def]

theorem limited_metric_kite_values_2 :
    limited_metric skew_numerics 2 2 kite_mesh kite_values (1 / 1920) 2 (kite_nbrs 2) =
      sk 2151 999 := by
  have hn : kite_nbrs 2 = [0, 1, 3] := rfl
  rw [hn]
  simp only [limited_metric, List.map_cons, List.map_nil, List.foldl_cons, List.foldl_nil]
  rw [metric_at_kite_values_2,
    kite_limiter kite_values 2 0 4951 3799 1280 metric_at_kite_values_0
      (by rw [metric_product_sk]; norm_num [skew_numerics, point_at, kite_mesh]),
    intersect_sk,
    kite_limiter kite_values 2 1 1576 424 1440 metric_at_kite_values_1
      (by rw [metric_product_sk]; norm_num [skew_numerics, point_at, kite_mesh]),
    intersect_sk,
    kite_limiter kite_values 2 3 1152 0 816 metric_at_kite_values_3
      (by rw [metric_product_sk]; norm_num [skew_numerics, point_at, kite_mesh]),
    intersect_sk]
  norm_num [max_def]

theorem limited_metric_kite_values_3 :
    limited_metric skew_numerics 2 2 kite_mesh kite_values (1 / 1920) 3 (kite_nbrs 3) =
      sk 1152 0 := by
  have hn : kite_nbrs 3 = [1, 2] := rfl
  rw [hn]
  simp only [limited_metric, List.map_cons, List.map_nil, List.foldl_cons, List.foldl_nil]
  rw [metric_at_kite_values_3,
    kite_limiter kite_values 3 1 1576 424 880 metric_at_kite_values_1
      (by rw [metric_product_sk]; norm_num [skew_numerics, point_at, kite_mesh]),
    intersect_sk,
    kite_limiter kite_values 3 2 1576 424 880 metric_at_kite_values_2
      (by rw [metric_product_sk]; norm_num [skew_numerics, point_at, kite_mesh]),
    intersect_sk]
  norm_num [max_def]

theorem metric_at_kite_values_1_0 : metric_at 2 kite_values_1 0 = sk 4951 3799 := by
  ext i j
  fin_cases i <;> fin_cases j <;> rfl

theorem metric_at_kite_values_1_1 : metric_at 2 kite_values_1 1 = sk 2151 999 := by
  ext i j
  fin_cases i <;> fin_cases j <;> rfl

theorem metric_at_kite_values_1_2 : metric_at 2 kite_values_1 2 = sk 2151 999 := by
  ext i j
  fin_cases i <;> fin_cases j <;> rfl

theorem metric_at_kite_values_1_3 : metric_at 2 kite_values_1 3 = sk 1152 0 := by
  ext i j
  fin_cases i <;> fin_cases j <;> rfl

theorem limited_metric_kite_values_1_0 :
    limited_metric skew_numerics 2 2 kite_mesh kite_values_1 (1 / 1920) 0 (kite_nbrs 0) =
      sk 4951 3799 := by
  have hn : kite_nbrs 0 = [1, 2] := rfl
  rw [hn]
  simp only [limited_metric, List.map_cons, List.map_nil, List.foldl_cons, List.foldl_nil]
  rw [metric_at_kite_values_1_0,
    kite_limiter kite_values_1 0 1 2151 999 960 metric_at_kite_values_1_1
      (by rw [metric_product_sk]; norm_num [skew_numerics, point_at, kite_mesh]),
    intersect_sk,
    kite_limiter kite_values_1 0 2 2151 999 960 metric_at_kite_values_1_2
      (by rw [metric_product_sk]; norm_num [skew_numerics, point_at, kite_mesh]),
    intersect_sk]
  norm_num [max_def]

theorem limited_metric_kite_values_1_1 :
    limited_metric skew_numerics 2 2 kite_mesh kite_values_1 (1 / 1920) 1 (kite_nbrs 1) =
      sk 2151 999 := by
  have hn : kite_nbrs 1 = [0, 2, 3] := rfl
  rw [hn]
  simp only [limited_metric, List.map_cons, List.map_nil, List.foldl_cons, List.foldl_nil]
  rw [metric_at_kite_values_1_1,
    kite_limiter kite_values_1 1 0 4951 3799 1280 metric_at_kite_values_1_0
      (by rw [metric_product_sk]; norm_num [skew_numerics, point_at, kite_mesh]),
    intersect_sk,
    kite_limiter kite_values_1 1 2 2151 999 1440 metric_at_kite_values_1_2
      (by rw [metric_product_sk]; norm_num [skew_numerics, point_at, kite_mesh]),
    intersect_sk,
    kite_limiter kite_values_1 1 3 1152 0 816 metric_at_kite_values_1_3
      (by rw [metric_product_sk]; norm_num [skew_numerics, point_at, kite_mesh]),
    intersect_sk]
  norm_num [max_def]

theorem limited_metric_kite_values_1_2 :
    limited_metric skew_numerics 2 2 kite_mesh kite_values_1 (1 / 1920) 2 (kite_nbrs 2) =
      sk 2151 999 := by
  have hn : kite_nbrs 2 = [0, 1, 3] := rfl
  rw [hn]
  simp only [limited_metric, List.map_cons, List.map_nil, List.foldl_cons, List.foldl_nil]
  rw [metric_at_kite_values_1_2,
    kite_limiter kite_values_1 2 0 4951 3799 1280 metric_at_kite_values_1_0
      (by rw [metric_product_sk]; norm_num [skew_numerics, point_at, kite_mesh]),
    intersect_sk,
    kite_limiter kite_values_1 2 1 2151 999 1440 metric_at_kite_values_1_1
      (by rw [metric_product_sk]; norm_num [skew_numerics, point_at, kite_mesh]),
    intersect_sk,
    kite_limiter kite_values_1 2 3 1152 0 816 metric_at_kite_values_1_3
      (by rw [metric_product_sk]; norm_num [skew_numerics, point_at, kite_mesh]),
    intersect_sk]
  norm_num [max_def]

theorem limited_metric_kite_values_1_3 :
    limited_metric skew_numerics 2 2 kite_mesh kite_values_1 (1 / 1920) 3 (kite_nbrs 3) =
      sk 1276 124 := by
  have hn : kite_nbrs 3 = [1, 2] := rfl
  rw [hn]
  simp only [limited_metric, List.map_cons, List.map_nil, List.foldl_cons, List.foldl_nil]
  rw [metric_at_kite_values_1_3,
    kite_limiter kite_values_1 3 1 2151 999 960 metric_at_kite_values_1_1
      (by rw [metric_product_sk]; norm_num [skew_numerics, point_at, kite_mesh]),
    intersect_sk,
    kite_limiter kite_values_1 3 2 2151 999 960 metric_at_kite_values_1_2
      (by rw [metric_product_sk]; norm_num [skew_numerics, point_at, kite_mesh]),
    intersect_sk]
  norm_num [max_def]

theorem limit_gradation_once_kite_values :
    limit_gradation_once skew_numerics kite_mesh kite_values (1 / 1920) = .ok kite_values_1 := by
  have hd : limit_gradation_once skew_numerics kite_mesh kite_values (1 / 1920) =
      limit_gradation_once_tmpl skew_numerics 2 2 kite_mesh kite_values (1 / 1920) := rfl
  obtain ⟨out, e1, e2, e3⟩ := limit_gradation_once_tmpl_ok skew_numerics 2 2 4 (by decide)
    (by decide) kite_mesh kite_values (1 / 1920) kite_nbrs rfl rfl rfl kite_mesh_is_star
  rw [symm_ncomps_two] at e1 e3
  rw [hd, e1]
  have hout : out = kite_values_1 := by
    apply block_ext 3 4 out kite_values_1 e2 rfl
    intro v hv
    have hcases : v = 0 ∨ v = 1 ∨ v = 2 ∨ v = 3 := by omega
    rcases hcases with rfl | rfl | rfl | rfl
    · rw [e3 0 (by decide), limited_metric_kite_values_0, symm2vector_sk]; rfl
    · rw [e3 1 (by decide), limited_metric_kite_values_1, symm2vector_sk]; rfl
    · rw [e3 2 (by decide), limited_metric_kite_values_2, symm2vector_sk]; rfl
    · rw [e3 3 (by decide), limited_metric_kite_values_3, symm2vector_sk]; rfl
  rw [hout]
  rfl

theorem limit_gradation_once_kite_values_1 :
    limit_gradation_once skew_numerics kite_mesh kite_values_1 (1 / 1920) = .ok kite_values_2 := by
  have hd : limit_gradation_once skew_numerics kite_mesh kite_values_1 (1 / 1920) =
      limit_gradation_once_tmpl skew_numerics 2 2 kite_mesh kite_values_1 (1 / 1920) := rfl
  obtain ⟨out, e1, e2, e3⟩ := limit_gradation_once_tmpl_ok skew_numerics 2 2 4 (by decide)
    (by decide) kite_mesh kite_values_1 (1 / 1920) kite_nbrs rfl rfl rfl kite_mesh_is_star
  rw [symm_ncomps_two] at e1 e3
  rw [hd, e1]
  have hout : out = kite_values_2 := by
    apply block_ext 3 4 out kite_values_2 e2 rfl
    intro v hv
    have hcases : v = 0 ∨ v = 1 ∨ v = 2 ∨ v = 3 := by omega
    rcases hcases with rfl | rfl | rfl | rfl
    · rw [e3 0 (by decide), limited_metric_kite_values_1_0, symm2vector_sk]; rfl
    · rw [e3 1 (by decide), limited_metric_kite_values_1_1, symm2vector_sk]; rfl
    · rw [e3 2 (by decide), limited_metric_kite_values_1_2, symm2vector_sk]; rfl
    · rw [e3 3 (by decide), limited_metric_kite_values_1_3, symm2vector_sk]; rfl
  rw [hout]
  rfl

theorem are_close_kite_values_1 :
    are_close skew_numerics kite_values kite_values_1 (3 / 5) = .ok true := by
  norm_num [are_close, are_close_scalar, kite_values, kite_values_1, skew_numerics, max_def,
    abs_of_nonneg, abs_of_pos]

theorem are_close_kite_values_2 :
    are_close skew_numerics kite_values_1 kite_values_2 (3 / 5) = .ok false := by
  norm_num [are_close, are_close_scalar, kite_values_1, kite_values_2, skew_numerics, max_def,
    abs_of_nonneg, abs_of_pos]

/-- C19 (counterexample): on `kite_mesh` with the anisotropic field `kite_values`, rate
`1 / 1920` and tolerance `3 / 5`, `limit_metric_gradation` converges after one pass
and returns `kite_values_1`; applied to that output, its first pass changes the
off-diagonal component of vertex 3 from 0 to 124, `are_close` is false, and the second
application does not converge after its first pass. -/
theorem limit_metric_gradation_twice_counterexample :
    (∀ fuel, limit_metric_gradation skew_numerics (fuel + 1) kite_mesh kite_values (1 / 1920)
      (3 / 5) false = .ok (kite_values_1, [])) ∧
    limit_gradation_once skew_numerics kite_mesh kite_values_1 (1 / 1920) =
      .ok kite_values_2 ∧
    are_close skew_numerics kite_values_1 kite_values_2 (3 / 5) = .ok false ∧
    limit_metric_gradation skew_numerics 1 kite_mesh kite_values_1 (1 / 1920) (3 / 5) false =
      .error Fail.out_of_fuel := by
  refine ⟨?_, limit_gradation_once_kite_values_1, are_close_kite_values_2, ?_⟩
  · intro fuel
    have h1 : kite_mesh.owners_have_all_upward = true := rfl
    have h2 : kite_mesh.reduce_and = fun b => b := rfl
    have e := limit_gradation_once_kite_values
    rw [one_div] at e
    simp [limit_metric_gradation, limit_metric_gradation_loop, e, are_close_kite_values_1, h1, h2]
  · have h1 : kite_mesh.owners_have_all_upward = true := rfl
    have h2 : kite_mesh.reduce_and = fun b => b := rfl
    have e := limit_gradation_once_kite_values_1
    rw [one_div] at e
    simp [limit_metric_gradation, limit_metric_gradation_loop, e, are_close_kite_values_2, h1, h2]

theorem foldl_intersect_one (N : Numerics K) :
    ∀ (ls : List (Matrix (Fin 1) (Fin 1) K)) (m : Matrix (Fin 1) (Fin 1) K),
      (ls.foldl (intersect_metrics N) m) 0 0 = (ls.map (fun l => l 0 0)).foldl max (m 0 0) := by
  intro ls
  induction ls with
  | nil => intro m; rfl
  | cons l rest ih =>
    intro m
    rw [List.foldl_cons, ih, List.map_cons, List.foldl_cons, intersect_metrics_one]
    rfl

theorem foldl_max_ge_init : ∀ (ls : List K) (m : K), m ≤ ls.foldl max m := by
  intro ls
  induction ls with
  | nil => intro m; exact le_refl _
  | cons l rest ih => intro m; exact le_trans (le_max_left m l) (ih _)

theorem foldl_max_ge_mem : ∀ (ls : List K) (m x : K), x ∈ ls → x ≤ ls.foldl max m := by
  intro ls
  induction ls with
  | nil => intro m x h; cases h
  | cons l rest ih =>
    intro m x h
    rw [List.foldl_cons]
    rcases List.mem_cons.1 h with rfl | h
    · exact le_trans (le_max_right m x) (foldl_max_ge_init rest _)
    · exact ih _ x h

theorem foldl_max_eq : ∀ (ls : List K) (m : K), ls.foldl max m = m ∨ ls.foldl max m ∈ ls := by
  intro ls
  induction ls with
  | nil => intro m; exact Or.inl rfl
  | cons l rest ih =>
    intro m
    rw [List.foldl_cons]
    rcases ih (max m l) with h | h
    · rcases max_choice m l with h2 | h2
      · left; rw [h, h2]
      · right; rw [h, h2]; exact List.mem_cons_self _ _
    · right; exact List.mem_cons_of_mem _ h

theorem metric_product_one {space_dim : Nat} (m : Matrix (Fin 1) (Fin 1) K)
    (vec : Fin space_dim → K) :
    metric_product m vec = m 0 0 * Matrix.dotProduct vec vec := by
  by_cases h : 1 = space_dim
  · subst h
    rw [metric_product_self]
    simp [quadratic_form, Matrix.dotProduct, Matrix.mulVec]
    ring
  · unfold metric_product
    rw [dif_neg h, dif_pos (by decide : 0 < 1)]
    rfl

theorem scalar_limiter_eq (N : Numerics K) (mesh_dim : Nat) (mesh : Mesh K) (a : List K)
    (max_rate : K) (v j : Nat) :
    scalar_limiter N mesh_dim mesh a max_rate v j =
      1 / (1 + max_rate * N.sqrt (value_at a j *
        Matrix.dotProduct (point_at mesh_dim mesh.coords j - point_at mesh_dim mesh.coords v)
          (point_at mesh_dim mesh.coords j - point_at mesh_dim mesh.coords v))) ^ 2 *
        value_at a j := by
  unfold scalar_limiter gradation_limiter value_at
  rw [Matrix.smul_apply, metric_product_one, metric_at_one_apply, smul_eq_mul]

/-- The value of the limited one-component metric of `v`: the maximum of its own value
and the limiters of its neighbours. -/
theorem limited_metric_one (N : Numerics K) (mesh_dim : Nat) (mesh : Mesh K) (a : List K)
    (max_rate : K) (v : Nat) (nbrs : List Nat) :
    limited_metric N mesh_dim 1 mesh a max_rate v nbrs 0 0 =
      (nbrs.map (scalar_limiter N mesh_dim mesh a max_rate v)).foldl max (value_at a v) := by
  unfold limited_metric
  rw [foldl_intersect_one, List.map_map, metric_at_one_apply]
  rfl

theorem getD_of_block_one (a : List K) (v : Nat) (x : K) (h : block 1 a v = [x]) :
    a.getD v 0 = x := by
  have e := block_getElem? 1 a v 0
  rw [h] at e
  simp at e
  rw [List.getD_eq_getElem?_getD, ← e]
  rfl

/-- One pass on a one-component field of `n` values: every copy receives the value
computed for its owner. -/
theorem limit_gradation_once_one (N : Numerics K) (mesh : Mesh K) (mesh_dim n : Nat)
    (nbrs : Nat → List Nat) (owner : Nat → Nat) (a : List K) (max_rate : K)
    (hdim : mesh.dim = (mesh_dim : Int)) (h1 : 1 ≤ mesh_dim) (h3 : mesh_dim ≤ 3)
    (hn : mesh.nverts = (n : Int)) (hn1 : 1 ≤ n) (ha : a.length = n)
    (hc : mesh.coords.length = n * mesh_dim) (hs : is_star mesh n nbrs)
    (hsync : mesh.synchronizes n owner) :
    ∃ out, limit_gradation_once N mesh a max_rate = .ok out ∧ out.length = n ∧
      ∀ v, v < n → value_at out v =
        ((nbrs (owner v)).map (scalar_limiter N mesh_dim mesh a max_rate (owner v))).foldl max
          (value_at a (owner v)) := by
  have ha1 : a.length = n * symm_ncomps 1 := by rw [ha, symm_ncomps_one, Nat.mul_one]
  obtain ⟨out, e1, e2, e3⟩ := limit_gradation_once_tmpl_synced N mesh_dim 1 n (by decide)
    (by decide) mesh a max_rate nbrs owner hn ha1 hc hs hsync
  refine ⟨out, ?_, by rw [e2, ha], ?_⟩
  · unfold limit_gradation_once
    rw [hn, get_metrics_dim_ok 1 n (by decide) (by decide) hn1 a ha1, hdim]
    have hd : mesh_dim = 1 ∨ mesh_dim = 2 ∨ mesh_dim = 3 := by omega
    rcases hd with rfl | rfl | rfl
    · simpa using e1
    · simpa using e1
    · simpa using e1
  · intro v hv
    have hb := e3 v hv
    rw [symm_ncomps_one] at hb
    have hsv : symm2vector 1
        (limited_metric N mesh_dim 1 mesh a max_rate (owner v) (nbrs (owner v))) =
        [limited_metric N mesh_dim 1 mesh a max_rate (owner v) (nbrs (owner v)) 0 0] := rfl
    rw [hsv] at hb
    unfold value_at
    rw [getD_of_block_one out v _ hb, limited_metric_one]
    rfl

theorem zip_all_iff (p : K × K → Bool) :
    ∀ (a b : List K), a.length = b.length →
      ((a.zip b).all p = true ↔ ∀ i, i < a.length → p (a.getD i 0, b.getD i 0) = true) := by
  intro a
  induction a with
  | nil => intro b _; simp
  | cons x xs ih =>
    intro b hb
    cases b with
    | nil => simp at hb
    | cons y ys =>
      have hl : xs.length = ys.length := by simpa using hb
      rw [List.zip_cons_cons, List.all_cons, Bool.and_eq_true, ih ys hl]
      constructor
      · rintro ⟨h0, h1⟩ i hi
        cases i with
        | zero => simpa using h0
        | succ k =>
          have := h1 k (by simpa using hi)
          simpa using this
      · intro h
        refine ⟨by simpa using h 0 (by simp), fun i hi => ?_⟩
        have := h (i + 1) (by simpa using hi)
        simpa using this

theorem are_close_iff (N : Numerics K) (a b : List K) (tol : K) (h : a.length = b.length) :
    are_close N a b tol = .ok true ↔
      ∀ v, v < a.length →
        are_close_scalar (value_at a v) (value_at b v) tol N.EPSILON = true := by
  unfold are_close
  rw [if_pos h]
  have := zip_all_iff (fun p => are_close_scalar p.1 p.2 tol N.EPSILON) a b h
  simp only [value_at]
  constructor
  · intro e
    have e2 : (a.zip b).all (fun p => are_close_scalar p.1 p.2 tol N.EPSILON) = true := by
      simpa using e
    exact this.1 e2
  · intro e
    rw [this.2 e]

theorem are_close_scalar_tol_nonneg (p q tol fl : K)
    (h : are_close_scalar p q tol fl = true) : 0 ≤ tol := by
  unfold are_close_scalar at h
  split at h
  · simpa using h
  · have h2 : |q - p| / max |p| |q| ≤ tol := by simpa using h
    exact le_trans (div_nonneg (abs_nonneg _) (le_max_of_le_left (abs_nonneg _))) h2

theorem are_close_scalar_self (x tol fl : K) (ht : 0 ≤ tol) :
    are_close_scalar x x tol fl = true := by
  unfold are_close_scalar
  split
  · simpa using ht
  · simp [ht]

/-- Closeness of two ordered non-negative numbers. -/
theorem are_close_scalar_ordered (p q tol fl : K) (hp : 0 ≤ p) (hpq : p ≤ q) (ht : 0 ≤ tol) :
    are_close_scalar p q tol fl = true ↔ q ≤ fl ∨ q - p ≤ tol * q := by
  have hq : 0 ≤ q := le_trans hp hpq
  unfold are_close_scalar
  rw [abs_of_nonneg hp, abs_of_nonneg hq, abs_of_nonneg (sub_nonneg.2 hpq), max_eq_right hpq]
  by_cases hboth : p ≤ fl ∧ q ≤ fl
  · rw [if_pos hboth]
    simp [ht, hboth.2]
  · rw [if_neg hboth]
    have hqfl : ¬ q ≤ fl := fun h => hboth ⟨le_trans hpq h, h⟩
    simp only [decide_eq_true_eq, hqfl, false_or]
    rcases lt_or_eq_of_le hq with hpos | hzero
    · rw [div_le_iff₀ hpos]
    · have hp0 : p = 0 := le_antisymm (by rw [← hzero] at hpq; exact hpq) hp
      rw [← hzero, hp0]
      simp [ht]

theorem limiter_le (r s y : K) (hr : 0 ≤ r) (hs : 0 ≤ s) (hy : 0 ≤ y) :
    1 / (1 + r * s) ^ 2 * y ≤ y := by
  have h1 : 1 ≤ (1 + r * s) ^ 2 := by
    have : 0 ≤ r * s := mul_nonneg hr hs
    nlinarith
  have h2 : 1 / (1 + r * s) ^ 2 ≤ 1 := by
    rw [div_le_one (by linarith)]
    exact h1
  calc 1 / (1 + r * s) ^ 2 * y ≤ 1 * y := mul_le_mul_of_nonneg_right h2 hy
    _ = y := one_mul y

theorem limiter_contracts (r sa sb x y t : K) (hr : 0 ≤ r) (hsa : 0 ≤ sa) (hsab : sa ≤ sb)
    (hx : 0 ≤ x) (hxy : y - x ≤ t * y) :
    1 / (1 + r * sb) ^ 2 * y - 1 / (1 + r * sa) ^ 2 * x ≤ t * (1 / (1 + r * sb) ^ 2 * y) := by
  have ha : 0 < 1 + r * sa := by
    have : 0 ≤ r * sa := mul_nonneg hr hsa
    linarith
  have hab : 1 + r * sa ≤ 1 + r * sb := by
    have : r * sa ≤ r * sb := mul_le_mul_of_nonneg_left hsab hr
    linarith
  have hsq : (1 + r * sa) ^ 2 ≤ (1 + r * sb) ^ 2 := pow_le_pow_left₀ (le_of_lt ha) hab 2
  have hpa : 0 < (1 + r * sa) ^ 2 := pow_pos ha 2
  have hφ : 1 / (1 + r * sb) ^ 2 ≤ 1 / (1 + r * sa) ^ 2 := one_div_le_one_div_of_le hpa hsq
  have hφ0 : 0 ≤ 1 / (1 + r * sb) ^ 2 := by positivity
  have e1 : 1 / (1 + r * sb) ^ 2 * x ≤ 1 / (1 + r * sa) ^ 2 * x :=
    mul_le_mul_of_nonneg_right hφ hx
  have e2 : 1 / (1 + r * sb) ^ 2 * (y - x) ≤ 1 / (1 + r * sb) ^ 2 * (t * y) :=
    mul_le_mul_of_nonneg_left hxy hφ0
  nlinarith

theorem is_star_mem_lt (mesh : Mesh K) (n : Nat) (nbrs : Nat → List Nat) (hs : is_star mesh n nbrs)
    (v : Nat) (hv : v < n) (j : Nat) (hj : j ∈ nbrs v) : j < n := by
  obtain ⟨first, _, _, h3⟩ := hs v hv
  obtain ⟨k, hk, rfl⟩ := List.mem_iff_getElem.1 hj
  exact (h3 k hk).2

/-- If a pass changed a non-negative one-component field, the same on all the copies of
a vertex, by at most `tol`, the next pass changes it by at most `tol`. -/
theorem gradation_pass_contracts (N : Numerics K) (mesh : Mesh K) (mesh_dim n : Nat)
    (nbrs : Nat → List Nat) (owner : Nat → Nat) (a b c : List K) (max_rate tol : K)
    (hs : is_star mesh n nbrs) (hr : 0 < max_rate)
    (ho : ∀ v, v < n → owner v < n ∧ owner (owner v) = owner v)
    (hsq0 : ∀ x, 0 ≤ x → 0 ≤ N.sqrt x)
    (hsqm : ∀ x y, 0 ≤ x → x ≤ y → N.sqrt x ≤ N.sqrt y)
    (hapos : ∀ v, v < n → 0 ≤ value_at a v)
    (hacons : ∀ v, v < n → value_at a (owner v) = value_at a v)
    (hab : ∀ v, v < n → value_at b v =
      ((nbrs (owner v)).map (scalar_limiter N mesh_dim mesh a max_rate (owner v))).foldl max
        (value_at a (owner v)))
    (hbc : ∀ v, v < n → value_at c v =
      ((nbrs (owner v)).map (scalar_limiter N mesh_dim mesh b max_rate (owner v))).foldl max
        (value_at b (owner v)))
    (ht : 0 ≤ tol)
    (hclose : ∀ v, v < n → are_close_scalar (value_at a v) (value_at b v) tol N.EPSILON = true) :
    ∀ v, v < n → are_close_scalar (value_at b v) (value_at c v) tol N.EPSILON = true := by
  have hle_ab : ∀ v, v < n → value_at a v ≤ value_at b v := fun v hv => by
    rw [hab v hv, ← hacons v hv]; exact foldl_max_ge_init _ _
  have hbpos : ∀ v, v < n → 0 ≤ value_at b v := fun v hv => le_trans (hapos v hv) (hle_ab v hv)
  have hbcons : ∀ v, v < n → value_at b (owner v) = value_at b v := fun v hv => by
    rw [hab v hv, hab _ (ho v hv).1, (ho v hv).2]
  have hle_bc : ∀ v, v < n → value_at b v ≤ value_at c v := fun v hv => by
    rw [hbc v hv, ← hbcons v hv]; exact foldl_max_ge_init _ _
  intro v hv
  have hw : owner v < n := (ho v hv).1
  have hcpos : 0 ≤ value_at c v := le_trans (hbpos v hv) (hle_bc v hv)
  rw [are_close_scalar_ordered _ _ _ _ (hbpos v hv) (hle_bc v hv) ht]
  rcases foldl_max_eq ((nbrs (owner v)).map (scalar_limiter N mesh_dim mesh b max_rate (owner v)))
    (value_at b (owner v)) with h | h
  · right
    rw [hbc v hv, h, hbcons v hv, sub_self]
    exact mul_nonneg ht (hbpos v hv)
  · obtain ⟨j, hj, hcj⟩ := List.mem_map.1 h
    have hjn : j < n := is_star_mem_lt mesh n nbrs hs (owner v) hw j hj
    have hcv : value_at c v = scalar_limiter N mesh_dim mesh b max_rate (owner v) j := by
      rw [hbc v hv, hcj]
    have hbv : scalar_limiter N mesh_dim mesh a max_rate (owner v) j ≤ value_at b v := by
      rw [hab v hv]
      exact foldl_max_ge_mem _ _ _ (List.mem_map.2 ⟨j, hj, rfl⟩)
    rw [scalar_limiter_eq] at hcv hbv
    have hL := dotProduct_self_nonneg mesh_dim
      (point_at mesh_dim mesh.coords j - point_at mesh_dim mesh.coords (owner v))
    generalize Matrix.dotProduct
      (point_at mesh_dim mesh.coords j - point_at mesh_dim mesh.coords (owner v))
      (point_at mesh_dim mesh.coords j - point_at mesh_dim mesh.coords (owner v)) = L
      at hcv hbv hL
    have haj := hapos j hjn
    have hbj := hbpos j hjn
    have habj := hle_ab j hjn
    have hsa : 0 ≤ N.sqrt (value_at a j * L) := hsq0 _ (mul_nonneg haj hL)
    have hsab : N.sqrt (value_at a j * L) ≤ N.sqrt (value_at b j * L) :=
      hsqm _ _ (mul_nonneg haj hL) (mul_le_mul_of_nonneg_right habj hL)
    have hsb : 0 ≤ N.sqrt (value_at b j * L) := le_trans hsa hsab
    rcases (are_close_scalar_ordered _ _ _ _ haj habj ht).1 (hclose j hjn) with hfl | hrel
    · left
      rw [hcv]
      exact le_trans (limiter_le _ _ _ (le_of_lt hr) hsb hbj) hfl
    · right
      have := limiter_contracts max_rate _ _ _ _ tol (le_of_lt hr) hsa hsab haj hrel
      rw [hcv]
      linarith

/-- What the loop of `limit_metric_gradation` returns on a non-negative one-component
field is the result of a pass that changed its input by at most `tol`, and the
conjunction over the processes was true of a true argument. -/
theorem limit_metric_gradation_loop_returns (N : Numerics K) (mesh : Mesh K) (mesh_dim n : Nat)
    (nbrs : Nat → List Nat) (owner : Nat → Nat) (max_rate tol : K) (verbose : Bool)
    (hdim : mesh.dim = (mesh_dim : Int)) (h1 : 1 ≤ mesh_dim) (h3 : mesh_dim ≤ 3)
    (hn : mesh.nverts = (n : Int)) (hn1 : 1 ≤ n)
    (hc : mesh.coords.length = n * mesh_dim) (hs : is_star mesh n nbrs)
    (hsync : mesh.synchronizes n owner) (hred : mesh.reduces) :
    ∀ (fuel : Nat) (a : List K) (i : Int) (log : List GradationMsg) (w : List K) (i1 : Int)
      (log1 : List GradationMsg),
      a.length = n → (∀ v, v < n → 0 ≤ value_at a v) →
      (∀ v, v < n → value_at a (owner v) = value_at a v) →
      limit_metric_gradation_loop N mesh max_rate tol verbose fuel a i log = .ok (w, i1, log1) →
      ∃ prev : List K, prev.length = n ∧ (∀ v, v < n → 0 ≤ value_at prev v) ∧
        (∀ v, v < n → value_at prev (owner v) = value_at prev v) ∧
        limit_gradation_once N mesh prev max_rate = .ok w ∧
        are_close N prev w tol = .ok true ∧ mesh.reduce_and true = true := by
  intro fuel
  induction fuel with
  | zero =>
    intro a i log w i1 log1 _ _ _ h
    simp [limit_metric_gradation_loop] at h
  | succ fuel ih =>
    intro a i log w i1 log1 ha hapos hacons h
    obtain ⟨out, e1, e2, e3⟩ := limit_gradation_once_one N mesh mesh_dim n nbrs owner a max_rate
      hdim h1 h3 hn hn1 ha hc hs hsync
    have houtpos : ∀ v, v < n → 0 ≤ value_at out v := fun v hv => by
      rw [e3 v hv]
      exact le_trans (hapos _ (hsync.1 v hv).1) (foldl_max_ge_init _ _)
    have houtcons : ∀ v, v < n → value_at out (owner v) = value_at out v := fun v hv => by
      rw [e3 v hv, e3 _ (hsync.1 v hv).1, (hsync.1 v hv).2]
    rw [limit_metric_gradation_loop] at h
    simp only [e1] at h
    cases hcl : are_close N a out tol with
    | error e => rw [hcl] at h; simp at h
    | ok close =>
      rw [hcl] at h
      cases hra : mesh.reduce_and close with
      | false =>
        simp only [hra, Bool.not_false, if_true] at h
        exact ih out _ _ w i1 log1 e2 houtpos houtcons h
      | true =>
        simp only [hra, Bool.not_true] at h
        have hw : out = w := by
          simp at h
          exact h.1
        subst hw
        have hct : close = true := hred close hra
        subst hct
        exact ⟨a, ha, hapos, hacons, e1, hcl, hra⟩

/-- C19 (amended): for a one-component (isotropic) field of non-negative values, the
same on all the copies of a vertex, on a mesh whose `sync_array` gives every copy the
value of its owner and whose `reduce_and` is a conjunction (on one process both are
the identity), and for a square root that is non-negative and monotone: whatever
`limit_metric_gradation` returns is left unchanged within `tol` by a second
application, which converges after its first pass, with
`are_close(input, output, tol)`. -/
theorem limit_metric_gradation_isotropic_idempotent (N : Numerics K) (mesh : Mesh K)
    (mesh_dim n : Nat) (nbrs : Nat → List Nat) (owner : Nat → Nat) (values : List K)
    (max_rate tol : K) (verbose : Bool) (fuel : Nat)
    (hdim : mesh.dim = (mesh_dim : Int)) (h1 : 1 ≤ mesh_dim) (h3 : mesh_dim ≤ 3)
    (hn : mesh.nverts = (n : Int)) (hn1 : 1 ≤ n) (hv : values.length = n)
    (hpos : ∀ v, v < n → 0 ≤ value_at values v)
    (hcons : ∀ v, v < n → value_at values (owner v) = value_at values v)
    (hc : mesh.coords.length = n * mesh_dim) (hs : is_star mesh n nbrs)
    (hsync : mesh.synchronizes n owner) (hred : mesh.reduces)
    (hsq0 : ∀ x, 0 ≤ x → 0 ≤ N.sqrt x)
    (hsqm : ∀ x y, 0 ≤ x → x ≤ y → N.sqrt x ≤ N.sqrt y)
    (w : List K) (log : List GradationMsg)
    (h : limit_metric_gradation N fuel mesh values max_rate tol verbose = .ok (w, log)) :
    ∃ (w1 : List K) (log1 : List GradationMsg),
      limit_metric_gradation N 1 mesh w max_rate tol verbose = .ok (w1, log1) ∧
      limit_gradation_once N mesh w max_rate = .ok w1 ∧
      are_close N w w1 tol = .ok true := by
  unfold limit_metric_gradation at h
  by_cases ho : mesh.owners_have_all_upward = true
  swap
  · rw [if_pos (by simpa using ho)] at h
    simp at h
  rw [if_neg (by simpa using ho)] at h
  by_cases hr : max_rate > 0
  swap
  · rw [if_pos hr] at h
    simp at h
  rw [if_neg (not_not.2 hr)] at h
  cases hloop : limit_metric_gradation_loop N mesh max_rate tol verbose fuel values 0 [] with
  | error e => rw [hloop] at h; simp at h
  | ok res =>
    obtain ⟨w0, i0, log0⟩ := res
    rw [hloop] at h
    have hw : w0 = w := by
      by_cases hvb : (verbose && mesh.can_print) = true
      · simp only [hvb, if_true] at h
        simp at h
        exact h.1
      · simp only [hvb] at h
        simp at h
        exact h.1
    subst hw
    obtain ⟨prev, p1, p2, p2c, p3, p4, p5⟩ := limit_metric_gradation_loop_returns N mesh mesh_dim
      n nbrs owner max_rate tol verbose hdim h1 h3 hn hn1 hc hs hsync hred fuel values 0 [] w0 i0
      log0 hv hpos hcons hloop
    obtain ⟨b, b1, b2, b3⟩ := limit_gradation_once_one N mesh mesh_dim n nbrs owner prev max_rate
      hdim h1 h3 hn hn1 p1 hc hs hsync
    have hbw : b = w0 := by
      rw [p3] at b1
      simpa using b1.symm
    subst hbw
    obtain ⟨c, c1, c2, c3⟩ := limit_gradation_once_one N mesh mesh_dim n nbrs owner b max_rate
      hdim h1 h3 hn hn1 b2 hc hs hsync
    have hcl1 := (are_close_iff N prev b tol (by rw [p1, b2])).1 p4
    rw [p1] at hcl1
    have ht : 0 ≤ tol := are_close_scalar_tol_nonneg _ _ _ _ (hcl1 0 (by omega))
    have hcl2 := gradation_pass_contracts N mesh mesh_dim n nbrs owner prev b c max_rate tol hs
      hr hsync.1 hsq0 hsqm p2 p2c b3 c3 ht hcl1
    have hclose : are_close N b c tol = .ok true :=
      (are_close_iff N b c tol (by rw [b2, c2])).2 (by rw [b2]; exact hcl2)
    refine ⟨c, if (verbose && mesh.can_print) = true then
      (if (verbose && mesh.can_print && decide ((0 : Int) + 1 > 40)) = true then
        [GradationMsg.warning_up_to_step (0 + 1)] else []) ++
        [GradationMsg.limited_in_steps (0 + 1)]
      else (if (verbose && mesh.can_print && decide ((0 : Int) + 1 > 40)) = true then
        [GradationMsg.warning_up_to_step (0 + 1)] else []), ?_, c1, hclose⟩
    unfold limit_metric_gradation
    rw [if_neg (by simpa using ho), if_neg (not_not.2 hr)]
    simp only [limit_metric_gradation_loop, c1, hclose, p5, Bool.not_true]
    simp
    split_ifs <;> rfl

theorem step_sqrt_nonneg (x : Rat) (_hx : 0 ≤ x) : 0 ≤ step_numerics.sqrt x := by
  simp only [step_numerics]
  split_ifs <;> norm_num

theorem step_sqrt_mono (x y : Rat) (_hx : 0 ≤ x) (hxy : x ≤ y) :
    step_numerics.sqrt x ≤ step_numerics.sqrt y := by
  simp only [step_numerics]
  split_ifs <;> first | (exfalso; linarith) | norm_num

theorem split_line_mesh_is_star : is_star split_line_mesh 4 split_line_nbrs := by
  intro v hv
  have hcases : v = 0 ∨ v = 1 ∨ v = 2 ∨ v = 3 := by omega
  rcases hcases with rfl | rfl | rfl | rfl
  · refine ⟨0, rfl, rfl, ?_⟩
    intro k hk
    have : k = 0 := by simpa [split_line_nbrs] using hk
    subst this
    exact ⟨rfl, by simp [split_line_nbrs]⟩
  · refine ⟨1, rfl, rfl, ?_⟩
    intro k hk
    have : k = 0 := by simpa [split_line_nbrs] using hk
    subst this
    exact ⟨rfl, by simp [split_line_nbrs]⟩
  · refine ⟨2, rfl, rfl, ?_⟩
    intro k hk
    have : k = 0 := by simpa [split_line_nbrs] using hk
    subst this
    exact ⟨rfl, by simp [split_line_nbrs]⟩
  · refine ⟨3, rfl, rfl, ?_⟩
    intro k hk
    have : k = 0 := by simpa [split_line_nbrs] using hk
    subst this
    exact ⟨rfl, by simp [split_line_nbrs]⟩

/-- Four blocks of `k` components laid side by side are the blocks of the result. -/
theorem block_of_four {T : Type} (k : Nat) (b0 b1 b2 b3 : List T) (h0 : b0.length = k)
    (h1 : b1.length = k) (h2 : b2.length = k) (h3 : b3.length = k) :
    block k (b0 ++ (b1 ++ (b2 ++ b3))) 0 = b0 ∧ block k (b0 ++ (b1 ++ (b2 ++ b3))) 1 = b1 ∧
    block k (b0 ++ (b1 ++ (b2 ++ b3))) 2 = b2 ∧ block k (b0 ++ (b1 ++ (b2 ++ b3))) 3 = b3 := by
  unfold block
  refine ⟨?_, ?_, ?_, ?_⟩
  · rw [Nat.zero_mul, List.drop_zero, List.take_append_of_le_length (by omega),
      List.take_of_length_le (by omega)]
  · rw [Nat.one_mul, List.drop_append_of_le_length (by omega), List.drop_of_length_le (by omega),
      List.nil_append, List.take_append_of_le_length (by omega),
      List.take_of_length_le (by omega)]
  · rw [show 2 * k = b0.length + k by omega, ← List.drop_drop, List.drop_left,
      List.drop_append_of_le_length (by omega), List.drop_of_length_le (by omega),
      List.nil_append, List.take_append_of_le_length (by omega),
      List.take_of_length_le (by omega)]
  · rw [show 3 * k = b0.length + (b1.length + k) by omega, ← List.drop_drop, List.drop_left,
      ← List.drop_drop, List.drop_left, List.drop_append_of_le_length (by omega),
      List.drop_of_length_le (by omega), List.nil_append, List.take_of_length_le (by omega)]

/-- On `split_line_mesh` the copies 1 and 3 receive the components of their owners. -/
theorem split_line_synchronizes : split_line_mesh.synchronizes 4 split_line_owner := by
  refine ⟨fun v hv => ?_, fun a k ha => ?_⟩
  · have hcases : v = 0 ∨ v = 1 ∨ v = 2 ∨ v = 3 := by omega
    rcases hcases with rfl | rfl | rfl | rfl <;> simp [split_line_owner]
  · have hb : ∀ v, v < 4 → (block k a v).length = k := fun v hv => block_length k 4 a v ha hv
    have e : split_line_mesh.sync_array a k =
        block k a 0 ++ (block k a 2 ++ (block k a 2 ++ block k a 0)) := by
      simp [split_line_mesh, split_line_owner, List.range_succ]
    obtain ⟨f0, f1, f2, f3⟩ := block_of_four k (block k a 0) (block k a 2) (block k a 2)
      (block k a 0) (hb 0 (by decide)) (hb 2 (by decide)) (hb 2 (by decide)) (hb 0 (by decide))
    rw [e]
    refine ⟨?_, fun v hv => ?_⟩
    · simp only [List.length_append, hb 0 (by decide), hb 2 (by decide)]
      omega
    · have hcases : v = 0 ∨ v = 1 ∨ v = 2 ∨ v = 3 := by omega
      rcases hcases with rfl | rfl | rfl | rfl
      · rw [f0]; rfl
      · rw [f1]; rfl
      · rw [f2]; rfl
      · rw [f3]; rfl

theorem limit_gradation_once_split_line_isotropic :
    limit_gradation_once step_numerics split_line_mesh [1, 4, 4, 1] 1 = .ok [1, 4, 4, 1] := by
  have h : limit_gradation_once step_numerics split_line_mesh [1, 4, 4, 1] 1 =
      limit_gradation_once_tmpl step_numerics 1 1 split_line_mesh [1, 4, 4, 1] 1 := rfl
  rw [h]
  simp [limit_gradation_once_tmpl, Write_new, parallel_for, parallel_for_from, symm_kernel,
    limit_gradation_at, limit_gradation_neighbors, get_symm, set_symm, get_vector, Read_get,
    split_line_mesh, split_line_owner, symm_ncomps, block, vector2symm, symm2vector,
    intersect_metrics_one, metric_length, metric_product, metric_eigenvalue_from_length,
    step_numerics, Matrix.dotProduct, Matrix.mulVec, List.range_succ]
  norm_num

theorem limit_metric_gradation_split_line_isotropic :
    limit_metric_gradation step_numerics 1 split_line_mesh [1, 4, 4, 1] 1 (1 / 2) false =
      .ok ([1, 4, 4, 1], []) := by
  have h1 : split_line_mesh.owners_have_all_upward = true := rfl
  have h2 : split_line_mesh.reduce_and = fun b => b := rfl
  have h3 : are_close step_numerics [1, 4, 4, 1] [1, 4, 4, 1] (1 / 2) = .ok true := by
    norm_num [are_close, are_close_scalar, step_numerics]
  rw [one_div] at h3
  simp [limit_metric_gradation, limit_metric_gradation_loop,
    limit_gradation_once_split_line_isotropic, h1, h2, h3]

theorem limit_metric_gradation_isotropic_idempotent_witness :
    ∃ (w1 : List Rat) (log1 : List GradationMsg),
      limit_metric_gradation step_numerics 1 split_line_mesh [1, 4, 4, 1] 1 (1 / 2) false =
        .ok (w1, log1) ∧
      limit_gradation_once step_numerics split_line_mesh [1, 4, 4, 1] 1 = .ok w1 ∧
      are_close step_numerics [1, 4, 4, 1] w1 (1 / 2) = .ok true :=
  limit_metric_gradation_isotropic_idempotent step_numerics split_line_mesh 1 4 split_line_nbrs
    split_line_owner [1, 4, 4, 1] 1 (1 / 2) false 1 rfl (by decide) (by decide) rfl (by decide)
    rfl
    (fun v hv => by
      have : v = 0 ∨ v = 1 ∨ v = 2 ∨ v = 3 := by omega
      rcases this with rfl | rfl | rfl | rfl <;> norm_num [value_at])
    (fun v hv => by
      have : v = 0 ∨ v = 1 ∨ v = 2 ∨ v = 3 := by omega
      rcases this with rfl | rfl | rfl | rfl <;> simp [value_at, split_line_owner])
    rfl split_line_mesh_is_star split_line_synchronizes (fun _ h => h) step_sqrt_nonneg
    step_sqrt_mono [1, 4, 4, 1] [] limit_metric_gradation_split_line_isotropic

/-! ## Reductions and graph communicators -/

theorem foldl_min_bool (l : List Bool) (b : Bool) :
    (l.map I8_of_bool).foldl Omega_h_Op.OMEGA_H_MIN.apply (I8_of_bool b) =
      I8_of_bool (b && l.all id) := by
  induction l generalizing b with
  | nil => simp
  | cons a l ih =>
    have e : Omega_h_Op.OMEGA_H_MIN.apply (I8_of_bool b) (I8_of_bool a) = I8_of_bool (b && a) := by
      cases a <;> cases b <;> simp [Omega_h_Op.apply, I8_of_bool]
    simp only [List.map_cons, List.foldl_cons, e, ih, List.all_cons, id, Bool.and_assoc]

theorem foldl_max_bool (l : List Bool) (b : Bool) :
    (l.map I8_of_bool).foldl Omega_h_Op.OMEGA_H_MAX.apply (I8_of_bool b) =
      I8_of_bool (b || l.any id) := by
  induction l generalizing b with
  | nil => simp
  | cons a l ih =>
    have e : Omega_h_Op.OMEGA_H_MAX.apply (I8_of_bool b) (I8_of_bool a) = I8_of_bool (b || a) := by
      cases a <;> cases b <;> simp [Omega_h_Op.apply, I8_of_bool]
    simp only [List.map_cons, List.foldl_cons, e, ih, List.any_cons, id, Bool.or_assoc]

theorem I8_of_bool_ne_zero (b : Bool) : decide (I8_of_bool b ≠ 0) = b := by
  cases b <;> simp [I8_of_bool]

theorem MPI_Allreduce_min_bool (before after : List Bool) (x : Bool) :
    MPI_Allreduce Omega_h_Op.OMEGA_H_MIN (before.map I8_of_bool) (I8_of_bool x)
      (after.map I8_of_bool) = I8_of_bool ((before ++ x :: after).all id) := by
  have e : before.map I8_of_bool ++ I8_of_bool x :: after.map I8_of_bool =
      (before ++ x :: after).map I8_of_bool := by simp
  unfold MPI_Allreduce
  rw [e]
  cases h : before ++ x :: after with
  | nil => simp at h
  | cons y ys =>
    simp only [List.map_cons]
    rw [foldl_min_bool]
    simp [id]

theorem MPI_Allreduce_max_bool (before after : List Bool) (x : Bool) :
    MPI_Allreduce Omega_h_Op.OMEGA_H_MAX (before.map I8_of_bool) (I8_of_bool x)
      (after.map I8_of_bool) = I8_of_bool ((before ++ x :: after).any id) := by
  have e : before.map I8_of_bool ++ I8_of_bool x :: after.map I8_of_bool =
      (before ++ x :: after).map I8_of_bool := by simp
  unfold MPI_Allreduce
  rw [e]
  cases h : before ++ x :: after with
  | nil => simp at h
  | cons y ys =>
    simp only [List.map_cons]
    rw [foldl_max_bool]
    simp [id]

/-- C22: in an MPI build `reduce_and` returns, on every member, the conjunction of the
booleans all members contribute (it is true exactly when every contribution is true)
and `reduce_or` returns their disjunction (true exactly when some contribution is
true); in the build without MPI both return their argument. -/
theorem reduce_and_reduce_or_boolean_reductions (before after : List Bool) (x : Bool) :
    Comm.reduce_and true before after x = (before ++ x :: after).all id ∧
    Comm.reduce_or true before after x = (before ++ x :: after).any id ∧
    (Comm.reduce_and true before after x = true ↔ ∀ b ∈ before ++ x :: after, b = true) ∧
    (Comm.reduce_or true before after x = true ↔ ∃ b ∈ before ++ x :: after, b = true) ∧
    Comm.reduce_and false before after x = x ∧
    Comm.reduce_or false before after x = x := by
  have ha : Comm.reduce_and true before after x = (before ++ x :: after).all id := by
    simp only [Comm.reduce_and, Comm.allreduce, if_true, MPI_Allreduce_min_bool]
    exact I8_of_bool_ne_zero _
  have ho : Comm.reduce_or true before after x = (before ++ x :: after).any id := by
    simp only [Comm.reduce_or, Comm.allreduce, if_true, MPI_Allreduce_max_bool]
    exact I8_of_bool_ne_zero _
  refine ⟨ha, ho, ?_, ?_, ?_, ?_⟩
  · rw [ha]; simp [List.all_eq_true]
  · rw [ho]; simp [List.any_eq_true]
  · simp only [Comm.reduce_and, Comm.allreduce]
    exact I8_of_bool_ne_zero _
  · simp only [Comm.reduce_or, Comm.allreduce]
    exact I8_of_bool_ne_zero _

/-- C23: for a graph communicator `c` of either build, `graph_inverse` returns a
communicator whose sources are the destinations of `c` and whose destinations are the
sources of `c`, and applying `graph_inverse` to that one returns `c` again. -/
theorem graph_inverse_swaps_sources_and_destinations (use_mpi : Bool) (c : Comm)
    (hc : Comm.is_graph use_mpi c) :
    ∃ c1, c.graph_inverse use_mpi = .ok c1 ∧
      c1.sources = c.destinations ∧ c1.destinations = c.sources ∧
      Comm.is_graph use_mpi c1 ∧
      c1.graph_inverse use_mpi = .ok c := by
  cases use_mpi with
  | true =>
    simp only [Comm.is_graph, if_true] at hc
    refine ⟨Comm.of_dist_graph c.rank c.self_send_threshold c.dsts_ c.srcs_, ?_, rfl, rfl, ?_, ?_⟩
    · simp [Comm.graph_inverse, Comm.graph_adjacent, Comm.destinations, Comm.sources]
    · simp [Comm.is_graph, Comm.of_dist_graph]
    · simp only [Comm.graph_inverse, Comm.graph_adjacent, Comm.destinations, Comm.sources,
        if_true, Comm.of_dist_graph]
      rw [hc]
      simp [Comm.of_dist_graph]
  | false =>
    obtain ⟨r, s, d, ss, sd, t⟩ := c
    simp only [Comm.is_graph, Comm.serial, if_true, Bool.false_eq_true, if_false,
      Except.ok.injEq, Comm.mk.injEq] at hc
    rcases hc with ⟨h1, h2, h3, h4, h5, -⟩ | ⟨h1, h2, h3, h4, h5, -⟩
    · subst h1 h2 h3 h4 h5
      refine ⟨_, rfl, rfl, rfl, ?_, rfl⟩
      left; rfl
    · subst h1 h2 h3 h4 h5
      refine ⟨_, rfl, rfl, rfl, ?_, rfl⟩
      right; rfl

theorem graph_inverse_swaps_sources_and_destinations_witness :
    ∃ c1, (Comm.of_dist_graph 1 0 [0, 1, 2] [1, 3]).graph_inverse true = .ok c1 ∧
      c1.sources = [1, 3] ∧ c1.destinations = [0, 1, 2] ∧
      Comm.is_graph true c1 ∧
      c1.graph_inverse true = .ok (Comm.of_dist_graph 1 0 [0, 1, 2] [1, 3]) :=
  graph_inverse_swaps_sources_and_destinations true (Comm.of_dist_graph 1 0 [0, 1, 2] [1, 3])
    (by simp [Comm.is_graph, Comm.of_dist_graph])

/-! ## The loop of `limit_metric_gradation` -/

theorem first_stable_zero (N : Numerics K) (mesh : Mesh K) (max_rate tol : K)
    (v w : List K) :
    first_stable N mesh max_rate tol v 0 w ↔
      gradation_pass N mesh max_rate tol v = .ok (w, true) := by
  simp [first_stable, gradation_iterate]

theorem gradation_iterate_succ (N : Numerics K) (mesh : Mesh K) (max_rate tol : K)
    (v v1 : List K) (b : Bool) (k : Nat)
    (h : gradation_pass N mesh max_rate tol v = .ok (v1, b)) :
    gradation_iterate N mesh max_rate (k + 1) v = gradation_iterate N mesh max_rate k v1 := by
  unfold gradation_pass at h
  rw [gradation_iterate]
  cases h1 : limit_gradation_once N mesh v max_rate with
  | error e => rw [h1] at h; simp at h
  | ok v2 =>
    rw [h1] at h
    simp only at h
    cases h2 : are_close N v v2 tol with
    | error e => rw [h2] at h; simp at h
    | ok c =>
      rw [h2] at h
      simp only [Except.ok.injEq, Prod.mk.injEq] at h
      rw [h.1]

theorem first_stable_succ (N : Numerics K) (mesh : Mesh K) (max_rate tol : K)
    (v w : List K) (k : Nat) :
    first_stable N mesh max_rate tol v (k + 1) w ↔
      ∃ v1, gradation_pass N mesh max_rate tol v = .ok (v1, false) ∧
        first_stable N mesh max_rate tol v1 k w := by
  constructor
  · rintro ⟨⟨prev, hp, hs⟩, hf⟩
    obtain ⟨v0, v1, e0, e1⟩ := hf 0 (Nat.succ_pos k)
    simp only [gradation_iterate, Except.ok.injEq] at e0
    subst e0
    refine ⟨v1, e1, ⟨prev, ?_, hs⟩, ?_⟩
    · rw [← gradation_iterate_succ N mesh max_rate tol _ v1 false k e1]; exact hp
    · intro j hj
      obtain ⟨vj, vj1, ej, ej1⟩ := hf (j + 1) (Nat.succ_lt_succ hj)
      refine ⟨vj, vj1, ?_, ej1⟩
      rw [← gradation_iterate_succ N mesh max_rate tol _ v1 false j e1]; exact ej
  · rintro ⟨v1, e1, ⟨prev, hp, hs⟩, hf⟩
    refine ⟨⟨prev, ?_, hs⟩, ?_⟩
    · rw [gradation_iterate_succ N mesh max_rate tol _ v1 false k e1]; exact hp
    · intro j hj
      cases j with
      | zero => exact ⟨v, v1, rfl, e1⟩
      | succ j =>
        obtain ⟨vj, vj1, ej, ej1⟩ := hf j (Nat.lt_of_succ_lt_succ hj)
        refine ⟨vj, vj1, ?_, ej1⟩
        rw [gradation_iterate_succ N mesh max_rate tol _ v1 false j e1]; exact ej

/-- Unfolding of one round of the loop in terms of `gradation_pass`. -/
theorem limit_metric_gradation_loop_succ (N : Numerics K) (mesh : Mesh K) (max_rate tol : K)
    (verbose : Bool) (fuel : Nat) (v : List K) (i : Int) (log : List GradationMsg) :
    limit_metric_gradation_loop N mesh max_rate tol verbose (fuel + 1) v i log =
      match gradation_pass N mesh max_rate tol v with
      | .error e => .error e
      | .ok (v1, stop) =>
        let log1 := log ++ (if verbose && mesh.can_print then gradation_warnings i 1 else [])
        if stop then .ok (v1, i + 1, log1)
        else limit_metric_gradation_loop N mesh max_rate tol verbose fuel v1 (i + 1) log1 := by
  rw [limit_metric_gradation_loop]
  unfold gradation_pass
  cases limit_gradation_once N mesh v max_rate with
  | error e => rfl
  | ok v1 =>
    simp only
    cases are_close N v v1 tol with
    | error e => rfl
    | ok c =>
      have hl : (if (verbose && mesh.can_print && decide (i + 1 > 40)) = true then
            log ++ [GradationMsg.warning_up_to_step (i + 1)] else log) =
          log ++ (if (verbose && mesh.can_print) = true then gradation_warnings i 1 else []) := by
        by_cases hp : (verbose && mesh.can_print) = true
        · by_cases hi : i + 1 > 40
          · simp [hp, hi, gradation_warnings]
          · simp [hp, hi, gradation_warnings]
        · simp [hp]
      simp only [hl]
      cases mesh.reduce_and c <;> simp

theorem gradation_warnings_add (i0 : Int) (a b : Nat) :
    gradation_warnings i0 (a + b) = gradation_warnings i0 a ++ gradation_warnings (i0 + a) b := by
  induction a generalizing i0 with
  | zero => simp [gradation_warnings]
  | succ a ih =>
    have e : a + 1 + b = (a + b) + 1 := by omega
    rw [e, gradation_warnings, gradation_warnings, ih (i0 + 1)]
    have e2 : i0 + 1 + (a : Int) = i0 + ((a + 1 : Nat) : Int) := by push_cast; ring
    rw [e2, List.append_assoc]

/-- What the loop returns is the output of the first pass whose stopping test succeeds. -/
theorem limit_metric_gradation_loop_sound (N : Numerics K) (mesh : Mesh K) (max_rate tol : K)
    (verbose : Bool) :
    ∀ (fuel : Nat) (v : List K) (i : Int) (log : List GradationMsg) (w : List K) (i1 : Int)
      (log1 : List GradationMsg),
      limit_metric_gradation_loop N mesh max_rate tol verbose fuel v i log = .ok (w, i1, log1) →
      ∃ k, k < fuel ∧ first_stable N mesh max_rate tol v k w ∧ i1 = i + (k : Int) + 1 ∧
        log1 = log ++ (if verbose && mesh.can_print then gradation_warnings i (k + 1) else []) := by
  intro fuel
  induction fuel with
  | zero =>
    intro v i log w i1 log1 h
    simp [limit_metric_gradation_loop] at h
  | succ fuel ih =>
    intro v i log w i1 log1 h
    rw [limit_metric_gradation_loop_succ] at h
    cases hp : gradation_pass N mesh max_rate tol v with
    | error e => rw [hp] at h; simp at h
    | ok r =>
      obtain ⟨v1, stop⟩ := r
      rw [hp] at h
      simp only at h
      cases stop with
      | true =>
        simp only [if_true, Except.ok.injEq, Prod.mk.injEq] at h
        obtain ⟨rfl, rfl, rfl⟩ := h
        refine ⟨0, Nat.succ_pos _, (first_stable_zero N mesh max_rate tol v v1).2 hp, by simp, rfl⟩
      | false =>
        simp only [Bool.false_eq_true, if_false] at h
        obtain ⟨k, hk, hfs, hi, hl⟩ := ih v1 (i + 1) _ w i1 log1 h
        refine ⟨k + 1, Nat.succ_lt_succ hk,
          (first_stable_succ N mesh max_rate tol v w k).2 ⟨v1, hp, hfs⟩, ?_, ?_⟩
        · rw [hi]; push_cast; ring
        · rw [hl, List.append_assoc]
          congr 1
          by_cases hpr : (verbose && mesh.can_print) = true
          · simp only [hpr, if_true]
            have e := gradation_warnings_add i 1 (k + 1)
            have e1 : 1 + (k + 1) = k + 1 + 1 := by omega
            rw [e1] at e
            rw [e]
            simp
          · simp [hpr]

/-- With enough fuel the loop returns the output of the first pass whose stopping test
succeeds. -/
theorem limit_metric_gradation_loop_complete (N : Numerics K) (mesh : Mesh K) (max_rate tol : K)
    (verbose : Bool) :
    ∀ (k : Nat) (fuel : Nat) (v : List K) (i : Int) (log : List GradationMsg) (w : List K),
      first_stable N mesh max_rate tol v k w → k < fuel →
      limit_metric_gradation_loop N mesh max_rate tol verbose fuel v i log =
        .ok (w, i + (k : Int) + 1,
          log ++ (if verbose && mesh.can_print then gradation_warnings i (k + 1) else [])) := by
  intro k
  induction k with
  | zero =>
    intro fuel v i log w hfs hk
    obtain ⟨fuel, rfl⟩ : ∃ f, fuel = f + 1 := ⟨fuel - 1, by omega⟩
    rw [limit_metric_gradation_loop_succ, (first_stable_zero N mesh max_rate tol v w).1 hfs]
    simp
  | succ k ih =>
    intro fuel v i log w hfs hk
    obtain ⟨fuel, rfl⟩ : ∃ f, fuel = f + 1 := ⟨fuel - 1, by omega⟩
    obtain ⟨v1, hp, hfs1⟩ := (first_stable_succ N mesh max_rate tol v w k).1 hfs
    rw [limit_metric_gradation_loop_succ, hp]
    simp only [Bool.false_eq_true, if_false]
    rw [ih fuel v1 (i + 1) _ w hfs1 (by omega)]
    have hi : i + 1 + (k : Int) + 1 = i + ((k + 1 : Nat) : Int) + 1 := by push_cast; ring
    rw [hi, List.append_assoc]
    congr 3
    by_cases hpr : (verbose && mesh.can_print) = true
    · simp only [hpr, if_true]
      have e := gradation_warnings_add i 1 (k + 1)
      have e1 : 1 + (k + 1) = k + 1 + 1 := by omega
      rw [e1] at e
      rw [e]
      simp
    · simp [hpr]

theorem first_stable_unique (N : Numerics K) (mesh : Mesh K) (max_rate tol : K) :
    ∀ (k k1 : Nat) (v w w1 : List K),
      first_stable N mesh max_rate tol v k w → first_stable N mesh max_rate tol v k1 w1 →
      k = k1 ∧ w = w1 := by
  intro k
  induction k with
  | zero =>
    intro k1 v w w1 h h1
    rw [first_stable_zero] at h
    cases k1 with
    | zero =>
      rw [first_stable_zero, h] at h1
      simp only [Except.ok.injEq, Prod.mk.injEq, and_true] at h1
      exact ⟨rfl, h1⟩
    | succ k1 =>
      obtain ⟨v1, hp, -⟩ := (first_stable_succ N mesh max_rate tol v w1 k1).1 h1
      rw [h] at hp
      simp at hp
  | succ k ih =>
    intro k1 v w w1 h h1
    obtain ⟨v1, hp, hfs⟩ := (first_stable_succ N mesh max_rate tol v w k).1 h
    cases k1 with
    | zero =>
      rw [first_stable_zero, hp] at h1
      simp at h1
    | succ k1 =>
      obtain ⟨v2, hp2, hfs2⟩ := (first_stable_succ N mesh max_rate tol v w1 k1).1 h1
      rw [hp] at hp2
      simp only [Except.ok.injEq, Prod.mk.injEq, and_true] at hp2
      subst hp2
      obtain ⟨e1, e2⟩ := ih k1 v1 w w1 hfs hfs2
      exact ⟨by rw [e1], e2⟩

/-- C26: `limit_metric_gradation`, on a mesh whose owners have all upward adjacencies
and with a positive rate, returns only after at least one pass, and what it returns is
the first iterate `w = v_(k+1) = limit_gradation_once(v_k)` for which the AND-reduction
of `are_close(v_k, v_(k+1), tol)` is true, all earlier tests having failed; conversely,
whenever pass `k + 1` is the first whose test succeeds, however large `k` is, every run
with more than `k` units of fuel returns that iterate.  The `verbose` flag decides only
what is printed (a warning for every pass number above 40 and the closing line), never
the field returned. -/
theorem limit_metric_gradation_returns_first_stable (N : Numerics K) (mesh : Mesh K)
    (values : List K) (max_rate tol : K)
    (hown : mesh.owners_have_all_upward = true) (hrate : max_rate > 0)
    (fuel : Nat) (verbose : Bool) :
    (∀ w log, limit_metric_gradation N fuel mesh values max_rate tol verbose = .ok (w, log) →
      ∃ k, k < fuel ∧ first_stable N mesh max_rate tol values k w ∧
        (∃ prev c, gradation_iterate N mesh max_rate k values = .ok prev ∧
          limit_gradation_once N mesh prev max_rate = .ok w ∧
          are_close N prev w tol = .ok c ∧ mesh.reduce_and c = true) ∧
        log = gradation_messages (verbose && mesh.can_print) k ∧
        limit_metric_gradation N fuel mesh values max_rate tol (!verbose) =
          .ok (w, gradation_messages (!verbose && mesh.can_print) k)) ∧
    (∀ k w, first_stable N mesh max_rate tol values k w → k < fuel →
      limit_metric_gradation N fuel mesh values max_rate tol verbose =
        .ok (w, gradation_messages (verbose && mesh.can_print) k)) := by
  have hcomp : ∀ (vb : Bool) k w, first_stable N mesh max_rate tol values k w → k < fuel →
      limit_metric_gradation N fuel mesh values max_rate tol vb =
        .ok (w, gradation_messages (vb && mesh.can_print) k) := by
    intro vb k w hfs hk
    unfold limit_metric_gradation
    rw [limit_metric_gradation_loop_complete N mesh max_rate tol vb k fuel values 0 [] w hfs hk]
    simp only [hown, hrate, not_true_eq_false, if_false, gradation_messages, List.nil_append]
    by_cases hp : (vb && mesh.can_print) = true
    · simp [hp]
    · simp [hp]
  refine ⟨?_, hcomp verbose⟩
  intro w log h
  unfold limit_metric_gradation at h
  simp only [hown, hrate, not_true_eq_false, if_false] at h
  cases hl : limit_metric_gradation_loop N mesh max_rate tol verbose fuel values 0 [] with
  | error e => rw [hl] at h; simp at h
  | ok r =>
    obtain ⟨w1, i1, log1⟩ := r
    obtain ⟨k, hk, hfs, hi, hlog⟩ :=
      limit_metric_gradation_loop_sound N mesh max_rate tol verbose fuel values 0 [] w1 i1 log1 hl
    have hfull := hcomp verbose k w1 hfs hk
    unfold limit_metric_gradation at hfull
    simp only [hown, hrate, not_true_eq_false, if_false] at hfull
    rw [hfull] at h
    simp only [Except.ok.injEq, Prod.mk.injEq] at h
    obtain ⟨rfl, rfl⟩ := h
    refine ⟨k, hk, hfs, ?_, rfl, hcomp (!verbose) k w1 hfs hk⟩
    obtain ⟨⟨prev, hp, hpass⟩, -⟩ := hfs
    unfold gradation_pass at hpass
    cases h1 : limit_gradation_once N mesh prev max_rate with
    | error e => rw [h1] at hpass; simp at hpass
    | ok v2 =>
      rw [h1] at hpass
      simp only at hpass
      cases h2 : are_close N prev v2 tol with
      | error e => rw [h2] at hpass; simp at hpass
      | ok c =>
        rw [h2] at hpass
        simp only [Except.ok.injEq, Prod.mk.injEq] at hpass
        obtain ⟨rfl, hc⟩ := hpass
        exact ⟨prev, c, hp, h1, h2, hc⟩

theorem gradation_pass_kite_values :
    gradation_pass skew_numerics kite_mesh (1 / 1920) (3 / 5) kite_values =
      .ok (kite_values_1, true) := by
  unfold gradation_pass
  rw [limit_gradation_once_kite_values]
  simp only
  rw [are_close_kite_values_1]
  rfl

theorem limit_metric_gradation_returns_first_stable_witness :
    limit_metric_gradation skew_numerics 1 kite_mesh kite_values (1 / 1920) (3 / 5) true =
      .ok (kite_values_1, [GradationMsg.limited_in_steps 1]) :=
  (limit_metric_gradation_returns_first_stable skew_numerics kite_mesh kite_values (1 / 1920)
    (3 / 5) rfl (by norm_num) 1 true).2 0 kite_values_1
    ((first_stable_zero _ _ _ _ _ _).2 gradation_pass_kite_values) (by decide)

/-! ## What `self_send_part1` leaves behind when it elides -/

/-- Under the preconditions the arguments satisfy the five size checks. -/
theorem pre_checks {T : Type} (c : Comm) (remote : Nat → List T) (a : A2A T)
    (hpre : A2A.pre c remote a) : A2A.checks c a := by
  obtain ⟨h1, h2, h3, h4, h5, -⟩ := hpre
  refine ⟨?_, h1, h2, ?_, ?_⟩
  · rw [h4, offset_scan_length]
  · rw [h3, offset_scan_length]
  · rw [h3, offset_scan_getLast?, h5]

/-- C25: under the preconditions of `alltoallv`, whenever `self_send_part1` returns an
existing `self_data`, with `begin = sdispls[self_dst]` and `end = sdispls[self_dst + 1]`:
`self_data` is `sendbuf[begin..end)`, the new send buffer is `sendbuf[0..begin)`
followed by `sendbuf[end..)`, the counts keep their lengths, `sendcounts[self_dst]` and
`recvcounts[self_src]` are 0 and all other counts are unchanged, the new displacements
are the exclusive prefix sums of the new counts, and the new arguments satisfy the five
size checks of `alltoallv`. -/
theorem self_send_part1_elision_reduces_arguments {T : Type} [Inhabited T] (c : Comm)
    (remote : Nat → List T) (sizeofT : Nat) (a : A2A T) (hpre : A2A.pre c remote a)
    (self_data : List T) (a1 : A2A T)
    (h : self_send_part1 sizeofT c.self_dst_ c.self_src_ a c.self_send_threshold =
      .ok (some self_data, a1)) :
    0 ≤ c.self_dst_ ∧ 0 ≤ c.self_src_ ∧
    self_data = (a.sendbuf.drop (a.sdispls.getD c.self_dst_.toNat 0)).take
      (a.sdispls.getD (c.self_dst_.toNat + 1) 0 - a.sdispls.getD c.self_dst_.toNat 0) ∧
    a1.sendbuf = a.sendbuf.take (a.sdispls.getD c.self_dst_.toNat 0) ++
      a.sendbuf.drop (a.sdispls.getD (c.self_dst_.toNat + 1) 0) ∧
    a1.sendcounts.length = a.sendcounts.length ∧
    a1.recvcounts.length = a.recvcounts.length ∧
    (∀ i, a1.sendcounts.getD i 0 = if i = c.self_dst_.toNat then 0 else a.sendcounts.getD i 0) ∧
    (∀ i, a1.recvcounts.getD i 0 = if i = c.self_src_.toNat then 0 else a.recvcounts.getD i 0) ∧
    a1.sdispls = offset_scan a1.sendcounts ∧
    a1.rdispls = offset_scan a1.recvcounts ∧
    A2A.checks c a1 := by
  have hd : 0 ≤ c.self_dst_ := by
    by_contra hneg
    unfold self_send_part1 at h
    rw [if_pos (by omega)] at h
    simp at h
  obtain ⟨p1, p2, p3⟩ := self_send_part1_pre c remote sizeofT a hpre hd
  have hs : 0 ≤ c.self_src_ := ((hpre.2.2.2.2.2.2.2.1) hd).1
  have hres : self_send_part1 sizeofT c.self_dst_ c.self_src_ a c.self_send_threshold =
      .ok (some (a.self_slice c.self_dst_.toNat),
        a.reduce c.self_dst_.toNat c.self_src_.toNat) := by
    by_cases hw : a.sendcounts.getD c.self_dst_.toNat 0 = a.sendbuf.length
    · by_cases hl : a.sendcounts.length = 1
      · exact p3 (Or.inl ⟨hw, hl⟩)
      · rw [p1 hw hl] at h; simp at h
    · by_cases ht : to_size_t ((a.sendcounts.getD c.self_dst_.toNat 0 : Int) * (sizeofT : Int)) <
          to_size_t c.self_send_threshold
      · rw [p2 hw ht] at h; simp at h
      · exact p3 (Or.inr ⟨hw, ht⟩)
  rw [hres] at h
  simp only [Except.ok.injEq, Prod.mk.injEq, Option.some.injEq] at h
  obtain ⟨rfl, rfl⟩ := h
  refine ⟨hd, hs, rfl, rfl, by simp [A2A.reduce], by simp [A2A.reduce], ?_, ?_, rfl, rfl,
    pre_checks c remote _ (reduce_pre c remote a hpre hd)⟩
  · intro i
    by_cases hi : i = c.self_dst_.toNat
    · subst hi; simp only [A2A.reduce, if_true]; exact getD_set_self_zero _ _
    · simp only [A2A.reduce, if_neg hi]; exact getD_set_ne _ _ _ (Ne.symm hi)
  · intro i
    by_cases hi : i = c.self_src_.toNat
    · subst hi; simp only [A2A.reduce, if_true]; exact getD_set_self_zero _ _
    · simp only [A2A.reduce, if_neg hi]; exact getD_set_ne _ _ _ (Ne.symm hi)

theorem self_send_part1_pair_args :
    self_send_part1 4 (pair_comm 0).self_dst_ (pair_comm 0).self_src_ pair_args
        (pair_comm 0).self_send_threshold =
      .ok (some [7, 8],
        { sendbuf := [9], sendcounts := [0, 1], sdispls := [0, 0, 1], recvcounts := [0, 1],
          rdispls := [0, 0, 1] }) := by
  rfl

theorem self_send_part1_elision_reduces_arguments_witness :
    [7, 8] = (pair_args.sendbuf.drop (pair_args.sdispls.getD 0 0)).take
      (pair_args.sdispls.getD 1 0 - pair_args.sdispls.getD 0 0) ∧
    A2A.checks (pair_comm 0)
      ({ sendbuf := [9], sendcounts := [0, 1], sdispls := [0, 0, 1], recvcounts := [0, 1],
         rdispls := [0, 0, 1] } : A2A Nat) :=
  have h := self_send_part1_elision_reduces_arguments (pair_comm 0) pair_remote 4 pair_args
    (pair_args_pre 0) [7, 8] _ self_send_part1_pair_args
  ⟨h.2.2.1, h.2.2.2.2.2.2.2.2.2.2⟩

/-! ## The value `adapt` returns -/

theorem pre_adapt_true {M : Type} (ops : MeshOps M) (opts : AdaptOpts) (w w1 : World M)
    (h : pre_adapt ops opts w = .ok (true, w1)) :
    w1.mesh = w.mesh ∧ w1.calls = w.calls ∧ targets_unmet ops opts w.mesh := by
  have hun : ∀ v : World M, v.mesh = w.mesh → ¬ (print_adapt_status ops opts v).1 = true →
      targets_unmet ops opts w.mesh := by
    intro v hv hs
    rw [print_adapt_status_flag, hv] at hs
    unfold targets_unmet
    by_contra hc
    push_neg at hc
    exact hs ⟨hc.1, hc.2.1, hc.2.2⟩
  have hcore : ∀ v : World M,
      ((if opts.verbosity.toNat ≥ Verbosity.EACH_REBUILD.toNat ∧
          ops.rank (if opts.verbosity.toNat ≥ Verbosity.EXTRA_STATS.toNat
            then print_adapt_histograms ops v else v).mesh = 0
        then (if opts.verbosity.toNat ≥ Verbosity.EXTRA_STATS.toNat
            then print_adapt_histograms ops v else v).say Msg.addressing_edge_lengths
        else (if opts.verbosity.toNat ≥ Verbosity.EXTRA_STATS.toNat
            then print_adapt_histograms ops v else v)) : World M).mesh = v.mesh ∧
      ((if opts.verbosity.toNat ≥ Verbosity.EACH_REBUILD.toNat ∧
          ops.rank (if opts.verbosity.toNat ≥ Verbosity.EXTRA_STATS.toNat
            then print_adapt_histograms ops v else v).mesh = 0
        then (if opts.verbosity.toNat ≥ Verbosity.EXTRA_STATS.toNat
            then print_adapt_histograms ops v else v).say Msg.addressing_edge_lengths
        else (if opts.verbosity.toNat ≥ Verbosity.EXTRA_STATS.toNat
            then print_adapt_histograms ops v else v)) : World M).calls = v.calls := by
    intro v
    unfold print_adapt_histograms World.say
    constructor <;> (repeat' split) <;> rfl
  unfold pre_adapt at h
  cases hv : validate ops opts w with
  | error e => rw [hv] at h; cases h
  | ok v =>
    obtain ⟨hm, hc⟩ := validate_ok_mesh ops opts w v hv
    rw [hv] at h
    dsimp only at h
    cases hx : TransferOpts.validate ops opts.xfer_opts v.mesh with
    | error e => rw [hx] at h; cases h
    | ok u =>
      rw [hx] at h
      dsimp only at h
      by_cases h1 : opts.verbosity.toNat ≥ Verbosity.EACH_ADAPT.toNat ∧ ops.rank v.mesh = 0
      · rw [if_pos h1] at h
        by_cases hs : (print_adapt_status ops opts (v.say Msg.before_adapting)).1 = true
        · rw [if_pos hs] at h
          simp at h
        · rw [if_neg hs] at h
          simp only [Except.ok.injEq, Prod.mk.injEq, true_and] at h
          obtain ⟨e1, e2⟩ := hcore (print_adapt_status ops opts (v.say Msg.before_adapting)).2
          rw [h] at e1 e2
          rw [e1, e2, print_adapt_status_mesh, print_adapt_status_calls, say_mesh, say_calls]
          exact ⟨hm, hc, hun _ (by rw [say_mesh, hm]) hs⟩
      · rw [if_neg h1] at h
        by_cases hs : (print_adapt_status ops opts v).1 = true
        · rw [if_pos hs] at h
          simp at h
        · rw [if_neg hs] at h
          simp only [Except.ok.injEq, Prod.mk.injEq, true_and] at h
          obtain ⟨e1, e2⟩ := hcore (print_adapt_status ops opts v).2
          rw [h] at e1 e2
          rw [e1, e2, print_adapt_status_mesh, print_adapt_status_calls]
          exact ⟨hm, hc, hun _ hm hs⟩

theorem pre_adapt_unmet {M : Type} (ops : MeshOps M) (opts : AdaptOpts) (w : World M)
    (hv : ∃ w1, validate ops opts w = .ok w1)
    (hx : TransferOpts.validate ops opts.xfer_opts w.mesh = .ok ())
    (hun : targets_unmet ops opts w.mesh) :
    ∃ w2, pre_adapt ops opts w = .ok (true, w2) := by
  obtain ⟨w1, hw1⟩ := hv
  obtain ⟨hm1, hc1⟩ := validate_ok_mesh ops opts w w1 hw1
  have key : ∀ w2 : World M, w2.mesh = w.mesh →
      ¬ (print_adapt_status ops opts w2).1 = true := by
    intro w2 h2 hs
    rw [print_adapt_status_flag, h2] at hs
    rcases hun with h | h | h
    · exact absurd hs.1 (not_le.mpr h)
    · exact absurd hs.2.1 (not_le.mpr h)
    · exact absurd hs.2.2 (not_le.mpr h)
  unfold pre_adapt
  rw [hw1]
  dsimp only
  rw [hm1, hx]
  dsimp only
  by_cases h1 : opts.verbosity.toNat ≥ Verbosity.EACH_ADAPT.toNat ∧ ops.rank w.mesh = 0
  · rw [if_pos h1, if_neg (key _ (by rw [say_mesh, hm1]))]
    exact ⟨_, rfl⟩
  · rw [if_neg h1, if_neg (key _ hm1)]
    exact ⟨_, rfl⟩

theorem satisfy_lengths_pass_quiet {M : Type} (ops : MeshOps M) (opts : AdaptOpts)
    (hq : operators_quiet ops opts) (w : World M) :
    (satisfy_lengths_pass ops opts w).2 = false ∧
      ∃ ext, (satisfy_lengths_pass ops opts w).1.calls = w.calls ++ ext ∧
        ∀ c ∈ ext, c.changed = false := by
  unfold satisfy_lengths_pass
  cases hr : opts.should_refine <;> cases hc : opts.should_coarsen
  · simp
  · have h := (hq w.mesh).2.1 hc
    simp [World.run, h, Call.changed]
  · have h := (hq w.mesh).1 hr
    simp [World.run, h, Call.changed]
  · have h := (hq w.mesh).1 hr
    have h2 := (hq (ops.refine_by_size w.mesh opts).1).2.1 hc
    simp [World.run, h, h2, Call.changed]

theorem satisfy_quality_scan_quiet {M : Type} (ops : MeshOps M) (opts : AdaptOpts)
    (hq : operators_quiet ops opts) (w : World M) :
    (satisfy_quality_scan ops opts w).2 = false ∧
      ∃ ext, (satisfy_quality_scan ops opts w).1.calls = w.calls ++ ext ∧
        ∀ c ∈ ext, c.changed = false := by
  have hsay : ∀ (v : World M) (p : Prop) [Decidable p],
      (if p then v.say Msg.could_not_satisfy_quality else v).calls = v.calls := by
    intro v p _
    split <;> rfl
  unfold satisfy_quality_scan
  cases hs : opts.should_swap <;> cases hc : opts.should_coarsen_slivers <;>
    cases hm : opts.should_move_for_quality
  · simp [hsay]
  · have h3 := (hq w.mesh).2.2.2.2 hm
    simp [World.run, h3, hsay, Call.changed]
  · have h2 := (hq w.mesh).2.2.2.1 hc
    simp [World.run, h2, hsay, Call.changed]
  · have h2 := (hq w.mesh).2.2.2.1 hc
    have h3 := (hq (ops.coarsen_slivers w.mesh opts).1).2.2.2.2 hm
    simp [World.run, h2, h3, hsay, Call.changed]
  · have h1 := (hq w.mesh).2.2.1 hs
    simp [World.run, h1, hsay, Call.changed]
  · have h1 := (hq w.mesh).2.2.1 hs
    have h3 := (hq (ops.swap_edges w.mesh opts).1).2.2.2.2 hm
    simp [World.run, h1, h3, hsay, Call.changed]
  · have h1 := (hq w.mesh).2.2.1 hs
    have h2 := (hq (ops.swap_edges w.mesh opts).1).2.2.2.1 hc
    simp [World.run, h1, h2, hsay, Call.changed]
  · have h1 := (hq w.mesh).2.2.1 hs
    have h2 := (hq (ops.swap_edges w.mesh opts).1).2.2.2.1 hc
    have h3 := (hq (ops.coarsen_slivers (ops.swap_edges w.mesh opts).1 opts).1).2.2.2.2 hm
    simp [World.run, h1, h2, h3, hsay, Call.changed]

theorem satisfy_lengths_ok_or_fuel {M : Type} (ops : MeshOps M) (opts : AdaptOpts) :
    ∀ (fuel : Nat) (w : World M),
      (∃ r, satisfy_lengths ops opts fuel w = .ok r) ∨
        satisfy_lengths ops opts fuel w = .error Fail.out_of_fuel := by
  intro fuel
  induction fuel with
  | zero => intro w; right; rfl
  | succ fuel ih =>
    intro w
    rw [satisfy_lengths]
    by_cases hp : (satisfy_lengths_pass ops opts w).2 = true
    · rw [if_pos hp]
      rcases ih (satisfy_lengths_pass ops opts w).1 with ⟨r, hr⟩ | hr
      · rw [hr]; left; exact ⟨_, rfl⟩
      · rw [hr]; right; rfl
    · rw [if_neg hp]; left; exact ⟨_, rfl⟩

theorem satisfy_quality_loop_ok_or_fuel {M : Type} (ops : MeshOps M) (opts : AdaptOpts) :
    ∀ (fuel : Nat) (w : World M),
      (∃ r, satisfy_quality_loop ops opts fuel w = .ok r) ∨
        satisfy_quality_loop ops opts fuel w = .error Fail.out_of_fuel := by
  intro fuel
  induction fuel with
  | zero => intro w; right; rfl
  | succ fuel ih =>
    intro w
    rw [satisfy_quality_loop]
    by_cases hp : (satisfy_quality_scan ops opts w).2 = true
    · rw [if_pos hp]
      by_cases hqd : min_fixable_quality ops (satisfy_quality_scan ops opts w).1.mesh opts <
          opts.min_quality_desired
      · rw [if_pos hqd]; exact ih _
      · rw [if_neg hqd]; left; exact ⟨_, rfl⟩
    · rw [if_neg hp]; left; exact ⟨_, rfl⟩

theorem satisfy_quality_ok_or_fuel {M : Type} (ops : MeshOps M) (opts : AdaptOpts)
    (fuel : Nat) (w : World M) :
    (∃ r, snap_and_satisfy_quality ops opts fuel w = .ok r) ∨
      snap_and_satisfy_quality ops opts fuel w = .error Fail.out_of_fuel := by
  unfold snap_and_satisfy_quality satisfy_quality
  split
  · left; exact ⟨_, rfl⟩
  · exact satisfy_quality_loop_ok_or_fuel ops opts fuel _

theorem adapt_after_pre_adapt {M : Type} (ops : MeshOps M) (opts : AdaptOpts) (fuel : Nat)
    (w w1 : World M) (h : pre_adapt ops opts w = .ok (true, w1)) :
    (∃ w2, adapt ops opts fuel w = .ok (true, w2)) ∨
      adapt ops opts fuel w = .error Fail.out_of_fuel := by
  unfold adapt
  rw [h]
  dsimp only
  rcases satisfy_lengths_ok_or_fuel ops opts fuel
    { w1 with mesh := ops.setup_conservation_tags w1.mesh opts,
              calls := w1.calls ++ [Call.setup_conservation_tags] } with ⟨⟨w3, n⟩, h3⟩ | h3
  · rw [h3]
    dsimp only
    rcases satisfy_quality_ok_or_fuel ops opts fuel w3 with ⟨w4, h4⟩ | h4
    · rw [h4]; left; exact ⟨_, rfl⟩
    · rw [h4]; right; rfl
  · rw [h3]; right; rfl

theorem print_adapt_histograms_calls {M : Type} (ops : MeshOps M) (w : World M) :
    (print_adapt_histograms ops w).calls = w.calls := by
  unfold print_adapt_histograms
  split <;> rfl

theorem ite_say_calls {M : Type} (c : Prop) [Decidable c] (v : World M) (x : Msg) :
    (if c then v.say x else v).calls = v.calls := by
  split <;> rfl

theorem post_adapt_calls {M : Type} (ops : MeshOps M) (opts : AdaptOpts) (w : World M) :
    (post_adapt ops opts w).calls = w.calls := by
  unfold post_adapt
  dsimp only
  rw [ite_say_calls, ite_say_calls, ite_say_calls, ite_say_calls]
  have h1 : (if opts.verbosity = Verbosity.EACH_ADAPT then
      (print_adapt_status ops opts
        (if ops.rank w.mesh = 0 then w.say Msg.after_adapting else w)).2 else w).calls =
      w.calls := by
    split
    · rw [print_adapt_status_calls, ite_say_calls]
    · rfl
  split
  · rw [print_adapt_histograms_calls, h1]
  · exact h1

theorem adapt_quiet {M : Type} (ops : MeshOps M) (opts : AdaptOpts) (fuel : Nat)
    (w w1 : World M) (h : pre_adapt ops opts w = .ok (true, w1))
    (hq : operators_quiet ops opts) :
    ∃ w2 ext, adapt ops opts (fuel + 1) w = .ok (true, w2) ∧ w2.calls = w.calls ++ ext ∧
      ∀ c ∈ ext, c.changed = false := by
  obtain ⟨-, hc1, -⟩ := pre_adapt_true ops opts w w1 h
  unfold adapt
  rw [h]
  dsimp only
  generalize hw2 : (⟨ops.setup_conservation_tags w1.mesh opts,
    w1.calls ++ [Call.setup_conservation_tags], w1.log⟩ : World M) = w2
  have hc2 : w2.calls = w.calls ++ [Call.setup_conservation_tags] := by
    rw [← hw2, ← hc1]
  obtain ⟨hp, ext1, he1, hx1⟩ := satisfy_lengths_pass_quiet ops opts hq w2
  have h3 : satisfy_lengths ops opts (fuel + 1) w2 =
      .ok ((satisfy_lengths_pass ops opts w2).1, 1) := by
    rw [satisfy_lengths]
    simp [hp]
  rw [h3]
  dsimp only
  generalize (satisfy_lengths_pass ops opts w2).1 = w3 at he1 ⊢
  have h4 : ∃ w4 ext2, snap_and_satisfy_quality ops opts (fuel + 1) w3 = .ok w4 ∧
      w4.calls = w3.calls ++ ext2 ∧ ∀ c ∈ ext2, c.changed = false := by
    unfold snap_and_satisfy_quality satisfy_quality
    by_cases hmq : min_fixable_quality ops w3.mesh opts ≥ opts.min_quality_desired
    · rw [if_pos hmq]
      exact ⟨w3, [], rfl, by simp, by simp⟩
    · rw [if_neg hmq]
      dsimp only
      generalize hw : (if opts.verbosity.toNat ≥ Verbosity.EACH_REBUILD.toNat ∧
          ops.rank w3.mesh = 0 then w3.say Msg.addressing_element_qualities else w3) = w3a
      have hca : w3a.calls = w3.calls := by
        rw [← hw]; split <;> rfl
      obtain ⟨hs, ext2, he2, hx2⟩ := satisfy_quality_scan_quiet ops opts hq w3a
      rw [satisfy_quality_loop]
      simp only [hs, Bool.false_eq_true, if_false]
      exact ⟨_, ext2, rfl, by rw [he2, hca], hx2⟩
  obtain ⟨w4, ext2, e4, he2, hx2⟩ := h4
  rw [e4]
  dsimp only
  refine ⟨_, [Call.setup_conservation_tags] ++ ext1 ++ ext2 ++
    [Call.correct_integral_errors, Call.set_parting Omega_h_Parting.OMEGA_H_ELEM_BASED],
    rfl, ?_, ?_⟩
  · rw [post_adapt_calls]
    simp only [he2, he1, hc2, List.append_assoc, List.cons_append, List.nil_append,
      List.singleton_append]
  · intro c hc
    simp only [List.mem_append, List.mem_singleton, List.mem_cons, List.not_mem_nil,
      or_false] at hc
    rcases hc with ((rfl | hc) | hc) | rfl | rfl
    · rfl
    · exact hx1 c hc
    · exact hx2 c hc
    · rfl
    · rfl

/-- C28: for options and a mesh that pass validation, `adapt` returns true exactly when
some target is unmet at the pre-adapt status check (minimum fixable quality below
`min_quality_desired`, minimum edge length below `min_length_desired`, or maximum edge
length above `max_length_desired`).  If every target is met it returns false.  If a
target is unmet the only alternative to returning true is that a loop runs out of
fuel, and when every enabled operator reports no change (in particular when every
operator is disabled) one unit of fuel suffices: `adapt` returns true although no call
it made reported a change. -/
theorem adapt_returns_true_iff_targets_unmet {M : Type} (ops : MeshOps M) (opts : AdaptOpts)
    (fuel : Nat) (w : World M)
    (hv : ∃ w1, validate ops opts w = .ok w1)
    (hx : TransferOpts.validate ops opts.xfer_opts w.mesh = .ok ()) :
    (∀ b w1, adapt ops opts fuel w = .ok (b, w1) →
      (b = true ↔ targets_unmet ops opts w.mesh)) ∧
    (¬ targets_unmet ops opts w.mesh → ∃ w1, adapt ops opts fuel w = .ok (false, w1)) ∧
    (targets_unmet ops opts w.mesh →
      ((∃ w1, adapt ops opts fuel w = .ok (true, w1)) ∨
        adapt ops opts fuel w = .error Fail.out_of_fuel) ∧
      (operators_quiet ops opts →
        ∃ w1 ext, adapt ops opts (fuel + 1) w = .ok (true, w1) ∧
          w1.calls = w.calls ++ ext ∧ ∀ c ∈ ext, c.changed = false)) := by
  by_cases hun : targets_unmet ops opts w.mesh
  · obtain ⟨w1, hp⟩ := pre_adapt_unmet ops opts w hv hx hun
    have hret := adapt_after_pre_adapt ops opts fuel w w1 hp
    refine ⟨?_, fun h => absurd hun h, fun _ => ⟨hret, fun hq => adapt_quiet ops opts fuel w w1 hp hq⟩⟩
    intro b w2 h
    rcases hret with ⟨w3, h3⟩ | h3
    · rw [h3] at h
      simp only [Except.ok.injEq, Prod.mk.injEq] at h
      simp [← h.1, hun]
    · rw [h3] at h; cases h
  · have hmet : min_fixable_quality ops w.mesh opts ≥ opts.min_quality_desired ∧
        get_min ops w.mesh (ops.ask_lengths w.mesh) ≥ opts.min_length_desired ∧
        get_max ops w.mesh (ops.ask_lengths w.mesh) ≤ opts.max_length_desired := by
      unfold targets_unmet at hun
      push_neg at hun
      exact hun
    obtain ⟨w2, hp, -, -⟩ := pre_adapt_satisfied ops opts w hv hx hmet.1 hmet.2.1 hmet.2.2
    have hres : adapt ops opts fuel w = .ok (false, w2) := by
      unfold adapt
      rw [hp]
    refine ⟨?_, fun _ => ⟨w2, hres⟩, fun h => absurd h hun⟩
    intro b w3 h
    rw [hres] at h
    simp only [Except.ok.injEq, Prod.mk.injEq] at h
    simp [← h.1, hun]

theorem adapt_returns_true_iff_targets_unmet_witness :
    ∃ w1 ext, adapt (toy_ops ToyMesh.still) (AdaptOpts.ofDim 2 0 0) (0 + 1)
        (World.start { quals := [1], lens := [2], angle := [0], budget := 0 }) =
        .ok (true, w1) ∧
      w1.calls = (World.start ({ quals := [1], lens := [2], angle := [0], budget := 0 } :
        ToyMesh)).calls ++ ext ∧ ∀ c ∈ ext, c.changed = false :=
  ((adapt_returns_true_iff_targets_unmet (toy_ops ToyMesh.still) (AdaptOpts.ofDim 2 0 0) 0
    (World.start { quals := [1], lens := [2], angle := [0], budget := 0 })
    ⟨World.start { quals := [1], lens := [2], angle := [0], budget := 0 }, by
      norm_num [validate, AdaptOpts.ofDim, min_fixable_quality, get_min, get_fixable_qualities,
        toy_ops, World.start, Real_max]⟩
    (by simp [TransferOpts.validate, AdaptOpts.ofDim, TransferOpts.default,
        TransferOpts.validate_pairs])).2.2
    (Or.inr (Or.inr (by
      norm_num [AdaptOpts.ofDim, get_max, toy_ops, World.start, Real_max, sqrt_2])))).2
    (fun m => by simp [toy_ops, ToyMesh.still])

/-! ## Verbosity does not steer `adapt` -/

theorem min_fixable_quality_same_control {M : Type} (ops : MeshOps M) (a b : AdaptOpts)
    (hs : a.same_control b) (m : M) :
    min_fixable_quality ops m a = min_fixable_quality ops m b := by
  obtain ⟨-, -, -, -, -, -, -, -, -, -, -, -, -, h14, -⟩ := hs
  unfold min_fixable_quality get_fixable_qualities
  rw [h14]

theorem print_adapt_status_same_control {M : Type} (ops : MeshOps M) (a b : AdaptOpts)
    (hs : a.same_control b) (w w1 : World M) (hw : w.core = w1.core) :
    (print_adapt_status ops a w).1 = (print_adapt_status ops b w1).1 ∧
      (print_adapt_status ops a w).2.core = (print_adapt_status ops b w1).2.core := by
  have hm : w.mesh = w1.mesh := congrArg Prod.fst hw
  constructor
  · rw [Bool.eq_iff_iff, print_adapt_status_flag, print_adapt_status_flag, hm,
      min_fixable_quality_same_control ops a b hs]
    obtain ⟨h1, h2, -, -, h5, -⟩ := hs
    rw [h1, h2, h5]
  · unfold World.core
    rw [print_adapt_status_mesh, print_adapt_status_calls, print_adapt_status_mesh,
      print_adapt_status_calls]
    exact hw

theorem post_rebuild_core {M : Type} (ops : MeshOps M) (a : AdaptOpts) (w : World M) :
    (post_rebuild ops a w).core = w.core := by
  unfold World.core
  rw [post_rebuild_mesh, post_rebuild_calls]

theorem run_same_results {M : Type} (op : M → AdaptOpts → M × Bool) (a b : AdaptOpts)
    (tag : Bool → Call) (hop : ∀ m, op m a = op m b) (w w1 : World M) (hw : w.core = w1.core) :
    (w.run op a tag).1.core = (w1.run op b tag).1.core ∧
      (w.run op a tag).2 = (w1.run op b tag).2 := by
  have hm : w.mesh = w1.mesh := congrArg Prod.fst hw
  have hc : w.calls = w1.calls := congrArg Prod.snd hw
  unfold World.run World.core
  simp [hm, hc, hop]

theorem satisfy_lengths_pass_same_control {M : Type} (ops : MeshOps M) (a b : AdaptOpts)
    (hs : a.same_control b) (hr : ops.same_results a b) (w w1 : World M)
    (hw : w.core = w1.core) :
    (satisfy_lengths_pass ops a w).1.core = (satisfy_lengths_pass ops b w1).1.core ∧
      (satisfy_lengths_pass ops a w).2 = (satisfy_lengths_pass ops b w1).2 := by
  obtain ⟨-, -, -, -, -, -, -, -, h9, h10, -⟩ := hs
  have hrun1 := run_same_results ops.refine_by_size a b Call.refine_by_size
    (fun m => (hr m).1) w w1 hw
  unfold satisfy_lengths_pass
  rw [h9, h10]
  dsimp only
  cases b.should_refine <;> cases b.should_coarsen
  · simp only [Bool.false_eq_true, if_false]
    exact ⟨hw, trivial⟩
  · simp only [Bool.false_eq_true, if_false, if_true]
    have hrun2 := run_same_results ops.coarsen_by_size a b Call.coarsen_by_size
      (fun m => (hr m).2.1) w w1 hw
    rw [hrun2.2]
    split
    · exact ⟨by rw [post_rebuild_core, post_rebuild_core]; exact hrun2.1, rfl⟩
    · exact ⟨hrun2.1, rfl⟩
  · simp only [Bool.false_eq_true, if_false, if_true]
    rw [hrun1.2]
    split
    · exact ⟨by rw [post_rebuild_core, post_rebuild_core]; exact hrun1.1, rfl⟩
    · exact ⟨hrun1.1, rfl⟩
  · simp only [if_true]
    rw [hrun1.2]
    by_cases h1 : (w1.run ops.refine_by_size b Call.refine_by_size).2 = true
    · simp only [h1, if_true]
      have hrun2 := run_same_results ops.coarsen_by_size a b Call.coarsen_by_size
        (fun m => (hr m).2.1) (post_rebuild ops a (w.run ops.refine_by_size a Call.refine_by_size).1)
        (post_rebuild ops b (w1.run ops.refine_by_size b Call.refine_by_size).1)
        (by rw [post_rebuild_core, post_rebuild_core]; exact hrun1.1)
      rw [hrun2.2]
      split
      · exact ⟨by rw [post_rebuild_core, post_rebuild_core]; exact hrun2.1, rfl⟩
      · exact ⟨hrun2.1, rfl⟩
    · simp only [h1, Bool.false_eq_true, if_false]
      have hrun2 := run_same_results ops.coarsen_by_size a b Call.coarsen_by_size
        (fun m => (hr m).2.1) (w.run ops.refine_by_size a Call.refine_by_size).1
        (w1.run ops.refine_by_size b Call.refine_by_size).1 hrun1.1
      rw [hrun2.2]
      split
      · exact ⟨by rw [post_rebuild_core, post_rebuild_core]; exact hrun2.1, rfl⟩
      · exact ⟨hrun2.1, rfl⟩

theorem ite_run_same_results {M : Type} (flag : Bool) (op : M → AdaptOpts → M × Bool)
    (a b : AdaptOpts) (tag : Bool → Call) (hop : ∀ m, op m a = op m b) (w w1 : World M)
    (hw : w.core = w1.core) :
    (if flag = true then w.run op a tag else (w, false)).1.core =
        (if flag = true then w1.run op b tag else (w1, false)).1.core ∧
      (if flag = true then w.run op a tag else (w, false)).2 =
        (if flag = true then w1.run op b tag else (w1, false)).2 := by
  cases flag
  · simp only [Bool.false_eq_true, if_false]
    exact ⟨hw, trivial⟩
  · simp only [if_true]
    exact run_same_results op a b tag hop w w1 hw

theorem ite_say_core {M : Type} (c : Prop) [Decidable c] (v : World M) (x : Msg) :
    (if c then v.say x else v).core = v.core := by
  split <;> rfl

theorem satisfy_quality_scan_same_control {M : Type} (ops : MeshOps M) (a b : AdaptOpts)
    (hs : a.same_control b) (hr : ops.same_results a b) (w w1 : World M)
    (hw : w.core = w1.core) :
    (satisfy_quality_scan ops a w).1.core = (satisfy_quality_scan ops b w1).1.core ∧
      (satisfy_quality_scan ops a w).2 = (satisfy_quality_scan ops b w1).2 := by
  obtain ⟨-, -, -, -, -, -, -, -, -, -, h11, h12, h13, -⟩ := hs
  unfold satisfy_quality_scan
  rw [h11, h12, h13]
  dsimp only
  obtain ⟨hA1, hA2⟩ := ite_run_same_results b.should_swap ops.swap_edges a b Call.swap_edges
    (fun m => (hr m).2.2.1) w w1 hw
  generalize (if b.should_swap = true then w.run ops.swap_edges a Call.swap_edges
    else (w, false)) = A at hA1 hA2 ⊢
  generalize (if b.should_swap = true then w1.run ops.swap_edges b Call.swap_edges
    else (w1, false)) = A1 at hA1 hA2 ⊢
  rw [hA2]
  by_cases hA : A1.2 = true
  · simp only [hA, if_true]
    exact ⟨by rw [post_rebuild_core, post_rebuild_core]; exact hA1, trivial⟩
  · simp only [hA, Bool.false_eq_true, if_false]
    obtain ⟨hB1, hB2⟩ := ite_run_same_results b.should_coarsen_slivers ops.coarsen_slivers a b
      Call.coarsen_slivers (fun m => (hr m).2.2.2.1) A.1 A1.1 hA1
    generalize (if b.should_coarsen_slivers = true then
      A.1.run ops.coarsen_slivers a Call.coarsen_slivers else (A.1, false)) = B at hB1 hB2 ⊢
    generalize (if b.should_coarsen_slivers = true then
      A1.1.run ops.coarsen_slivers b Call.coarsen_slivers else (A1.1, false)) = B1 at hB1 hB2 ⊢
    rw [hB2]
    by_cases hB : B1.2 = true
    · simp only [hB, if_true]
      exact ⟨by rw [post_rebuild_core, post_rebuild_core]; exact hB1, trivial⟩
    · simp only [hB, Bool.false_eq_true, if_false]
      obtain ⟨hC1, hC2⟩ := ite_run_same_results b.should_move_for_quality
        ops.move_verts_for_quality a b Call.move_verts_for_quality
        (fun m => (hr m).2.2.2.2.1) B.1 B1.1 hB1
      generalize (if b.should_move_for_quality = true then
        B.1.run ops.move_verts_for_quality a Call.move_verts_for_quality
        else (B.1, false)) = C at hC1 hC2 ⊢
      generalize (if b.should_move_for_quality = true then
        B1.1.run ops.move_verts_for_quality b Call.move_verts_for_quality
        else (B1.1, false)) = C1 at hC1 hC2 ⊢
      rw [hC2]
      by_cases hC : C1.2 = true
      · simp only [hC, if_true]
        exact ⟨by rw [post_rebuild_core, post_rebuild_core]; exact hC1, trivial⟩
      · simp only [hC, Bool.false_eq_true, if_false]
        exact ⟨by rw [ite_say_core, ite_say_core]; exact hC1, trivial⟩

theorem satisfy_lengths_same_control {M : Type} (ops : MeshOps M) (a b : AdaptOpts)
    (hs : a.same_control b) (hr : ops.same_results a b) :
    ∀ (fuel : Nat) (w w1 : World M), w.core = w1.core →
      (satisfy_lengths ops a fuel w).map (fun r => (r.1.core, r.2)) =
        (satisfy_lengths ops b fuel w1).map (fun r => (r.1.core, r.2)) := by
  intro fuel
  induction fuel with
  | zero => intro w w1 _; rfl
  | succ fuel ih =>
    intro w w1 hw
    obtain ⟨h1, h2⟩ := satisfy_lengths_pass_same_control ops a b hs hr w w1 hw
    rw [satisfy_lengths, satisfy_lengths, h2]
    by_cases hp : (satisfy_lengths_pass ops b w1).2 = true
    · simp only [hp, if_true]
      have h := ih _ _ h1
      cases e1 : satisfy_lengths ops a fuel (satisfy_lengths_pass ops a w).1 with
      | error x =>
        cases e2 : satisfy_lengths ops b fuel (satisfy_lengths_pass ops b w1).1 with
        | error y => rw [e1, e2] at h; simpa [Except.map] using h
        | ok y => rw [e1, e2] at h; simp [Except.map] at h
      | ok x =>
        cases e2 : satisfy_lengths ops b fuel (satisfy_lengths_pass ops b w1).1 with
        | error y => rw [e1, e2] at h; simp [Except.map] at h
        | ok y =>
          rw [e1, e2] at h
          simp only [Except.map, Except.ok.injEq, Prod.mk.injEq] at h ⊢
          exact ⟨h.1, by rw [h.2]⟩
    · simp only [hp, Bool.false_eq_true, if_false, Except.map, h1]

theorem satisfy_quality_loop_same_control {M : Type} (ops : MeshOps M) (a b : AdaptOpts)
    (hs : a.same_control b) (hr : ops.same_results a b) :
    ∀ (fuel : Nat) (w w1 : World M), w.core = w1.core →
      (satisfy_quality_loop ops a fuel w).map World.core =
        (satisfy_quality_loop ops b fuel w1).map World.core := by
  intro fuel
  induction fuel with
  | zero => intro w w1 _; rfl
  | succ fuel ih =>
    intro w w1 hw
    obtain ⟨h1, h2⟩ := satisfy_quality_scan_same_control ops a b hs hr w w1 hw
    have hm : (satisfy_quality_scan ops a w).1.mesh = (satisfy_quality_scan ops b w1).1.mesh :=
      congrArg Prod.fst h1
    rw [satisfy_quality_loop, satisfy_quality_loop, h2, hm,
      min_fixable_quality_same_control ops a b hs, hs.2.2.2.2.1]
    by_cases hp : (satisfy_quality_scan ops b w1).2 = true
    · simp only [hp, if_true]
      split
      · exact ih _ _ h1
      · simp only [Except.map, h1]
    · simp only [hp, Bool.false_eq_true, if_false, Except.map, h1]

theorem validate_same_control {M : Type} (ops : MeshOps M) (a b : AdaptOpts)
    (hs : a.same_control b) (w w1 : World M) (hw : w.core = w1.core) :
    (validate ops a w).map World.core = (validate ops b w1).map World.core := by
  have hm : w.mesh = w1.mesh := congrArg Prod.fst hw
  have hq := min_fixable_quality_same_control ops a b hs w1.mesh
  obtain ⟨-, -, -, h4, h5, h6, -⟩ := hs
  unfold validate
  rw [h4, h5, h6, hm, hq]
  dsimp only
  split_ifs <;> simp [Except.map, ite_say_core, hw, World.core, World.say] <;>
    exact ⟨hm, congrArg Prod.snd hw⟩

theorem ite_histograms_core {M : Type} (ops : MeshOps M) (c : Prop) [Decidable c]
    (v : World M) : (if c then print_adapt_histograms ops v else v).core = v.core := by
  unfold World.core
  split
  · rw [print_adapt_histograms_mesh, print_adapt_histograms_calls]
  · rfl

theorem post_adapt_core {M : Type} (ops : MeshOps M) (a : AdaptOpts) (w : World M) :
    (post_adapt ops a w).core = w.core := by
  unfold World.core
  rw [post_adapt_mesh, post_adapt_calls]

theorem pre_adapt_same_control {M : Type} (ops : MeshOps M) (a b : AdaptOpts)
    (hs : a.same_control b) (w w1 : World M) (hw : w.core = w1.core) :
    adapt_observed (pre_adapt ops a w) = adapt_observed (pre_adapt ops b w1) := by
  have hv := validate_same_control ops a b hs w w1 hw
  unfold pre_adapt
  cases e1 : validate ops a w with
  | error x =>
    cases e2 : validate ops b w1 with
    | error y =>
      rw [e1, e2] at hv
      simp only [Except.map, Except.error.injEq] at hv
      rw [hv]
    | ok y => rw [e1, e2] at hv; simp [Except.map] at hv
  | ok v =>
    cases e2 : validate ops b w1 with
    | error y => rw [e1, e2] at hv; simp [Except.map] at hv
    | ok v1 =>
      rw [e1, e2] at hv
      simp only [Except.map, Except.ok.injEq] at hv
      have hm : v.mesh = v1.mesh := congrArg Prod.fst hv
      dsimp only
      rw [hs.2.2.2.2.2.2.2.2.2.2.2.2.2.2, hm]
      cases TransferOpts.validate ops b.xfer_opts v1.mesh with
      | error x => rfl
      | ok u =>
        dsimp only
        have hW : (if a.verbosity.toNat ≥ Verbosity.EACH_ADAPT.toNat ∧ ops.rank v1.mesh = 0
            then v.say Msg.before_adapting else v).core =
            (if b.verbosity.toNat ≥ Verbosity.EACH_ADAPT.toNat ∧ ops.rank v1.mesh = 0
            then v1.say Msg.before_adapting else v1).core := by
          rw [ite_say_core, ite_say_core]; exact hv
        generalize (if a.verbosity.toNat ≥ Verbosity.EACH_ADAPT.toNat ∧ ops.rank v1.mesh = 0
            then v.say Msg.before_adapting else v) = W at hW ⊢
        generalize (if b.verbosity.toNat ≥ Verbosity.EACH_ADAPT.toNat ∧ ops.rank v1.mesh = 0
            then v1.say Msg.before_adapting else v1) = W1 at hW ⊢
        obtain ⟨hf, hc⟩ := print_adapt_status_same_control ops a b hs W W1 hW
        rw [hf]
        by_cases hflag : (print_adapt_status ops b W1).1 = true
        · simp only [hflag, if_true, adapt_observed, hc]
        · simp only [hflag, Bool.false_eq_true, if_false, adapt_observed, ite_say_core,
            ite_histograms_core, hc]

theorem satisfy_quality_same_control {M : Type} (ops : MeshOps M) (a b : AdaptOpts)
    (hs : a.same_control b) (hr : ops.same_results a b) (fuel : Nat) (w w1 : World M)
    (hw : w.core = w1.core) :
    (snap_and_satisfy_quality ops a fuel w).map World.core =
      (snap_and_satisfy_quality ops b fuel w1).map World.core := by
  have hm : w.mesh = w1.mesh := congrArg Prod.fst hw
  unfold snap_and_satisfy_quality satisfy_quality
  rw [hm, min_fixable_quality_same_control ops a b hs, hs.2.2.2.2.1]
  split
  · simp only [Except.map, hw]
  · dsimp only
    apply satisfy_quality_loop_same_control ops a b hs hr
    rw [ite_say_core, ite_say_core]
    exact hw

/-- C24: for two option values that agree in every field but `verbosity` and the four
histogram settings, and external operators whose results do not depend on those
fields, `adapt` started on the same mesh with the same calls already recorded fails in
the same way or returns the same boolean, the same final mesh and the same sequence of
operator calls with the same returned booleans, whatever has been printed before and
with every amount of fuel; only the console log can differ. -/
theorem adapt_verbosity_is_observational {M : Type} (ops : MeshOps M) (a b : AdaptOpts)
    (hs : a.same_control b) (hr : ops.same_results a b) (fuel : Nat) (w w1 : World M)
    (hw : w.core = w1.core) :
    adapt_observed (adapt ops a fuel w) = adapt_observed (adapt ops b fuel w1) := by
  have hp := pre_adapt_same_control ops a b hs w w1 hw
  unfold adapt
  cases e1 : pre_adapt ops a w with
  | error x =>
    cases e2 : pre_adapt ops b w1 with
    | error y =>
      rw [e1, e2] at hp
      simp only [adapt_observed, Except.error.injEq] at hp
      rw [hp]
    | ok y => rw [e1, e2] at hp; simp [adapt_observed] at hp
  | ok r =>
    cases e2 : pre_adapt ops b w1 with
    | error y => rw [e1, e2] at hp; simp [adapt_observed] at hp
    | ok r1 =>
      obtain ⟨f, v⟩ := r
      obtain ⟨f1, v1⟩ := r1
      rw [e1, e2] at hp
      simp only [adapt_observed, Except.ok.injEq, Prod.mk.injEq] at hp
      obtain ⟨hf, hv⟩ := hp
      subst hf
      cases f with
      | false => simp only [adapt_observed, hv]
      | true =>
        dsimp only
        have hm : v.mesh = v1.mesh := congrArg Prod.fst hv
        have hc : v.calls = v1.calls := congrArg Prod.snd hv
        have h2 : (⟨ops.setup_conservation_tags v.mesh a,
            v.calls ++ [Call.setup_conservation_tags], v.log⟩ : World M).core =
            (⟨ops.setup_conservation_tags v1.mesh b,
            v1.calls ++ [Call.setup_conservation_tags], v1.log⟩ : World M).core := by
          simp only [World.core, hm, hc, (hr v1.mesh).2.2.2.2.2.1]
        have h3 := satisfy_lengths_same_control ops a b hs hr fuel _ _ h2
        cases e3 : satisfy_lengths ops a fuel ⟨ops.setup_conservation_tags v.mesh a,
            v.calls ++ [Call.setup_conservation_tags], v.log⟩ with
        | error x =>
          cases e4 : satisfy_lengths ops b fuel ⟨ops.setup_conservation_tags v1.mesh b,
              v1.calls ++ [Call.setup_conservation_tags], v1.log⟩ with
          | error y =>
            rw [e3, e4] at h3
            simp only [Except.map, Except.error.injEq] at h3
            rw [h3]
          | ok y => rw [e3, e4] at h3; simp [Except.map] at h3
        | ok x =>
          cases e4 : satisfy_lengths ops b fuel ⟨ops.setup_conservation_tags v1.mesh b,
              v1.calls ++ [Call.setup_conservation_tags], v1.log⟩ with
          | error y => rw [e3, e4] at h3; simp [Except.map] at h3
          | ok y =>
            obtain ⟨x3, n⟩ := x
            obtain ⟨y3, n1⟩ := y
            rw [e3, e4] at h3
            simp only [Except.map, Except.ok.injEq, Prod.mk.injEq] at h3
            dsimp only
            have h5 := satisfy_quality_same_control ops a b hs hr fuel x3 y3 h3.1
            cases e5 : snap_and_satisfy_quality ops a fuel x3 with
            | error p =>
              cases e6 : snap_and_satisfy_quality ops b fuel y3 with
              | error q =>
                rw [e5, e6] at h5
                simp only [Except.map, Except.error.injEq] at h5
                rw [h5]
              | ok q => rw [e5, e6] at h5; simp [Except.map] at h5
            | ok p =>
              cases e6 : snap_and_satisfy_quality ops b fuel y3 with
              | error q => rw [e5, e6] at h5; simp [Except.map] at h5
              | ok q =>
                rw [e5, e6] at h5
                simp only [Except.map, Except.ok.injEq] at h5
                have hm4 : p.mesh = q.mesh := congrArg Prod.fst h5
                have hc4 : p.calls = q.calls := congrArg Prod.snd h5
                simp only [adapt_observed, World.core, post_adapt_mesh, post_adapt_calls, hm4,
                  hc4, (hr q.mesh).2.2.2.2.2.2]

theorem adapt_verbosity_is_observational_witness :
    adapt_observed (adapt (toy_ops ToyMesh.spend) (AdaptOpts.ofDim 2 0 0) 5
        (World.start { quals := [1 / 10], lens := [2], angle := [0], budget := 2 })) =
      adapt_observed (adapt (toy_ops ToyMesh.spend)
        { AdaptOpts.ofDim 2 0 0 with verbosity := Verbosity.SILENT, nlength_histogram_bins := 5 } 5
        (World.start { quals := [1 / 10], lens := [2], angle := [0], budget := 2 })) :=
  adapt_verbosity_is_observational (toy_ops ToyMesh.spend) (AdaptOpts.ofDim 2 0 0)
    { AdaptOpts.ofDim 2 0 0 with verbosity := Verbosity.SILENT, nlength_histogram_bins := 5 }
    ⟨rfl, rfl, rfl, rfl, rfl, rfl, rfl, rfl, rfl, rfl, rfl, rfl, rfl, rfl, rfl⟩
    (fun _ => ⟨rfl, rfl, rfl, rfl, rfl, rfl, rfl⟩) 5
    (World.start { quals := [1 / 10], lens := [2], angle := [0], budget := 2 })
    (World.start { quals := [1 / 10], lens := [2], angle := [0], budget := 2 }) rfl

/-! ## Isotropy -/

/-- A loop of kernels that store the scalar `F i` at entry `i` of a fresh array. -/
theorem scalar_kernel_loop (n : Nat) (g : Int → Except Fail K) (F : Nat → K)
    (hg : ∀ i, i < n → g (i : Int) = .ok (F i)) :
    parallel_for n (scalar_kernel g) (List.replicate n (default : K)) =
      .ok ((List.range n).map F) := by
  obtain ⟨out, h1, h2, h3⟩ := parallel_for_inv (scalar_kernel g)
    (fun j t => t.length = n ∧ ∀ i, i < j → t[i]? = some (F i))
    n (List.replicate n (default : K)) ⟨by simp, fun i hi => absurd hi (Nat.not_lt_zero i)⟩
    (fun j t hj hinv => by
      refine ⟨t.set j (F j), ?_, by simp [hinv.1], ?_⟩
      · simp only [scalar_kernel, hg j hj]
        rw [Write_set_of_lt _ _ _ (Int.natCast_nonneg _) (by simp [hinv.1, hj])]
        simp
      · intro i hi
        by_cases hij : i = j
        · subst hij
          rw [List.getElem?_set_self (by rw [hinv.1]; exact hj)]
        · rw [List.getElem?_set_ne (Ne.symm hij)]
          exact hinv.2 i (by omega))
  rw [h1]
  congr 1
  apply List.ext_getElem?
  intro i
  by_cases hi : i < n
  · rw [h3 i hi, List.getElem?_map, List.getElem?_range hi]
    rfl
  · rw [List.getElem?_eq_none (by omega), List.getElem?_eq_none (by simp; omega)]

theorem range_map_getD (s : List K) : (List.range s.length).map (fun i => s.getD i 0) = s := by
  apply List.ext_getElem?
  intro i
  by_cases hi : i < s.length
  · rw [List.getElem?_map, List.getElem?_range hi]
    simp [List.getD_eq_getElem?_getD, List.getElem?_eq_getElem hi]
  · rw [List.getElem?_eq_none (by simp; omega), List.getElem?_eq_none (by omega)]

theorem max_of_ofFn_const (dim : Nat) (h1 : 1 ≤ dim) (h3 : dim ≤ 3) (l : Fin dim → K)
    (x : K) (h : ∀ k, l k = x) : max_of (List.ofFn l) = x := by
  have e : l = fun _ => x := funext h
  subst e
  interval_cases dim <;> simp [max_of, List.ofFn_succ]

theorem det_diagonal_const (dim : Nat) (x : K) :
    (Matrix.diagonal (fun _ : Fin dim => x)).det = x ^ dim := by
  rw [Matrix.det_diagonal, Finset.prod_const, Finset.card_univ, Fintype.card_fin]

/-- The array `metrics_from_isos` builds: entry `i` stores `isos[i]` times the identity. -/
theorem metrics_from_isos_ok (dim : Nat) (h1 : 1 ≤ dim) (h3 : dim ≤ 3) (s : List K) :
    ∃ m, metrics_from_isos (dim : Int) s = .ok m ∧ m.length = s.length * symm_ncomps dim ∧
      ∀ i, i < s.length → metric_at dim m i = Matrix.diagonal (fun _ => s.getD i 0) := by
  have hloop : ∀ d : Nat, 1 ≤ d → d ≤ 3 →
      ∃ m, metrics_from_isos_dim d s = .ok m ∧ m.length = s.length * symm_ncomps d ∧
        ∀ i, i < s.length → metric_at d m i = Matrix.diagonal (fun _ => s.getD i 0) := by
    intro d hd1 hd3
    obtain ⟨out, e1, e2, e3⟩ := symm_array_loop d s.length hd1 hd3
      (fun i => match Read_get s i with
        | .error e => .error e
        | .ok x => .ok (Matrix.diagonal (fun _ => x)))
      (fun i => Matrix.diagonal (fun _ => s.getD i 0))
      (fun i hi => by
        simp only
        rw [Read_get_natCast s i (s.getD i 0)
          (by simp [List.getD_eq_getElem?_getD, List.getElem?_eq_getElem hi])])
    refine ⟨out, e1, e2, fun i hi => ?_⟩
    unfold metric_at
    rw [e3 i hi]
    exact vector2symm_symm2vector d hd1 hd3 _ (Matrix.diagonal_transpose _)
  have hcases : dim = 1 ∨ dim = 2 ∨ dim = 3 := by omega
  rcases hcases with rfl | rfl | rfl
  · refine ⟨s, rfl, by simp [symm_ncomps], fun i hi => ?_⟩
    ext a b
    fin_cases a; fin_cases b
    simp [metric_at, vector2symm, block, symm_ncomps, List.getD_eq_getElem?_getD,
      List.getElem?_take, List.getElem?_drop]
  · exact hloop 2 (by decide) (by decide)
  · exact hloop 3 (by decide) (by decide)

theorem get_size_isos_dim_diagonal (N : Numerics K) (dim : Nat) (h1 : 1 ≤ dim)
    (s m : List K) (hl : m.length = s.length * symm_ncomps dim)
    (hm : ∀ i, i < s.length → metric_at dim m i = Matrix.diagonal (fun _ => s.getD i 0))
    (hroot : ∀ x ∈ s, root N dim (x ^ dim) = x) :
    get_size_isos_dim N dim m = .ok s := by
  unfold get_size_isos_dim
  rw [hl, divide_no_remainder_mul _ _ (symm_ncomps_pos dim h1)]
  simp only [Write_new_ofNat, Int.toNat_ofNat]
  rw [scalar_kernel_loop s.length _ (fun i => s.getD i 0), range_map_getD]
  intro i hi
  rw [get_symm_metric_at dim s.length m i hl hi, hm i hi]
  simp only [det_diagonal_const]
  rw [hroot]
  rw [List.getD_eq_getElem?_getD, List.getElem?_eq_getElem hi]
  exact List.getElem_mem hi

theorem get_max_eigenvalues_dim_diagonal (N : Numerics K) (dim : Nat) (h1 : 1 ≤ dim)
    (h3 : dim ≤ 3) (s m : List K) (hl : m.length = s.length * symm_ncomps dim)
    (hm : ∀ i, i < s.length → metric_at dim m i = Matrix.diagonal (fun _ => s.getD i 0))
    (heig : ∀ x ∈ s, ∀ k, (N.decompose_eigen dim (Matrix.diagonal (fun _ => x))).2 k = x) :
    get_max_eigenvalues_dim N dim m = .ok s := by
  unfold get_max_eigenvalues_dim
  rw [hl, divide_no_remainder_mul _ _ (symm_ncomps_pos dim h1)]
  simp only [Write_new_ofNat, Int.toNat_ofNat]
  rw [scalar_kernel_loop s.length _ (fun i => s.getD i 0), range_map_getD]
  intro i hi
  rw [get_symm_metric_at dim s.length m i hl hi, hm i hi]
  simp only
  rw [max_of_ofFn_const dim h1 h3 _ (s.getD i 0)]
  apply heig
  rw [List.getD_eq_getElem?_getD, List.getElem?_eq_getElem hi]
  exact List.getElem_mem hi

/-- A non-negative square root of `x * x` is `x`, for `x > 0`. -/
theorem sqrt_of_square (N : Numerics K) (x : K) (hx : 0 < x)
    (h : 0 ≤ N.sqrt (x * x) ∧ N.sqrt (x * x) * N.sqrt (x * x) = x * x) :
    N.sqrt (x * x) = x := by
  obtain ⟨h0, h2⟩ := h
  have h3 : (N.sqrt (x * x) - x) * (N.sqrt (x * x) + x) = 0 := by
    have : (N.sqrt (x * x) - x) * (N.sqrt (x * x) + x) =
        N.sqrt (x * x) * N.sqrt (x * x) - x * x := by ring
    rw [this, h2, sub_self]
  rcases mul_eq_zero.1 h3 with h4 | h4
  · linarith
  · linarith

/-- A cube root of `x * x * x` is `x`. -/
theorem cbrt_of_cube (N : Numerics K) (x : K) (hx : 0 < x)
    (h : N.cbrt (x * x * x) * N.cbrt (x * x * x) * N.cbrt (x * x * x) = x * x * x) :
    N.cbrt (x * x * x) = x := by
  generalize N.cbrt (x * x * x) = c at h
  have h3 : (c - x) * (c * c + c * x + x * x) = 0 := by
    have : (c - x) * (c * c + c * x + x * x) = c * c * c - x * x * x := by ring
    rw [this, h, sub_self]
  rcases mul_eq_zero.1 h3 with h4 | h4
  · linarith
  · exfalso
    nlinarith [mul_self_nonneg (c + x), mul_self_nonneg c, mul_pos hx hx]

/-- The roots the code takes of the determinant of `x` times the identity return `x`,
given the square and cube roots of the field. -/
theorem root_of_power (N : Numerics K) (dim : Nat) (h1 : 1 ≤ dim) (h3 : dim ≤ 3) (x : K)
    (hx : 0 < x)
    (hsqrt : dim = 2 → ∀ y : K, 0 ≤ y → 0 ≤ N.sqrt y ∧ N.sqrt y * N.sqrt y = y)
    (hcbrt : dim = 3 → ∀ y : K, 0 ≤ y → N.cbrt y * N.cbrt y * N.cbrt y = y) :
    root N dim (x ^ dim) = x := by
  have hcases : dim = 1 ∨ dim = 2 ∨ dim = 3 := by omega
  rcases hcases with rfl | rfl | rfl
  · simp [root]
  · have e : x ^ 2 = x * x := by ring
    rw [e]
    exact sqrt_of_square N x hx (hsqrt rfl _ (le_of_lt (mul_pos hx hx)))
  · have e : x ^ 3 = x * x * x := by ring
    rw [e]
    exact cbrt_of_cube N x hx (hcbrt rfl _ (le_of_lt (mul_pos (mul_pos hx hx) hx)))

/-- An exact eigen-decomposition of `x` times the identity has all its eigenvalues equal
to `x`. -/
theorem eigenvalues_of_scalar (N : Numerics K) (dim : Nat) (x : K)
    (h : decompose_eigen_exact N (Matrix.diagonal (fun _ : Fin dim => x))) (k : Fin dim) :
    (N.decompose_eigen dim (Matrix.diagonal (fun _ => x))).2 k = x := by
  obtain ⟨hq, hm⟩ := h
  set q := (N.decompose_eigen dim (Matrix.diagonal (fun _ => x))).1 with hqdef
  set l := (N.decompose_eigen dim (Matrix.diagonal (fun _ => x))).2 with hldef
  obtain ⟨i, hi⟩ : ∃ i, q i k ≠ 0 := by
    by_contra hn
    exact hq (Matrix.det_eq_zero_of_column_eq_zero k
      (fun i => by simpa using not_exists.1 hn i))
  have := congrFun (congrFun hm i) k
  rw [Matrix.diagonal_mul, Matrix.mul_diagonal] at this
  have h2 : (l k - x) * q i k = 0 := by
    rw [sub_mul, mul_comm (l k), ← this, sub_self]
  rcases mul_eq_zero.1 h2 with h3 | h3
  · linarith
  · exact absurd h3 hi

/-- C21: in exact arithmetic over any ordered field `K`, for `dim` in 1, 2, 3 and a
non-empty array `s` of positive scalars: `metrics_from_isos` returns an array `m` with
`apply_isotropy(n, m, ISO_SIZE) = s`, given a `sqrt` that is the non-negative square
root (for `dim = 2`) and a `cbrt` that is the cube root (for `dim = 3`), and with
`apply_isotropy(n, m, ISO_LENGTH) = s`, given an eigen-solver that is exact at the
matrices `s[i]` times the identity; `apply_isotropy` with `ANISOTROPIC` returns its
input unchanged, for `m` and for every array whose metric dimension is defined. -/
theorem apply_isotropy_inverts_metrics_from_isos (N : Numerics K) (dim : Nat) (h1 : 1 ≤ dim)
    (h3 : dim ≤ 3) (s : List K) (hn : 1 ≤ s.length) (hpos : ∀ x ∈ s, 0 < x) :
    ∃ m, metrics_from_isos (dim : Int) s = .ok m ∧
      ((dim = 2 → ∀ y : K, 0 ≤ y → 0 ≤ N.sqrt y ∧ N.sqrt y * N.sqrt y = y) →
        (dim = 3 → ∀ y : K, 0 ≤ y → N.cbrt y * N.cbrt y * N.cbrt y = y) →
        apply_isotropy N (s.length : Int) m Omega_h_Isotropy.OMEGA_H_ISO_SIZE = .ok s) ∧
      ((∀ x ∈ s, decompose_eigen_exact N (Matrix.diagonal (fun _ : Fin dim => x))) →
        apply_isotropy N (s.length : Int) m Omega_h_Isotropy.OMEGA_H_ISO_LENGTH = .ok s) ∧
      apply_isotropy N (s.length : Int) m Omega_h_Isotropy.OMEGA_H_ANISOTROPIC = .ok m ∧
      ∀ (nmetrics : Int) (metrics : List K) (d : Int),
        get_metrics_dim nmetrics metrics = .ok d →
        apply_isotropy N nmetrics metrics Omega_h_Isotropy.OMEGA_H_ANISOTROPIC = .ok metrics := by
  obtain ⟨m, e1, hl, hm⟩ := metrics_from_isos_ok dim h1 h3 s
  have hd := get_metrics_dim_ok dim s.length h1 h3 hn m hl
  refine ⟨m, e1, ?_, ?_, ?_, ?_⟩
  · intro hsqrt hcbrt
    have hsize := get_size_isos_dim_diagonal N dim h1 s m hl hm
      (fun x hx => root_of_power N dim h1 h3 x (hpos x hx) hsqrt hcbrt)
    unfold apply_isotropy
    rw [hd]
    simp only [get_size_isos]
    have hcases : dim = 1 ∨ dim = 2 ∨ dim = 3 := by omega
    rcases hcases with rfl | rfl | rfl <;> simpa using hsize
  · intro heig
    have hlen := get_max_eigenvalues_dim_diagonal N dim h1 h3 s m hl hm
      (fun x hx k => eigenvalues_of_scalar N dim x (heig x hx) k)
    unfold apply_isotropy
    rw [hd]
    simp only [get_max_eigenvalues]
    have hcases : dim = 1 ∨ dim = 2 ∨ dim = 3 := by omega
    rcases hcases with rfl | rfl | rfl <;> simpa using hlen
  · unfold apply_isotropy
    rw [hd]
  · intro nmetrics metrics d h
    unfold apply_isotropy
    rw [h]

theorem apply_isotropy_inverts_metrics_from_isos_witness :
    ∃ m, metrics_from_isos ((3 : Nat) : Int) [(2 : ℝ), 5] = .ok m ∧
      apply_isotropy
        (numerics_of Real.sqrt (fun x => x ^ ((1 : ℝ) / 3)) Real.log Real.exp
          (fun _ m => (1, fun i => m i i)))
        (([2, 5] : List ℝ).length : Int) m Omega_h_Isotropy.OMEGA_H_ISO_SIZE = .ok [2, 5] ∧
      apply_isotropy
        (numerics_of Real.sqrt (fun x => x ^ ((1 : ℝ) / 3)) Real.log Real.exp
          (fun _ m => (1, fun i => m i i)))
        (([2, 5] : List ℝ).length : Int) m Omega_h_Isotropy.OMEGA_H_ISO_LENGTH = .ok [2, 5] :=
  let ⟨m, a, b, c, _⟩ :=
    apply_isotropy_inverts_metrics_from_isos
      (numerics_of Real.sqrt (fun x => x ^ ((1 : ℝ) / 3)) Real.log Real.exp
        (fun _ m => (1, fun i => m i i)))
      3 (by decide) (by decide) [2, 5] (by decide) (by
        intro x hx
        simp only [List.mem_cons, List.mem_singleton, List.not_mem_nil, or_false] at hx
        rcases hx with rfl | rfl <;> norm_num)
  ⟨m, a,
    b (fun h => absurd h (by decide)) (fun _ y hy => by
      show y ^ ((1 : ℝ) / 3) * y ^ ((1 : ℝ) / 3) * y ^ ((1 : ℝ) / 3) = y
      have e : y ^ ((1 : ℝ) / 3) * y ^ ((1 : ℝ) / 3) * y ^ ((1 : ℝ) / 3) =
          (y ^ ((1 : ℝ) / 3)) ^ (3 : ℕ) := by ring
      rw [e, ← Real.rpow_natCast, ← Real.rpow_mul hy]
      norm_num),
    c (fun x _ => by
      refine ⟨by simp [numerics_of], ?_⟩
      simp [numerics_of])⟩

/-! ## Pads of `get_pad_isos` -/

theorem gap_tet_vectors :
    gather_vectors 3 gap_tet.coords [0, 1, 2, 3] =
      .ok [![0, 0, 0], ![1, 0, 0], ![1 / 2, -1 / 2, 1], ![1 / 2, 1 / 2, 1]] := by
  have h0 : get_vector 3 gap_tet.coords 0 = .ok ![0, 0, 0] := by
    unfold get_vector
    rw [if_pos (by decide)]
    congr 1
    funext k
    fin_cases k <;> simp [gap_tet]
  have h1 : get_vector 3 gap_tet.coords 1 = .ok ![1, 0, 0] := by
    unfold get_vector
    rw [if_pos (by decide)]
    congr 1
    funext k
    fin_cases k <;> simp [gap_tet]
  have h2 : get_vector 3 gap_tet.coords 2 = .ok ![1 / 2, -1 / 2, 1] := by
    unfold get_vector
    rw [if_pos (by decide)]
    congr 1
    funext k
    fin_cases k <;> simp [gap_tet]
  have h3 : get_vector 3 gap_tet.coords 3 = .ok ![1 / 2, 1 / 2, 1] := by
    unfold get_vector
    rw [if_pos (by decide)]
    congr 1
    funext k
    fin_cases k <;> simp [gap_tet]
  simp only [gather_vectors, List.mapM_cons, List.mapM_nil, h0, h1, h2, h3]
  rfl

theorem gap_tet_edge_edge_gap :
    get_tet_edge_edge_gap toy_numerics ![0, 0, 0] ![1, 0, 0] ![1 / 2, -1 / 2, 1]
      ![1 / 2, 1 / 2, 1] = some 1 := by
  have hn : normalize toy_numerics (cross (![1, 0, 0] - ![0, 0, 0])
      (![1 / 2, 1 / 2, 1] - ![1 / 2, -1 / 2, 1])) = ![0, 0, 1] := by
    funext k
    fin_cases k <;>
      norm_num [normalize, vector_norm, norm_squared, cross, toy_numerics, Matrix.dotProduct,
        Fin.sum_univ_three]
  unfold get_tet_edge_edge_gap
  simp only [hn]
  norm_num [get_triangle_normal, cross, metric_eigenvalue_from_length, Matrix.dotProduct,
    Fin.sum_univ_three]

theorem gap_tet_edge_edge :
    get_tet_edge_edge tet_routines toy_numerics
      [![0, 0, 0], ![1, 0, 0], ![1 / 2, -1 / 2, 1], ![1 / 2, 1 / 2, 1]] gap_tet_bridges
      [0, 1, 2] = some 1 := by
  rw [get_tet_edge_edge, if_neg (by decide)]
  simp only []
  rw [if_neg (by decide)]
  exact gap_tet_edge_edge_gap

/-- When the edge-edge part of the kernel returns a value, that value is what the
kernel writes, whatever `factor` is. -/
theorem get_tet_pad_isos_kernel_edge_edge (R : PadRoutines) (N : Numerics Rat) (mesh : Mesh Rat)
    (ask_down : Int → Int → List Int) (factor : Rat) (edges_are_bridges : List Int)
    (tet : Nat) (out : List Rat) (ttv2v : List Int) (ttv2x : List (Fin 3 → Rat))
    (tte2e tte2b : List Int) (v : Rat)
    (h1 : gather_verts 4 (mesh.ask_verts_of TET) (tet : Int) = .ok ttv2v)
    (h2 : gather_vectors 3 mesh.coords ttv2v = .ok ttv2x)
    (h3 : gather_verts 6 (ask_down TET EDGE) (tet : Int) = .ok tte2e)
    (h4 : gather_scalars edges_are_bridges tte2e = .ok tte2b)
    (h5 : tte2b.sum = 4)
    (h6 : get_tet_edge_edge R N ttv2x tte2b [0, 1, 2] = some v) :
    get_tet_pad_isos_kernel R N mesh ask_down factor edges_are_bridges tet out =
      Write_set out (tet : Int) v := by
  unfold get_tet_pad_isos_kernel
  rw [h1]
  simp only
  rw [h2]
  simp only
  rw [h3]
  simp only
  rw [h4]
  simp only [h5, if_true, h6]
  rfl

theorem gap_tet_edge_pad (factor : Rat) :
    get_pad_isos tet_routines toy_numerics gap_tet gap_tet_down EDGE factor
      [1, 0, 0, 0, 0, 0] = .ok [metric_eigenvalue_from_length (1 * factor), 0, 0, 0, 0, 0] := by
  have hd : get_pad_isos tet_routines toy_numerics gap_tet gap_tet_down EDGE factor
      [1, 0, 0, 0, 0, 0] = get_edge_pad_isos toy_numerics 3 gap_tet factor [1, 0, 0, 0, 0, 0] := rfl
  have hw : Write_filled (gap_tet.nents EDGE) 0 = .ok [0, 0, 0, 0, 0, 0] := rfl
  have hn : (gap_tet.nents EDGE).toNat = 6 := rfl
  have hv : gather_vectors 3 gap_tet.coords [0, 1] = .ok [![0, 0, 0], ![1, 0, 0]] := by
    have h0 : get_vector 3 gap_tet.coords 0 = .ok ![0, 0, 0] := by
      unfold get_vector
      rw [if_pos (by decide)]
      congr 1
      funext k
      fin_cases k <;> simp [gap_tet]
    have h1 : get_vector 3 gap_tet.coords 1 = .ok ![1, 0, 0] := by
      unfold get_vector
      rw [if_pos (by decide)]
      congr 1
      funext k
      fin_cases k <;> simp [gap_tet]
    simp only [gather_vectors, List.mapM_cons, List.mapM_nil, h0, h1]
    rfl
  have hnorm : vector_norm toy_numerics
      (([![0, 0, 0], ![1, 0, 0]] : List (Fin 3 → Rat)).getD 1 0 -
        ([![0, 0, 0], ![1, 0, 0]] : List (Fin 3 → Rat)).getD 0 0) = 1 := by
    norm_num [vector_norm, norm_squared, toy_numerics, Matrix.dotProduct, Fin.sum_univ_three]
  have hk0 : ∀ out : List Rat, get_edge_pad_isos_kernel toy_numerics 3 gap_tet factor
      [1, 0, 0, 0, 0, 0] 0 out =
      Write_set out 0 (metric_eigenvalue_from_length (1 * factor)) := by
    intro out
    have hb : Read_get ([1, 0, 0, 0, 0, 0] : List Int) ((0 : Nat) : Int) = .ok 1 := rfl
    have hg : gather_verts 2 (gap_tet.ask_verts_of EDGE) ((0 : Nat) : Int) = .ok [0, 1] := rfl
    unfold get_edge_pad_isos_kernel
    rw [hb]
    simp only [one_ne_zero, if_false]
    rw [hg]
    simp only
    rw [hv]
    simp only [hnorm]
    rfl
  have hk : ∀ (e : Nat) (out : List Rat), 1 ≤ e → e < 6 →
      get_edge_pad_isos_kernel toy_numerics 3 gap_tet factor [1, 0, 0, 0, 0, 0] e out =
        .ok out := by
    intro e out h1 h6
    have hb : Read_get ([1, 0, 0, 0, 0, 0] : List Int) (e : Int) = .ok 0 := by
      interval_cases e <;> rfl
    unfold get_edge_pad_isos_kernel
    rw [hb]
    simp
  rw [hd, get_edge_pad_isos, hw]
  simp only [hn, parallel_for, parallel_for_from, hk0, Nat.zero_add]
  have hs : Write_set ([0, 0, 0, 0, 0, 0] : List Rat) 0
      (metric_eigenvalue_from_length (1 * factor)) =
      .ok [metric_eigenvalue_from_length (1 * factor), 0, 0, 0, 0, 0] := rfl
  rw [hs]
  simp only [hk 1 _ (by decide) (by decide), hk 2 _ (by decide) (by decide),
    hk 3 _ (by decide) (by decide), hk 4 _ (by decide) (by decide),
    hk 5 _ (by decide) (by decide)]

/-- C30: on the tetrahedron `gap_tet`, whose opposite edges `01` and `23` are at
distance 1 and whose other four edges are bridges, `get_pad_isos` for `TET` returns
`metric_eigenvalue_from_length(1) = 1` for every `factor`: the edge-edge path does not
multiply the gap distance by `factor`.  With `factor = 2` the value
`metric_eigenvalue_from_length(1 * 2)` would be `1 / 4`.  The bridge-edge path on the
same mesh does multiply by `factor`: with edge `01` (of length 1) marked as the only
bridge the value written for it is `metric_eigenvalue_from_length(1 * factor)`. -/
theorem get_pad_isos_tet_edge_edge_ignores_factor :
    (∀ factor : Rat, get_pad_isos tet_routines toy_numerics gap_tet gap_tet_down TET factor
      gap_tet_bridges = .ok [1]) ∧
    (∀ factor : Rat, get_pad_isos tet_routines toy_numerics gap_tet gap_tet_down EDGE factor
      [1, 0, 0, 0, 0, 0] = .ok [metric_eigenvalue_from_length (1 * factor), 0, 0, 0, 0, 0]) ∧
    metric_eigenvalue_from_length ((1 : Rat) * 1) = 1 ∧
    metric_eigenvalue_from_length ((1 : Rat) * 2) = 1 / 4 := by
  refine ⟨?_, gap_tet_edge_pad, by norm_num [metric_eigenvalue_from_length],
    by norm_num [metric_eigenvalue_from_length]⟩
  intro factor
  have hk := get_tet_pad_isos_kernel_edge_edge tet_routines toy_numerics gap_tet gap_tet_down
    factor gap_tet_bridges 0 [0] [0, 1, 2, 3]
    [![0, 0, 0], ![1, 0, 0], ![1 / 2, -1 / 2, 1], ![1 / 2, 1 / 2, 1]] [0, 1, 2, 3, 4, 5]
    gap_tet_bridges 1 rfl gap_tet_vectors rfl rfl rfl gap_tet_edge_edge
  have hd : get_pad_isos tet_routines toy_numerics gap_tet gap_tet_down TET factor
      gap_tet_bridges =
      get_tet_pad_isos tet_routines toy_numerics gap_tet gap_tet_down factor
        gap_tet_bridges := rfl
  have hw : Write_filled (gap_tet.nents TET) 0 = .ok [0] := rfl
  have hn : (gap_tet.nents TET).toNat = 1 := rfl
  rw [hd, get_tet_pad_isos, hw]
  simp only [hn, parallel_for, parallel_for_from]
  have hk0 : get_tet_pad_isos_kernel tet_routines toy_numerics gap_tet gap_tet_down factor
      gap_tet_bridges 0 [0] = .ok [1] := by
    rw [hk]
    rfl
  rw [hk0]

/-! ## The point-to-point neighbourhood collectives -/

theorem CALL_follows (mpi : MpiOp → Bool) (line : Nat) (op : MpiOp) (r : MpiRun)
    (done todo : List MpiOp) (h : r.follows done (op :: todo)) :
    (CALL mpi line op r).follows (done ++ [op]) todo := by
  obtain ⟨t, f⟩ := r
  rcases h with ⟨h1, h2⟩ | ⟨h1, h2⟩
  · simp only at h1 h2
    subst h1 h2
    by_cases hm : mpi op = true
    · left
      simp [CALL, hm]
    · right
      simp only [CALL, hm, Bool.false_eq_true, if_false]
      exact ⟨by simp, List.prefix_append _ _⟩
  · simp only at h1 h2
    cases f with
    | none => exact absurd rfl h1
    | some e =>
      right
      simp only [CALL]
      refine ⟨by simp, ?_⟩
      simpa using h2

theorem CALL_success (mpi : MpiOp → Bool) (line : Nat) (op : MpiOp) (r : MpiRun)
    (hm : mpi op = true) (h : r.2 = none) : (CALL mpi line op r).2 = none := by
  obtain ⟨t, f⟩ := r
  simp only at h
  subst h
  simp [CALL, hm]

theorem for_int_follows (mpi : MpiOp → Bool) (line : Nat) (mk : Nat → MpiOp) (n : Nat)
    (r : MpiRun) (done todo : List MpiOp)
    (h : r.follows done ((List.range n).map mk ++ todo)) :
    (for_int n (fun i r => CALL mpi line (mk i) r) r).follows
      (done ++ (List.range n).map mk) todo := by
  unfold for_int
  induction n generalizing todo with
  | zero => simpa using h
  | succ n ih =>
    rw [List.range_succ, List.foldl_append, List.map_append, ← List.append_assoc]
    simp only [List.foldl_cons, List.foldl_nil, List.map_cons, List.map_nil]
    apply CALL_follows
    apply ih
    rw [List.range_succ, List.map_append, List.append_assoc] at h
    simpa using h

theorem for_int_success (mpi : MpiOp → Bool) (line : Nat) (mk : Nat → MpiOp) (n : Nat)
    (r : MpiRun) (hm : ∀ op, mpi op = true) (h : r.2 = none) :
    (for_int n (fun i r => CALL mpi line (mk i) r) r).2 = none := by
  unfold for_int
  induction n with
  | zero => simpa using h
  | succ n ih =>
    rw [List.range_succ, List.foldl_append]
    simp only [List.foldl_cons, List.foldl_nil]
    exact CALL_success mpi line _ _ (hm _) ih

/-- A run made of the receive loop, the barrier, the send loop and the two waits
follows the script, and ends without failure when every call succeeds. -/
theorem p2p_run_follows (mpi : MpiOp → Bool) (l1 l2 l3 l4 l5 : Nat) (indegree outdegree : Nat)
    (recv send : Nat → MpiOp) :
    (CALL mpi l5 (MpiOp.Waitall_recvreqs indegree)
      (CALL mpi l4 (MpiOp.Waitall_sendreqs outdegree)
        (for_int outdegree (fun i r => CALL mpi l3 (send i) r)
          (CALL mpi l2 MpiOp.Barrier
            (for_int indegree (fun i r => CALL mpi l1 (recv i) r) ([], none)))))).follows
      (p2p_script indegree outdegree recv send) [] ∧
    ((∀ op, mpi op = true) →
      (CALL mpi l5 (MpiOp.Waitall_recvreqs indegree)
        (CALL mpi l4 (MpiOp.Waitall_sendreqs outdegree)
          (for_int outdegree (fun i r => CALL mpi l3 (send i) r)
            (CALL mpi l2 MpiOp.Barrier
              (for_int indegree (fun i r => CALL mpi l1 (recv i) r) ([], none)))))).2 = none) := by
  constructor
  · have h0 : MpiRun.follows ([], none) []
        ((List.range indegree).map recv ++ (MpiOp.Barrier :: ((List.range outdegree).map send ++
          [MpiOp.Waitall_sendreqs outdegree, MpiOp.Waitall_recvreqs indegree]))) :=
      Or.inl ⟨rfl, rfl⟩
    have h1 := for_int_follows mpi l1 recv indegree _ _ _ h0
    have h2 := CALL_follows mpi l2 _ _ _ _ h1
    have h3 := for_int_follows mpi l3 send outdegree _ _
      [MpiOp.Waitall_sendreqs outdegree, MpiOp.Waitall_recvreqs indegree] h2
    have h4 := CALL_follows mpi l4 _ _ _ _ h3
    have h5 := CALL_follows mpi l5 _ _ _ _ h4
    simpa [p2p_script] using h5
  · intro hm
    exact CALL_success mpi l5 _ _ (hm _) (CALL_success mpi l4 _ _ (hm _)
      (for_int_success mpi l3 send outdegree _ hm (CALL_success mpi l2 _ _ (hm _)
        (for_int_success mpi l1 recv indegree _ hm rfl))))

theorem p2p_run_obeys (mpi : MpiOp → Bool) (l1 l2 l3 l4 l5 : Nat) (indegree outdegree : Nat)
    (recv send : Nat → MpiOp) (hrecv : ∀ i, (recv i).is_send = false) :
    (CALL mpi l5 (MpiOp.Waitall_recvreqs indegree)
      (CALL mpi l4 (MpiOp.Waitall_sendreqs outdegree)
        (for_int outdegree (fun i r => CALL mpi l3 (send i) r)
          (CALL mpi l2 MpiOp.Barrier
            (for_int indegree (fun i r => CALL mpi l1 (recv i) r) ([], none)))))).obeys
      (∀ op, mpi op = true) indegree outdegree recv send := by
  obtain ⟨hf, hs⟩ := p2p_run_follows mpi l1 l2 l3 l4 l5 indegree outdegree recv send
  generalize (CALL mpi l5 (MpiOp.Waitall_recvreqs indegree)
      (CALL mpi l4 (MpiOp.Waitall_sendreqs outdegree)
        (for_int outdegree (fun i r => CALL mpi l3 (send i) r)
          (CALL mpi l2 MpiOp.Barrier
            (for_int indegree (fun i r => CALL mpi l1 (recv i) r) ([], none)))))) = r at hf hs
  have hpre : r.1 <+: p2p_script indegree outdegree recv send := by
    rcases hf with ⟨-, h⟩ | ⟨-, h⟩
    · rw [h]
    · simpa using h
  refine ⟨hpre, ?_, ?_⟩
  · intro hm
    rcases hf with ⟨h1, h2⟩ | ⟨h1, -⟩
    · exact Prod.ext h2 h1
    · exact absurd (hs hm) h1
  · intro j op hj hop
    obtain ⟨u, hu⟩ := hpre
    have hlen : j < r.1.length := by
      by_contra hc
      rw [List.getElem?_eq_none (by omega)] at hj
      cases hj
    have hS : (p2p_script indegree outdegree recv send)[j]? = some op := by
      rw [← hu, List.getElem?_append_left hlen]
      exact hj
    have hhead : ((List.range indegree).map recv ++ [MpiOp.Barrier]).length = indegree + 1 := by
      simp
    have hscript : p2p_script indegree outdegree recv send =
        ((List.range indegree).map recv ++ [MpiOp.Barrier]) ++
          ((List.range outdegree).map send ++
            [MpiOp.Waitall_sendreqs outdegree, MpiOp.Waitall_recvreqs indegree]) := by
      simp [p2p_script]
    have hj1 : indegree < j := by
      by_contra hc
      have hjle : j < ((List.range indegree).map recv ++ [MpiOp.Barrier]).length := by
        rw [hhead]; omega
      rw [hscript, List.getElem?_append_left hjle] at hS
      by_cases hji : j < indegree
      · rw [List.getElem?_append_left (by simpa using hji), List.getElem?_map,
          List.getElem?_range hji] at hS
        simp only [Option.map_some', Option.some.injEq] at hS
        rw [← hS, hrecv] at hop
        cases hop
      · have hje : j = indegree := by omega
        subst hje
        rw [List.getElem?_append_right (by simp)] at hS
        simp only [List.length_map, List.length_range, Nat.sub_self, List.getElem?_cons_zero,
          Option.some.injEq] at hS
        rw [← hS] at hop
        cases hop
    refine ⟨hj1, ?_⟩
    have ht : r.1.take (indegree + 1) =
        (p2p_script indegree outdegree recv send).take (indegree + 1) := by
      rw [← hu, List.take_append_of_le_length (by omega)]
    rw [ht, hscript, List.take_append_of_le_length (by rw [hhead]), ← hhead, List.take_length]

/-- C27: with `MPI_VERSION < 3`, each of `Neighbor_allgather`, `Neighbor_alltoall` and
`Neighbor_alltoallv` issues, in this order, one `MPI_Irecv` per source in `sources`
order, one `MPI_Barrier`, one `MPI_Isend` per destination in `destinations` order, the
`MPI_Waitall` on the sends and the `MPI_Waitall` on the receives: the calls of every
run are a prefix of that sequence, all of it when every call succeeds, and a send is
only ever issued after all receives and the barrier.  In `Neighbor_alltoallv` receive
`i` is posted at offset `rdispls[i]` (times the type size, in bytes) with count
`recvcounts[i]` from `sources[i]`, and send `i` reads at offset `sdispls[i]` with count
`sendcounts[i]` to `destinations[i]`. -/
theorem Neighbor_fallbacks_follow_script (mpi : MpiOp → Bool) (width : Int)
    (sources destinations : List Int) (sendcount recvcount : Int)
    (sendcounts sdispls recvcounts rdispls : List Int) :
    (Neighbor_allgather_fallback mpi (some width) sources destinations sendcount
        recvcount).obeys (∀ op, mpi op = true) sources.length destinations.length
      (fun i => MpiOp.Irecv ((i : Int) * width) recvcount (sources.getD i 0) 42 i)
      (fun i => MpiOp.Isend 0 sendcount (destinations.getD i 0) 42 i) ∧
    (Neighbor_alltoall_fallback mpi (some width) sources destinations sendcount
        recvcount).obeys (∀ op, mpi op = true) sources.length destinations.length
      (fun i => MpiOp.Irecv ((i : Int) * width) recvcount (sources.getD i 0) 42 i)
      (fun i => MpiOp.Isend ((i : Int) * width) sendcount (destinations.getD i 0) 42 i) ∧
    (Neighbor_alltoallv_fallback mpi (some width) sources destinations sendcounts sdispls
        recvcounts rdispls).obeys (∀ op, mpi op = true) sources.length destinations.length
      (fun i => MpiOp.Irecv (rdispls.getD i 0 * width) (recvcounts.getD i 0)
        (sources.getD i 0) 42 i)
      (fun i => MpiOp.Isend (sdispls.getD i 0 * width) (sendcounts.getD i 0)
        (destinations.getD i 0) 42 i) ∧
    (Neighbor_allgather_fallback mpi none sources destinations sendcount recvcount).1 = [] ∧
    (Neighbor_alltoall_fallback mpi none sources destinations sendcount recvcount).1 = [] ∧
    (Neighbor_alltoallv_fallback mpi none sources destinations sendcounts sdispls recvcounts
      rdispls).1 = [] := by
  refine ⟨?_, ?_, ?_, rfl, rfl, rfl⟩
  · exact p2p_run_obeys mpi 254 256 258 260 262 sources.length destinations.length _ _
      (fun _ => rfl)
  · exact p2p_run_obeys mpi 293 295 297 299 301 sources.length destinations.length _ _
      (fun _ => rfl)
  · exact p2p_run_obeys mpi 333 335 337 339 341 sources.length destinations.length _ _
      (fun _ => rfl)

theorem Neighbor_fallbacks_follow_script_witness :
    Neighbor_alltoallv_fallback (fun _ => true) (some 8) [3, 5] [7] [4] [0, 4] [2, 1] [0, 2, 3] =
      ([MpiOp.Irecv 0 2 3 42 0, MpiOp.Irecv 16 1 5 42 1, MpiOp.Barrier,
        MpiOp.Isend 0 4 7 42 0, MpiOp.Waitall_sendreqs 1, MpiOp.Waitall_recvreqs 2], none) :=
  (Neighbor_fallbacks_follow_script (fun _ => true) 8 [3, 5] [7] 1 1 [4] [0, 4] [2, 1]
    [0, 2, 3]).2.2.1.2.1 (fun _ => rfl)

/-! ## Invariants of `get_motion_choices` -/

theorem bind_ok {α β : Type} (x : Except Fail α) (f : α → Except Fail β) (b : β)
    (h : (x >>= f) = .ok b) : ∃ a, x = .ok a ∧ f a = .ok b := by
  cases x with
  | error e => cases h
  | ok a => exact ⟨a, rfl, h⟩

theorem Write_set_ok {T : Type} (a : List T) (i : Int) (v : T) (w : List T)
    (h : Write_set a i v = .ok w) : 0 ≤ i ∧ i.toNat < a.length ∧ w = a.set i.toNat v := by
  unfold Write_set at h
  split at h
  · rename_i hc
    simp only [Except.ok.injEq] at h
    exact ⟨hc.1, hc.2, h.symm⟩
  · cases h

/-- What `motion_store` leaves: the array keeps its length and changes only at the
positions `v * ncomps + j` of the components `j` stored. -/
theorem motion_store_ok (v ncomps : Int) :
    ∀ (tmp : List Rat) (i : Int) (w w1 : List Rat),
      motion_store v ncomps tmp i w = .ok w1 →
      w1.length = w.length ∧
        ∀ idx : Nat, w1[idx]? ≠ w[idx]? →
          ∃ j : Int, i ≤ j ∧ j < i + (tmp.length : Int) ∧ (idx : Int) = v * ncomps + j := by
  intro tmp
  induction tmp with
  | nil =>
    intro i w w1 h
    simp only [motion_store, Except.ok.injEq] at h
    subst h
    exact ⟨rfl, fun idx hne => absurd rfl hne⟩
  | cons t tmp ih =>
    intro i w w1 h
    rw [motion_store] at h
    obtain ⟨w0, h0, h1⟩ := bind_ok _ _ _ h
    obtain ⟨hi, hlt, rfl⟩ := Write_set_ok _ _ _ _ h0
    obtain ⟨hl, hchg⟩ := ih (i + 1) _ w1 h1
    refine ⟨by rw [hl, List.length_set], ?_⟩
    intro idx hne
    by_cases hidx : idx = (v * ncomps + i).toNat
    · refine ⟨i, le_refl _, by simp, ?_⟩
      rw [hidx]
      omega
    · by_cases hne1 : w1[idx]? = (w.set (v * ncomps + i).toNat t)[idx]?
      · rw [hne1, List.getElem?_set_ne (Ne.symm hidx)] at hne
        exact absurd rfl hne
      · obtain ⟨j, hj1, hj2, hj3⟩ := hchg idx hne1
        refine ⟨j, by omega, ?_, hj3⟩
        simp only [List.length_cons, Nat.cast_add, Nat.cast_one]
        omega

theorem motion_rel_refl (v ncomps : Int) (lq : Rat) (sol : List Rat) :
    motion_rel v ncomps lq sol lq sol :=
  ⟨le_refl _, rfl, fun h => absurd rfl h, fun _ h => absurd rfl h⟩

theorem motion_rel_trans (v ncomps : Int) (lq lq1 lq2 : Rat) (sol sol1 sol2 : List Rat)
    (h1 : motion_rel v ncomps lq sol lq1 sol1) (h2 : motion_rel v ncomps lq1 sol1 lq2 sol2) :
    motion_rel v ncomps lq sol lq2 sol2 := by
  obtain ⟨a1, a2, a3, a4⟩ := h1
  obtain ⟨b1, b2, b3, b4⟩ := h2
  refine ⟨le_trans a1 b1, by rw [b2, a2], ?_, ?_⟩
  · intro hne
    by_cases e : sol1 = sol
    · subst e
      exact lt_of_le_of_lt a1 (b3 hne)
    · exact lt_of_lt_of_le (a3 e) b1
  · intro idx hne
    by_cases e : sol1[idx]? = sol[idx]?
    · exact b4 idx (by rw [e]; exact hne)
    · exact a4 idx e

theorem mapM_length {α β : Type} (f : α → Except Fail β) :
    ∀ (l : List α) (r : List β), l.mapM f = .ok r → r.length = l.length := by
  intro l
  induction l with
  | nil =>
    intro r h
    simp only [List.mapM_nil, pure, Except.pure, Except.ok.injEq] at h
    subst h
    rfl
  | cons x xs ih =>
    intro r h
    rw [List.mapM_cons] at h
    obtain ⟨y, _, h1⟩ := bind_ok _ _ _ h
    obtain ⟨ys, h2, h3⟩ := bind_ok _ _ _ h1
    simp only [pure, Except.pure, Except.ok.injEq] at h3
    subst h3
    simp [ih ys h2]

/-- One round of the edge loop keeps the relation. -/
theorem motion_edge_rel (N : Numerics Rat) {mesh_dim metric_dim : Nat}
    (R : MotionRoutines mesh_dim metric_dim) (mesh : MotionMesh) (pack : LinearPack)
    (step_size max_length : Rat) (v v_dim ve : Int) (st st1 : MotionState)
    (h : motion_edge N R mesh pack step_size max_length v v_dim ve st = .ok st1) :
    motion_rel v pack.ncomps st.last_qual st.new_sol_w st1.last_qual st1.new_sol_w := by
  unfold motion_edge at h
  obtain ⟨e, -, h⟩ := bind_ok _ _ _ h
  obtain ⟨e_dim, -, h⟩ := bind_ok _ _ _ h
  split at h
  · simp only [Except.ok.injEq] at h
    subst h
    exact motion_rel_refl _ _ _ _
  · obtain ⟨ve_code, -, h⟩ := bind_ok _ _ _ h
    obtain ⟨evv2v, -, h⟩ := bind_ok _ _ _ h
    obtain ⟨ov, -, h⟩ := bind_ok _ _ _ h
    obtain ⟨tmp, htmp, h⟩ := bind_ok _ _ _ h
    obtain ⟨a0, -, h⟩ := bind_ok _ _ _ h
    obtain ⟨a1, -, h⟩ := bind_ok _ _ _ h
    obtain ⟨overshoots, -, h⟩ := bind_ok _ _ _ h
    split at h
    · simp only [Except.ok.injEq] at h
      subst h
      exact motion_rel_refl _ _ _ _
    · obtain ⟨k0, -, h⟩ := bind_ok _ _ _ h
      obtain ⟨k1, -, h⟩ := bind_ok _ _ _ h
      obtain ⟨new_qual, -, h⟩ := bind_ok _ _ _ h
      split at h
      · simp only [Except.ok.injEq] at h
        subst h
        exact motion_rel_refl _ _ _ _
      · rename_i hq
        obtain ⟨w, hw, h⟩ := bind_ok _ _ _ h
        simp only [Except.ok.injEq] at h
        subst h
        obtain ⟨hl, hchg⟩ := motion_store_ok v pack.ncomps tmp 0 _ w hw
        have htl := mapM_length _ _ _ htmp
        simp only [List.length_range] at htl
        have hlt : st.last_qual < new_qual := lt_of_not_le hq
        refine ⟨le_of_lt hlt, hl, fun _ => hlt, ?_⟩
        intro idx hne
        obtain ⟨j, hj1, hj2, hj3⟩ := hchg idx hne
        refine ⟨j, hj1, ?_, hj3⟩
        rw [htl] at hj2
        have hpos : 0 < pack.ncomps.toNat := by omega
        omega

theorem motion_edges_rel (N : Numerics Rat) {mesh_dim metric_dim : Nat}
    (R : MotionRoutines mesh_dim metric_dim) (mesh : MotionMesh) (pack : LinearPack)
    (step_size max_length : Rat) (v v_dim : Int) :
    ∀ (k : Nat) (ve : Int) (st st1 : MotionState),
      motion_edges N R mesh pack step_size max_length v v_dim k ve st = .ok st1 →
      motion_rel v pack.ncomps st.last_qual st.new_sol_w st1.last_qual st1.new_sol_w := by
  intro k
  induction k with
  | zero =>
    intro ve st st1 h
    simp only [motion_edges, Except.ok.injEq] at h
    subst h
    exact motion_rel_refl _ _ _ _
  | succ k ih =>
    intro ve st st1 h
    rw [motion_edges] at h
    obtain ⟨st0, h0, h1⟩ := bind_ok _ _ _ h
    exact motion_rel_trans _ _ _ _ _ _ _ _
      (motion_edge_rel N R mesh pack step_size max_length v v_dim ve st st0 h0)
      (ih _ _ _ h1)

theorem motion_steps_rel (N : Numerics Rat) {mesh_dim metric_dim : Nat}
    (R : MotionRoutines mesh_dim metric_dim) (mesh : MotionMesh) (pack : LinearPack)
    (step_size max_length : Rat) (v v_dim : Int) :
    ∀ (k : Nat) (lq : Rat) (sol : List Rat) (r : Rat × List Rat),
      motion_steps N R mesh pack step_size max_length v v_dim k lq sol = .ok r →
      motion_rel v pack.ncomps lq sol r.1 r.2 := by
  intro k
  induction k with
  | zero =>
    intro lq sol r h
    simp only [motion_steps, Except.ok.injEq] at h
    subst h
    exact motion_rel_refl _ _ _ _
  | succ k ih =>
    intro lq sol r h
    rw [motion_steps] at h
    obtain ⟨a0, -, h⟩ := bind_ok _ _ _ h
    obtain ⟨a1, -, h⟩ := bind_ok _ _ _ h
    obtain ⟨st, hst, h⟩ := bind_ok _ _ _ h
    have hrel := motion_edges_rel N R mesh pack step_size max_length v v_dim _ _ _ _ hst
    split at h
    · simp only [Except.ok.injEq] at h
      subst h
      exact hrel
    · exact motion_rel_trans _ _ _ _ _ _ _ _ hrel (ih _ _ _ h)

theorem Read_get_ok {T : Type} (a : List T) (i : Nat) (x : T)
    (h : Read_get a (i : Int) = .ok x) : a[i]? = some x := by
  unfold Read_get at h
  simp only [Int.natCast_nonneg, if_true, Int.toNat_ofNat] at h
  cases hx : a[i]? with
  | none => rw [hx] at h; cases h
  | some y =>
    rw [hx] at h
    simp only [Except.ok.injEq] at h
    rw [h]

/-- What the kernel of a candidate does to the three arrays. -/
theorem motion_choices_kernel_ok (N : Numerics Rat) {mesh_dim metric_dim : Nat}
    (R : MotionRoutines mesh_dim metric_dim) (mesh : MotionMesh) (pack : LinearPack)
    (max_steps : Int) (step_size max_length : Rat) (cands2verts : List Int)
    (old_quals : List Rat) (cand : Nat) (s s1 : MotionArrays)
    (h : motion_choices_kernel N R mesh pack max_steps step_size max_length cands2verts
      old_quals cand s = .ok s1) :
    ∃ (v : Int) (old lq : Rat),
      cands2verts[cand]? = some v ∧ old_quals[cand]? = some old ∧
      cand < s.qualities_w.length ∧ cand < s.did_move_w.length ∧
      s1.qualities_w = s.qualities_w.set cand lq ∧
      s1.did_move_w = s.did_move_w.set cand (if lq > old then 1 else 0) ∧
      motion_rel v pack.ncomps old s.new_sol_w lq s1.new_sol_w ∧
      (max_steps = 0 → lq = old ∧ s1.new_sol_w = s.new_sol_w) := by
  unfold motion_choices_kernel at h
  obtain ⟨v, hv, h⟩ := bind_ok _ _ _ h
  obtain ⟨v_dim, -, h⟩ := bind_ok _ _ _ h
  obtain ⟨old, hold, h⟩ := bind_ok _ _ _ h
  obtain ⟨tmp, -, h⟩ := bind_ok _ _ _ h
  obtain ⟨r, hr, h⟩ := bind_ok _ _ _ h
  obtain ⟨q1, hq1, h⟩ := bind_ok _ _ _ h
  obtain ⟨d1, hd1, h⟩ := bind_ok _ _ _ h
  obtain ⟨-, hq2, hq3⟩ := Write_set_ok _ _ _ _ hq1
  obtain ⟨-, hd2, hd3⟩ := Write_set_ok _ _ _ _ hd1
  simp only [Int.toNat_ofNat] at hq2 hq3 hd2 hd3
  split at h
  · cases h
  · simp only [Except.ok.injEq] at h
    subst h
    refine ⟨v, old, r.1, Read_get_ok _ _ _ hv, Read_get_ok _ _ _ hold, hq2, hd2, hq3, ?_,
      motion_steps_rel N R mesh pack step_size max_length v v_dim _ _ _ _ hr, ?_⟩
    · rw [hd3]
      by_cases hgt : r.1 > old <;> simp [hgt]
    · intro h0
      rw [h0] at hr
      simp only [Int.toNat_zero, motion_steps, Except.ok.injEq] at hr
      rw [← hr]
      exact ⟨rfl, rfl⟩

/-- Partial correctness of a loop of kernels: an invariant kept by every kernel that
returns holds for the arrays the loop returns. -/
theorem parallel_for_from_ok {σ : Type} (f : Nat → σ → Except Fail σ) (Inv : Nat → σ → Prop)
    (step : ∀ j t t1, f j t = .ok t1 → Inv j t → Inv (j + 1) t1) :
    ∀ (k i : Nat) (s s1 : σ), parallel_for_from f k i s = .ok s1 → Inv i s → Inv (i + k) s1 := by
  intro k
  induction k with
  | zero =>
    intro i s s1 h hinv
    simp only [parallel_for_from, Except.ok.injEq] at h
    subst h
    exact hinv
  | succ k ih =>
    intro i s s1 h hinv
    rw [parallel_for_from] at h
    cases hf : f i s with
    | error e => rw [hf] at h; cases h
    | ok t =>
      rw [hf] at h
      have := ih (i + 1) t s1 h (step i s t hf hinv)
      have e : i + 1 + k = i + (k + 1) := by omega
      rw [e] at this
      exact this

theorem block_index_unique (u v nc i j : Int) (hi0 : 0 ≤ i) (hi : i < nc) (hj0 : 0 ≤ j)
    (hj : j < nc) (h : u * nc + i = v * nc + j) : u = v := by
  have hnc : 0 < nc := by omega
  rcases lt_trichotomy u v with hlt | heq | hgt
  · exfalso
    have h1 : (u + 1) * nc ≤ v * nc := mul_le_mul_of_nonneg_right (by omega) (le_of_lt hnc)
    have h2 : (u + 1) * nc = u * nc + nc := by ring
    omega
  · exact heq
  · exfalso
    have h1 : (v + 1) * nc ≤ u * nc := mul_le_mul_of_nonneg_right (by omega) (le_of_lt hnc)
    have h2 : (v + 1) * nc = v * nc + nc := by ring
    omega

theorem motion_choices_tmpl_sound (N : Numerics Rat) {mesh_dim metric_dim : Nat}
    (R : MotionRoutines mesh_dim metric_dim) (mesh : MotionMesh) (opts : AdaptOpts)
    (cands2verts : List Int) (mc : MotionChoices)
    (h : motion_choices_tmpl N R mesh opts cands2verts = .ok mc) :
    mc.sound mesh opts cands2verts := by
  unfold motion_choices_tmpl at h
  simp only at h
  split at h
  · cases h
  split at h
  · cases h
  split at h
  · cases h
  split at h
  · cases h
  generalize hpack : mesh.pack_linearized_fields opts.xfer_opts = pack at h
  generalize hold : cands2old_qual mesh cands2verts = old_quals at h
  have holdlen : old_quals.length = cands2verts.length := by
    rw [← hold]; simp [cands2old_qual]
  cases hp : parallel_for cands2verts.length
      (motion_choices_kernel N R mesh pack opts.max_motion_steps opts.motion_step_size
        opts.max_length_allowed cands2verts old_quals)
      { did_move_w := List.replicate cands2verts.length 0,
        qualities_w := List.replicate cands2verts.length 0, new_sol_w := pack.data } with
  | error e => rw [hp] at h; cases h
  | ok s =>
    rw [hp] at h
    simp only [Except.ok.injEq] at h
    subst h
    have hinv := parallel_for_from_ok
      (motion_choices_kernel N R mesh pack opts.max_motion_steps opts.motion_step_size
        opts.max_length_allowed cands2verts old_quals)
      (fun j (t : MotionArrays) =>
        t.did_move_w.length = cands2verts.length ∧
        t.qualities_w.length = cands2verts.length ∧
        (∀ cand, cand < j → ∃ old lq, old_quals[cand]? = some old ∧
          t.qualities_w[cand]? = some lq ∧ old ≤ lq ∧
          t.did_move_w[cand]? = some (if lq > old then 1 else 0)) ∧
        (∀ idx : Nat, t.new_sol_w[idx]? ≠ pack.data[idx]? →
          ∃ cand v, cand < j ∧ cands2verts[cand]? = some v ∧ t.did_move_w[cand]? = some 1 ∧
            ∃ jj : Int, 0 ≤ jj ∧ jj < pack.ncomps ∧ (idx : Int) = v * pack.ncomps + jj) ∧
        (opts.max_motion_steps = 0 → t.new_sol_w = pack.data ∧
          ∀ cand, cand < j → t.did_move_w[cand]? = some 0))
      (fun j t t1 hk hinv => by
        obtain ⟨i1, i2, i3, i4, i5⟩ := hinv
        obtain ⟨v, old, lq, k1, k2, k3, k4, k5, k6, k7, k8⟩ :=
          motion_choices_kernel_ok N R mesh pack _ _ _ cands2verts old_quals j t t1 hk
        obtain ⟨r1, r2, r3, r4⟩ := k7
        refine ⟨by rw [k6, List.length_set, i1], by rw [k5, List.length_set, i2], ?_, ?_, ?_⟩
        · intro cand hc
          by_cases hcj : cand = j
          · subst hcj
            refine ⟨old, lq, k2, ?_, r1, ?_⟩
            · rw [k5, List.getElem?_set_self k3]
            · rw [k6, List.getElem?_set_self k4]
          · obtain ⟨o, l, a1, a2, a3, a4⟩ := i3 cand (by omega)
            refine ⟨o, l, a1, ?_, a3, ?_⟩
            · rw [k5, List.getElem?_set_ne (Ne.symm hcj)]; exact a2
            · rw [k6, List.getElem?_set_ne (Ne.symm hcj)]; exact a4
        · intro idx hne
          by_cases hsame : t1.new_sol_w[idx]? = t.new_sol_w[idx]?
          · rw [hsame] at hne
            obtain ⟨cand, w, c1, c2, c3, c4⟩ := i4 idx hne
            refine ⟨cand, w, by omega, c2, ?_, c4⟩
            rw [k6, List.getElem?_set_ne (by omega)]
            exact c3
          · have hneq : t1.new_sol_w ≠ t.new_sol_w := by
              intro he
              rw [he] at hsame
              exact hsame rfl
            have hlt := r3 hneq
            refine ⟨j, v, by omega, k1, ?_, r4 idx hsame⟩
            rw [k6, List.getElem?_set_self k4, if_pos hlt]
        · intro h0
          obtain ⟨z1, z2⟩ := k8 h0
          obtain ⟨y1, y2⟩ := i5 h0
          refine ⟨by rw [z2, y1], ?_⟩
          intro cand hc
          by_cases hcj : cand = j
          · subst hcj
            rw [k6, List.getElem?_set_self k4, z1]
            simp
          · rw [k6, List.getElem?_set_ne (Ne.symm hcj)]
            exact y2 cand (by omega))
      cands2verts.length 0 _ s hp
      ⟨by simp, by simp, fun _ hc => absurd hc (Nat.not_lt_zero _),
        fun _ hne => absurd rfl hne, fun _ => ⟨rfl, fun _ hc => absurd hc (Nat.not_lt_zero _)⟩⟩
    simp only [Nat.zero_add] at hinv
    obtain ⟨i1, i2, i3, i4, i5⟩ := hinv
    subst hpack hold
    refine ⟨i1, i2, ?_, ?_, ?_⟩
    · intro cand hc
      obtain ⟨o, l, a1, a2, a3, a4⟩ := i3 cand hc
      simp only [List.getD_eq_getElem?_getD, a1, a2, a4, Option.getD_some]
      refine ⟨a3, ?_⟩
      by_cases hgt : l > o <;> simp [hgt]
    · intro u i hi0 hi hpos hne
      obtain ⟨cand, v, -, c2, c3, jj, j0, j1, j2⟩ := i4 _ hne
      rw [Int.toNat_of_nonneg hpos] at j2
      have huv := block_index_unique u v _ i jj hi0 hi j0 j1 j2
      subst huv
      exact ⟨cand, c2, c3⟩
    · intro h0
      obtain ⟨y1, y2⟩ := i5 h0
      refine ⟨y1, fun cand hc => ?_⟩
      simp [List.getD_eq_getElem?_getD, y2 cand hc]

/-- C29: whenever `get_motion_choices` returns, the returned choices are sound: for
every candidate the reported quality is at least the old minimum quality of the
elements adjacent to its vertex, `did_move` is set exactly when the reported quality is
strictly greater than that old minimum, an entry of the packed solution differs from
the input pack data only inside the block of a vertex named by a candidate whose
`did_move` is set, and with `max_motion_steps = 0` the solution is the input and no
candidate moves. -/
theorem get_motion_choices_sound (N : Numerics Rat)
    (R : (mesh_dim metric_dim : Nat) → MotionRoutines mesh_dim metric_dim)
    (mesh : MotionMesh) (opts : AdaptOpts) (cands2verts : List Int) (mc : MotionChoices)
    (h : get_motion_choices N R mesh opts cands2verts = .ok mc) :
    mc.sound mesh opts cands2verts := by
  unfold get_motion_choices at h
  simp only at h
  split_ifs at h
  · exact motion_choices_tmpl_sound N (R 3 3) mesh opts cands2verts mc h
  · exact motion_choices_tmpl_sound N (R 2 2) mesh opts cands2verts mc h
  · exact motion_choices_tmpl_sound N (R 3 1) mesh opts cands2verts mc h
  · exact motion_choices_tmpl_sound N (R 2 1) mesh opts cands2verts mc h

theorem toy_motion_overshoots (nx : Fin 2 → Rat) (nm : Matrix (Fin 1) (Fin 1) Rat) :
    motion_overshoots (toy_motion_routines 2 1) toy_motion_mesh Real_max nx nm 2 0 =
      .ok false := by
  have h1 : ¬ ((1 : Rat) > Real_max) := by norm_num [Real_max]
  simp [motion_overshoots, toy_motion_mesh, toy_motion_routines, Read_get, get_symm, get_vector,
    bind, Except.bind, h1, symm_ncomps]

theorem toy_motion_new_qual (last_qual : Rat) (nx : Fin 2 → Rat)
    (nm : Matrix (Fin 1) (Fin 1) Rat) :
    motion_new_qual (toy_motion_routines 2 1) toy_motion_mesh last_qual nx nm 1 0 1 =
      .ok (1 / 2) := by
  have hg : gather_verts 3 [0, 1, 2] 0 = .ok [0, 1, 2] := rfl
  obtain ⟨xs, hx, hxl⟩ : ∃ xs, gather_vectors 2 ([0, 0, 1, 0, 0, 1] : List Rat) [0, 1, 2] = .ok xs ∧
      xs.length = 3 := ⟨_, rfl, rfl⟩
  obtain ⟨ms, hm, hml⟩ : ∃ ms, gather_symms 1 ([1, 1, 1] : List Rat) [0, 1, 2] = .ok ms ∧
      ms.length = 3 := ⟨_, rfl, rfl⟩
  have hw1 : Write_set xs 0 nx = .ok (xs.set 0 nx) :=
    Write_set_of_lt _ _ _ (le_refl _) (by simp [hxl])
  have hw2 : Write_set ms 0 nm = .ok (ms.set 0 nm) :=
    Write_set_of_lt _ _ _ (le_refl _) (by simp [hml])
  simp only [motion_new_qual, bind, Except.bind]
  simp [toy_motion_mesh, toy_motion_routines, Read_get, hg, hx, hm, hw1, hw2]
  norm_num

/-- One round of the edge loop, evaluated from the results of its reads and inner loops. -/
theorem motion_edge_eval (N : Numerics Rat) {mesh_dim metric_dim : Nat}
    (R : MotionRoutines mesh_dim metric_dim) (mesh : MotionMesh) (pack : LinearPack)
    (step_size max_length : Rat) (v v_dim ve : Int) (st : MotionState)
    (e ve_code ov a0 a1 k0 k1 : Int) (evv2v : List Int) (tmp : List Rat) (new_qual : Rat)
    (h1 : Read_get mesh.v2e.ab2b ve = .ok e) (h2 : Read_get mesh.edges2dim e = .ok v_dim)
    (h4 : Read_get mesh.v2e.codes ve = .ok ve_code)
    (h5 : gather_verts 2 mesh.ev2v e = .ok evv2v)
    (h6 : Read_get evv2v (1 - R.code_which_down ve_code) = .ok ov)
    (h7 : (List.range pack.ncomps.toNat).mapM (fun (i : Nat) => do
      let a ← Read_get st.new_sol_w (v * pack.ncomps + (i : Int))
      let b ← Read_get pack.data (ov * pack.ncomps + (i : Int))
      pure ((1 - step_size) * a + step_size * b)) = .ok tmp)
    (h8 : Read_get mesh.v2e.a2ab v = .ok a0) (h9 : Read_get mesh.v2e.a2ab (v + 1) = .ok a1)
    (h10 : ∀ nx nm, motion_overshoots R mesh max_length nx nm (a1 - a0).toNat a0 = .ok false)
    (h11 : Read_get mesh.v2k.a2ab v = .ok k0) (h12 : Read_get mesh.v2k.a2ab (v + 1) = .ok k1)
    (h13 : ∀ nx nm, motion_new_qual R mesh st.last_qual nx nm (k1 - k0).toNat k0 1 =
      .ok new_qual) :
    motion_edge N R mesh pack step_size max_length v v_dim ve st =
      if new_qual ≤ st.last_qual then .ok st
      else
        match motion_store v pack.ncomps tmp 0 st.new_sol_w with
        | .error err => .error err
        | .ok w => .ok { found_step := true, last_qual := new_qual, new_sol_w := w } := by
  unfold motion_edge
  simp only [bind, Except.bind] at h7
  simp only [bind, Except.bind, h1, h2, h4, h5, h6, h7, h8, h9, h10, h11, h12, h13, ne_eq,
    not_true_eq_false, if_false, Bool.false_eq_true]
  split_ifs
  · rfl
  · cases motion_store v pack.ncomps tmp 0 st.new_sol_w <;> rfl

theorem toy_motion_edge_0 :
    motion_edge toy_numerics (toy_motion_routines 2 1) toy_motion_mesh
      (toy_motion_mesh.pack_linearized_fields toy_motion_opts.xfer_opts) (1 / 2) Real_max 0 2 0
      { found_step := false, last_qual := 1 / 4, new_sol_w := [0, 0, 0, 1, 0, 0, 0, 1, 0] } =
      .ok { found_step := true, last_qual := 1 / 2,
            new_sol_w := [1 / 2, 0, 0, 1, 0, 0, 0, 1, 0] } := by
  rw [motion_edge_eval toy_numerics (toy_motion_routines 2 1) toy_motion_mesh
    (toy_motion_mesh.pack_linearized_fields toy_motion_opts.xfer_opts) (1 / 2)
    Real_max 0 2 0
    { found_step := false, last_qual := 1 / 4, new_sol_w := [0, 0, 0, 1, 0, 0, 0, 1, 0] }
    0 0 1 0 2 0 1 [0, 1]
    [(1 - 1 / 2) * 0 + 1 / 2 * 1, (1 - 1 / 2) * 0 + 1 / 2 * 0, (1 - 1 / 2) * 0 + 1 / 2 * 0]
    (1 / 2) rfl rfl rfl rfl rfl rfl rfl rfl toy_motion_overshoots rfl rfl
    (toy_motion_new_qual _)]
  have hs : motion_store 0 (toy_motion_mesh.pack_linearized_fields
        toy_motion_opts.xfer_opts).ncomps
      [(1 - 1 / 2) * 0 + 1 / 2 * 1, (1 - 1 / 2) * 0 + 1 / 2 * 0, (1 - 1 / 2) * 0 + 1 / 2 * 0] 0
      [0, 0, 0, 1, 0, 0, 0, 1, 0] =
      .ok [(1 - 1 / 2) * 0 + 1 / 2 * 1, (1 - 1 / 2) * 0 + 1 / 2 * 0,
        (1 - 1 / 2) * 0 + 1 / 2 * 0, 1, 0, 0, 0, 1, 0] := rfl
  rw [hs]
  norm_num

theorem toy_motion_edge_1 :
    motion_edge toy_numerics (toy_motion_routines 2 1) toy_motion_mesh
      (toy_motion_mesh.pack_linearized_fields toy_motion_opts.xfer_opts) (1 / 2) Real_max 0 2 1
      { found_step := true, last_qual := 1 / 2, new_sol_w := [1 / 2, 0, 0, 1, 0, 0, 0, 1, 0] } =
      .ok { found_step := true, last_qual := 1 / 2,
            new_sol_w := [1 / 2, 0, 0, 1, 0, 0, 0, 1, 0] } := by
  rw [motion_edge_eval toy_numerics (toy_motion_routines 2 1) toy_motion_mesh
    (toy_motion_mesh.pack_linearized_fields toy_motion_opts.xfer_opts) (1 / 2)
    Real_max 0 2 1
    { found_step := true, last_qual := 1 / 2, new_sol_w := [1 / 2, 0, 0, 1, 0, 0, 0, 1, 0] }
    2 1 2 0 2 0 1 [2, 0]
    [(1 - 1 / 2) * (1 / 2) + 1 / 2 * 0, (1 - 1 / 2) * 0 + 1 / 2 * 1, (1 - 1 / 2) * 0 + 1 / 2 * 0]
    (1 / 2) rfl rfl rfl rfl rfl rfl rfl rfl toy_motion_overshoots rfl rfl
    (toy_motion_new_qual _)]
  simp

theorem toy_motion_steps :
    motion_steps toy_numerics (toy_motion_routines 2 1) toy_motion_mesh
      (toy_motion_mesh.pack_linearized_fields toy_motion_opts.xfer_opts) (1 / 2) Real_max 0 2 1
      (1 / 4) [0, 0, 0, 1, 0, 0, 0, 1, 0] = .ok (1 / 2, [1 / 2, 0, 0, 1, 0, 0, 0, 1, 0]) := by
  have h0 : Read_get toy_motion_mesh.v2e.a2ab 0 = .ok 0 := rfl
  have h1 : Read_get toy_motion_mesh.v2e.a2ab (0 + 1) = .ok 2 := rfl
  have h2 : ((2 : Int) - 0).toNat = 2 := rfl
  have he0 := toy_motion_edge_0
  have he1 := toy_motion_edge_1
  simp only [one_div] at he0 he1
  simp only [motion_steps, bind, Except.bind, h0, h1, h2, motion_edges]
  simp [he0, he1]

theorem toy_motion_kernel :
    motion_choices_kernel toy_numerics (toy_motion_routines 2 1) toy_motion_mesh
      (toy_motion_mesh.pack_linearized_fields toy_motion_opts.xfer_opts) 1 (1 / 2) Real_max [0]
      [1 / 4] 0
      { did_move_w := [0], qualities_w := [0], new_sol_w := [0, 0, 0, 1, 0, 0, 0, 1, 0] } =
      .ok { did_move_w := [1], qualities_w := [1 / 2],
            new_sol_w := [1 / 2, 0, 0, 1, 0, 0, 0, 1, 0] } := by
  have h0 : Read_get ([0] : List Int) ((0 : Nat) : Int) = .ok 0 := rfl
  have h1 : Read_get toy_motion_mesh.verts2dim 0 = .ok 2 := rfl
  have h2 : Read_get ([1 / 4] : List Rat) ((0 : Nat) : Int) = .ok (1 / 4) := rfl
  obtain ⟨t, h3⟩ : ∃ t, (List.range (toy_motion_mesh.pack_linearized_fields
      toy_motion_opts.xfer_opts).ncomps.toNat).mapM
      (fun (i : Nat) => Read_get (toy_motion_mesh.pack_linearized_fields
        toy_motion_opts.xfer_opts).data
        (0 * (toy_motion_mesh.pack_linearized_fields toy_motion_opts.xfer_opts).ncomps +
          (i : Int))) = .ok t := ⟨_, rfl⟩
  have h4 : (1 : Int).toNat = 1 := rfl
  have h5 := toy_motion_steps
  have h6 : Write_set ([0] : List Rat) ((0 : Nat) : Int) (1 / 2) = .ok [1 / 2] := rfl
  have h7 : Write_set ([0] : List Int) ((0 : Nat) : Int) 1 = .ok [1] := rfl
  have h8 : (1 / 2 : Rat) > 1 / 4 := by norm_num
  have h9 : (1 / 2 : Rat) ≥ 0 := by norm_num
  unfold motion_choices_kernel
  simp only [bind, Except.bind, h0, h1, h2, h3, h4, h5, h6, h7, h8, h9, decide_True, if_true,
    not_true_eq_false, and_false, if_false]

theorem toy_motion_run :
    get_motion_choices toy_numerics toy_motion_routines toy_motion_mesh toy_motion_opts [0] =
      .ok { did_move := [1], qualities := [1 / 2],
            new_sol := [1 / 2, 0, 0, 1, 0, 0, 0, 1, 0] } := by
  have hold : cands2old_qual toy_motion_mesh [0] = [1 / 4] := by
    have e : cands2old_qual toy_motion_mesh [0] = [min Real_max (1 / 4)] := rfl
    rw [e]
    norm_num [Real_max]
  have hd : get_motion_choices toy_numerics toy_motion_routines toy_motion_mesh toy_motion_opts
      [0] = motion_choices_tmpl toy_numerics (toy_motion_routines 2 1) toy_motion_mesh
        toy_motion_opts [0] := rfl
  have hs : toy_motion_opts.motion_step_size = 1 / 2 := rfl
  have hm : toy_motion_opts.max_motion_steps = 1 := rfl
  have hl : toy_motion_opts.max_length_allowed = Real_max := rfl
  have hn : (toy_motion_mesh.pack_linearized_fields toy_motion_opts.xfer_opts).ncomps = 3 := rfl
  have hdat : (toy_motion_mesh.pack_linearized_fields toy_motion_opts.xfer_opts).data =
      [0, 0, 0, 1, 0, 0, 0, 1, 0] := rfl
  have hk := toy_motion_kernel
  rw [hd]
  unfold motion_choices_tmpl
  simp only [hold, hs, hm, hl]
  rw [if_neg (by rw [hn]; decide), if_neg (by decide), if_neg (by norm_num),
    if_neg (by norm_num)]
  simp only [List.length_singleton, parallel_for, parallel_for_from, List.replicate, hdat]
  rw [hk]

theorem get_motion_choices_sound_witness :
    ({ did_move := [1], qualities := [1 / 2],
       new_sol := [1 / 2, 0, 0, 1, 0, 0, 0, 1, 0] } : MotionChoices).sound
      toy_motion_mesh toy_motion_opts [0] :=
  get_motion_choices_sound toy_numerics toy_motion_routines toy_motion_mesh toy_motion_opts [0]
    _ toy_motion_run

end Omega_h
